import Mathlib

/-!
# MOSAIK archive readers (HelixGrind/OldSpan)

A shallow embedding of `AlignmentReader.cpp` / `AlignmentReader.h` (the aligned
read archive reader, "AA") and theorems about it.

Conventions of the embedding

* a byte is a `Fin 256`; memory buffers, files and `std::string`s are `List Byte`;
* unsigned machine integers are `Nat`s, reduced explicitly where the C++ type
  truncates (`unsigned short` is `% 65536`, `unsigned int` is `% 4294967296`);
* `exit(1)` and an access outside an allocated buffer are the two ways a call
  can fail to return; they are the two constructors of `Fault`;
* a `FILE*` is the file content, the position and the end-of-file indicator.
-/

namespace Mosaik

/-- One octet. -/
abbrev Byte := Fin 256

/-- The ways a call does not return normally. -/
inductive Fault where
  /-- The code printed a message and called `exit(1)`. -/
  | exit1
  /-- The code accessed memory outside the object it indexes (undefined behaviour). -/
  | undefined
  deriving DecidableEq, Repr

/-- The result of a call that may not return. -/
abbrev Res (α : Type) := Except Fault α

deriving instance DecidableEq for Except

/-! ## Fixed-width little-endian integers -/

def SIZEOF_CHAR : Nat := 1
def SIZEOF_SHORT : Nat := 2
def SIZEOF_INT : Nat := 4
def SIZEOF_UINT64 : Nat := 8

def ALIGNMENT_NO_MATE_INFO : Nat := 0xffffffff

/-- The value of a little-endian byte string (the host is little-endian, so
this is what `memcpy` into an unsigned integer of that width yields). -/
def leNat : List Byte → Nat
  | [] => 0
  | b :: bs => b.val + 256 * leNat bs

/-- The bytes `buf[off], ..., buf[off + n - 1]` (fewer when the buffer ends). -/
def slice (buf : List Byte) (off n : Nat) : List Byte :=
  (buf.drop off).take n

/-- The source of a `memcpy(dst, mBufferPtr, n)` or of `*mBufferPtr`: `n` bytes
at offset `ptr` of the buffer. Reading outside the buffer is undefined. -/
def peek (buf : List Byte) (ptr n : Nat) : Res (List Byte) :=
  if ptr + n ≤ buf.length then .ok (slice buf ptr n) else .error .undefined

/-! ## Records (AlignmentReader.h) -/

/-- The `struct Alignment`. `ReferenceName` is the `char*` into the reference
name table: `none` is `NULL`, `some name` points at that table entry. -/
structure Alignment where
  MateReferenceBegin : Nat
  MateReferenceEnd : Nat
  MateReferenceIndex : Nat
  ReferenceBegin : Nat
  ReferenceEnd : Nat
  ReferenceIndex : Nat
  QueryBegin : Nat
  QueryEnd : Nat
  AlternateQuality : Nat
  Quality : Nat
  IsReverseComplement : Bool
  IsMateReverseComplement : Bool
  ReferenceName : Option (List Byte)
  Reference : List Byte
  Query : List Byte
  BaseQualities : List Byte
  deriving DecidableEq, Repr, Inhabited

/-- The constructor `Alignment(void)`: it initialises `MateReferenceIndex`,
`ReferenceIndex`, `Quality`, the two flags and `ReferenceName`; the strings are
empty; the other scalar members are left indeterminate and are taken from
`indet`. -/
def Alignment.ctor (indet : Alignment) : Alignment :=
  { MateReferenceBegin := indet.MateReferenceBegin
    MateReferenceEnd := indet.MateReferenceEnd
    MateReferenceIndex := ALIGNMENT_NO_MATE_INFO
    ReferenceBegin := indet.ReferenceBegin
    ReferenceEnd := indet.ReferenceEnd
    ReferenceIndex := 0
    QueryBegin := indet.QueryBegin
    QueryEnd := indet.QueryEnd
    AlternateQuality := indet.AlternateQuality
    Quality := 0
    IsReverseComplement := false
    IsMateReverseComplement := false
    ReferenceName := none
    Reference := []
    Query := []
    BaseQualities := [] }

/-- The `struct AlignedRead`. -/
structure AlignedRead where
  ReadGroupCode : Nat
  Name : List Byte
  Mate1Alignments : List Alignment
  Mate2Alignments : List Alignment
  IsLongRead : Bool
  deriving DecidableEq, Repr

/-- The constructor `AlignedRead()`. -/
def AlignedRead.ctor : AlignedRead :=
  { ReadGroupCode := 0, Name := [], Mate1Alignments := [], Mate2Alignments := [],
    IsLongRead := false }

/-! ## Per-alignment decode -/

/-- The body of `CAlignmentReader::ReadAlignment`, on the partition buffer `buf`
(of `mBufferLen` bytes), the reference name table `lut` (`mRefSeqLUT`, of
`mNumRefSeqs` entries) and the cursor `ptr` (`mBufferPtr - mBuffer`). It
returns the updated alignment and the advanced cursor.

`ReferenceIndex` is an `unsigned short` that the code fills with a 4-byte
`memcpy`: the low half lands in `ReferenceIndex` and the high half in the
member that follows it in the struct, `QueryBegin`, which is assigned again
further down. -/
def ReadAlignment (buf : List Byte) (lut : List (List Byte)) (ptr : Nat) (al : Alignment)
    (isLongRead hasMateInfo : Bool) : Res (Alignment × Nat) := do
  -- get the reference sequence start position
  let b ← peek buf ptr SIZEOF_INT
  let al := { al with ReferenceBegin := leNat b }
  let ptr := ptr + SIZEOF_INT
  -- get the reference sequence end position
  let b ← peek buf ptr SIZEOF_INT
  let al := { al with ReferenceEnd := leNat b }
  let ptr := ptr + SIZEOF_INT
  -- get the reference sequence index
  let b ← peek buf ptr SIZEOF_INT
  let al := { al with ReferenceIndex := leNat b % 65536, QueryBegin := leNat b / 65536 }
  let ptr := ptr + SIZEOF_INT
  let name ← match lut.get? al.ReferenceIndex with
    | some n => Except.ok n
    | none => Except.error Fault.undefined
  let al := { al with ReferenceName := some name }
  -- get the alignment quality
  let b ← peek buf ptr 1
  let al := { al with Quality := leNat b }
  let ptr := ptr + 1
  -- the alternate alignment quality
  let b ← peek buf ptr 1
  let al := { al with AlternateQuality := leNat b }
  let ptr := ptr + 1
  -- get the read orientation
  let b ← peek buf ptr 1
  let readOrientation := leNat b
  let ptr := ptr + 1
  let al := { al with
    IsReverseComplement := if (readOrientation &&& 1) = 1 then true else false
    IsMateReverseComplement := if (readOrientation &&& 2) = 1 then true else false }
  -- get the mate reference info
  let (al, ptr) ←
    if hasMateInfo then do
      let b1 ← peek buf ptr SIZEOF_INT
      let b2 ← peek buf (ptr + SIZEOF_INT) SIZEOF_INT
      let b3 ← peek buf (ptr + SIZEOF_INT + SIZEOF_INT) SIZEOF_INT
      pure ({ al with MateReferenceBegin := leNat b1, MateReferenceEnd := leNat b2,
                      MateReferenceIndex := leNat b3 },
            ptr + SIZEOF_INT + SIZEOF_INT + SIZEOF_INT)
    else pure (al, ptr)
  let (pairwiseLength, al, ptr) ←
    if isLongRead then do
      let b1 ← peek buf ptr SIZEOF_SHORT
      let b2 ← peek buf (ptr + SIZEOF_SHORT) SIZEOF_SHORT
      let b3 ← peek buf (ptr + SIZEOF_SHORT + SIZEOF_SHORT) SIZEOF_SHORT
      pure (leNat b1, { al with QueryBegin := leNat b2, QueryEnd := leNat b3 },
            ptr + SIZEOF_SHORT + SIZEOF_SHORT + SIZEOF_SHORT)
    else do
      let b1 ← peek buf ptr 1
      let b2 ← peek buf (ptr + 1) 1
      let b3 ← peek buf (ptr + 1 + 1) 1
      pure (leNat b1, { al with QueryBegin := leNat b2, QueryEnd := leNat b3 }, ptr + 1 + 1 + 1)
  -- get the pairwise reference bases
  let b ← peek buf ptr pairwiseLength
  let al := { al with Reference := b }
  let ptr := ptr + pairwiseLength
  -- get the pairwise query bases
  let b ← peek buf ptr pairwiseLength
  let al := { al with Query := b }
  let ptr := ptr + pairwiseLength
  -- get the pairwise query base qualities
  let bqLength := (al.QueryEnd + 65536 - al.QueryBegin + 1) % 65536
  let b ← peek buf ptr bqLength
  let al := { al with BaseQualities := b }
  let ptr := ptr + bqLength
  pure (al, ptr)

/-! ## Layout of an alignment record

Offsets, relative to the start `ptr` of an alignment record, of the fields
that follow the fixed 15-byte head. -/

/-- Number of bytes of the optional mate block. -/
def mateBytes (hasMateInfo : Bool) : Nat := if hasMateInfo then 12 else 0

/-- Width of the pairwise length and of each query bound. -/
def queryWidth (isLongRead : Bool) : Nat := if isLongRead then 2 else 1

/-- The encoded pairwise length of the record at `ptr`. -/
def encPairwiseLength (buf : List Byte) (ptr : Nat) (isLongRead hasMateInfo : Bool) : Nat :=
  leNat (slice buf (ptr + 15 + mateBytes hasMateInfo) (queryWidth isLongRead))

/-- The encoded query begin of the record at `ptr`. -/
def encQueryBegin (buf : List Byte) (ptr : Nat) (isLongRead hasMateInfo : Bool) : Nat :=
  leNat (slice buf (ptr + 15 + mateBytes hasMateInfo + queryWidth isLongRead)
    (queryWidth isLongRead))

/-- The encoded query end of the record at `ptr`. -/
def encQueryEnd (buf : List Byte) (ptr : Nat) (isLongRead hasMateInfo : Bool) : Nat :=
  leNat (slice buf (ptr + 15 + mateBytes hasMateInfo + queryWidth isLongRead
    + queryWidth isLongRead) (queryWidth isLongRead))

/-- The number of base quality bytes the decoder takes for the record at `ptr`:
the `unsigned short bqLength` of `ReadAlignment`. -/
def bqLengthAt (buf : List Byte) (ptr : Nat) (isLongRead hasMateInfo : Bool) : Nat :=
  (encQueryEnd buf ptr isLongRead hasMateInfo + 65536
    - encQueryBegin buf ptr isLongRead hasMateInfo + 1) % 65536

/-- Offset of the pairwise reference string of the record at `ptr`. -/
def pairwiseOffset (ptr : Nat) (isLongRead hasMateInfo : Bool) : Nat :=
  ptr + 15 + mateBytes hasMateInfo + queryWidth isLongRead + queryWidth isLongRead
    + queryWidth isLongRead

/-- The number of bytes the decoder consumes for the record at `ptr`. -/
def alignmentBytes (buf : List Byte) (ptr : Nat) (isLongRead hasMateInfo : Bool) : Nat :=
  15 + mateBytes hasMateInfo + queryWidth isLongRead + queryWidth isLongRead
    + queryWidth isLongRead
    + encPairwiseLength buf ptr isLongRead hasMateInfo
    + encPairwiseLength buf ptr isLongRead hasMateInfo
    + bqLengthAt buf ptr isLongRead hasMateInfo

/-- The alignment that `ReadAlignment` produces from the record at `ptr`, field
by field as the code assigns them. -/
def decodedAlignment (buf : List Byte) (ptr : Nat) (al : Alignment) (name : List Byte)
    (isLongRead hasMateInfo : Bool) : Alignment :=
  { MateReferenceBegin :=
      if hasMateInfo then leNat (slice buf (ptr + 15) 4) else al.MateReferenceBegin
    MateReferenceEnd :=
      if hasMateInfo then leNat (slice buf (ptr + 19) 4) else al.MateReferenceEnd
    MateReferenceIndex :=
      if hasMateInfo then leNat (slice buf (ptr + 23) 4) else al.MateReferenceIndex
    ReferenceBegin := leNat (slice buf ptr 4)
    ReferenceEnd := leNat (slice buf (ptr + 4) 4)
    ReferenceIndex := leNat (slice buf (ptr + 8) 4) % 65536
    QueryBegin := encQueryBegin buf ptr isLongRead hasMateInfo
    QueryEnd := encQueryEnd buf ptr isLongRead hasMateInfo
    AlternateQuality := leNat (slice buf (ptr + 13) 1)
    Quality := leNat (slice buf (ptr + 12) 1)
    IsReverseComplement := if leNat (slice buf (ptr + 14) 1) &&& 1 = 1 then true else false
    IsMateReverseComplement := if leNat (slice buf (ptr + 14) 1) &&& 2 = 1 then true else false
    ReferenceName := some name
    Reference := slice buf (pairwiseOffset ptr isLongRead hasMateInfo)
      (encPairwiseLength buf ptr isLongRead hasMateInfo)
    Query := slice buf (pairwiseOffset ptr isLongRead hasMateInfo
      + encPairwiseLength buf ptr isLongRead hasMateInfo)
      (encPairwiseLength buf ptr isLongRead hasMateInfo)
    BaseQualities := slice buf (pairwiseOffset ptr isLongRead hasMateInfo
      + encPairwiseLength buf ptr isLongRead hasMateInfo
      + encPairwiseLength buf ptr isLongRead hasMateInfo)
      (bqLengthAt buf ptr isLongRead hasMateInfo) }

/-! ## Sample data -/

/-- A short-read alignment record without mate block: reference 10..13 on
reference 0, qualities 40 and 20, reverse strand, pairwise length 2, query
0..1, then two reference bytes, two query bytes and two base qualities. -/
def sampleAlignmentBytes : List Byte :=
  [10, 0, 0, 0, 13, 0, 0, 0, 0, 0, 0, 0, 40, 20, 1, 2, 0, 1, 65, 67, 65, 71, 30, 31]

/-- A reference name table with one entry. -/
def sampleLUT : List (List Byte) := [[99, 104, 114, 49]]

/-! ## Streams, allocation and the external decompressor -/

/-- The little-endian bytes of `n` in an object of `w` bytes. -/
def leBytes : Nat → Nat → List Byte
  | 0, _ => []
  | w + 1, n => Fin.ofNat (n % 256) :: leBytes w (n / 256)

/-- A `FILE` opened for reading: content, position, end-of-file indicator. -/
structure FILE where
  data : List Byte
  pos : Nat
  eof : Bool
  deriving DecidableEq, Repr

/-- The `FILE*` member: `NULL`, an open stream, or a pointer to a stream that
has been closed. -/
inductive StreamPtr where
  | null
  | live (f : FILE)
  | dangling
  deriving DecidableEq, Repr

/-- The bytes transferred by `fread` for a request of `n` bytes, and the
stream afterwards: the position advances by the bytes transferred and the
end-of-file indicator is set when fewer than `n` were available. -/
def fread (f : FILE) (n : Nat) : List Byte × FILE :=
  let bytes := slice f.data f.pos n
  (bytes, { f with pos := f.pos + bytes.length, eof := f.eof || decide (bytes.length < n) })

/-- The result of `fread(&x, w, 1, f)` on an integer object `x` of `w` bytes
holding `old`: the bytes transferred overwrite the low bytes of `x`. -/
def freadInt (old w : Nat) (f : FILE) : Nat × FILE :=
  let r := fread f w
  (leNat (r.1 ++ (leBytes w old).drop r.1.length), r.2)

/-- The result of `(unsigned char)fgetc(f)`: the next byte, or `(unsigned
char)EOF = 255` at the end of the file. -/
def fgetc (f : FILE) : Nat × FILE :=
  match f.data.get? f.pos with
  | some b => (b.val, { f with pos := f.pos + 1 })
  | none => (255, { f with eof := true })

/-- The call `fseek64(f, off, SEEK_SET)` where `off` is the 64-bit pattern of
an `off_type`: a negative offset is refused and leaves the stream as it is;
otherwise the position is set and the end-of-file indicator cleared. -/
def fseek64_SET (f : FILE) (off : Nat) : FILE :=
  if off < 2 ^ 63 then { f with pos := off, eof := false } else f

/-- The call `fseek64(f, delta, SEEK_CUR)` for a non-negative `delta`. -/
def fseek64_CUR (f : FILE) (delta : Nat) : FILE :=
  { f with pos := f.pos + delta, eof := false }

/-- The call `ftell64(f)`. -/
def ftell64 (f : FILE) : Nat := f.pos

/-- What the reader takes from outside: the FastLZ decompressor (the bytes it
writes for an input and an output capacity; its return value is their number,
0 on failure, and it never writes more than the capacity), the content of
freshly allocated memory, and the indeterminate members of a
default-constructed `Alignment`. -/
structure Env where
  fastlz_decompress : List Byte → Nat → List Byte
  fastlz_bound : ∀ input maxout, (fastlz_decompress input maxout).length ≤ maxout
  junk : Nat → Byte
  indet : Alignment

/-- The content of `new unsigned char[n]`. -/
def Env.alloc (env : Env) (n : Nat) : List Byte :=
  (List.range n).map env.junk

/-- The buffer after `bytes` have been stored at its start. -/
def store (buf bytes : List Byte) : List Byte :=
  bytes ++ buf.drop bytes.length

/-- The function `CAlignmentReader::CheckBufferSize` on a buffer and its
recorded length `bufferLen`: when the request exceeds the recorded length the
length becomes `requestedBytes + 10` in `unsigned int` arithmetic and the
buffer is replaced by a fresh one of that length. -/
def CheckBufferSize (env : Env) (pBuffer : List Byte) (bufferLen requestedBytes : Nat) :
    List Byte × Nat :=
  if requestedBytes > bufferLen then
    let bufferLen := (requestedBytes + 10) % 4294967296
    (env.alloc bufferLen, bufferLen)
  else (pBuffer, bufferLen)

/-- The effect of `v.resize(n)` on a `std::vector`: the first `n` elements are
kept and new elements are copies of `dflt`. -/
def resizeVec {α : Type} (v : List α) (n : Nat) (dflt : α) : List α :=
  v.take n ++ List.replicate (n - v.length) dflt

/-- The effect of `s.resize(n)` on a `std::string`. -/
def resizeStr (s : List Byte) (n : Nat) : List Byte :=
  resizeVec s n 0

/-! ## The reader (AlignmentReader.h, AlignmentReader.cpp) -/

def ST_UNKNOWN : Nat := 0
def AS_UNKNOWN : Nat := 0

/-- The `struct ReferenceSequence`. -/
structure ReferenceSequence where
  BasesOffset : Nat
  NumAligned : Nat
  Begin : Nat
  End : Nat
  NumBases : Nat
  Name : List Byte
  Bases : List Byte
  GenomeAssemblyID : List Byte
  Species : List Byte
  MD5 : List Byte
  URI : List Byte
  deriving DecidableEq, Repr

/-- The constructor `ReferenceSequence()`. -/
def ReferenceSequence.ctor : ReferenceSequence :=
  { BasesOffset := 0, NumAligned := 0, Begin := 0, End := 0, NumBases := 0, Name := [],
    Bases := [], GenomeAssemblyID := [], Species := [], MD5 := [], URI := [] }

/-- The `struct ReadGroup`. -/
structure ReadGroup where
  MedianFragmentLength : Nat
  ReadGroupCode : Nat
  SequencingTechnology : Nat
  CenterName : List Byte
  Description : List Byte
  LibraryName : List Byte
  PlatformUnit : List Byte
  ReadGroupID : List Byte
  SampleName : List Byte
  deriving DecidableEq, Repr

/-- The constructor `ReadGroup(void)`. -/
def ReadGroup.ctor : ReadGroup :=
  { MedianFragmentLength := 0, ReadGroupCode := 0, SequencingTechnology := ST_UNKNOWN,
    CenterName := [], Description := [], LibraryName := [], PlatformUnit := [],
    ReadGroupID := [], SampleName := [] }

/-- The data members of `class CAlignmentReader`. `mBuffer` and
`mCompressionBuffer` hold the bytes of the allocated arrays (empty for
`NULL`), `mBufferPtr` is the cursor as an offset into `mBuffer`, and
`mRefSeqLUT` holds the name bytes of each table entry. -/
structure CAlignmentReader where
  mIsOpen : Bool
  mInStream : StreamPtr
  mNumReads : Nat
  mNumBases : Nat
  mCurrentRead : Nat
  mReadsOffset : Nat
  mReferenceGapOffset : Nat
  mIndexOffset : Nat
  mBuffer : List Byte
  mBufferPtr : Nat
  mBufferLen : Nat
  mCompressionBuffer : List Byte
  mCompressionBufferLen : Nat
  mInputFilename : String
  mPartitionSize : Nat
  mPartitionMembers : Nat
  mRefSeqLUT : List (List Byte)
  mNumRefSeqs : Nat
  mReferenceSequences : List ReferenceSequence
  mReadGroups : List ReadGroup
  mStatus : Nat
  mSeqTech : Nat
  deriving DecidableEq, Repr

/-- The constructor `CAlignmentReader(void)`. The members it does not
initialise (`mNumBases`, the three offsets, `mNumRefSeqs`) are indeterminate
and are taken from the arguments. -/
def CAlignmentReader.ctor (numBases readsOffset gapOffset indexOffset numRefSeqs : Nat) :
    CAlignmentReader :=
  { mIsOpen := false, mInStream := .null, mNumReads := 0, mNumBases := numBases,
    mCurrentRead := 0, mReadsOffset := readsOffset, mReferenceGapOffset := gapOffset,
    mIndexOffset := indexOffset, mBuffer := [], mBufferPtr := 0, mBufferLen := 0,
    mCompressionBuffer := [], mCompressionBufferLen := 0, mInputFilename := "",
    mPartitionSize := 0, mPartitionMembers := 0, mRefSeqLUT := [], mNumRefSeqs := numRefSeqs,
    mReferenceSequences := [], mReadGroups := [], mStatus := AS_UNKNOWN, mSeqTech := ST_UNKNOWN }

/-- The open stream behind `mInStream`; using `NULL` or a closed stream is
undefined. -/
def CAlignmentReader.stream (r : CAlignmentReader) : Res FILE :=
  match r.mInStream with
  | .live f => .ok f
  | _ => .error .undefined

/-- The method `GetNumBases`. -/
def GetNumBases (r : CAlignmentReader) : Nat :=
  if !r.mIsOpen then 0 else r.mNumBases

/-- The method `GetNumReads`. -/
def GetNumReads (r : CAlignmentReader) : Nat :=
  if !r.mIsOpen then 0 else r.mNumReads

/-- The method `GetSequencingTechnology`. -/
def GetSequencingTechnology (r : CAlignmentReader) : Nat :=
  if !r.mIsOpen then ST_UNKNOWN else r.mSeqTech

/-- The method `GetStatus`. -/
def GetStatus (r : CAlignmentReader) : Nat :=
  if !r.mIsOpen then AS_UNKNOWN else r.mStatus

/-- The method `Rewind`. -/
def Rewind (r : CAlignmentReader) : Res CAlignmentReader := do
  let f ← r.stream
  pure { r with mInStream := .live (fseek64_SET f r.mReadsOffset)
                mCurrentRead := 0, mPartitionMembers := 0, mPartitionSize := 0 }

/-- The method `ReadAlignments`: `ReadAlignment` on each element in turn. -/
def ReadAlignments (buf : List Byte) (lut : List (List Byte)) (ptr : Nat)
    (alignments : List Alignment) (isLongRead hasMateInfo : Bool) :
    Res (List Alignment × Nat) :=
  match alignments with
  | [] => .ok ([], ptr)
  | al :: rest =>
    match ReadAlignment buf lut ptr al isLongRead hasMateInfo with
    | .error e => .error e
    | .ok (al', ptr') =>
      match ReadAlignments buf lut ptr' rest isLongRead hasMateInfo with
      | .error e => .error e
      | .ok (rest', ptr'') => .ok (al' :: rest', ptr'')

/-- The block "read the partition" of `LoadNextRead`, entered when
`mPartitionMembers == mPartitionSize`. It yields `false` with the stream
advanced when the end of the file is met on the first field (the method then
returns `false`), and otherwise `true` with the partition decompressed into
`mBuffer` and the cursor at its start.

`compressedSize` is an `int`: its pattern `c` stands for a negative number
from `2^31` on, which `fread` receives converted to a 64-bit `size_t`. -/
def readPartition (env : Env) (r : CAlignmentReader) : Res (Bool × CAlignmentReader) := do
  let f ← r.stream
  -- read the uncompressed partition entry size
  let (uncompressedSize, f) := freadInt 0 SIZEOF_INT f
  if f.eof then
    pure (false, { r with mInStream := .live f })
  else
    -- read the compressed partition entry size
    let (compressedSize, f) := freadInt 0 SIZEOF_INT f
    -- read the partition member size
    let (partitionSize, f) := freadInt r.mPartitionSize SIZEOF_SHORT f
    -- check the compression buffer size
    let (cbuf, cbufLen) :=
      CheckBufferSize env r.mCompressionBuffer r.mCompressionBufferLen compressedSize
    let (buf, bufLen) := CheckBufferSize env r.mBuffer r.mBufferLen uncompressedSize
    -- read and uncompress the partition
    let count := if compressedSize < 2 ^ 31 then compressedSize
                 else 2 ^ 64 - 2 ^ 32 + compressedSize
    let (bytes, f) := fread f count
    if bytes.length > cbuf.length then .error .undefined
    else
      let cbuf := store cbuf bytes
      let numBytesRead := bytes.length % 4294967296
      if numBytesRead ≠ compressedSize then .error .exit1
      else
        let out := env.fastlz_decompress bytes bufLen
        if out.length > buf.length then .error .undefined
        else
          let result := out.length
          if result = 0 then .error .exit1
          else
            pure (true, { r with mInStream := .live f, mPartitionMembers := 0,
                                 mPartitionSize := partitionSize,
                                 mCompressionBuffer := cbuf, mCompressionBufferLen := cbufLen,
                                 mBuffer := store buf out, mBufferLen := bufLen,
                                 mBufferPtr := 0 })

/-- The partition step of `LoadNextRead`: `readPartition` when
`mPartitionMembers == mPartitionSize`, nothing otherwise. -/
def pump (env : Env) (r : CAlignmentReader) : Res (Bool × CAlignmentReader) :=
  if r.mPartitionMembers = r.mPartitionSize then readPartition env r else .ok (true, r)

/-- The part of `LoadNextRead` from "get the read name" to the second
`ReadAlignments`: it decodes one read at cursor `ptr` of `buf` into `ar` and
returns it with the advanced cursor. -/
def decodeRead (env : Env) (buf : List Byte) (lut : List (List Byte)) (ptr : Nat)
    (ar : AlignedRead) : Res (AlignedRead × Nat) := do
  -- get the read name
  let b ← peek buf ptr 1
  let readNameLen := leNat b
  let ptr := ptr + 1
  let name ← peek buf ptr readNameLen
  let ptr := ptr + readNameLen
  -- get the read group code
  let b ← peek buf ptr SIZEOF_INT
  let readGroupCode := leNat b
  let ptr := ptr + SIZEOF_INT
  -- get the status flag: long read, paired-end
  let b ← peek buf ptr 1
  let status := leNat b
  let ptr := ptr + 1
  let isLongRead : Bool := if (status &&& 1) ≠ 0 then true else false
  let isPairedEnd : Bool := if (status &&& 2) ≠ 0 then true else false
  let hasMateInfo : Bool := if (status &&& 4) ≠ 0 then true else false
  -- get the number of mate 1 alignments
  let b ← peek buf ptr SIZEOF_INT
  let numMate1Alignments := leNat b
  let ptr := ptr + SIZEOF_INT
  -- get the number of mate 2 alignments
  let (numMate2Alignments, ptr) ←
    if isPairedEnd then do
      let b ← peek buf ptr SIZEOF_INT
      pure (leNat b, ptr + SIZEOF_INT)
    else pure (0, ptr)
  -- deserialize each mate 1 alignment
  let (mate1, ptr) ← ReadAlignments buf lut ptr
    (resizeVec ar.Mate1Alignments numMate1Alignments (Alignment.ctor env.indet))
    isLongRead hasMateInfo
  -- deserialize each mate 2 alignment
  let (mate2, ptr) ← ReadAlignments buf lut ptr
    (resizeVec ar.Mate2Alignments numMate2Alignments (Alignment.ctor env.indet))
    isLongRead hasMateInfo
  pure ({ ReadGroupCode := readGroupCode, Name := name, Mate1Alignments := mate1,
          Mate2Alignments := mate2, IsLongRead := isLongRead }, ptr)

/-- The method `LoadNextRead`: the value returned, the reader afterwards and
the caller's record afterwards. -/
def LoadNextRead (env : Env) (r : CAlignmentReader) (ar : AlignedRead) :
    Res (Bool × CAlignmentReader × AlignedRead) :=
  if !r.mIsOpen then .error .exit1
  -- check if we have already processed all of the reads
  else if r.mCurrentRead ≥ r.mNumReads then .ok (false, r, ar)
  else
    match pump env r with
    | .error e => .error e
    | .ok (false, r) => .ok (false, r, ar)
    | .ok (true, r) =>
      match decodeRead env r.mBuffer r.mRefSeqLUT r.mBufferPtr ar with
      | .error e => .error e
      | .ok (ar, ptr) =>
        -- increment the read counter
        .ok (true, { r with mBufferPtr := ptr,
                            mCurrentRead := (r.mCurrentRead + 1) % 2 ^ 64,
                            mPartitionMembers := (r.mPartitionMembers + 1) % 65536 }, ar)

/-! ## Layout of a read record -/

/-- The cursor after `n` consecutive alignment records starting at `ptr`. -/
def alignmentsEnd (buf : List Byte) (isLongRead hasMateInfo : Bool) : Nat → Nat → Nat
  | ptr, 0 => ptr
  | ptr, n + 1 =>
    alignmentsEnd buf isLongRead hasMateInfo
      (ptr + alignmentBytes buf ptr isLongRead hasMateInfo) n

/-- Whether `n` consecutive alignment records starting at `ptr` lie inside the
buffer and carry a reference index below `numRefSeqs`. -/
def alignmentsFit (buf : List Byte) (numRefSeqs : Nat) (isLongRead hasMateInfo : Bool) :
    Nat → Nat → Bool
  | _, 0 => true
  | ptr, n + 1 =>
    decide (leNat (slice buf (ptr + 8) 4) < numRefSeqs) &&
    decide (ptr + alignmentBytes buf ptr isLongRead hasMateInfo ≤ buf.length) &&
    alignmentsFit buf numRefSeqs isLongRead hasMateInfo
      (ptr + alignmentBytes buf ptr isLongRead hasMateInfo) n

/-- The encoded read name length of the read record at `ptr`. -/
def encNameLen (buf : List Byte) (ptr : Nat) : Nat := leNat (slice buf ptr 1)

/-- The status byte of the read record at `ptr`. -/
def encStatus (buf : List Byte) (ptr : Nat) : Nat :=
  leNat (slice buf (ptr + 1 + encNameLen buf ptr + 4) 1)

/-- The encoded mate-1 alignment count of the read record at `ptr`. -/
def encMate1Count (buf : List Byte) (ptr : Nat) : Nat :=
  leNat (slice buf (ptr + 1 + encNameLen buf ptr + 4 + 1) 4)

/-- The mate-2 alignment count of the read record at `ptr`: encoded after the
mate-1 count when the paired-end bit of the status byte is set, else 0. -/
def encMate2Count (buf : List Byte) (ptr : Nat) : Nat :=
  if (encStatus buf ptr).testBit 1 then
    leNat (slice buf (ptr + 1 + encNameLen buf ptr + 4 + 1 + 4) 4)
  else 0

/-- The offset of the first alignment of the read record at `ptr`. -/
def alignmentsOffset (buf : List Byte) (ptr : Nat) : Nat :=
  ptr + 1 + encNameLen buf ptr + 4 + 1 + 4 + (if (encStatus buf ptr).testBit 1 then 4 else 0)

/-- A well-formed read record at `ptr`: its head and its mate-1 and mate-2
alignment records lie inside the buffer, and the alignments carry reference
indexes below `numRefSeqs`. -/
def readFits (buf : List Byte) (numRefSeqs ptr : Nat) : Bool :=
  decide (alignmentsOffset buf ptr ≤ buf.length) &&
  alignmentsFit buf numRefSeqs ((encStatus buf ptr).testBit 0) ((encStatus buf ptr).testBit 2)
    (alignmentsOffset buf ptr) (encMate1Count buf ptr) &&
  alignmentsFit buf numRefSeqs ((encStatus buf ptr).testBit 0) ((encStatus buf ptr).testBit 2)
    (alignmentsEnd buf ((encStatus buf ptr).testBit 0) ((encStatus buf ptr).testBit 2)
      (alignmentsOffset buf ptr) (encMate1Count buf ptr))
    (encMate2Count buf ptr)

/-- The cursor after the read record at `ptr`. -/
def readEnd (buf : List Byte) (ptr : Nat) : Nat :=
  alignmentsEnd buf ((encStatus buf ptr).testBit 0) ((encStatus buf ptr).testBit 2)
    (alignmentsEnd buf ((encStatus buf ptr).testBit 0) ((encStatus buf ptr).testBit 2)
      (alignmentsOffset buf ptr) (encMate1Count buf ptr))
    (encMate2Count buf ptr)

/-- A read record: name "r1", read group code 7, status 0 (short read, single
end, no mate information), one mate-1 alignment, then the sample alignment
record. -/
def sampleReadBytes : List Byte :=
  [2, 114, 49, 7, 0, 0, 0, 0, 1, 0, 0, 0] ++ sampleAlignmentBytes

/-- An environment whose decompressor copies its input when it fits. -/
def sampleEnv : Env :=
  { fastlz_decompress := fun input maxout => if input.length ≤ maxout then input else []
    fastlz_bound := by
      intro input maxout
      by_cases h : input.length ≤ maxout
      · simp [h]
      · simp [h]
    junk := fun _ => 0
    indet := default }

/-- An open reader in the middle of a partition of one member whose buffer
holds the sample read record. -/
def sampleReader : CAlignmentReader :=
  { CAlignmentReader.ctor 0 0 0 0 1 with
    mIsOpen := true
    mInStream := .live { data := [], pos := 0, eof := false }
    mNumReads := 1
    mBuffer := sampleReadBytes
    mBufferLen := 36
    mPartitionSize := 1
    mPartitionMembers := 0
    mRefSeqLUT := sampleLUT }

/-- The head of a long-read alignment record without mate block whose query
spans 0..65535: reference 10..13 on reference 0, qualities 40 and 20, forward
strand, pairwise length 0, query begin 0, query end 65535. -/
def fullSpanHead : List Byte :=
  [10, 0, 0, 0, 13, 0, 0, 0, 0, 0, 0, 0, 40, 20, 0, 0, 0, 0, 0, 255, 255]

/-- The record of `fullSpanHead` followed by its 65536 base qualities. -/
def fullSpanBytes : List Byte := fullSpanHead ++ List.replicate 65536 33

/-- The sample alignment record with orientation byte 2 (bit 1 set, bit 0
clear). -/
def mateReverseBytes : List Byte :=
  [10, 0, 0, 0, 13, 0, 0, 0, 0, 0, 0, 0, 40, 20, 2, 2, 0, 1, 65, 67, 65, 71, 30, 31]

/-! ## Jump -/

/-- The scan loop of `Jump` over `n` remaining index entries, with
`bufferOffset` (an `unsigned int`) at `off`: it yields the file offset of the
entry at which `foundBlock` becomes true, or nothing when the loop runs out. -/
def findBlock (buf : List Byte) (referenceIndex referencePosition : Nat) :
    Nat → Nat → Res (Option Nat)
  | 0, _ => .ok none
  | n + 1, off =>
    -- retrieve the reference index
    match peek buf off SIZEOF_SHORT with
    | .error e => .error e
    | .ok bi =>
      -- store the reference position
      match peek buf ((off + SIZEOF_SHORT) % 4294967296) SIZEOF_INT with
      | .error e => .error e
      | .ok bp =>
        -- store the file offset
        match peek buf ((off + SIZEOF_SHORT + SIZEOF_INT) % 4294967296) SIZEOF_UINT64 with
        | .error e => .error e
        | .ok bo =>
          if leNat bi > referenceIndex ∨
              (leNat bi = referenceIndex ∧ leNat bp ≥ referencePosition) then
            .ok (some (leNat bo))
          else
            findBlock buf referenceIndex referencePosition n
              ((off + SIZEOF_SHORT + SIZEOF_INT + SIZEOF_UINT64) % 4294967296)

/-- The method `Jump`. -/
def Jump (env : Env) (r : CAlignmentReader) (referenceIndex referencePosition : Nat) :
    Res CAlignmentReader :=
  if r.mIndexOffset = 0 then .error .exit1
  else
    match r.stream with
    | .error e => .error e
    | .ok f =>
      let f := fseek64_SET f r.mIndexOffset
      -- read the number of entries
      let (numIndexEntries, f) := freadInt 0 SIZEOF_INT f
      -- load the index
      let requestedBytes :=
        (numIndexEntries * (SIZEOF_UINT64 + SIZEOF_INT + SIZEOF_SHORT)) % 4294967296
      let (buf, bufLen) := CheckBufferSize env r.mBuffer r.mBufferLen requestedBytes
      let (bytes, f) := fread f requestedBytes
      if bytes.length > buf.length then .error .undefined
      else
        let buf := store buf bytes
        -- find the block containing the specified reference index and position
        match findBlock buf referenceIndex referencePosition numIndexEntries 0 with
        | .error e => .error e
        | .ok none => .error .exit1
        | .ok (some offset) =>
          .ok { r with mInStream := .live (fseek64_SET f offset)
                       mBuffer := buf, mBufferLen := bufLen
                       mCurrentRead := 0, mPartitionMembers := 0, mPartitionSize := 0 }

/-- One entry of the index section. -/
structure IndexEntry where
  referenceIndex : Nat
  referencePosition : Nat
  offset : Nat
  deriving DecidableEq, Repr

/-- The bytes of index entries: 2 bytes reference index, 4 bytes reference
position, 8 bytes file offset each. -/
def encodeEntries : List IndexEntry → List Byte
  | [] => []
  | e :: es =>
    leBytes 2 e.referenceIndex ++ leBytes 4 e.referencePosition ++ leBytes 8 e.offset
      ++ encodeEntries es

/-- The bytes of an index section: a 4-byte entry count, then the entries. -/
def encodeIndex (entries : List IndexEntry) : List Byte :=
  leBytes 4 entries.length ++ encodeEntries entries

/-- The jump rule of the index: the entry's reference index is strictly
greater than the target's, or equal with a position at or past the target's. -/
def qualifies (referenceIndex referencePosition : Nat) (e : IndexEntry) : Bool :=
  decide (e.referenceIndex > referenceIndex) ||
  (decide (e.referenceIndex = referenceIndex) &&
    decide (e.referencePosition ≥ referencePosition))

/-- The reader has an open stream `f` whose file holds the index section
`entries` at `mIndexOffset`: every field is representable in its width, the
file offsets are offsets (non-negative `off_type`s), the byte size of the
section fits the 32-bit `requestedBytes`, and the buffer is as long as its
recorded length. -/
def IndexAt (r : CAlignmentReader) (f : FILE) (entries : List IndexEntry) : Prop :=
  r.mInStream = .live f ∧
  r.mBuffer.length = r.mBufferLen ∧
  r.mIndexOffset < 2 ^ 63 ∧
  (∀ e ∈ entries, e.referenceIndex < 2 ^ 16 ∧ e.referencePosition < 2 ^ 32 ∧
    e.offset < 2 ^ 63) ∧
  14 * entries.length + 10 < 2 ^ 32 ∧
  r.mIndexOffset + (encodeIndex entries).length ≤ f.data.length ∧
  slice f.data r.mIndexOffset (encodeIndex entries).length = encodeIndex entries

/-- The index of the jump scenario, with partition offsets 1000, 2000, 3000
and 4000. -/
def sampleIndex : List IndexEntry :=
  [⟨3, 0, 1000⟩, ⟨5, 50, 2000⟩, ⟨5, 200, 3000⟩, ⟨7, 0, 4000⟩]

/-- An open stream over a file that holds `sampleIndex` at offset 8. -/
def sampleIndexFile : FILE :=
  { data := List.replicate 8 0 ++ encodeIndex sampleIndex, pos := 0, eof := false }

/-- An open reader over `sampleIndexFile` with index offset 8. -/
def sampleIndexReader : CAlignmentReader :=
  { CAlignmentReader.ctor 0 0 0 8 0 with
    mIsOpen := true
    mInStream := .live sampleIndexFile }

/-! ## Open -/

/-- The effect of `s.resize(len); fread((void*)s.data(), len, 1, f)` on a
`std::string`: the bytes transferred overwrite the start of the resized
string. -/
def freadStr (s : List Byte) (len : Nat) (f : FILE) : List Byte × FILE :=
  let r := fread f len
  (store (resizeStr s len) r.1, r.2)

/-- One iteration of the read group loop of `Open`. -/
def readReadGroup (f : FILE) (rg : ReadGroup) : ReadGroup × FILE :=
  -- read the metadata string lengths
  let (centerNameLen, f) := fgetc f
  let (libraryNameLen, f) := fgetc f
  let (platformUnitLen, f) := fgetc f
  let (readGroupIDLen, f) := fgetc f
  let (sampleNameLen, f) := fgetc f
  let (descriptionLen, f) := freadInt 0 SIZEOF_SHORT f
  let (sequencingTechnology, f) := freadInt rg.SequencingTechnology SIZEOF_SHORT f
  let (medianFragmentLength, f) := freadInt rg.MedianFragmentLength SIZEOF_INT f
  -- skip the reserved bytes
  let f := fseek64_CUR f SIZEOF_UINT64
  -- read the metadata strings
  let (centerName, f) := freadStr rg.CenterName centerNameLen f
  let (description, f) := freadStr rg.Description descriptionLen f
  let (libraryName, f) := freadStr rg.LibraryName libraryNameLen f
  let (platformUnit, f) := freadStr rg.PlatformUnit platformUnitLen f
  let (readGroupID, f) := freadStr rg.ReadGroupID readGroupIDLen f
  let (sampleName, f) := freadStr rg.SampleName sampleNameLen f
  ({ rg with SequencingTechnology := sequencingTechnology
             MedianFragmentLength := medianFragmentLength
             CenterName := centerName, Description := description
             LibraryName := libraryName, PlatformUnit := platformUnit
             ReadGroupID := readGroupID, SampleName := sampleName }, f)

/-- The read group loop of `Open` over the elements of `mReadGroups`. -/
def readReadGroups (f : FILE) : List ReadGroup → List ReadGroup × FILE
  | [] => ([], f)
  | rg :: rest =>
    let r := readReadGroup f rg
    let rs := readReadGroups r.2 rest
    (r.1 :: rs.1, rs.2)

/-- One iteration of the reference sequence loop of `Open`. -/
def readReferenceSequence (f : FILE) (rs : ReferenceSequence) : ReferenceSequence × FILE :=
  let (nameLen, f) := fgetc f
  let (speciesLen, f) := fgetc f
  let (genomeAssemblyIDLen, f) := fgetc f
  let (uriLen, f) := fgetc f
  -- read the number of bases
  let (numBases, f) := freadInt rs.NumBases SIZEOF_INT f
  -- the number of aligned reads
  let (numAligned, f) := freadInt rs.NumAligned SIZEOF_UINT64 f
  -- read the MD5 checksum
  let (md5, f) := freadStr rs.MD5 32 f
  -- read the reference name
  let (name, f) := freadStr rs.Name nameLen f
  -- read the species name
  let (species, f) := if speciesLen > 0 then freadStr rs.Species speciesLen f
                      else (rs.Species, f)
  -- read the genome assembly ID
  let (genomeAssemblyID, f) :=
    if genomeAssemblyIDLen > 0 then freadStr rs.GenomeAssemblyID genomeAssemblyIDLen f
    else (rs.GenomeAssemblyID, f)
  -- read the URI
  let (uri, f) := if uriLen > 0 then freadStr rs.URI uriLen f else (rs.URI, f)
  ({ rs with NumBases := numBases, NumAligned := numAligned, MD5 := md5, Name := name
             Species := species, GenomeAssemblyID := genomeAssemblyID, URI := uri }, f)

/-- The reference sequence loop of `Open` over the elements of
`mReferenceSequences`. -/
def readReferenceSequences (f : FILE) : List ReferenceSequence → List ReferenceSequence × FILE
  | [] => ([], f)
  | rs :: rest =>
    let r := readReferenceSequence f rs
    let rr := readReferenceSequences r.2 rest
    (r.1 :: rr.1, rr.2)

/-- The length of the MOSAIK signature, skipped by `Open`. -/
def SIGNATURE_LENGTH : Nat := 6

/-- The reader and the stream after `Open` has read the fixed fields of the
header and skipped the reserved field, together with the two locals
`numReadGroups` and `referencesOffset`. The local `numReadGroups` is not
initialised; its prior bytes are taken from `env`. -/
def readHeader (env : Env) (r : CAlignmentReader) (f : FILE) :
    CAlignmentReader × FILE × Nat × Nat :=
  -- skip the MOSAIK signature
  let f := fseek64_SET f SIGNATURE_LENGTH
  -- retrieve the alignment file status
  let (status, f) := fgetc f
  -- retrieve the sequencing technology
  let (seqTech, f) := freadInt r.mSeqTech SIZEOF_SHORT f
  -- skip the archive date
  let f := fseek64_CUR f SIZEOF_UINT64
  -- retrieve the number of reference sequences
  let (numRefSeqs, f) := freadInt r.mNumRefSeqs SIZEOF_INT f
  -- retrieve the number of read groups
  let (numReadGroups, f) := freadInt (leNat (env.alloc 4)) SIZEOF_INT f
  -- retrieve the number of reads
  let (numReads, f) := freadInt r.mNumReads SIZEOF_UINT64 f
  -- retrieve the number of bases
  let (numBases, f) := freadInt r.mNumBases SIZEOF_UINT64 f
  -- retrieve the references offset
  let (referencesOffset, f) := freadInt 0 SIZEOF_UINT64 f
  -- retrieve the reference gaps offset
  let (referenceGapOffset, f) := freadInt r.mReferenceGapOffset SIZEOF_UINT64 f
  -- retrieve the index offset
  let (indexOffset, f) := freadInt r.mIndexOffset SIZEOF_UINT64 f
  -- skip the reserved
  let f := fseek64_CUR f SIZEOF_UINT64
  ({ r with mStatus := status, mSeqTech := seqTech, mNumRefSeqs := numRefSeqs % 65536
            mNumReads := numReads, mNumBases := numBases
            mReferenceGapOffset := referenceGapOffset, mIndexOffset := indexOffset },
   f, numReadGroups, referencesOffset)

/-- The method `Open` on the file content that `fopen` finds under
`filename` (`none` when it cannot be opened). `mNumRefSeqs` is an `unsigned
short` filled by a 4-byte `fread`; it keeps the low half. -/
def Open (env : Env) (r : CAlignmentReader) (filename : String) (file : Option (List Byte)) :
    Res CAlignmentReader :=
  if r.mIsOpen then .error .exit1
  else
    match file with
    | none => .error .exit1
    | some data =>
      let r := { r with mInputFilename := filename, mIsOpen := true }
      -- read the header
      let (r, f, numReadGroups, referencesOffset) :=
        readHeader env r { data := data, pos := 0, eof := false }
      -- retrieve the read groups
      let (readGroups, f) :=
        readReadGroups f (resizeVec r.mReadGroups numReadGroups ReadGroup.ctor)
      -- store the reads offset
      let readsOffset := ftell64 f
      -- jump to the reference sequence section
      let f := fseek64_SET f referencesOffset
      let (referenceSequences, f) :=
        readReferenceSequences f
          (resizeVec r.mReferenceSequences r.mNumRefSeqs ReferenceSequence.ctor)
      -- restore our file position
      Rewind { r with mInStream := .live f
                      mReadGroups := readGroups
                      mReadsOffset := readsOffset
                      mReferenceSequences := referenceSequences
                      mRefSeqLUT := referenceSequences.map (·.Name) }

/-- The method `Close`: closing `NULL` or an already closed stream is
undefined. -/
def Close (r : CAlignmentReader) : Res CAlignmentReader :=
  match r.mInStream with
  | .live _ => .ok { r with mIsOpen := false, mInStream := .dangling }
  | _ => .error .undefined

/-- The read groups and the stream after the read group loop of `Open` on a
file with a complete preamble: the loop starts at offset 73. -/
def headerReadGroups (r : CAlignmentReader) (data : List Byte) : List ReadGroup × FILE :=
  readReadGroups { data := data, pos := 73, eof := false }
    (resizeVec r.mReadGroups (leNat (slice data 21 4)) ReadGroup.ctor)

/-- The reference sequences and the stream after the reference sequence loop
of `Open` on a file with a complete preamble. -/
def headerReferences (r : CAlignmentReader) (data : List Byte) :
    List ReferenceSequence × FILE :=
  readReferenceSequences (fseek64_SET (headerReadGroups r data).2 (leNat (slice data 41 8)))
    (resizeVec r.mReferenceSequences (leNat (slice data 17 4) % 65536) ReferenceSequence.ctor)

/-- The reader that `Open` leaves for a file with a complete preamble. -/
def openedReader (r : CAlignmentReader) (filename : String) (data : List Byte) :
    CAlignmentReader :=
  { r with
    mInputFilename := filename
    mIsOpen := true
    mStatus := leNat (slice data 6 1)
    mSeqTech := leNat (slice data 7 2)
    mNumRefSeqs := leNat (slice data 17 4) % 65536
    mNumReads := leNat (slice data 25 8)
    mNumBases := leNat (slice data 33 8)
    mReferenceGapOffset := leNat (slice data 49 8)
    mIndexOffset := leNat (slice data 57 8)
    mReadGroups := (headerReadGroups r data).1
    mReadsOffset := (headerReadGroups r data).2.pos
    mReferenceSequences := (headerReferences r data).1
    mRefSeqLUT := (headerReferences r data).1.map (·.Name)
    mInStream := .live (fseek64_SET (headerReferences r data).2 (headerReadGroups r data).2.pos)
    mCurrentRead := 0
    mPartitionMembers := 0
    mPartitionSize := 0 }

/-- A 73-byte archive header: signature, status 9, sequencing technology 4, a
date, no reference sequence, no read group, 5 reads, 250 bases, references
offset 73, no reference gap section, no index, 8 reserved bytes. -/
def sampleHeader : List Byte :=
  [77, 83, 75, 65, 65, 2] ++ [9] ++ [4, 0] ++ [1, 2, 3, 4, 5, 6, 7, 8] ++ [0, 0, 0, 0]
    ++ [0, 0, 0, 0] ++ [5, 0, 0, 0, 0, 0, 0, 0] ++ [250, 0, 0, 0, 0, 0, 0, 0]
    ++ [73, 0, 0, 0, 0, 0, 0, 0] ++ [0, 0, 0, 0, 0, 0, 0, 0] ++ [0, 0, 0, 0, 0, 0, 0, 0]
    ++ [0, 0, 0, 0, 0, 0, 0, 0]

/-- A freshly constructed reader. -/
def freshReader : CAlignmentReader := CAlignmentReader.ctor 0 0 0 0 0

/-! ## Layout of a read group record -/

/-- The number of bytes of the read group record at `pos`: 21 bytes of fixed
fields and the six strings. -/
def readGroupBytes (data : List Byte) (pos : Nat) : Nat :=
  21 + leNat (slice data pos 1) + leNat (slice data (pos + 5) 2)
    + leNat (slice data (pos + 1) 1) + leNat (slice data (pos + 2) 1)
    + leNat (slice data (pos + 3) 1) + leNat (slice data (pos + 4) 1)

/-- The read group decoded from the record at `pos` into the element `rg`. -/
def decodedReadGroup (data : List Byte) (pos : Nat) (rg : ReadGroup) : ReadGroup :=
  { rg with
    SequencingTechnology := leNat (slice data (pos + 7) 2)
    MedianFragmentLength := leNat (slice data (pos + 9) 4)
    CenterName := slice data (pos + 21) (leNat (slice data pos 1))
    Description := slice data (pos + 21 + leNat (slice data pos 1))
      (leNat (slice data (pos + 5) 2))
    LibraryName := slice data (pos + 21 + leNat (slice data pos 1)
      + leNat (slice data (pos + 5) 2)) (leNat (slice data (pos + 1) 1))
    PlatformUnit := slice data (pos + 21 + leNat (slice data pos 1)
      + leNat (slice data (pos + 5) 2) + leNat (slice data (pos + 1) 1))
      (leNat (slice data (pos + 2) 1))
    ReadGroupID := slice data (pos + 21 + leNat (slice data pos 1)
      + leNat (slice data (pos + 5) 2) + leNat (slice data (pos + 1) 1)
      + leNat (slice data (pos + 2) 1)) (leNat (slice data (pos + 3) 1))
    SampleName := slice data (pos + 21 + leNat (slice data pos 1)
      + leNat (slice data (pos + 5) 2) + leNat (slice data (pos + 1) 1)
      + leNat (slice data (pos + 2) 1) + leNat (slice data (pos + 3) 1))
      (leNat (slice data (pos + 4) 1)) }

/-- The file offset after `n` consecutive read group records starting at
`pos`. -/
def readGroupsEnd (data : List Byte) : Nat → Nat → Nat
  | pos, 0 => pos
  | pos, n + 1 => readGroupsEnd data (pos + readGroupBytes data pos) n

/-- Whether `n` consecutive read group records starting at `pos` lie inside
the file. -/
def readGroupsFit (data : List Byte) : Nat → Nat → Bool
  | _, 0 => true
  | pos, n + 1 =>
    decide (pos + readGroupBytes data pos ≤ data.length) &&
    readGroupsFit data (pos + readGroupBytes data pos) n

/-- A header that declares one read group, followed by that read group:
center "c", library "lb", platform unit "", read group ID "id", sample "s",
description "de", technology 4, median fragment length 300. -/
def sampleHeaderWithGroup : List Byte :=
  [77, 83, 75, 65, 65, 2] ++ [9] ++ [4, 0] ++ [1, 2, 3, 4, 5, 6, 7, 8] ++ [0, 0, 0, 0]
    ++ [1, 0, 0, 0] ++ [5, 0, 0, 0, 0, 0, 0, 0] ++ [250, 0, 0, 0, 0, 0, 0, 0]
    ++ [102, 0, 0, 0, 0, 0, 0, 0] ++ [0, 0, 0, 0, 0, 0, 0, 0] ++ [0, 0, 0, 0, 0, 0, 0, 0]
    ++ [0, 0, 0, 0, 0, 0, 0, 0]
    ++ [1, 2, 0, 2, 1] ++ [2, 0] ++ [4, 0] ++ [44, 1, 0, 0] ++ [0, 0, 0, 0, 0, 0, 0, 0]
    ++ [99] ++ [100, 101] ++ [108, 98] ++ [105, 100] ++ [115]

/-! ## Iteration over an archive -/

/-- Successive calls of `LoadNextRead`, one for each caller record of the
list: the value returned and the record after each call, and the reader at
the end. The first failing call ends the run. -/
def loadReads (env : Env) :
    CAlignmentReader → List AlignedRead → Res (List (Bool × AlignedRead) × CAlignmentReader)
  | r, [] => .ok ([], r)
  | r, ar :: rest =>
    match LoadNextRead env r ar with
    | .error e => .error e
    | .ok (b, r', ar') =>
      match loadReads env r' rest with
      | .error e => .error e
      | .ok (outs, r'') => .ok ((b, ar') :: outs, r'')

/-- The decompressor is deterministic in its capacity: an output that fits a
capacity is the output for every larger capacity. -/
def CapacityStable (env : Env) : Prop :=
  ∀ (input : List Byte) (m m' : Nat), m ≤ m' →
    (env.fastlz_decompress input m).length ≠ 0 →
    env.fastlz_decompress input m' = env.fastlz_decompress input m

/-- The declared uncompressed size of the partition at file position `pos`. -/
def partUncompressedSize (data : List Byte) (pos : Nat) : Nat := leNat (slice data pos 4)

/-- The declared compressed size of the partition at file position `pos`. -/
def partCompressedSize (data : List Byte) (pos : Nat) : Nat := leNat (slice data (pos + 4) 4)

/-- The declared member count of the partition at file position `pos`. -/
def partMembers (data : List Byte) (pos : Nat) : Nat := leNat (slice data (pos + 8) 2)

/-- The decompressed content of the partition at file position `pos`, for a
capacity equal to its declared uncompressed size. -/
def partContent (env : Env) (data : List Byte) (pos : Nat) : List Byte :=
  env.fastlz_decompress (slice data (pos + 10) (partCompressedSize data pos))
    (partUncompressedSize data pos)

/-- The file position after the partition at `pos`. -/
def partEnd (data : List Byte) (pos : Nat) : Nat := pos + 10 + partCompressedSize data pos

/-- The cursor after `k` consecutive read records starting at `ptr`. -/
def recordsEnd (buf : List Byte) : Nat → Nat → Nat
  | ptr, 0 => ptr
  | ptr, k + 1 => recordsEnd buf (readEnd buf ptr) k

/-- Whether `k` consecutive read records starting at `ptr` are well formed. -/
def recordsFit (buf : List Byte) (numRefSeqs : Nat) : Nat → Nat → Bool
  | _, 0 => true
  | ptr, k + 1 => readFits buf numRefSeqs ptr && recordsFit buf numRefSeqs (readEnd buf ptr) k

/-- Whether the file holds, from position `pos` on, partitions that deliver
`n` well-formed reads: each partition lies inside the file, declares at least
one member, decompresses, and holds the records taken from it; `fuel` bounds
the number of partitions. -/
def archiveOk (env : Env) (numRefSeqs : Nat) (data : List Byte) : Nat → Nat → Nat → Bool
  | _, _, 0 => true
  | 0, _, _ + 1 => false
  | fuel + 1, pos, n + 1 =>
    decide (partEnd data pos ≤ data.length) &&
    decide (partCompressedSize data pos < 2 ^ 31) &&
    decide (partUncompressedSize data pos + 10 < 2 ^ 32) &&
    decide (1 ≤ partMembers data pos) &&
    decide ((partContent env data pos).length ≠ 0) &&
    recordsFit (partContent env data pos) numRefSeqs 0 (min (partMembers data pos) (n + 1)) &&
    archiveOk env numRefSeqs data fuel (partEnd data pos)
      (n + 1 - min (partMembers data pos) (n + 1))

/-- The results of successive successful calls that decode the records at
`ptr` of a partition content, one for each caller record. -/
def partitionReads (env : Env) (buf : List Byte) (lut : List (List Byte)) :
    Nat → List AlignedRead → List (Bool × AlignedRead)
  | _, [] => []
  | ptr, ar :: rest =>
    match decodeRead env buf lut ptr ar with
    | .ok (ar', ptr') => (true, ar') :: partitionReads env buf lut ptr' rest
    | .error _ => []

/-- The results of successive calls over the partitions of the file from
position `pos` on, one for each caller record. -/
def archiveReads (env : Env) (lut : List (List Byte)) (data : List Byte) :
    Nat → Nat → List AlignedRead → List (Bool × AlignedRead)
  | _, _, [] => []
  | 0, _, _ :: _ => []
  | fuel + 1, pos, ar :: rest =>
    partitionReads env (partContent env data pos) lut 0
      ((ar :: rest).take (min (partMembers data pos) (rest.length + 1)))
    ++ archiveReads env lut data fuel (partEnd data pos)
      ((ar :: rest).drop (min (partMembers data pos) (rest.length + 1)))

/-- The buffers are as long as their recorded lengths. -/
def BuffersOk (r : CAlignmentReader) : Prop :=
  r.mBuffer.length = r.mBufferLen ∧ r.mCompressionBuffer.length = r.mCompressionBufferLen

/-- The reader states that follow `r0` through successful `LoadNextRead`,
`Jump` and `Rewind` calls. -/
inductive Reachable (env : Env) (r0 : CAlignmentReader) : CAlignmentReader → Prop where
  | start : Reachable env r0 r0
  | load {r r' : CAlignmentReader} {ar ar' : AlignedRead} {b : Bool} :
      Reachable env r0 r → LoadNextRead env r ar = .ok (b, r', ar') → Reachable env r0 r'
  | jump {r r' : CAlignmentReader} {referenceIndex referencePosition : Nat} :
      Reachable env r0 r → Jump env r referenceIndex referencePosition = .ok r' →
      Reachable env r0 r'
  | rewind {r r' : CAlignmentReader} :
      Reachable env r0 r → Rewind r = .ok r' → Reachable env r0 r'

/-- What iteration depends on besides the stream position, the counters and
the buffers: the reader is open on the file `data`, and the read count, the
reads offset and the reference name table are those of `r0`; the buffers are
as long as recorded. -/
def SameArchive (r0 r : CAlignmentReader) (data : List Byte) : Prop :=
  r.mIsOpen = r0.mIsOpen ∧ r.mNumReads = r0.mNumReads ∧ r.mReadsOffset = r0.mReadsOffset ∧
  r.mRefSeqLUT = r0.mRefSeqLUT ∧ (∃ f : FILE, r.mInStream = .live f ∧ f.data = data) ∧
  BuffersOk r

/-- A partition of `k` copies of the sample read record, stored uncompressed:
uncompressed size, compressed size, member count, payload. -/
def samplePartition (k : Nat) : List Byte :=
  leBytes 4 (36 * k) ++ leBytes 4 (36 * k) ++ leBytes 2 k
    ++ (List.replicate k sampleReadBytes).flatten

/-- The read section of an archive of five reads in two partitions of 3 and 2
members. -/
def sampleArchive : List Byte := samplePartition 3 ++ samplePartition 2

/-- An open reader at the start of `sampleArchive`, with no partition loaded
and no read returned yet. -/
def sampleArchiveReader : CAlignmentReader :=
  { CAlignmentReader.ctor 0 0 0 0 1 with
    mIsOpen := true
    mInStream := .live { data := sampleArchive, pos := 0, eof := false }
    mNumReads := 5
    mRefSeqLUT := sampleLUT }

/-- A complete archive file: a 73-byte header that declares one reference
sequence, no read group and five reads, the read section `sampleArchive` at
offset 73, and at offset 273 the reference sequence "chr1" of 1000 bases. -/
def sampleFile : List Byte :=
  [77, 83, 75, 65, 65, 2] ++ [9] ++ [4, 0] ++ [1, 2, 3, 4, 5, 6, 7, 8] ++ [1, 0, 0, 0]
    ++ [0, 0, 0, 0] ++ [5, 0, 0, 0, 0, 0, 0, 0] ++ [250, 0, 0, 0, 0, 0, 0, 0]
    ++ [17, 1, 0, 0, 0, 0, 0, 0] ++ [0, 0, 0, 0, 0, 0, 0, 0] ++ [0, 0, 0, 0, 0, 0, 0, 0]
    ++ [0, 0, 0, 0, 0, 0, 0, 0]
    ++ sampleArchive
    ++ [4, 0, 0, 0] ++ [232, 3, 0, 0] ++ [5, 0, 0, 0, 0, 0, 0, 0] ++ List.replicate 32 48
    ++ [99, 104, 114, 49]

/-- The reader that `Open` leaves on `sampleFile`. -/
def sampleOpened : CAlignmentReader := openedReader freshReader "sample.aa" sampleFile

/-! ## CheckFile -/

/-- The function `strncmp(a, b, n)` on two character arrays: the difference of
the first two characters that differ among the first `n`, and 0 when there is
none or a terminating zero is met first. Running off an array is undefined. -/
def strncmp : List Byte → List Byte → Nat → Res Int
  | _, _, 0 => .ok 0
  | a :: as, b :: bs, n + 1 =>
    if a ≠ b then .ok ((a.val : Int) - (b.val : Int))
    else if a = 0 then .ok 0
    else strncmp as bs n
  | _, _, _ + 1 => .error .undefined

/-- The array `"MSKAA\2"` with its terminating zero. -/
def MOSAIK_SIGNATURE : List Byte := [77, 83, 75, 65, 65, 2, 0]

/-- The static method `CheckFile` on the file content that `fopen` finds under
`filename` (`none` when it cannot be opened). The local `char signature[7]` is
uninitialised but for its last element. -/
def CheckFile (env : Env) (file : Option (List Byte)) (showError : Bool) : Res Bool :=
  match file with
  | none =>
    -- the archive could not be opened
    if showError then .error .exit1 else .ok false
  | some data =>
    let checkStream : FILE := { data := data, pos := 0, eof := false }
    -- check if we were able to read 6 bytes
    let (bytes, _) := fread checkStream 6
    let signature := store (env.alloc 6 ++ [0]) bytes
    if bytes.length < 6 then
      if showError then .error .exit1 else .ok false
    else
      -- check if the read signatures match
      match strncmp signature MOSAIK_SIGNATURE 5 with
      | .error e => .error e
      | .ok c =>
        if c ≠ 0 then
          if showError then .error .exit1 else .ok false
        -- check if the file format is from another version
        else if MOSAIK_SIGNATURE.get? 5 ≠ signature.get? 5 then
          if showError then .error .exit1 else .ok false
        else .ok true

/-- A file that starts with the signature of version 2. -/
def sampleSignatureFile : List Byte := [77, 83, 75, 65, 65, 2, 9, 4, 0]

/-- A file that starts with the magic and the version byte 3. -/
def sampleOtherVersionFile : List Byte := [77, 83, 75, 65, 65, 3, 9, 4, 0]

/-! ## GetReadGroups and GetReferenceSequences -/

/-- The method `GetReadGroups` on the caller's vector `readGroups`: the vector
is resized to the number of read groups and the loop assigns every element of
`mReadGroups`, in turn, through `crgIter`, which stays at
`readGroups.begin()`. -/
def GetReadGroups (r : CAlignmentReader) (readGroups : List ReadGroup) : List ReadGroup :=
  let readGroups := resizeVec readGroups r.mReadGroups.length ReadGroup.ctor
  -- force a deep copy
  r.mReadGroups.foldl (fun out rg => out.set 0 rg) readGroups

/-- The method `GetReferenceSequences`: the reader's own vector. -/
def GetReferenceSequences (r : CAlignmentReader) : List ReferenceSequence :=
  r.mReferenceSequences

/-- A header that declares two read groups, followed by the two read groups:
the first with center "c", library "lb", read group ID "id", sample "s",
description "de", technology 4 and median fragment length 300, the second
with center "x", read group ID "g2", technology 1 and median fragment length
200. -/
def sampleHeaderTwoGroups : List Byte :=
  [77, 83, 75, 65, 65, 2] ++ [9] ++ [4, 0] ++ [1, 2, 3, 4, 5, 6, 7, 8] ++ [0, 0, 0, 0]
    ++ [2, 0, 0, 0] ++ [5, 0, 0, 0, 0, 0, 0, 0] ++ [250, 0, 0, 0, 0, 0, 0, 0]
    ++ [126, 0, 0, 0, 0, 0, 0, 0] ++ [0, 0, 0, 0, 0, 0, 0, 0] ++ [0, 0, 0, 0, 0, 0, 0, 0]
    ++ [0, 0, 0, 0, 0, 0, 0, 0]
    ++ [1, 2, 0, 2, 1] ++ [2, 0] ++ [4, 0] ++ [44, 1, 0, 0] ++ [0, 0, 0, 0, 0, 0, 0, 0]
    ++ [99] ++ [100, 101] ++ [108, 98] ++ [105, 100] ++ [115]
    ++ [1, 0, 0, 2, 0] ++ [0, 0] ++ [1, 0] ++ [200, 0, 0, 0] ++ [0, 0, 0, 0, 0, 0, 0, 0]
    ++ [120] ++ [103, 50]

/-- The first read group of `sampleHeaderTwoGroups`. -/
def sampleGroup1 : ReadGroup :=
  { MedianFragmentLength := 300, ReadGroupCode := 0, SequencingTechnology := 4,
    CenterName := [99], Description := [100, 101], LibraryName := [108, 98],
    PlatformUnit := [], ReadGroupID := [105, 100], SampleName := [115] }

/-- The second read group of `sampleHeaderTwoGroups`. -/
def sampleGroup2 : ReadGroup :=
  { MedianFragmentLength := 200, ReadGroupCode := 0, SequencingTechnology := 1,
    CenterName := [120], Description := [], LibraryName := [],
    PlatformUnit := [], ReadGroupID := [103, 50], SampleName := [] }

/-- A partition that declares 1 uncompressed byte, 20 compressed bytes and one
member, followed by its 20 payload bytes: the payload does not fit the
capacity, so the decompressor of `sampleEnv` fails on it. -/
def sampleBadPartition : List Byte :=
  leBytes 4 1 ++ leBytes 4 20 ++ leBytes 2 1 ++ List.replicate 20 7

/-- An open reader at the start of `sampleBadPartition`, with no partition
loaded and no read returned yet. -/
def sampleBadReader : CAlignmentReader :=
  { CAlignmentReader.ctor 0 0 0 0 1 with
    mIsOpen := true
    mInStream := .live { data := sampleBadPartition, pos := 0, eof := false }
    mNumReads := 1
    mRefSeqLUT := sampleLUT }

/-- The sample read record with the encoded reference index 65536 in its
alignment (index bytes `0, 0, 1, 0`). -/
def wideIndexReadBytes : List Byte :=
  [2, 114, 49, 7, 0, 0, 0, 0, 1, 0, 0, 0]
    ++ [10, 0, 0, 0, 13, 0, 0, 0, 0, 0, 1, 0, 40, 20, 1, 2, 0, 1, 65, 67, 65, 71, 30, 31]

/-- The sample read record with the encoded reference index 1 in its
alignment. -/
def outOfTableReadBytes : List Byte :=
  [2, 114, 49, 7, 0, 0, 0, 0, 1, 0, 0, 0]
    ++ [10, 0, 0, 0, 13, 0, 0, 0, 1, 0, 0, 0, 40, 20, 1, 2, 0, 1, 65, 67, 65, 71, 30, 31]

/-- The reader `sampleReader`, which has one reference sequence, with
`wideIndexReadBytes` in its buffer. -/
def wideIndexReader : CAlignmentReader :=
  { sampleReader with mBuffer := wideIndexReadBytes }

/-- The reader `sampleReader`, which has one reference sequence, with
`outOfTableReadBytes` in its buffer. -/
def outOfTableReader : CAlignmentReader :=
  { sampleReader with mBuffer := outOfTableReadBytes }

/-- The reference indexes of the alignments of a read, mate 1 then mate 2. -/
def referenceIndexes (ar : AlignedRead) : List Nat :=
  (ar.Mate1Alignments ++ ar.Mate2Alignments).map (·.ReferenceIndex)

/-- The head of a read record "r2" of read group 7 that declares one mate-1
alignment, without the alignment. -/
def sampleReadHead : List Byte := [2, 114, 50, 7, 0, 0, 0, 0, 1, 0, 0, 0]

/-- The read section of an archive of two reads in two partitions of one
member: the first holds the sample read record (36 bytes); the second declares
12 uncompressed bytes and holds only `sampleReadHead`, so that its record runs
past the end of the partition. -/
def sampleShortArchive : List Byte :=
  samplePartition 1
    ++ (leBytes 4 12 ++ leBytes 4 12 ++ leBytes 2 1 ++ sampleReadHead)

/-- An open reader at the start of `sampleShortArchive`, with no partition
loaded and no read returned yet. -/
def sampleShortReader : CAlignmentReader :=
  { CAlignmentReader.ctor 0 0 0 0 1 with
    mIsOpen := true
    mInStream := .live { data := sampleShortArchive, pos := 0, eof := false }
    mNumReads := 2
    mRefSeqLUT := sampleLUT }

/-- The 73-byte archive header `sampleHeader` with the number of reference
sequences set to 65536 (bytes `0, 0, 1, 0` at offset 17). -/
def sampleHeaderManyReferences : List Byte :=
  [77, 83, 75, 65, 65, 2] ++ [9] ++ [4, 0] ++ [1, 2, 3, 4, 5, 6, 7, 8] ++ [0, 0, 1, 0]
    ++ [0, 0, 0, 0] ++ [5, 0, 0, 0, 0, 0, 0, 0] ++ [250, 0, 0, 0, 0, 0, 0, 0]
    ++ [73, 0, 0, 0, 0, 0, 0, 0] ++ [0, 0, 0, 0, 0, 0, 0, 0] ++ [0, 0, 0, 0, 0, 0, 0, 0]
    ++ [0, 0, 0, 0, 0, 0, 0, 0]

/-! ## The aligned positions reader (AlignedPositionsReader.h, AlignedPositionsReader.cpp)

The class `CAlignedPositionsReader` of the C++ namespace `MosaikReadFormat`
("AP"). Its methods carry the class name here, as several share their names
with methods of `CAlignmentReader`. The headers `LargeFileSupport.h` and
`SafeFunctions.h` that it includes give `off_type`, `fseek64`, `ftell64` and
`fopen_s`, as `AlignmentReader.h` does. -/

def SIZEOF_MOSAIK_64 : Nat := 8

def ALIGNED_READ_ARCHIVE_HEADER_BYTES : Nat := 34

/-- The value of an `unsigned int` expression. -/
def u32 (n : Nat) : Nat := n % 4294967296

/-- The value of the `unsigned int` expression `a - b` for two `unsigned int`
values: the difference, or the difference plus `2^32` when `a < b`. -/
def u32sub (a b : Nat) : Nat := if b ≤ a then a - b else a + 4294967296 - b

/-- The `struct AlignedPosition`. -/
structure AlignedPosition where
  AnchorBegin : Nat
  AnchorEnd : Nat
  QueryBegin : Nat
  QueryEnd : Nat
  NumSubstitutions : Nat
  NumDeletions : Nat
  NumInsertions : Nat
  IsReverseComplement : Bool
  AnchorName : List Byte
  Anchor : List Byte
  Query : List Byte
  deriving DecidableEq, Repr

/-- The `struct HeaderStatistics`. -/
structure HeaderStatistics where
  AnchorsOffset : Nat
  ReadNamesOffset : Nat
  CurrentReadNameOffset : Nat
  Timestamp : Nat
  NumReads : Nat
  NumAnchors : Nat
  deriving DecidableEq, Repr

/-- The constructor `HeaderStatistics()`; it leaves `CurrentReadNameOffset`
indeterminate. -/
def HeaderStatistics.ctor (currentReadNameOffset : Nat) : HeaderStatistics :=
  { AnchorsOffset := 0, ReadNamesOffset := 0, CurrentReadNameOffset := currentReadNameOffset,
    Timestamp := 0, NumReads := 0, NumAnchors := 0 }

/-- The data members of `class CAlignedPositionsReader`; `mBuffer` and
`mReadBuffer` hold the bytes of the allocated arrays. -/
structure CAlignedPositionsReader where
  mStatistics : HeaderStatistics
  mIsStreamOpen : Bool
  mInStream : StreamPtr
  mBuffer : List Byte
  mBufferLen : Nat
  mReadBuffer : List Byte
  mReadBufferLen : Nat
  mCurrentReadNum : Nat
  deriving DecidableEq, Repr

/-- The open stream behind `mInStream`; using `NULL` or a closed stream is
undefined. -/
def CAlignedPositionsReader.stream (r : CAlignedPositionsReader) : Res FILE :=
  match r.mInStream with
  | .live f => .ok f
  | _ => .error .undefined

/-- The method `GetNumReads`. -/
def CAlignedPositionsReader.GetNumReads (r : CAlignedPositionsReader) : Nat :=
  r.mStatistics.NumReads

/-- The call `fread(mBuffer, 1, n, mInStream)`: the bytes transferred are
stored at the start of the buffer; transferring more than the buffer holds is
undefined. It yields the number of bytes read with the reader. -/
def CAlignedPositionsReader.freadBuffer (r : CAlignedPositionsReader) (n : Nat) :
    Res (Nat × CAlignedPositionsReader) := do
  let f ← r.stream
  let (bytes, f) := fread f n
  if bytes.length > r.mBuffer.length then .error .undefined
  else pure (bytes.length, { r with mInStream := .live f, mBuffer := store r.mBuffer bytes })

/-- The method `ParseHeader`. -/
def CAlignedPositionsReader.ParseHeader (r : CAlignedPositionsReader) :
    Res CAlignedPositionsReader := do
  -- initialize
  let bufferOffset := 6
  -- read the header from disk
  let (numBytesRead, r) ← r.freadBuffer ALIGNED_READ_ARCHIVE_HEADER_BYTES
  if numBytesRead ≠ ALIGNED_READ_ARCHIVE_HEADER_BYTES then .error .exit1
  else
    -- extract the anchors offset
    let b ← peek r.mBuffer bufferOffset SIZEOF_MOSAIK_64
    let anchorsOffset := leNat b
    let bufferOffset := u32 (bufferOffset + SIZEOF_MOSAIK_64)
    -- extract the number of anchors
    let b ← peek r.mBuffer bufferOffset SIZEOF_INT
    let numAnchors := leNat b
    let bufferOffset := u32 (bufferOffset + SIZEOF_INT)
    -- extract the number of reads
    let b ← peek r.mBuffer bufferOffset SIZEOF_MOSAIK_64
    let numReads := leNat b
    let bufferOffset := u32 (bufferOffset + SIZEOF_MOSAIK_64)
    -- extract the archive timestamp
    let b ← peek r.mBuffer bufferOffset SIZEOF_MOSAIK_64
    let timestamp := leNat b
    pure { r with mStatistics :=
      { r.mStatistics with AnchorsOffset := anchorsOffset, NumAnchors := numAnchors,
                           NumReads := numReads, Timestamp := timestamp } }

/-- The constructor `CAlignedPositionsReader(const char* filename)` on the
file content that `fopen` finds under `filename` (`none` when it cannot be
opened). -/
def CAlignedPositionsReader.ctor (env : Env) (currentReadNameOffset : Nat)
    (file : Option (List Byte)) : Res CAlignedPositionsReader :=
  -- initialize the read and index buffer
  let r : CAlignedPositionsReader :=
    { mStatistics := HeaderStatistics.ctor currentReadNameOffset
      mIsStreamOpen := false, mInStream := .null
      mBuffer := env.alloc 256, mBufferLen := 256
      mReadBuffer := env.alloc 256, mReadBufferLen := 256
      mCurrentReadNum := 0 }
  -- open the file
  match file with
  | none => .error .exit1
  | some data =>
    let r := { r with mInStream := .live { data := data, pos := 0, eof := false }
                      mIsStreamOpen := true }
    -- parse the header
    r.ParseHeader

/-- The method `CheckBufferSize` of the aligned positions reader. -/
def CAlignedPositionsReader.CheckBufferSize (env : Env) (r : CAlignedPositionsReader)
    (requestedBytes : Nat) : CAlignedPositionsReader :=
  if requestedBytes > r.mBufferLen then
    let bufferLen := u32 (requestedBytes + 10)
    { r with mBufferLen := bufferLen, mBuffer := env.alloc bufferLen }
  else r

/-- The method `CheckReadBufferSize`. -/
def CAlignedPositionsReader.CheckReadBufferSize (env : Env) (r : CAlignedPositionsReader)
    (requestedBytes : Nat) : CAlignedPositionsReader :=
  if requestedBytes > r.mReadBufferLen then
    let readBufferLen := u32 (requestedBytes + 10)
    { r with mReadBufferLen := readBufferLen, mReadBuffer := env.alloc readBufferLen }
  else r

/-- The call `memcpy(dst, src, n)` into the start of the array `dst`, for the
`n` source bytes `src`; writing past the array is undefined. -/
def memcpyTo (dst src : List Byte) : Res (List Byte) :=
  if src.length ≤ dst.length then .ok (store dst src) else .error .undefined

/-- The assignment `array[i] = 0`; an index outside the array is undefined. -/
def setZero (array : List Byte) (i : Nat) : Res (List Byte) :=
  if i < array.length then .ok (array.set i 0) else .error .undefined

/-- The `std::string` that the assignment `s = array` makes from a character
array: the bytes before the first zero byte; an array without a zero byte is
read past its end, which is undefined. -/
def cstr (array : List Byte) : Res (List Byte) :=
  if (0 : Byte) ∈ array then .ok (array.takeWhile (fun b => decide (b ≠ 0)))
  else .error .undefined

/-- The statements `memcpy(mReadBuffer, mBuffer + bufferOffset, n);
mReadBuffer[n] = 0; s = mReadBuffer;` of `LoadNextRead`: the reader
afterwards and the string `s`. -/
def CAlignedPositionsReader.extractString (r : CAlignedPositionsReader)
    (bufferOffset n : Nat) : Res (CAlignedPositionsReader × List Byte) := do
  let src ← peek r.mBuffer bufferOffset n
  let readBuffer ← memcpyTo r.mReadBuffer src
  let readBuffer ← setZero readBuffer n
  let s ← cstr readBuffer
  pure ({ r with mReadBuffer := readBuffer }, s)

/-- One iteration of the loop "extract all of the aligned positions" of
`LoadNextRead`, with `bufferOffset` at the start of the position record: the
position, the reader and `bufferOffset` afterwards. -/
def CAlignedPositionsReader.readPosition (env : Env) (r : CAlignedPositionsReader)
    (bufferOffset : Nat) : Res (AlignedPosition × CAlignedPositionsReader × Nat) := do
  -- extract the anchor start
  let b ← peek r.mBuffer bufferOffset SIZEOF_INT
  let anchorBegin := leNat b
  let bufferOffset := u32 (bufferOffset + SIZEOF_INT)
  -- extract the anchor end
  let b ← peek r.mBuffer bufferOffset SIZEOF_INT
  let anchorEnd := leNat b
  let bufferOffset := u32 (bufferOffset + SIZEOF_INT)
  -- extract the query start
  let b ← peek r.mBuffer bufferOffset SIZEOF_SHORT
  let queryBegin := leNat b
  let bufferOffset := u32 (bufferOffset + SIZEOF_SHORT)
  -- extract the query end
  let b ← peek r.mBuffer bufferOffset SIZEOF_SHORT
  let queryEnd := leNat b
  let bufferOffset := u32 (bufferOffset + SIZEOF_SHORT)
  -- set the reverse complement flag
  let b ← peek r.mBuffer bufferOffset 1
  let isReverseComplement : Bool := if leNat b = 1 then true else false
  let bufferOffset := u32 (bufferOffset + 1)
  -- extract the number of substitutions
  let b ← peek r.mBuffer bufferOffset SIZEOF_SHORT
  let numSubstitutions := leNat b
  let bufferOffset := u32 (bufferOffset + SIZEOF_SHORT)
  -- extract the number of insertions
  let b ← peek r.mBuffer bufferOffset SIZEOF_SHORT
  let numInsertions := leNat b
  let bufferOffset := u32 (bufferOffset + SIZEOF_SHORT)
  -- extract the number of deletions
  let b ← peek r.mBuffer bufferOffset SIZEOF_SHORT
  let numDeletions := leNat b
  let bufferOffset := u32 (bufferOffset + SIZEOF_SHORT)
  -- extract the pairwise length
  let b ← peek r.mBuffer bufferOffset SIZEOF_SHORT
  let pairwiseLength := leNat b
  let bufferOffset := u32 (bufferOffset + SIZEOF_SHORT)
  -- extract the anchor
  let r := r.CheckReadBufferSize env pairwiseLength
  let (r, anchor) ← r.extractString bufferOffset pairwiseLength
  let bufferOffset := u32 (bufferOffset + pairwiseLength)
  -- extract the query
  let (r, query) ← r.extractString bufferOffset pairwiseLength
  let bufferOffset := u32 (bufferOffset + pairwiseLength)
  pure ({ AnchorBegin := anchorBegin, AnchorEnd := anchorEnd, QueryBegin := queryBegin,
          QueryEnd := queryEnd, NumSubstitutions := numSubstitutions,
          NumDeletions := numDeletions, NumInsertions := numInsertions,
          IsReverseComplement := isReverseComplement, AnchorName := [],
          Anchor := anchor, Query := query }, r, bufferOffset)

/-- The loop "extract all of the aligned positions" of `LoadNextRead` for `n`
remaining iterations: each position is appended to `positions`. -/
def CAlignedPositionsReader.readPositions (env : Env) :
    Nat → CAlignedPositionsReader → Nat → List AlignedPosition →
      Res (List AlignedPosition × CAlignedPositionsReader × Nat)
  | 0, r, bufferOffset, positions => .ok (positions, r, bufferOffset)
  | n + 1, r, bufferOffset, positions =>
    match r.readPosition env bufferOffset with
    | .error e => .error e
    | .ok (arp, r, bufferOffset) =>
      -- add the structure to the vector
      CAlignedPositionsReader.readPositions env n r bufferOffset (positions ++ [arp])

/-- The part of `LoadNextRead` from "extract the read name length" to the end
of the loop over the aligned positions, on the block that `mBuffer` holds: the
reader afterwards, the positions and the read name. -/
def CAlignedPositionsReader.decodeEntry (env : Env) (r : CAlignedPositionsReader)
    (numAlignedPositions : Nat) (positions : List AlignedPosition) :
    Res (CAlignedPositionsReader × List AlignedPosition × List Byte) := do
  -- extract the read name length
  let bufferOffset := 0
  let b ← peek r.mBuffer bufferOffset 1
  let readNameLength := leNat b
  let bufferOffset := u32 (bufferOffset + 1)
  -- extract the read name
  let r := r.CheckReadBufferSize env readNameLength
  let (r, readName) ← r.extractString bufferOffset readNameLength
  let bufferOffset := u32 (bufferOffset + readNameLength)
  -- extract all of the aligned positions
  let (positions, r, _) ←
    CAlignedPositionsReader.readPositions env numAlignedPositions r bufferOffset positions
  pure (r, positions, readName)

/-- The part of `LoadNextRead` that reads a record from the stream: the
10-byte prefix and then the rest of the entry into `mBuffer`. It yields the
reader, the number of aligned positions and the read length. -/
def CAlignedPositionsReader.readEntry (env : Env) (r : CAlignedPositionsReader) :
    Res (CAlignedPositionsReader × Nat × Nat) := do
  -- get the number of aligned fragments & read length
  let (numBytesRead, r) ← r.freadBuffer 10
  if numBytesRead ≠ 10 then .error .exit1
  else
    -- extract the entry size
    let b ← peek r.mBuffer 0 SIZEOF_INT
    let entrySize := leNat b
    let bufferOffset := SIZEOF_INT
    -- extract the number of aligned positions
    let b ← peek r.mBuffer bufferOffset SIZEOF_INT
    let numAlignedPositions := leNat b
    let bufferOffset := u32 (bufferOffset + SIZEOF_INT)
    -- extract the read length
    let b ← peek r.mBuffer bufferOffset SIZEOF_SHORT
    let readLength := leNat b
    -- make sure our buffer size is large enough
    let entryBytesLeft := u32sub entrySize 10
    let r := r.CheckBufferSize env entryBytesLeft
    -- get the rest of the entry data
    let (numBytesRead, r) ← r.freadBuffer entryBytesLeft
    if numBytesRead ≠ entryBytesLeft then .error .exit1
    else pure (r, numAlignedPositions, readLength)

/-- The method `LoadNextRead` of the aligned positions reader: the value
returned, the reader afterwards and the three output arguments afterwards. -/
def CAlignedPositionsReader.LoadNextRead (env : Env) (r : CAlignedPositionsReader)
    (positions : List AlignedPosition) (readLength : Nat) (readName : List Byte) :
    Res (Bool × CAlignedPositionsReader × List AlignedPosition × Nat × List Byte) :=
  -- have we already read our reads?
  if r.mCurrentReadNum ≥ r.mStatistics.NumReads then
    .ok (false, r, positions, readLength, readName)
  else
    -- clear our vector
    let positions : List AlignedPosition := []
    match r.readEntry env with
    | .error e => .error e
    | .ok (r, numAlignedPositions, readLength) =>
      match r.decodeEntry env numAlignedPositions positions with
      | .error e => .error e
      | .ok (r, positions, readName) =>
        -- increment our read counter
        let r := { r with mCurrentReadNum := (r.mCurrentReadNum + 1) % 2 ^ 64 }
        .ok (true, r, positions, readLength, readName)

/-- A read record of the aligned positions archive: entry size 40, one aligned
position, read length 50, name "r1", then the position with anchor 10..60,
query 0..49, forward strand, 1 substitution, 2 insertions, 3 deletions,
pairwise length 3, anchor "ACG" and query "A-G". -/
def sampleAPRecord : List Byte :=
  leBytes 4 40 ++ leBytes 4 1 ++ leBytes 2 50 ++ [2, 114, 49]
    ++ leBytes 4 10 ++ leBytes 4 60 ++ leBytes 2 0 ++ leBytes 2 49 ++ [0]
    ++ leBytes 2 1 ++ leBytes 2 2 ++ leBytes 2 3 ++ leBytes 2 3
    ++ [65, 67, 71] ++ [65, 45, 71]

/-- An aligned positions archive: the signature, anchors offset 74, one
anchor, one read, timestamp 12345, the record `sampleAPRecord`, and at offset
74 the anchor "chr1" of length 1000 from 0 to 999. -/
def sampleAPFile : List Byte :=
  [77, 83, 75, 65, 82, 0] ++ leBytes 8 74 ++ leBytes 4 1 ++ leBytes 8 1 ++ leBytes 8 12345
    ++ sampleAPRecord
    ++ ([4, 99, 104, 114, 49] ++ leBytes 4 1000 ++ leBytes 4 0 ++ leBytes 4 999)

/-- The position of `sampleAPRecord`. -/
def sampleAPPosition : AlignedPosition :=
  { AnchorBegin := 10, AnchorEnd := 60, QueryBegin := 0, QueryEnd := 49,
    NumSubstitutions := 1, NumDeletions := 3, NumInsertions := 2,
    IsReverseComplement := false, AnchorName := [], Anchor := [65, 67, 71],
    Query := [65, 45, 71] }

/-- The record `sampleAPRecord` with the name bytes `65, 0, 66` (entry size
41). -/
def sampleAPRecordZeroName : List Byte :=
  leBytes 4 41 ++ leBytes 4 1 ++ leBytes 2 50 ++ [3, 65, 0, 66]
    ++ leBytes 4 10 ++ leBytes 4 60 ++ leBytes 2 0 ++ leBytes 2 49 ++ [0]
    ++ leBytes 2 1 ++ leBytes 2 2 ++ leBytes 2 3 ++ leBytes 2 3
    ++ [65, 67, 71] ++ [65, 45, 71]

/-- An aligned positions archive of one read whose record is
`sampleAPRecordZeroName`. -/
def sampleAPFileZeroName : List Byte :=
  [77, 83, 75, 65, 82, 0] ++ leBytes 8 75 ++ leBytes 4 0 ++ leBytes 8 1 ++ leBytes 8 12345
    ++ sampleAPRecordZeroName

/-! ## Layout of an aligned positions record

Offsets are relative to the block of `entry_size - 10` bytes that follows the
10-byte prefix of a read record. -/

/-- The bytes of a string field before its first zero byte: what a
`std::string` assigned from the zero-terminated copy of the field holds. -/
def untilZero (s : List Byte) : List Byte :=
  s.takeWhile (fun b => decide (b ≠ 0))

/-- The encoded pairwise length of the position record at `off`. -/
def apPairwiseLength (block : List Byte) (off : Nat) : Nat :=
  leNat (slice block (off + 19) 2)

/-- The number of bytes of the position record at `off`: 21 bytes of fixed
fields and the two pairwise strings. -/
def positionBytes (block : List Byte) (off : Nat) : Nat :=
  21 + apPairwiseLength block off + apPairwiseLength block off

/-- The position decoded from the record at `off`: anchor begin (4), anchor
end (4), query begin (2), query end (2), reverse complement flag (1),
substitutions (2), insertions (2), deletions (2), pairwise length (2), anchor
string, query string. -/
def decodedPosition (block : List Byte) (off : Nat) : AlignedPosition :=
  { AnchorBegin := leNat (slice block off 4)
    AnchorEnd := leNat (slice block (off + 4) 4)
    QueryBegin := leNat (slice block (off + 8) 2)
    QueryEnd := leNat (slice block (off + 10) 2)
    IsReverseComplement := if leNat (slice block (off + 12) 1) = 1 then true else false
    NumSubstitutions := leNat (slice block (off + 13) 2)
    NumInsertions := leNat (slice block (off + 15) 2)
    NumDeletions := leNat (slice block (off + 17) 2)
    AnchorName := []
    Anchor := untilZero (slice block (off + 21) (apPairwiseLength block off))
    Query := untilZero (slice block (off + 21 + apPairwiseLength block off)
      (apPairwiseLength block off)) }

/-- The offset after `n` consecutive position records starting at `off`. -/
def positionsEnd (block : List Byte) : Nat → Nat → Nat
  | off, 0 => off
  | off, n + 1 => positionsEnd block (off + positionBytes block off) n

/-- The positions decoded from `n` consecutive position records starting at
`off`. -/
def decodedPositions (block : List Byte) : Nat → Nat → List AlignedPosition
  | _, 0 => []
  | off, n + 1 =>
    decodedPosition block off :: decodedPositions block (off + positionBytes block off) n

/-- The length of the string scratch buffer after `CheckReadBufferSize` for a
string of `n` bytes, when it was `len` before. -/
def readBufferLenAfter (len n : Nat) : Nat :=
  if n > len then n + 10 else len

/-- Whether `n` consecutive position records starting at `off` lie inside the
block and each pairwise length differs from the length `len` that the string
scratch buffer has when the record is reached. -/
def positionsFit (block : List Byte) : Nat → Nat → Nat → Bool
  | _, 0, _ => true
  | off, n + 1, len =>
    decide (off + positionBytes block off ≤ block.length) &&
    decide (apPairwiseLength block off ≠ len) &&
    positionsFit block (off + positionBytes block off) n
      (readBufferLenAfter len (apPairwiseLength block off))

/-- The length of the string scratch buffer after `n` consecutive position
records starting at `off`, when it was `len` before. -/
def readBufferLenEnd (block : List Byte) : Nat → Nat → Nat → Nat
  | _, 0, len => len
  | off, n + 1, len =>
    readBufferLenEnd block (off + positionBytes block off) n
      (readBufferLenAfter len (apPairwiseLength block off))

/-- The encoded read name length of the block. -/
def apNameLen (block : List Byte) : Nat := leNat (slice block 0 1)

/-- A well-formed block with `n` positions: the name length byte, the name
and the position records lie inside the block; `len` is the length of the
string scratch buffer. -/
def blockFits (block : List Byte) (n len : Nat) : Bool :=
  decide (1 + apNameLen block ≤ block.length) &&
  positionsFit block (1 + apNameLen block) n len

/-- The entry size of the read record at file position `pos`. -/
def apEntrySize (data : List Byte) (pos : Nat) : Nat := leNat (slice data pos 4)

/-- The number of aligned positions of the read record at `pos`. -/
def apNumPositions (data : List Byte) (pos : Nat) : Nat := leNat (slice data (pos + 4) 4)

/-- The read length of the read record at `pos`. -/
def apReadLength (data : List Byte) (pos : Nat) : Nat := leNat (slice data (pos + 8) 2)

/-- The block of `entry_size - 10` bytes that follows the 10-byte prefix of
the read record at `pos`. -/
def apBlock (data : List Byte) (pos : Nat) : List Byte :=
  slice data (pos + 10) (apEntrySize data pos - 10)

/-- A well-formed read record at file position `pos`: its entry size is at
least 10, the record lies inside the file, and its contents fit the block;
`len` is the length of the string scratch buffer. -/
def apRecordFits (data : List Byte) (pos len : Nat) : Bool :=
  decide (10 ≤ apEntrySize data pos) &&
  decide (pos + apEntrySize data pos ≤ data.length) &&
  blockFits (apBlock data pos) (apNumPositions data pos) len

/-- The length of the string scratch buffer after the read record at `pos`
has been decoded, when it was `len` before. -/
def apReadBufferLenNext (data : List Byte) (pos len : Nat) : Nat :=
  readBufferLenEnd (apBlock data pos) (1 + apNameLen (apBlock data pos))
    (apNumPositions data pos) len

/-- The reader is ready to read from the open stream `f`: its buffers are as
long as recorded, with at least 10 and 256 bytes, as the constructor leaves
them. -/
def APReady (r : CAlignedPositionsReader) (f : FILE) : Prop :=
  r.mInStream = .live f ∧ r.mBuffer.length = r.mBufferLen ∧ 10 ≤ r.mBufferLen ∧
  r.mReadBuffer.length = r.mReadBufferLen ∧ 256 ≤ r.mReadBufferLen

/-- The read record `sampleAPRecord` with the pairwise strings `65, 0, 71` and
`65, 45, 71`. -/
def sampleAPRecordZeroAnchor : List Byte :=
  leBytes 4 40 ++ leBytes 4 1 ++ leBytes 2 50 ++ [2, 114, 49]
    ++ leBytes 4 10 ++ leBytes 4 60 ++ leBytes 2 0 ++ leBytes 2 49 ++ [0]
    ++ leBytes 2 1 ++ leBytes 2 2 ++ leBytes 2 3 ++ leBytes 2 3
    ++ [65, 0, 71] ++ [65, 45, 71]

/-- An aligned positions archive of one read whose record is
`sampleAPRecordZeroAnchor`. -/
def sampleAPFileZeroAnchor : List Byte :=
  [77, 83, 75, 65, 82, 0] ++ leBytes 8 74 ++ leBytes 4 0 ++ leBytes 8 1 ++ leBytes 8 12345
    ++ sampleAPRecordZeroAnchor

/-- The reader that the constructor leaves on `sampleAPFile`. -/
def sampleAPReader : CAlignedPositionsReader :=
  { mStatistics :=
      { AnchorsOffset := 74, ReadNamesOffset := 0, CurrentReadNameOffset := 0,
        Timestamp := 12345, NumReads := 1, NumAnchors := 1 }
    mIsStreamOpen := true
    mInStream := .live { data := sampleAPFile, pos := 34, eof := false }
    mBuffer := store (sampleEnv.alloc 256) (slice sampleAPFile 0 34)
    mBufferLen := 256
    mReadBuffer := sampleEnv.alloc 256
    mReadBufferLen := 256
    mCurrentReadNum := 0 }

/-! ## Ordering of aligned positions and the signature check -/

/-- The `operator<` of `AlignedPosition`: `self < ar`. -/
def AlignedPosition.lt (self ar : AlignedPosition) : Bool :=
  if self.AnchorBegin ≠ ar.AnchorBegin then decide (self.AnchorBegin < ar.AnchorBegin)
  else if self.QueryBegin ≠ ar.QueryBegin then decide (self.QueryBegin < ar.QueryBegin)
  else self.IsReverseComplement

/-- The position `sampleAPPosition` on the reverse strand. -/
def sampleAPPositionReverse : AlignedPosition :=
  { sampleAPPosition with IsReverseComplement := true }

/-- The array `"MSKAR\0"` of `CheckMosaikAlignedReadArchive`, with its
terminating zero. -/
def MOSAIK_SIGNATURE_AR : List Byte := [77, 83, 75, 65, 82, 0, 0]

/-- The static method `CheckMosaikAlignedReadArchive` on the file content that
`fopen` finds under `filename` (`none` when it cannot be opened). The local
`char signature[7]` is uninitialised but for its last element, and the result
of `fread` is not looked at. -/
def CheckMosaikAlignedReadArchive (env : Env) (file : Option (List Byte))
    (exitOnError : Bool) : Res Bool :=
  match file with
  | none =>
    if exitOnError then .error .exit1 else .ok false
  | some data =>
    let checkStream : FILE := { data := data, pos := 0, eof := false }
    -- retrieve the Mosaik aligned read report signature
    let (bytes, _) := fread checkStream 6
    let signature := store (env.alloc 6 ++ [0]) bytes
    -- check if the read signatures match
    match strncmp signature MOSAIK_SIGNATURE_AR 6 with
    | .error e => .error e
    | .ok c =>
      if c ≠ 0 then
        if exitOnError then .error .exit1 else .ok false
      else .ok true

/-- A file that starts with `MSKAP\0`. -/
def sampleSignatureAP : List Byte := [77, 83, 75, 65, 80, 0, 9, 4, 0]

/-! ## The anchor table of the aligned positions reader -/

def ALIGNED_READ_ARCHIVE_ANCHOR_BYTES : Nat := 13

/-- The `struct Anchor`. -/
structure Anchor where
  Name : List Byte
  Length : Nat
  Begin : Nat
  End : Nat
  deriving DecidableEq, Repr

/-- One iteration of the loop "copy all of the anchors" of `LoadAnchors`: the
anchor and the reader afterwards. The scratch buffer is not resized for the
`numBytes` of the anchor. -/
def CAlignedPositionsReader.readAnchor (r : CAlignedPositionsReader) :
    Res (Anchor × CAlignedPositionsReader) := do
  let f ← r.stream
  -- get the anchor name length
  let (anchorNameLength, f) := freadInt 0 1 f
  let r := { r with mInStream := .live f }
  -- calculate how many bytes we need
  let numBytes := u32 ((ALIGNED_READ_ARCHIVE_ANCHOR_BYTES - 1) + anchorNameLength)
  -- retrieve the anchor from disk
  let (numBytesRead, r) ← r.freadBuffer numBytes
  if numBytesRead ≠ numBytes then .error .exit1
  else
    -- extract the anchor length
    let bufferOffset := anchorNameLength
    let b ← peek r.mBuffer bufferOffset SIZEOF_INT
    let anchorLength := leNat b
    let bufferOffset := u32 (bufferOffset + SIZEOF_INT)
    -- extract the anchor start position
    let b ← peek r.mBuffer bufferOffset SIZEOF_INT
    let anchorBegin := leNat b
    let bufferOffset := u32 (bufferOffset + SIZEOF_INT)
    -- extract the anchor end position
    let b ← peek r.mBuffer bufferOffset SIZEOF_INT
    let anchorEnd := leNat b
    -- extract the anchor name
    let buffer ← setZero r.mBuffer anchorNameLength
    let name ← cstr buffer
    pure ({ Name := name, Length := anchorLength, Begin := anchorBegin, End := anchorEnd },
          { r with mBuffer := buffer })

/-- The loop "copy all of the anchors" of `LoadAnchors` for `n` remaining
iterations: each anchor is appended to `anchors`. -/
def CAlignedPositionsReader.readAnchors :
    Nat → CAlignedPositionsReader → List Anchor → Res (List Anchor × CAlignedPositionsReader)
  | 0, r, anchors => .ok (anchors, r)
  | n + 1, r, anchors =>
    match r.readAnchor with
    | .error e => .error e
    | .ok (a, r) =>
      -- add the structure to the vector
      CAlignedPositionsReader.readAnchors n r (anchors ++ [a])

/-- The effect of `v.clear()` on a `std::vector`. -/
def clear {α : Type} (_ : List α) : List α := []

/-- The method `LoadAnchors`: the reader and the caller's vector afterwards. -/
def CAlignedPositionsReader.LoadAnchors (r : CAlignedPositionsReader) (anchors : List Anchor) :
    Res (CAlignedPositionsReader × List Anchor) := do
  let f ← r.stream
  -- grab the current offset so we can restore it later
  let previousOffset := ftell64 f
  -- jump to the anchors offset
  let r := { r with mInStream := .live (fseek64_SET f r.mStatistics.AnchorsOffset) }
  -- clear our vector
  let anchors := clear anchors
  -- copy all of the anchors
  let (anchors, r) ← CAlignedPositionsReader.readAnchors r.mStatistics.NumAnchors r anchors
  -- restore the previous offset
  let f ← r.stream
  pure ({ r with mInStream := .live (fseek64_SET f previousOffset) }, anchors)

/-! ## Layout of the anchor table -/

/-- The encoded name length of the anchor record at file position `pos`. -/
def anchorNameLen (data : List Byte) (pos : Nat) : Nat := leNat (slice data pos 1)

/-- The number of bytes of the anchor record at `pos`: the name length byte,
the name and three 4-byte integers. -/
def anchorBytes (data : List Byte) (pos : Nat) : Nat := 13 + anchorNameLen data pos

/-- The anchor decoded from the record at `pos`: 1-byte name length, the name,
4-byte length, 4-byte begin, 4-byte end. The name is the name field up to its
first zero byte. -/
def decodedAnchor (data : List Byte) (pos : Nat) : Anchor :=
  { Name := untilZero (slice data (pos + 1) (anchorNameLen data pos))
    Length := leNat (slice data (pos + 1 + anchorNameLen data pos) 4)
    Begin := leNat (slice data (pos + 1 + anchorNameLen data pos + 4) 4)
    End := leNat (slice data (pos + 1 + anchorNameLen data pos + 8) 4) }

/-- The file position after `n` consecutive anchor records starting at `pos`. -/
def anchorsEnd (data : List Byte) : Nat → Nat → Nat
  | pos, 0 => pos
  | pos, n + 1 => anchorsEnd data (pos + anchorBytes data pos) n

/-- The anchors decoded from `n` consecutive anchor records starting at
`pos`. -/
def decodedAnchors (data : List Byte) : Nat → Nat → List Anchor
  | _, 0 => []
  | pos, n + 1 => decodedAnchor data pos :: decodedAnchors data (pos + anchorBytes data pos) n

/-- Whether `n` consecutive anchor records starting at `pos` lie inside the
file and each fits, after its name length byte, a scratch buffer of `len`
bytes. -/
def anchorsFit (data : List Byte) (len : Nat) : Nat → Nat → Bool
  | _, 0 => true
  | pos, n + 1 =>
    decide (pos + anchorBytes data pos ≤ data.length) &&
    decide (12 + anchorNameLen data pos ≤ len) &&
    anchorsFit data len (pos + anchorBytes data pos) n

/-- The archive `sampleAPFile` with the anchor name bytes `99, 0, 114, 49`. -/
def sampleAPFileZeroAnchorName : List Byte :=
  [77, 83, 75, 65, 82, 0] ++ leBytes 8 74 ++ leBytes 4 1 ++ leBytes 8 1 ++ leBytes 8 12345
    ++ sampleAPRecord
    ++ ([4, 99, 0, 114, 49] ++ leBytes 4 1000 ++ leBytes 4 0 ++ leBytes 4 999)

/-- An archive of one read and one anchor whose read record declares the
entry size 11 and one aligned position but holds, after the prefix, only the
name length byte 0: the position is decoded from what the scratch buffer held
before. The anchor "chr1" has length 1000, begin 16843009 and end 999. -/
def sampleAPFileShortRecord : List Byte :=
  [77, 83, 75, 65, 82, 0] ++ leBytes 8 45 ++ leBytes 4 1 ++ leBytes 8 1 ++ leBytes 8 12345
    ++ (leBytes 4 11 ++ leBytes 4 1 ++ leBytes 2 5 ++ [0])
    ++ ([4, 99, 104, 114, 49] ++ leBytes 4 1000 ++ leBytes 4 16843009 ++ leBytes 4 999)

/-- The return value and the three outputs of a `LoadNextRead` call. -/
def apOutputs (x : Bool × CAlignedPositionsReader × List AlignedPosition × Nat × List Byte) :
    Bool × List AlignedPosition × Nat × List Byte :=
  (x.1, x.2.2)

/-! ## Iterating the aligned positions reader -/

/-- The return values of `k` successive calls of `LoadNextRead`, with the
reader after the last one. -/
def CAlignedPositionsReader.loadReads (env : Env) :
    Nat → CAlignedPositionsReader → Res (List Bool × CAlignedPositionsReader)
  | 0, r => .ok ([], r)
  | k + 1, r =>
    match r.LoadNextRead env [] 0 [] with
    | .error e => .error e
    | .ok (b, r, _) =>
      match CAlignedPositionsReader.loadReads env k r with
      | .error e => .error e
      | .ok (bs, r) => .ok (b :: bs, r)

/-- Whether `n` consecutive well-formed read records start at file position
`pos`; `len` is the length of the string scratch buffer at the first one. -/
def apArchiveFits (data : List Byte) : Nat → Nat → Nat → Bool
  | _, 0, _ => true
  | pos, n + 1, len =>
    apRecordFits data pos len &&
    apArchiveFits data (pos + apEntrySize data pos) n (apReadBufferLenNext data pos len)

/-- The archive `sampleAPFile` cut after the first 5 bytes of its read
record. -/
def sampleAPFileCutPrefix : List Byte := sampleAPFile.take 39

/-- The archive `sampleAPFile` cut after the first 20 bytes of its read
record. -/
def sampleAPFileCutBody : List Byte := sampleAPFile.take 54

/-- An archive of no read and one anchor whose name has 245 bytes, so that
the anchor record holds 257 bytes after its name length byte. -/
def sampleAPFileLongAnchorName : List Byte :=
  [77, 83, 75, 65, 82, 0] ++ leBytes 8 34 ++ leBytes 4 1 ++ leBytes 8 0 ++ leBytes 8 12345
    ++ ([245] ++ List.replicate 245 65 ++ leBytes 4 1000 ++ leBytes 4 0 ++ leBytes 4 999)

/-! ## Samples for the scratch buffer, the partition counters and the caller's record -/

/-- The reader that the constructor leaves on `sampleAPFileLongAnchorName`:
the stream at offset 34, where the anchor table starts, and both buffers of
256 bytes. -/
def sampleLongAnchorReader : CAlignedPositionsReader :=
  { mStatistics :=
      { AnchorsOffset := 34, ReadNamesOffset := 0, CurrentReadNameOffset := 0,
        Timestamp := 12345, NumReads := 0, NumAnchors := 1 }
    mIsStreamOpen := true
    mInStream := .live { data := sampleAPFileLongAnchorName, pos := 34, eof := false }
    mBuffer := store (sampleEnv.alloc 256) (slice sampleAPFileLongAnchorName 0 34)
    mBufferLen := 256
    mReadBuffer := sampleEnv.alloc 256
    mReadBufferLen := 256
    mCurrentReadNum := 0 }

/-- A partition that declares no member and holds, stored uncompressed, the
sample read record. -/
def sampleEmptyPartition : List Byte :=
  leBytes 4 36 ++ leBytes 4 36 ++ leBytes 2 0 ++ sampleReadBytes

/-- A complete archive file: a 73-byte header that declares one reference
sequence, no read group and one read, the read section `sampleEmptyPartition`
at offset 73, and at offset 119 the reference sequence "chr1" of 1000 bases. -/
def sampleFileEmptyPartition : List Byte :=
  [77, 83, 75, 65, 65, 2] ++ [9] ++ [4, 0] ++ [1, 2, 3, 4, 5, 6, 7, 8] ++ [1, 0, 0, 0]
    ++ [0, 0, 0, 0] ++ [1, 0, 0, 0, 0, 0, 0, 0] ++ [50, 0, 0, 0, 0, 0, 0, 0]
    ++ [119, 0, 0, 0, 0, 0, 0, 0] ++ [0, 0, 0, 0, 0, 0, 0, 0] ++ [0, 0, 0, 0, 0, 0, 0, 0]
    ++ [0, 0, 0, 0, 0, 0, 0, 0]
    ++ sampleEmptyPartition
    ++ [4, 0, 0, 0] ++ [232, 3, 0, 0] ++ [5, 0, 0, 0, 0, 0, 0, 0] ++ List.replicate 32 48
    ++ [99, 104, 114, 49]

/-- A caller's record that still holds a previous read "r0" with one mate-1
alignment carrying mate information: mate reference 100..200 on reference
3. -/
def sampleStaleRead : AlignedRead :=
  { ReadGroupCode := 7, Name := [114, 48]
    Mate1Alignments :=
      [{ Alignment.ctor default with
          MateReferenceBegin := 100, MateReferenceEnd := 200, MateReferenceIndex := 3 }]
    Mate2Alignments := [], IsLongRead := false }

/-- The mate reference begin, end and index of each mate-1 alignment of a
read. -/
def mateFields (ar : AlignedRead) : List (Nat × Nat × Nat) :=
  ar.Mate1Alignments.map (fun a => (a.MateReferenceBegin, a.MateReferenceEnd, a.MateReferenceIndex))

/-- A partition of one member that declares 30 uncompressed bytes and holds
the first 30 bytes of the sample read record: the record runs 6 bytes past the
end of the partition. -/
def sampleCutPartition : List Byte :=
  leBytes 4 30 ++ leBytes 4 30 ++ leBytes 2 1 ++ sampleReadBytes.take 30

/-- A complete archive file: a 73-byte header that declares one reference
sequence, no read group and two reads, the read section with
`sampleCutPartition` at offset 73 and a partition with the whole sample read
record at offset 113, and at offset 159 the reference sequence "chr1" of 1000
bases. -/
def sampleFileCutPartition : List Byte :=
  [77, 83, 75, 65, 65, 2] ++ [9] ++ [4, 0] ++ [1, 2, 3, 4, 5, 6, 7, 8] ++ [1, 0, 0, 0]
    ++ [0, 0, 0, 0] ++ [2, 0, 0, 0, 0, 0, 0, 0] ++ [100, 0, 0, 0, 0, 0, 0, 0]
    ++ [159, 0, 0, 0, 0, 0, 0, 0] ++ [0, 0, 0, 0, 0, 0, 0, 0] ++ [0, 0, 0, 0, 0, 0, 0, 0]
    ++ [0, 0, 0, 0, 0, 0, 0, 0]
    ++ sampleCutPartition ++ samplePartition 1
    ++ [4, 0, 0, 0] ++ [232, 3, 0, 0] ++ [5, 0, 0, 0, 0, 0, 0, 0] ++ List.replicate 32 48
    ++ [99, 104, 114, 49]

/-- The return value of a `LoadNextRead` call with the name of the read and,
for each of its mate-1 alignments, the pairwise reference followed by the
pairwise query and the base qualities. -/
def readStrings (x : Bool × CAlignmentReader × AlignedRead) :
    Bool × List Byte × List (List Byte) :=
  (x.1, x.2.2.Name, x.2.2.Mate1Alignments.map (fun a => a.Reference ++ a.Query ++ a.BaseQualities))
theorem peek_ok (buf : List Byte) (ptr n : Nat) (h : ptr + n ≤ buf.length) :
    peek buf ptr n = .ok (slice buf ptr n) := by
  simp [peek, h]

theorem peek_undefined (buf : List Byte) (ptr n : Nat) (h : buf.length < ptr + n) :
    peek buf ptr n = .error .undefined := by
  simp [peek, Nat.not_le.mpr h]

theorem length_slice (buf : List Byte) (off n : Nat) (h : off + n ≤ buf.length) :
    (slice buf off n).length = n := by
  simp only [slice, List.length_take, List.length_drop]; omega

theorem ReadAlignment_eq (buf : List Byte) (lut : List (List Byte)) (ptr : Nat)
    (al : Alignment) (isLongRead hasMateInfo : Bool) (name : List Byte)
    (hname : lut.get? (leNat (slice buf (ptr + 8) 4) % 65536) = some name)
    (hfit : ptr + alignmentBytes buf ptr isLongRead hasMateInfo ≤ buf.length) :
    ReadAlignment buf lut ptr al isLongRead hasMateInfo
      = .ok (decodedAlignment buf ptr al name isLongRead hasMateInfo,
             ptr + alignmentBytes buf ptr isLongRead hasMateInfo) := by
  cases isLongRead <;> cases hasMateInfo <;>
  · simp only [alignmentBytes, mateBytes, queryWidth, bqLengthAt, encQueryEnd, encQueryBegin,
      encPairwiseLength, Bool.false_eq_true, if_false, if_true, Nat.add_zero, Nat.add_assoc,
      Nat.reduceAdd] at hfit
    simp only [ReadAlignment, SIZEOF_INT, SIZEOF_SHORT, bind, Except.bind, pure, Except.pure,
      decodedAlignment, alignmentBytes, mateBytes, queryWidth, bqLengthAt, encQueryEnd,
      encQueryBegin, encPairwiseLength, pairwiseOffset, Bool.false_eq_true, if_false, if_true,
      Nat.add_zero, Nat.add_assoc, Nat.reduceAdd]
    repeat
      rw [peek_ok buf _ _ (by omega)]
      simp only []
    simp only [hname]

theorem land_one_eq_one_iff (n : Nat) : n &&& 1 = 1 ↔ n.testBit 0 = true := by
  rw [Nat.and_one_is_mod, Nat.testBit_zero]
  simp

/-- C1. `ReadAlignment` on a record that lies inside the partition buffer and
whose encoded reference index is below the number of reference sequences (an
`unsigned short`, so below 65536) returns, and the fields it decodes are the
little-endian values at the offsets of the layout: reference begin (4), end
(4), index (4), quality (1), alternate quality (1), orientation (1, bit 0 is
`IsReverseComplement`), then the 12-byte mate block only when `hasMateInfo`
(otherwise the mate members keep their value and no byte is consumed), then
pairwise length, query begin and query end of width 2 when `isLongRead` and 1
otherwise, then the reference and query strings of pairwise length each. -/
theorem C1_ReadAlignment_layout (buf : List Byte) (lut : List (List Byte)) (ptr : Nat)
    (al : Alignment) (isLongRead hasMateInfo : Bool)
    (hlut : lut.length < 65536)
    (hidx : leNat (slice buf (ptr + 8) 4) < lut.length)
    (hfit : ptr + alignmentBytes buf ptr isLongRead hasMateInfo ≤ buf.length) :
    ∃ al' : Alignment,
      ReadAlignment buf lut ptr al isLongRead hasMateInfo
        = .ok (al', ptr + alignmentBytes buf ptr isLongRead hasMateInfo) ∧
      al'.ReferenceBegin = leNat (slice buf ptr 4) ∧
      al'.ReferenceEnd = leNat (slice buf (ptr + 4) 4) ∧
      al'.ReferenceIndex = leNat (slice buf (ptr + 8) 4) ∧
      al'.ReferenceName = lut.get? (leNat (slice buf (ptr + 8) 4)) ∧
      al'.Quality = leNat (slice buf (ptr + 12) 1) ∧
      al'.AlternateQuality = leNat (slice buf (ptr + 13) 1) ∧
      (al'.IsReverseComplement = true ↔ (leNat (slice buf (ptr + 14) 1)).testBit 0 = true) ∧
      (hasMateInfo = true →
        al'.MateReferenceBegin = leNat (slice buf (ptr + 15) 4) ∧
        al'.MateReferenceEnd = leNat (slice buf (ptr + 19) 4) ∧
        al'.MateReferenceIndex = leNat (slice buf (ptr + 23) 4)) ∧
      (hasMateInfo = false →
        al'.MateReferenceBegin = al.MateReferenceBegin ∧
        al'.MateReferenceEnd = al.MateReferenceEnd ∧
        al'.MateReferenceIndex = al.MateReferenceIndex) ∧
      al'.QueryBegin
        = leNat (slice buf (ptr + 15 + (if hasMateInfo then 12 else 0)
            + (if isLongRead then 2 else 1)) (if isLongRead then 2 else 1)) ∧
      al'.QueryEnd
        = leNat (slice buf (ptr + 15 + (if hasMateInfo then 12 else 0)
            + (if isLongRead then 2 else 1) + (if isLongRead then 2 else 1))
            (if isLongRead then 2 else 1)) ∧
      (∀ pairwiseLength : Nat,
        pairwiseLength = leNat (slice buf (ptr + 15 + (if hasMateInfo then 12 else 0))
            (if isLongRead then 2 else 1)) →
        al'.Reference = slice buf (ptr + 15 + (if hasMateInfo then 12 else 0)
            + 3 * (if isLongRead then 2 else 1)) pairwiseLength ∧
        al'.Query = slice buf (ptr + 15 + (if hasMateInfo then 12 else 0)
            + 3 * (if isLongRead then 2 else 1) + pairwiseLength) pairwiseLength ∧
        al'.Reference.length = pairwiseLength ∧
        al'.Query.length = pairwiseLength ∧
        alignmentBytes buf ptr isLongRead hasMateInfo
          = 15 + (if hasMateInfo then 12 else 0) + 3 * (if isLongRead then 2 else 1)
              + 2 * pairwiseLength + al'.BaseQualities.length) := by
  have hmod : leNat (slice buf (ptr + 8) 4) % 65536 = leNat (slice buf (ptr + 8) 4) :=
    Nat.mod_eq_of_lt (by omega)
  obtain ⟨name, hname⟩ : ∃ name, lut.get? (leNat (slice buf (ptr + 8) 4)) = some name := by
    rw [List.get?_eq_get hidx]; exact ⟨_, rfl⟩
  have hrun := ReadAlignment_eq buf lut ptr al isLongRead hasMateInfo name
    (by rw [hmod]; exact hname) hfit
  refine ⟨_, hrun, rfl, rfl, hmod, hname.symm, rfl, rfl, ?_, ?_, ?_, rfl, rfl, ?_⟩
  · exact (by simp only [decodedAlignment]; rw [← land_one_eq_one_iff]; simp)
  · intro h; subst h; exact ⟨rfl, rfl, rfl⟩
  · intro h; subst h; exact ⟨rfl, rfl, rfl⟩
  · intro pl hpl
    have hpl' : pl = encPairwiseLength buf ptr isLongRead hasMateInfo := hpl
    have hoff : ptr + 15 + (if hasMateInfo then 12 else 0) + 3 * (if isLongRead then 2 else 1)
        = pairwiseOffset ptr isLongRead hasMateInfo := by
      simp only [pairwiseOffset, mateBytes, queryWidth]; omega
    have hb : alignmentBytes buf ptr isLongRead hasMateInfo
        = 15 + (if hasMateInfo then 12 else 0) + 3 * (if isLongRead then 2 else 1)
            + 2 * pl + bqLengthAt buf ptr isLongRead hasMateInfo := by
      rw [hpl']; simp only [alignmentBytes, mateBytes, queryWidth]; omega
    have h1 : (slice buf (pairwiseOffset ptr isLongRead hasMateInfo) pl).length = pl :=
      length_slice _ _ _ (by omega)
    have h2 : (slice buf (pairwiseOffset ptr isLongRead hasMateInfo + pl) pl).length = pl :=
      length_slice _ _ _ (by omega)
    have h3 : (slice buf (pairwiseOffset ptr isLongRead hasMateInfo + pl + pl)
        (bqLengthAt buf ptr isLongRead hasMateInfo)).length
          = bqLengthAt buf ptr isLongRead hasMateInfo :=
      length_slice _ _ _ (by omega)
    rw [hoff]
    subst hpl'
    refine ⟨rfl, rfl, h1, h2, ?_⟩
    rw [hb]
    simp only [decodedAlignment]
    rw [h3]

/-- C1 at the sample record: the hypotheses hold there and the call returns
with the cursor after the 24 bytes of the record. -/
theorem C1_ReadAlignment_layout_witness :
    (sampleLUT.length < 65536 ∧
      leNat (slice sampleAlignmentBytes (0 + 8) 4) < sampleLUT.length ∧
      0 + alignmentBytes sampleAlignmentBytes 0 false false ≤ sampleAlignmentBytes.length) ∧
    ∃ al' : Alignment,
      ReadAlignment sampleAlignmentBytes sampleLUT 0 (Alignment.ctor default)
        false false = .ok (al', 24) ∧
      al'.ReferenceBegin = 10 ∧ al'.ReferenceEnd = 13 ∧ al'.ReferenceIndex = 0 ∧
      al'.IsReverseComplement = true ∧ al'.Reference = [65, 67] ∧ al'.Query = [65, 71] := by
  refine ⟨⟨by decide, by decide, by decide⟩, ?_⟩
  obtain ⟨al', hrun, h1, h2, h3, -, -, -, h7, -, -, -, -, h12⟩ :=
    C1_ReadAlignment_layout sampleAlignmentBytes sampleLUT 0
      (Alignment.ctor default) false false (by decide) (by decide) (by decide)
  obtain ⟨h13, h14, -, -, -⟩ := h12 2 (by decide)
  refine ⟨al', ?_, ?_, ?_, ?_, ?_, ?_, ?_⟩
  · rw [hrun]
    have hn : 0 + alignmentBytes sampleAlignmentBytes 0 false false = 24 := by decide
    rw [hn]
  · rw [h1]; decide
  · rw [h2]; decide
  · rw [h3]; decide
  · rw [h7]; decide
  · rw [h13]; decide
  · rw [h14]; decide

theorem land_two_pow_ne_zero_iff (n k : Nat) : n &&& 2 ^ k ≠ 0 ↔ n.testBit k = true := by
  rw [Nat.and_two_pow]
  cases n.testBit k <;> simp

theorem alignmentsFit_le (buf : List Byte) (numRefSeqs : Nat) (isLongRead hasMateInfo : Bool) :
    ∀ (n ptr : Nat), ptr ≤ buf.length →
      alignmentsFit buf numRefSeqs isLongRead hasMateInfo ptr n = true →
      alignmentsEnd buf isLongRead hasMateInfo ptr n ≤ buf.length
  | 0, ptr, h, _ => h
  | n + 1, ptr, _, hfit => by
    simp only [alignmentsFit, Bool.and_eq_true, decide_eq_true_eq] at hfit
    exact alignmentsFit_le buf numRefSeqs isLongRead hasMateInfo n _ hfit.1.2 hfit.2

theorem ReadAlignments_ok (buf : List Byte) (lut : List (List Byte))
    (isLongRead hasMateInfo : Bool) (hlut : lut.length < 65536) :
    ∀ (alignments : List Alignment) (ptr : Nat),
      alignmentsFit buf lut.length isLongRead hasMateInfo ptr alignments.length = true →
      ∃ out : List Alignment,
        ReadAlignments buf lut ptr alignments isLongRead hasMateInfo
          = .ok (out, alignmentsEnd buf isLongRead hasMateInfo ptr alignments.length) ∧
        out.length = alignments.length
  | [], ptr, _ => ⟨[], rfl, rfl⟩
  | al :: rest, ptr, hfit => by
    simp only [List.length_cons, alignmentsFit, Bool.and_eq_true, decide_eq_true_eq] at hfit
    obtain ⟨⟨hidx, hin⟩, hrest⟩ := hfit
    obtain ⟨name, hname⟩ : ∃ name, lut.get? (leNat (slice buf (ptr + 8) 4) % 65536) = some name := by
      rw [Nat.mod_eq_of_lt (by omega), List.get?_eq_get hidx]; exact ⟨_, rfl⟩
    obtain ⟨out, hout, hlen⟩ := ReadAlignments_ok buf lut isLongRead hasMateInfo hlut rest _ hrest
    refine ⟨decodedAlignment buf ptr al name isLongRead hasMateInfo :: out, ?_, ?_⟩
    · simp only [ReadAlignments, ReadAlignment_eq buf lut ptr al isLongRead hasMateInfo name hname hin,
        hout, List.length_cons, alignmentsEnd]
    · simp [hlen]

theorem flag_eq_testBit (n k m : Nat) (hm : m = 2 ^ k) :
    (if n &&& m ≠ 0 then true else false) = n.testBit k := by
  subst hm
  by_cases h : n.testBit k = true
  · rw [if_pos ((land_two_pow_ne_zero_iff n k).mpr h), h]
  · rw [if_neg (fun hc => h ((land_two_pow_ne_zero_iff n k).mp hc))]
    simpa using h

theorem length_resizeVec {α : Type} (v : List α) (n : Nat) (dflt : α) :
    (resizeVec v n dflt).length = n := by
  simp only [resizeVec, List.length_append, List.length_take, List.length_replicate]
  omega

theorem decodeRead_ok (env : Env) (buf : List Byte) (lut : List (List Byte)) (ptr : Nat)
    (ar : AlignedRead) (hlut : lut.length < 65536)
    (hfit : readFits buf lut.length ptr = true) :
    ∃ m1 m2 : List Alignment,
      ReadAlignments buf lut (alignmentsOffset buf ptr)
          (resizeVec ar.Mate1Alignments (encMate1Count buf ptr) (Alignment.ctor env.indet))
          ((encStatus buf ptr).testBit 0) ((encStatus buf ptr).testBit 2)
        = .ok (m1, alignmentsEnd buf ((encStatus buf ptr).testBit 0)
            ((encStatus buf ptr).testBit 2) (alignmentsOffset buf ptr) (encMate1Count buf ptr)) ∧
      ReadAlignments buf lut
          (alignmentsEnd buf ((encStatus buf ptr).testBit 0) ((encStatus buf ptr).testBit 2)
            (alignmentsOffset buf ptr) (encMate1Count buf ptr))
          (resizeVec ar.Mate2Alignments (encMate2Count buf ptr) (Alignment.ctor env.indet))
          ((encStatus buf ptr).testBit 0) ((encStatus buf ptr).testBit 2)
        = .ok (m2, readEnd buf ptr) ∧
      m1.length = encMate1Count buf ptr ∧ m2.length = encMate2Count buf ptr ∧
      decodeRead env buf lut ptr ar
        = .ok ({ ReadGroupCode := leNat (slice buf (ptr + 1 + encNameLen buf ptr) 4)
                 Name := slice buf (ptr + 1) (encNameLen buf ptr)
                 Mate1Alignments := m1
                 Mate2Alignments := m2
                 IsLongRead := (encStatus buf ptr).testBit 0 }, readEnd buf ptr) := by
  simp only [readFits, Bool.and_eq_true, decide_eq_true_eq] at hfit
  obtain ⟨⟨hhead, hfit1⟩, hfit2⟩ := hfit
  have hl1 := length_resizeVec ar.Mate1Alignments (encMate1Count buf ptr) (Alignment.ctor env.indet)
  have hl2 := length_resizeVec ar.Mate2Alignments (encMate2Count buf ptr) (Alignment.ctor env.indet)
  obtain ⟨m1, hm1, hlen1⟩ := ReadAlignments_ok buf lut ((encStatus buf ptr).testBit 0)
    ((encStatus buf ptr).testBit 2) hlut
    (resizeVec ar.Mate1Alignments (encMate1Count buf ptr) (Alignment.ctor env.indet))
    (alignmentsOffset buf ptr) (by rw [hl1]; exact hfit1)
  obtain ⟨m2, hm2, hlen2⟩ := ReadAlignments_ok buf lut ((encStatus buf ptr).testBit 0)
    ((encStatus buf ptr).testBit 2) hlut
    (resizeVec ar.Mate2Alignments (encMate2Count buf ptr) (Alignment.ctor env.indet))
    (alignmentsEnd buf ((encStatus buf ptr).testBit 0) ((encStatus buf ptr).testBit 2)
      (alignmentsOffset buf ptr) (encMate1Count buf ptr)) (by rw [hl2]; exact hfit2)
  rw [hl1] at hm1 hlen1
  rw [hl2] at hm2 hlen2
  refine ⟨m1, m2, hm1, hm2, hlen1, hlen2, ?_⟩
  have hoff : ptr + 1 + encNameLen buf ptr + 4 + 1 + 4 ≤ buf.length := by
    simp only [alignmentsOffset] at hhead; omega
  simp only [decodeRead, SIZEOF_INT, bind, Except.bind, pure, Except.pure]
  rw [peek_ok buf ptr 1 (by omega)]
  simp only []
  rw [peek_ok buf (ptr + 1) _ (by simp only [encNameLen] at hoff; omega)]
  simp only []
  rw [peek_ok buf _ 4 (by simp only [encNameLen] at hoff; omega)]
  simp only []
  rw [peek_ok buf _ 1 (by simp only [encNameLen] at hoff; omega)]
  simp only []
  rw [peek_ok buf _ 4 (by simp only [encNameLen] at hoff; omega)]
  simp only [flag_eq_testBit _ 0 1 rfl, flag_eq_testBit _ 1 2 rfl, flag_eq_testBit _ 2 4 rfl]
  by_cases hp : (encStatus buf ptr).testBit 1 = true
  · have hp' := hp
    simp only [encStatus, encNameLen] at hp'
    simp only [alignmentsOffset, encMate1Count, encMate2Count, readEnd, encStatus, encNameLen,
      hp', if_true] at hm1 hm2 hhead ⊢
    rw [peek_ok buf _ 4 (by omega)]
    simp only [hm1, hm2]
  · have hp' := hp
    simp only [encStatus, encNameLen] at hp'
    simp only [alignmentsOffset, encMate1Count, encMate2Count, readEnd, encStatus, encNameLen,
      hp', if_false, Nat.add_zero, Bool.false_eq_true] at hm1 hm2 hhead ⊢
    simp only [hm1, hm2]

/-- C2. `LoadNextRead` on an open reader with reads remaining, once the
partition step has left a well-formed read record at the cursor, returns true
and the read it stores is decoded from, in order: a 1-byte name length and
that many name bytes, a 4-byte read group code, a status byte (bit 0 long
read, bit 1 paired end, bit 2 mate information, the latter two handed to the
alignment decoder), a 4-byte mate-1 count and, only when bit 1 is set, a 4-byte
mate-2 count. `Mate1Alignments` has mate-1 count elements and
`Mate2Alignments` mate-2 count elements, decoded in that order from the bytes
that follow; with bit 1 clear no count bytes are consumed and
`Mate2Alignments` is empty. -/
theorem C2_LoadNextRead_decode (env : Env) (r r1 : CAlignmentReader) (ar : AlignedRead)
    (hopen : r.mIsOpen = true) (hcur : r.mCurrentRead < r.mNumReads)
    (hpump : pump env r = .ok (true, r1))
    (hlut : r1.mRefSeqLUT.length < 65536)
    (hfit : readFits r1.mBuffer r1.mRefSeqLUT.length r1.mBufferPtr = true) :
    ∃ (r2 : CAlignmentReader) (ar' : AlignedRead) (nameLen status first afterMate1 : Nat),
      LoadNextRead env r ar = .ok (true, r2, ar') ∧
      nameLen = leNat (slice r1.mBuffer r1.mBufferPtr 1) ∧
      ar'.Name = slice r1.mBuffer (r1.mBufferPtr + 1) nameLen ∧
      ar'.Name.length = nameLen ∧
      ar'.ReadGroupCode = leNat (slice r1.mBuffer (r1.mBufferPtr + 1 + nameLen) 4) ∧
      status = leNat (slice r1.mBuffer (r1.mBufferPtr + 1 + nameLen + 4) 1) ∧
      ar'.IsLongRead = status.testBit 0 ∧
      ar'.Mate1Alignments.length
        = leNat (slice r1.mBuffer (r1.mBufferPtr + 1 + nameLen + 4 + 1) 4) ∧
      (status.testBit 1 = true →
        ar'.Mate2Alignments.length
          = leNat (slice r1.mBuffer (r1.mBufferPtr + 1 + nameLen + 4 + 1 + 4) 4) ∧
        first = r1.mBufferPtr + 1 + nameLen + 4 + 1 + 4 + 4) ∧
      (status.testBit 1 = false →
        ar'.Mate2Alignments = [] ∧ first = r1.mBufferPtr + 1 + nameLen + 4 + 1 + 4) ∧
      ReadAlignments r1.mBuffer r1.mRefSeqLUT first
          (resizeVec ar.Mate1Alignments ar'.Mate1Alignments.length (Alignment.ctor env.indet))
          (status.testBit 0) (status.testBit 2)
        = .ok (ar'.Mate1Alignments, afterMate1) ∧
      ReadAlignments r1.mBuffer r1.mRefSeqLUT afterMate1
          (resizeVec ar.Mate2Alignments ar'.Mate2Alignments.length (Alignment.ctor env.indet))
          (status.testBit 0) (status.testBit 2)
        = .ok (ar'.Mate2Alignments, r2.mBufferPtr) := by
  obtain ⟨m1, m2, hm1, hm2, hlen1, hlen2, hdec⟩ :=
    decodeRead_ok env r1.mBuffer r1.mRefSeqLUT r1.mBufferPtr ar hlut hfit
  have hhead : alignmentsOffset r1.mBuffer r1.mBufferPtr ≤ r1.mBuffer.length := by
    simp only [readFits, Bool.and_eq_true, decide_eq_true_eq] at hfit
    exact hfit.1.1
  have hrun : LoadNextRead env r ar = .ok (true,
      { r1 with mBufferPtr := readEnd r1.mBuffer r1.mBufferPtr
                mCurrentRead := (r1.mCurrentRead + 1) % 2 ^ 64
                mPartitionMembers := (r1.mPartitionMembers + 1) % 65536 },
      { ReadGroupCode := leNat (slice r1.mBuffer (r1.mBufferPtr + 1 + encNameLen r1.mBuffer r1.mBufferPtr) 4)
        Name := slice r1.mBuffer (r1.mBufferPtr + 1) (encNameLen r1.mBuffer r1.mBufferPtr)
        Mate1Alignments := m1
        Mate2Alignments := m2
        IsLongRead := (encStatus r1.mBuffer r1.mBufferPtr).testBit 0 }) := by
    simp only [LoadNextRead, hopen, Bool.not_true, Bool.false_eq_true, if_false, ge_iff_le,
      Nat.not_le.mpr hcur, hpump, hdec]
  refine ⟨_, _, encNameLen r1.mBuffer r1.mBufferPtr, encStatus r1.mBuffer r1.mBufferPtr,
    alignmentsOffset r1.mBuffer r1.mBufferPtr,
    alignmentsEnd r1.mBuffer ((encStatus r1.mBuffer r1.mBufferPtr).testBit 0)
      ((encStatus r1.mBuffer r1.mBufferPtr).testBit 2)
      (alignmentsOffset r1.mBuffer r1.mBufferPtr) (encMate1Count r1.mBuffer r1.mBufferPtr),
    hrun, rfl, rfl, ?_, rfl, rfl, rfl, hlen1, ?_, ?_, ?_, ?_⟩
  · exact length_slice _ _ _ (by simp only [alignmentsOffset] at hhead; omega)
  · intro hp
    refine ⟨?_, ?_⟩
    · simp only [hlen2, encMate2Count, hp, if_true]
    · simp only [alignmentsOffset, hp, if_true]
  · intro hp
    refine ⟨?_, ?_⟩
    · have h0 : m2.length = 0 := by
        simp only [hlen2, encMate2Count, hp, Bool.false_eq_true, if_false]
      exact List.length_eq_zero.mp h0
    · simp only [alignmentsOffset, hp, Bool.false_eq_true, if_false, Nat.add_zero]
  · simp only [hlen1]; exact hm1
  · simp only [hlen2]; exact hm2

/-- C2 at the sample reader: the hypotheses hold and the call yields the read
"r1" of group 7 with one mate-1 alignment and no mate-2 alignment. -/
theorem C2_LoadNextRead_decode_witness :
    (sampleReader.mIsOpen = true ∧ sampleReader.mCurrentRead < sampleReader.mNumReads ∧
      pump sampleEnv sampleReader = .ok (true, sampleReader) ∧
      sampleReader.mRefSeqLUT.length < 65536 ∧
      readFits sampleReader.mBuffer sampleReader.mRefSeqLUT.length sampleReader.mBufferPtr
        = true) ∧
    ∃ (r2 : CAlignmentReader) (ar' : AlignedRead),
      LoadNextRead sampleEnv sampleReader AlignedRead.ctor = .ok (true, r2, ar') ∧
      ar'.Name = [114, 49] ∧ ar'.ReadGroupCode = 7 ∧ ar'.IsLongRead = false ∧
      ar'.Mate1Alignments.length = 1 ∧ ar'.Mate2Alignments = [] := by
  refine ⟨⟨by decide, by decide, by decide, by decide, by decide⟩, ?_⟩
  obtain ⟨r2, ar', nameLen, status, first, afterMate1, hrun, hn, hname, -, hcode, hs, hlong,
      hl1, -, hm2, -, -⟩ :=
    C2_LoadNextRead_decode sampleEnv sampleReader sampleReader AlignedRead.ctor
      (by decide) (by decide) (by decide) (by decide) (by decide)
  have hn' : nameLen = 2 := by rw [hn]; decide
  subst hn'
  have hs' : status = 0 := by rw [hs]; decide
  subst hs'
  refine ⟨r2, ar', hrun, ?_, ?_, ?_, ?_, (hm2 (by decide)).1⟩
  · rw [hname]; decide
  · rw [hcode]; decide
  · rw [hlong]; decide
  · rw [hl1]; decide

theorem fullSpan_enc (rest : List Byte) :
    encPairwiseLength (fullSpanHead ++ rest) 0 true false = 0 ∧
    encQueryBegin (fullSpanHead ++ rest) 0 true false = 0 ∧
    encQueryEnd (fullSpanHead ++ rest) 0 true false = 65535 ∧
    bqLengthAt (fullSpanHead ++ rest) 0 true false = 0 := by
  have h1 : slice (fullSpanHead ++ rest) 15 2 = [0, 0] := by simp [slice, fullSpanHead]
  have h2 : slice (fullSpanHead ++ rest) 17 2 = [0, 0] := by simp [slice, fullSpanHead]
  have h3 : slice (fullSpanHead ++ rest) 19 2 = [255, 255] := by simp [slice, fullSpanHead]
  have l0 : leNat ([0, 0] : List Byte) = 0 := by decide
  have l1 : leNat ([255, 255] : List Byte) = 65535 := by decide
  have hpl : encPairwiseLength (fullSpanHead ++ rest) 0 true false = 0 := by
    simp only [encPairwiseLength, mateBytes, queryWidth, Bool.false_eq_true, if_false, if_true,
      Nat.zero_add, Nat.add_zero, h1, l0]
  have hqb : encQueryBegin (fullSpanHead ++ rest) 0 true false = 0 := by
    simp only [encQueryBegin, mateBytes, queryWidth, Bool.false_eq_true, if_false, if_true,
      Nat.zero_add, Nat.add_zero, Nat.reduceAdd, h2, l0]
  have hqe : encQueryEnd (fullSpanHead ++ rest) 0 true false = 65535 := by
    simp only [encQueryEnd, mateBytes, queryWidth, Bool.false_eq_true, if_false, if_true,
      Nat.zero_add, Nat.add_zero, Nat.reduceAdd, h3, l1]
  refine ⟨hpl, hqb, hqe, ?_⟩
  simp only [bqLengthAt, hqb, hqe]

theorem fullSpan_run (rest : List Byte) (al : Alignment) :
    ReadAlignment (fullSpanHead ++ rest) sampleLUT 0 al true false
      = .ok (decodedAlignment (fullSpanHead ++ rest) 0 al [99, 104, 114, 49] true false, 21) := by
  obtain ⟨hpl, -, -, hbq⟩ := fullSpan_enc rest
  have hb : alignmentBytes (fullSpanHead ++ rest) 0 true false = 21 := by
    simp only [alignmentBytes, hpl, hbq, mateBytes, queryWidth, Bool.false_eq_true, if_false,
      if_true]
  have hidx : slice (fullSpanHead ++ rest) (0 + 8) 4 = [0, 0, 0, 0] := by
    simp [slice, fullSpanHead]
  have h := ReadAlignment_eq (fullSpanHead ++ rest) sampleLUT 0 al true false [99, 104, 114, 49]
    (by rw [hidx]; decide)
    (by rw [hb]; simp [fullSpanHead])
  rw [hb] at h
  exact h

theorem fullSpan_fields (rest : List Byte) (al : Alignment) :
    ∃ al' : Alignment,
      ReadAlignment (fullSpanHead ++ rest) sampleLUT 0 al true false = .ok (al', 21) ∧
      al'.QueryBegin = 0 ∧ al'.QueryEnd = 65535 ∧
      al'.BaseQualities = [] ∧ al'.BaseQualities.length ≠ al'.QueryEnd - al'.QueryBegin + 1 := by
  obtain ⟨-, hqb, hqe, hbq⟩ := fullSpan_enc rest
  have hnil : (decodedAlignment (fullSpanHead ++ rest) 0 al [99, 104, 114, 49]
      true false).BaseQualities = [] := by
    simp only [decodedAlignment, hbq, slice, List.take_zero]
  refine ⟨_, fullSpan_run rest al, hqb, hqe, hnil, ?_⟩
  rw [hnil]
  simp only [decodedAlignment, hqb, hqe]
  decide

/-- C3 (failing input). On the long-read record with query begin 0 and query
end 65535, followed by its 65536 base qualities, `ReadAlignment` returns with
`QueryBegin = 0`, `QueryEnd = 65535`, an empty `BaseQualities`, and the cursor
right after the 21-byte head: no base quality byte is consumed, where the
length `query_end - query_begin + 1` is 65536. -/
theorem C3_full_span_base_qualities_empty :
    ∃ al' : Alignment,
      ReadAlignment fullSpanBytes sampleLUT 0 (Alignment.ctor default) true false
        = .ok (al', 21) ∧
      al'.QueryBegin = 0 ∧ al'.QueryEnd = 65535 ∧
      al'.BaseQualities = [] ∧ al'.BaseQualities.length ≠ al'.QueryEnd - al'.QueryBegin + 1 :=
  fullSpan_fields (List.replicate 65536 33) (Alignment.ctor default)

/-- The base quality length of `ReadAlignment` is `query_end - query_begin + 1`
whenever that number fits an `unsigned short`. -/
theorem bqLengthAt_eq (buf : List Byte) (ptr : Nat) (isLongRead hasMateInfo : Bool)
    (hle : encQueryBegin buf ptr isLongRead hasMateInfo ≤ encQueryEnd buf ptr isLongRead hasMateInfo)
    (hlt : encQueryEnd buf ptr isLongRead hasMateInfo
      - encQueryBegin buf ptr isLongRead hasMateInfo + 1 < 65536) :
    bqLengthAt buf ptr isLongRead hasMateInfo
      = encQueryEnd buf ptr isLongRead hasMateInfo
        - encQueryBegin buf ptr isLongRead hasMateInfo + 1 := by
  simp only [bqLengthAt]
  omega

theorem land_two_ne_one (n : Nat) : n &&& 2 ≠ 1 := by
  intro h
  have h2 := Nat.and_two_pow n 1
  simp only [pow_one] at h2
  rw [h] at h2
  cases hb : n.testBit 1 <;> simp [hb] at h2

/-- The alignment that `ReadAlignment` produces never has
`IsMateReverseComplement` set, whatever the orientation byte. -/
theorem decodedAlignment_mate_flag (buf : List Byte) (ptr : Nat) (al : Alignment)
    (name : List Byte) (isLongRead hasMateInfo : Bool) :
    (decodedAlignment buf ptr al name isLongRead hasMateInfo).IsMateReverseComplement
      = false := by
  simp only [decodedAlignment, land_two_ne_one, if_false]

/-- C4 (failing input). On a record whose orientation byte is 2 (bit 1 set)
`ReadAlignment` returns with `IsMateReverseComplement = false`. -/
theorem C4_mate_flag_clear_on_bit1 :
    (leNat (slice mateReverseBytes 14 1)).testBit 1 = true ∧
    (ReadAlignment mateReverseBytes sampleLUT 0 (Alignment.ctor default) false false).map
      (fun p => p.1.IsMateReverseComplement) = .ok false := by
  decide

theorem length_leBytes (w n : Nat) : (leBytes w n).length = w := by
  induction w generalizing n with
  | zero => rfl
  | succ w ih => simp [leBytes, ih]

theorem leNat_leBytes (w n : Nat) (h : n < 256 ^ w) : leNat (leBytes w n) = n := by
  induction w generalizing n with
  | zero => simp only [pow_zero, Nat.lt_one_iff] at h; subst h; rfl
  | succ w ih =>
    have h2 : n / 256 < 256 ^ w := by
      rw [Nat.div_lt_iff_lt_mul (by decide)]
      rw [pow_succ] at h
      exact h
    have hv : (Fin.ofNat (n % 256) : Byte).val = n % 256 := by
      show (n % 256) % 256 = n % 256
      exact Nat.mod_mod _ _
    simp only [leBytes, leNat, ih (n / 256) h2, hv]
    omega

theorem slice_append_left (pre xs post : List Byte) :
    slice (pre ++ (xs ++ post)) pre.length xs.length = xs := by
  simp [slice]

theorem slice_zero_append (xs post : List Byte) : slice (xs ++ post) 0 xs.length = xs := by
  simp [slice]

theorem peek_mid (buf pre xs post : List Byte) (off n : Nat) (hb : buf = pre ++ (xs ++ post))
    (ho : off = pre.length) (hn : n = xs.length) : peek buf off n = .ok xs := by
  subst hb ho hn
  rw [peek_ok _ _ _ (by simp), slice_append_left]

theorem findBlock_entries (referenceIndex referencePosition : Nat) :
    ∀ (es : List IndexEntry) (pre post : List Byte),
      (∀ e ∈ es, e.referenceIndex < 2 ^ 16 ∧ e.referencePosition < 2 ^ 32 ∧
        e.offset < 2 ^ 64) →
      pre.length + 14 * es.length < 2 ^ 32 →
      findBlock (pre ++ (encodeEntries es ++ post)) referenceIndex referencePosition
          es.length pre.length
        = .ok ((es.find? (qualifies referenceIndex referencePosition)).map (·.offset))
  | [], _, _, _, _ => rfl
  | e :: es, pre, post, hes, hsz => by
    obtain ⟨hi, hp, ho⟩ := hes e (List.mem_cons_self _ _)
    have hes' : ∀ e' ∈ es, e'.referenceIndex < 2 ^ 16 ∧ e'.referencePosition < 2 ^ 32 ∧
        e'.offset < 2 ^ 64 := fun e' he' => hes e' (List.mem_cons_of_mem _ he')
    simp only [List.length_cons] at hsz
    have h1 : peek (pre ++ (encodeEntries (e :: es) ++ post)) pre.length SIZEOF_SHORT
        = .ok (leBytes 2 e.referenceIndex) :=
      peek_mid _ pre _ (leBytes 4 e.referencePosition ++ leBytes 8 e.offset
        ++ encodeEntries es ++ post) _ _
        (by simp [encodeEntries, List.append_assoc]) rfl (by simp [length_leBytes, SIZEOF_SHORT])
    have h2 : peek (pre ++ (encodeEntries (e :: es) ++ post))
        ((pre.length + SIZEOF_SHORT) % 4294967296) SIZEOF_INT
        = .ok (leBytes 4 e.referencePosition) :=
      peek_mid _ (pre ++ leBytes 2 e.referenceIndex) _
        (leBytes 8 e.offset ++ encodeEntries es ++ post) _ _
        (by simp [encodeEntries, List.append_assoc])
        (by simp only [SIZEOF_SHORT, List.length_append, length_leBytes]; omega)
        (by simp [length_leBytes, SIZEOF_INT])
    have h3 : peek (pre ++ (encodeEntries (e :: es) ++ post))
        ((pre.length + SIZEOF_SHORT + SIZEOF_INT) % 4294967296) SIZEOF_UINT64
        = .ok (leBytes 8 e.offset) :=
      peek_mid _ (pre ++ leBytes 2 e.referenceIndex ++ leBytes 4 e.referencePosition) _
        (encodeEntries es ++ post) _ _
        (by simp [encodeEntries, List.append_assoc])
        (by simp only [SIZEOF_SHORT, SIZEOF_INT, List.length_append, length_leBytes]; omega)
        (by simp [length_leBytes, SIZEOF_UINT64])
    have hnext : (pre.length + SIZEOF_SHORT + SIZEOF_INT + SIZEOF_UINT64) % 4294967296
        = (pre ++ leBytes 2 e.referenceIndex ++ leBytes 4 e.referencePosition
            ++ leBytes 8 e.offset).length := by
      simp only [SIZEOF_SHORT, SIZEOF_INT, SIZEOF_UINT64, List.length_append, length_leBytes]
      omega
    have hbuf : pre ++ (encodeEntries (e :: es) ++ post)
        = (pre ++ leBytes 2 e.referenceIndex ++ leBytes 4 e.referencePosition
            ++ leBytes 8 e.offset) ++ (encodeEntries es ++ post) := by
      simp [encodeEntries, List.append_assoc]
    have ih := findBlock_entries referenceIndex referencePosition es
      (pre ++ leBytes 2 e.referenceIndex ++ leBytes 4 e.referencePosition
        ++ leBytes 8 e.offset) post hes'
      (by simp only [List.length_append, length_leBytes]; omega)
    simp only [List.length_cons, findBlock, h1, h2, h3, hnext,
      leNat_leBytes 2 _ hi, leNat_leBytes 4 _ hp, leNat_leBytes 8 _ ho]
    by_cases hq : qualifies referenceIndex referencePosition e = true
    · have hq' := hq
      simp only [qualifies, Bool.or_eq_true, Bool.and_eq_true, decide_eq_true_eq] at hq'
      rw [if_pos hq']
      simp [List.find?, hq]
    · have hq' := hq
      simp only [qualifies, Bool.or_eq_true, Bool.and_eq_true, decide_eq_true_eq] at hq'
      rw [if_neg hq', hbuf, ih]
      simp [List.find?, hq]

theorem length_encodeEntries (es : List IndexEntry) :
    (encodeEntries es).length = 14 * es.length := by
  induction es with
  | nil => rfl
  | cons e es ih =>
    simp only [encodeEntries, List.length_append, length_leBytes, ih, List.length_cons]
    omega

theorem split_at_slice (buf xs : List Byte) (off : Nat)
    (hlen : off + xs.length ≤ buf.length) (h : slice buf off xs.length = xs) :
    ∃ pre post : List Byte, buf = pre ++ (xs ++ post) ∧ pre.length = off := by
  refine ⟨buf.take off, buf.drop (off + xs.length), ?_, ?_⟩
  · have h1 : buf = buf.take off ++ buf.drop off := (List.take_append_drop off buf).symm
    have h2 : buf.drop off = (buf.drop off).take xs.length ++ (buf.drop off).drop xs.length :=
      (List.take_append_drop xs.length (buf.drop off)).symm
    have h3 : (buf.drop off).take xs.length = xs := h
    rw [h3, List.drop_drop] at h2
    calc buf = buf.take off ++ buf.drop off := h1
      _ = buf.take off ++ (xs ++ buf.drop (off + xs.length)) := by rw [← h2]
  · rw [List.length_take]; omega

theorem length_alloc (env : Env) (n : Nat) : (env.alloc n).length = n := by
  simp [Env.alloc]

theorem Jump_found (env : Env) (r : CAlignmentReader) (f : FILE) (entries : List IndexEntry)
    (referenceIndex referencePosition : Nat)
    (hoff : r.mIndexOffset ≠ 0) (hidx : IndexAt r f entries) :
    ∃ buf bufLen,
      Jump env r referenceIndex referencePosition =
        match entries.find? (qualifies referenceIndex referencePosition) with
        | none => .error .exit1
        | some e =>
          .ok { r with mInStream := .live { data := f.data, pos := e.offset, eof := false }
                       mBuffer := buf, mBufferLen := bufLen
                       mCurrentRead := 0, mPartitionMembers := 0, mPartitionSize := 0 } := by
  obtain ⟨hs, hbuf, ho63, hes, hsz, hlen, hfile⟩ := hidx
  obtain ⟨pre, post, hdata, hpre⟩ := split_at_slice f.data (encodeIndex entries) r.mIndexOffset
    hlen hfile
  have hn : entries.length < 256 ^ 4 := by norm_num; omega
  have hcount : slice f.data r.mIndexOffset 4 = leBytes 4 entries.length := by
    rw [hdata, ← hpre]
    simp only [encodeIndex, List.append_assoc]
    have := slice_append_left pre (leBytes 4 entries.length) (encodeEntries entries ++ post)
    rw [length_leBytes] at this
    exact this
  have hbody : slice f.data (r.mIndexOffset + 4) (14 * entries.length)
      = encodeEntries entries := by
    have hd : f.data = (pre ++ leBytes 4 entries.length) ++ (encodeEntries entries ++ post) := by
      rw [hdata]; simp [encodeIndex, List.append_assoc]
    have := slice_append_left (pre ++ leBytes 4 entries.length) (encodeEntries entries) post
    rw [List.length_append, length_leBytes, length_encodeEntries, hpre, ← hd] at this
    exact this
  have hes' : ∀ e ∈ entries, e.referenceIndex < 2 ^ 16 ∧ e.referencePosition < 2 ^ 32 ∧
      e.offset < 2 ^ 64 := fun e he =>
    ⟨(hes e he).1, (hes e he).2.1, Nat.lt_trans (hes e he).2.2 (by norm_num)⟩
  have hreq : (entries.length * 14) % 4294967296 = 14 * entries.length := by
    omega
  have hdrop : List.drop 4 (leBytes 4 0) = [] := rfl
  have hcap : ((CheckBufferSize env r.mBuffer r.mBufferLen (14 * entries.length)).1).length
      ≥ 14 * entries.length := by
    simp only [CheckBufferSize]
    split
    · simp only [length_alloc]; omega
    · simp only [hbuf]; omega
  have hfind := findBlock_entries referenceIndex referencePosition entries []
    (((CheckBufferSize env r.mBuffer r.mBufferLen (14 * entries.length)).1).drop
      (14 * entries.length)) hes' (by simp only [List.length_nil]; omega)
  simp only [List.nil_append, List.length_nil] at hfind
  refine ⟨store (CheckBufferSize env r.mBuffer r.mBufferLen (14 * entries.length)).1
      (encodeEntries entries),
    (CheckBufferSize env r.mBuffer r.mBufferLen (14 * entries.length)).2, ?_⟩
  simp only [Jump, hoff, if_false, CAlignmentReader.stream, hs, fseek64_SET, ho63, if_true,
    freadInt, fread, SIZEOF_INT, SIZEOF_SHORT, SIZEOF_UINT64, hcount, length_leBytes,
    hdrop, Nat.reduceAdd, List.append_nil, leNat_leBytes 4 _ hn, hreq, hbody, length_encodeEntries,
    gt_iff_lt, Nat.not_lt.mpr hcap, store, hfind]
  cases hq : entries.find? (qualifies referenceIndex referencePosition) with
  | none => simp
  | some e =>
    have he : e.offset < 9223372036854775808 := (hes e (List.mem_of_find?_eq_some hq)).2.2
    simp [he]

/-- C5. `Jump(referenceIndex, referencePosition)` on a reader whose file holds
an index section at `mIndexOffset` (4-byte count, then entries of 2-byte
reference index, 4-byte position, 8-byte file offset): the stream is
positioned at the file offset of the first entry, in file order, whose
reference index is greater than the target's or equal with a position at or
past the target's, and the current-read counter, the partition members
consumed and the partition size are 0. `Jump` fails exactly when
`mIndexOffset` is 0 or no entry qualifies, and it then fails with `exit(1)`. -/
theorem C5_Jump_first_qualifying_entry (env : Env) (r : CAlignmentReader) (f : FILE)
    (entries : List IndexEntry) (referenceIndex referencePosition : Nat)
    (hidx : r.mIndexOffset ≠ 0 → IndexAt r f entries) :
    (∀ e, r.mIndexOffset ≠ 0 →
      entries.find? (qualifies referenceIndex referencePosition) = some e →
      ∃ r', Jump env r referenceIndex referencePosition = .ok r' ∧
        r'.mInStream = .live { data := f.data, pos := e.offset, eof := false } ∧
        r'.mCurrentRead = 0 ∧ r'.mPartitionMembers = 0 ∧ r'.mPartitionSize = 0) ∧
    ((∃ fault, Jump env r referenceIndex referencePosition = .error fault) ↔
      (r.mIndexOffset = 0 ∨
        entries.find? (qualifies referenceIndex referencePosition) = none)) ∧
    ((r.mIndexOffset = 0 ∨
        entries.find? (qualifies referenceIndex referencePosition) = none) →
      Jump env r referenceIndex referencePosition = .error .exit1) := by
  have hzero : r.mIndexOffset = 0 →
      Jump env r referenceIndex referencePosition = .error .exit1 := by
    intro h0
    simp only [Jump, h0, if_true]
  have hfail : (r.mIndexOffset = 0 ∨
      entries.find? (qualifies referenceIndex referencePosition) = none) →
      Jump env r referenceIndex referencePosition = .error .exit1 := by
    intro h
    by_cases h0 : r.mIndexOffset = 0
    · exact hzero h0
    · obtain ⟨buf, bufLen, hj⟩ := Jump_found env r f entries referenceIndex referencePosition
        h0 (hidx h0)
      have hnone := h.resolve_left h0
      rw [hj, hnone]
  have hok : ∀ e, r.mIndexOffset ≠ 0 →
      entries.find? (qualifies referenceIndex referencePosition) = some e →
      ∃ r', Jump env r referenceIndex referencePosition = .ok r' ∧
        r'.mInStream = .live { data := f.data, pos := e.offset, eof := false } ∧
        r'.mCurrentRead = 0 ∧ r'.mPartitionMembers = 0 ∧ r'.mPartitionSize = 0 := by
    intro e h0 hq
    obtain ⟨buf, bufLen, hj⟩ := Jump_found env r f entries referenceIndex referencePosition
      h0 (hidx h0)
    rw [hq] at hj
    exact ⟨_, hj, rfl, rfl, rfl, rfl⟩
  refine ⟨hok, ⟨?_, fun h => ⟨_, hfail h⟩⟩, hfail⟩
  rintro ⟨fault, hf⟩
  by_cases h0 : r.mIndexOffset = 0
  · exact Or.inl h0
  · right
    cases hq : entries.find? (qualifies referenceIndex referencePosition) with
    | none => rfl
    | some e =>
      obtain ⟨r', hr', -⟩ := hok e h0 hq
      rw [hr'] at hf
      cases hf

/-- C5 at the jump scenario: over the index [(3,0), (5,50), (5,200), (7,0)]
with offsets 1000, 2000, 3000, 4000, `Jump(5, 100)` positions the stream at
3000, the offset of (5,200), and zeroes the three counters. -/
theorem C5_Jump_scenario_witness :
    (sampleIndexReader.mIndexOffset ≠ 0 →
      IndexAt sampleIndexReader sampleIndexFile sampleIndex) ∧
    ∃ r', Jump sampleEnv sampleIndexReader 5 100 = .ok r' ∧
      r'.mInStream = .live { data := sampleIndexFile.data, pos := 3000, eof := false } ∧
      r'.mCurrentRead = 0 ∧ r'.mPartitionMembers = 0 ∧ r'.mPartitionSize = 0 := by
  have hidx : sampleIndexReader.mIndexOffset ≠ 0 →
      IndexAt sampleIndexReader sampleIndexFile sampleIndex := by
    intro _
    refine ⟨rfl, rfl, by decide, by decide, by decide, by decide, by decide⟩
  exact ⟨hidx,
    (C5_Jump_first_qualifying_entry sampleEnv sampleIndexReader sampleIndexFile sampleIndex
      5 100 hidx).1 ⟨5, 200, 3000⟩ (by decide) (by decide)⟩

theorem fread_full (f : FILE) (n : Nat) (h : f.pos + n ≤ f.data.length) :
    fread f n = (slice f.data f.pos n, { f with pos := f.pos + n }) := by
  have hl := length_slice f.data f.pos n h
  simp only [fread, hl, Nat.lt_irrefl, decide_False, Bool.or_false]

theorem freadInt_full (old w : Nat) (f : FILE) (h : f.pos + w ≤ f.data.length) :
    freadInt old w f = (leNat (slice f.data f.pos w), { f with pos := f.pos + w }) := by
  have hl := length_slice f.data f.pos w h
  have hd : List.drop w (leBytes w old) = [] :=
    List.drop_eq_nil_of_le (by rw [length_leBytes])
  simp only [freadInt, fread_full f w h, hl, hd, List.append_nil]

theorem slice_one (buf : List Byte) (off : Nat) (h : off < buf.length) :
    slice buf off 1 = [buf.get ⟨off, h⟩] := by
  have hd : buf.drop off = buf.get ⟨off, h⟩ :: buf.drop (off + 1) :=
    List.drop_eq_getElem_cons h
  simp only [slice, hd, List.take_succ_cons, List.take_zero]

theorem fgetc_full (f : FILE) (h : f.pos < f.data.length) :
    fgetc f = (leNat (slice f.data f.pos 1), { f with pos := f.pos + 1 }) := by
  simp only [fgetc, List.get?_eq_get h, slice_one f.data f.pos h, leNat]
  simp

theorem length_readReadGroups (f : FILE) (rgs : List ReadGroup) :
    (readReadGroups f rgs).1.length = rgs.length := by
  induction rgs generalizing f with
  | nil => rfl
  | cons rg rest ih => simp [readReadGroups, ih]

theorem length_readReferenceSequences (f : FILE) (rss : List ReferenceSequence) :
    (readReferenceSequences f rss).1.length = rss.length := by
  induction rss generalizing f with
  | nil => rfl
  | cons rs rest ih => simp [readReferenceSequences, ih]

/-- The header of a file with a complete preamble, as `readHeader` leaves it:
every fixed field is the little-endian value at its offset, and the stream
stands at offset 73, after the 8 skipped bytes of the reserved field at 65. -/
theorem readHeader_full (env : Env) (r : CAlignmentReader) (data : List Byte)
    (hlen : 72 ≤ data.length) :
    readHeader env r { data := data, pos := 0, eof := false }
      = ({ r with mStatus := leNat (slice data 6 1)
                  mSeqTech := leNat (slice data 7 2)
                  mNumRefSeqs := leNat (slice data 17 4) % 65536
                  mNumReads := leNat (slice data 25 8)
                  mNumBases := leNat (slice data 33 8)
                  mReferenceGapOffset := leNat (slice data 49 8)
                  mIndexOffset := leNat (slice data 57 8) },
         { data := data, pos := 73, eof := false },
         leNat (slice data 21 4), leNat (slice data 41 8)) := by
  simp only [readHeader, fseek64_SET, fseek64_CUR, SIGNATURE_LENGTH, SIZEOF_SHORT, SIZEOF_INT,
    SIZEOF_UINT64]
  rw [if_pos (by norm_num)]
  simp (disch := first | omega | (simp only []; omega)) only [freadInt_full, fgetc_full]

theorem Open_eq (env : Env) (r : CAlignmentReader) (filename : String) (data : List Byte)
    (hclosed : r.mIsOpen = false) (hlen : 72 ≤ data.length) :
    Open env r filename (some data) = .ok (openedReader r filename data) := by
  unfold Open
  rw [hclosed, if_neg Bool.false_ne_true]
  simp only []
  rw [readHeader_full env _ data hlen]
  rfl

/-- C8. `Open` on a closed reader and a file with a complete preamble returns;
afterwards the reader is open and its header fields are the little-endian
values at the offsets of the layout table: status 1 byte at 6, sequencing
technology 2 bytes at 7, number of read groups 4 bytes at 21, number of reads 8
bytes at 25, number of bases 8 bytes at 33, references offset 8 bytes at 41
(the local of `Open`, the fourth component of `readHeader`), reference gap
offset 8 bytes at 49, index offset 8 bytes at 57; and the four getters return
those values. -/
theorem C8_Open_header_fields (env : Env) (r : CAlignmentReader) (filename : String)
    (data : List Byte) (hclosed : r.mIsOpen = false) (hlen : 72 ≤ data.length) :
    ∃ r' : CAlignmentReader,
      Open env r filename (some data) = .ok r' ∧
      r'.mIsOpen = true ∧
      r'.mStatus = leNat (slice data 6 1) ∧
      r'.mSeqTech = leNat (slice data 7 2) ∧
      r'.mReadGroups.length = leNat (slice data 21 4) ∧
      r'.mNumReads = leNat (slice data 25 8) ∧
      r'.mNumBases = leNat (slice data 33 8) ∧
      (readHeader env { r with mInputFilename := filename, mIsOpen := true }
        { data := data, pos := 0, eof := false }).2.2.2 = leNat (slice data 41 8) ∧
      r'.mReferenceGapOffset = leNat (slice data 49 8) ∧
      r'.mIndexOffset = leNat (slice data 57 8) ∧
      GetStatus r' = leNat (slice data 6 1) ∧
      GetSequencingTechnology r' = leNat (slice data 7 2) ∧
      GetNumReads r' = leNat (slice data 25 8) ∧
      GetNumBases r' = leNat (slice data 33 8) := by
  refine ⟨openedReader r filename data, Open_eq env r filename data hclosed hlen, rfl, rfl, rfl,
    ?_, rfl, rfl, ?_, rfl, rfl, rfl, rfl, rfl, rfl⟩
  · simp only [openedReader, headerReadGroups, length_readReadGroups, length_resizeVec]
  · rw [readHeader_full env _ data hlen]

/-- C8 at the sample header: the file has a complete preamble and the opened
reader reports status 9, technology 4, 5 reads and 250 bases. -/
theorem C8_Open_header_fields_witness :
    (freshReader.mIsOpen = false ∧ 72 ≤ sampleHeader.length) ∧
    ∃ r' : CAlignmentReader,
      Open sampleEnv freshReader "sample.aa" (some sampleHeader) = .ok r' ∧
      GetStatus r' = 9 ∧ GetSequencingTechnology r' = 4 ∧ GetNumReads r' = 5 ∧
      GetNumBases r' = 250 ∧ r'.mReadGroups.length = 0 ∧ r'.mIndexOffset = 0 := by
  refine ⟨⟨by decide, by decide⟩, ?_⟩
  obtain ⟨r', hopen, -, -, -, hrg, -, -, -, -, hio, hst, htech, hnr, hnb⟩ :=
    C8_Open_header_fields sampleEnv freshReader "sample.aa" sampleHeader (by decide) (by decide)
  refine ⟨r', hopen, ?_, ?_, ?_, ?_, ?_, ?_⟩
  · rw [hst]; decide
  · rw [htech]; decide
  · rw [hnr]; decide
  · rw [hnb]; decide
  · rw [hrg]; decide
  · rw [hio]; decide

theorem headerReadGroups_zero (r : CAlignmentReader) (data : List Byte)
    (hzero : leNat (slice data 21 4) = 0) :
    headerReadGroups r data = ([], { data := data, pos := 73, eof := false }) := by
  simp only [headerReadGroups, hzero, resizeVec, List.take_zero, Nat.zero_sub,
    List.replicate_zero, List.append_nil, readReadGroups]

/-- C9 (counterexample). On the 73-byte sample header, which declares no read
group, `Open` records `mReadsOffset = 73`, not 72. -/
theorem C9_reads_offset_is_73 :
    leNat (slice sampleHeader 21 4) = 0 ∧
    (Open sampleEnv freshReader "sample.aa" (some sampleHeader)).map (·.mReadsOffset)
      = .ok 73 ∧
    (Open sampleEnv freshReader "sample.aa" (some sampleHeader)).map (·.mReadsOffset)
      ≠ .ok 72 := by
  have hz : leNat (slice sampleHeader 21 4) = 0 := by decide
  have h : (Open sampleEnv freshReader "sample.aa" (some sampleHeader)).map (·.mReadsOffset)
      = .ok 73 := by
    rw [Open_eq sampleEnv freshReader "sample.aa" sampleHeader (by decide) (by decide)]
    simp only [Except.map, openedReader, headerReadGroups_zero freshReader sampleHeader hz]
  refine ⟨hz, h, ?_⟩
  rw [h]
  decide

/-- C9 (amended). In `Open` on a file with a complete preamble, after the
fixed fields have been read and the 8 bytes of the reserved field at offset 65
have been skipped, the stream stands at file offset 73, where the read group
section starts; for an archive that declares no read group the recorded
`mReadsOffset` is 73. -/
theorem C9_read_groups_start_at_73 (env : Env) (r : CAlignmentReader) (filename : String)
    (data : List Byte) (hclosed : r.mIsOpen = false) (hlen : 72 ≤ data.length) :
    (readHeader env { r with mInputFilename := filename, mIsOpen := true }
      { data := data, pos := 0, eof := false }).2.1.pos = 73 ∧
    (leNat (slice data 21 4) = 0 →
      ∃ r' : CAlignmentReader,
        Open env r filename (some data) = .ok r' ∧ r'.mReadGroups = [] ∧
        r'.mReadsOffset = 73) := by
  refine ⟨by rw [readHeader_full env _ data hlen], fun hzero => ?_⟩
  refine ⟨openedReader r filename data, Open_eq env r filename data hclosed hlen, ?_, ?_⟩
  · simp only [openedReader, headerReadGroups_zero r data hzero]
  · simp only [openedReader, headerReadGroups_zero r data hzero]

/-- C9 (amended) at the sample header. -/
theorem C9_read_groups_start_at_73_witness :
    (freshReader.mIsOpen = false ∧ 72 ≤ sampleHeader.length) ∧
    ∃ r' : CAlignmentReader,
      Open sampleEnv freshReader "sample.aa" (some sampleHeader) = .ok r' ∧
      r'.mReadGroups = [] ∧ r'.mReadsOffset = 73 :=
  ⟨⟨by decide, by decide⟩,
    (C9_read_groups_start_at_73 sampleEnv freshReader "sample.aa" sampleHeader
      (by decide) (by decide)).2 (by decide)⟩

theorem store_full (buf bytes : List Byte) (h : buf.length ≤ bytes.length) :
    store buf bytes = bytes := by
  simp only [store, List.drop_eq_nil_of_le h, List.append_nil]

theorem freadStr_full (s : List Byte) (len : Nat) (f : FILE)
    (h : f.pos + len ≤ f.data.length) :
    freadStr s len f = (slice f.data f.pos len, { f with pos := f.pos + len }) := by
  have hl := length_slice f.data f.pos len h
  have hs : store (resizeStr s len) (slice f.data f.pos len) = slice f.data f.pos len :=
    store_full _ _ (by rw [hl, resizeStr, length_resizeVec])
  simp only [freadStr, fread_full f len h, hs]

theorem leNat_slice_one_lt (data : List Byte) (pos : Nat) : leNat (slice data pos 1) < 256 := by
  by_cases h : pos < data.length
  · rw [slice_one data pos h]
    simp only [leNat]
    omega
  · have : slice data pos 1 = [] := by
      simp only [slice, List.drop_eq_nil_of_le (Nat.le_of_not_lt h), List.take_nil]
    rw [this]
    simp [leNat]

theorem readReadGroup_full (f : FILE) (rg : ReadGroup)
    (hfit : f.pos + readGroupBytes f.data f.pos ≤ f.data.length) :
    readReadGroup f rg
      = (decodedReadGroup f.data f.pos rg,
         { data := f.data, pos := f.pos + readGroupBytes f.data f.pos, eof := false }) := by
  simp only [readGroupBytes, Nat.add_assoc, Nat.reduceAdd] at hfit
  simp only [readReadGroup, SIZEOF_SHORT, SIZEOF_INT, SIZEOF_UINT64, fseek64_CUR]
  simp (disch := first | omega | (simp only []; omega)) only
    [freadInt_full, fgetc_full, freadStr_full, Nat.add_assoc, Nat.reduceAdd]
  simp only [decodedReadGroup, readGroupBytes, Nat.add_assoc, Nat.reduceAdd]

theorem readGroupsEnd_succ (data : List Byte) :
    ∀ (n pos : Nat), readGroupsEnd data pos (n + 1)
      = readGroupsEnd data pos n + readGroupBytes data (readGroupsEnd data pos n)
  | 0, pos => rfl
  | n + 1, pos => by
    show readGroupsEnd data (pos + readGroupBytes data pos) (n + 1) = _
    rw [readGroupsEnd_succ data n (pos + readGroupBytes data pos)]
    rfl

theorem readGroupsFit_at (data : List Byte) :
    ∀ (n pos i : Nat), readGroupsFit data pos n = true → i < n →
      readGroupsEnd data pos i + readGroupBytes data (readGroupsEnd data pos i) ≤ data.length
  | 0, _, _, _, hi => absurd hi (Nat.not_lt_zero _)
  | n + 1, pos, 0, hfit, _ => by
    simp only [readGroupsFit, Bool.and_eq_true, decide_eq_true_eq] at hfit
    exact hfit.1
  | n + 1, pos, i + 1, hfit, hi => by
    simp only [readGroupsFit, Bool.and_eq_true, decide_eq_true_eq] at hfit
    exact readGroupsFit_at data n _ i hfit.2 (Nat.lt_of_succ_lt_succ hi)

theorem readReadGroups_full (data : List Byte) :
    ∀ (rgs : List ReadGroup) (pos : Nat) (eof : Bool),
      readGroupsFit data pos rgs.length = true →
      (readReadGroups { data := data, pos := pos, eof := eof } rgs).2.pos
          = readGroupsEnd data pos rgs.length ∧
      (readReadGroups { data := data, pos := pos, eof := eof } rgs).2.data = data ∧
      ∀ (i : Nat) (hi : i < rgs.length),
        (readReadGroups { data := data, pos := pos, eof := eof } rgs).1.get? i
          = some (decodedReadGroup data (readGroupsEnd data pos i) (rgs.get ⟨i, hi⟩))
  | [], pos, eof, _ => ⟨rfl, rfl, fun i hi => absurd hi (Nat.not_lt_zero _)⟩
  | rg :: rest, pos, eof, hfit => by
    simp only [List.length_cons, readGroupsFit, Bool.and_eq_true, decide_eq_true_eq] at hfit
    have h1 := readReadGroup_full { data := data, pos := pos, eof := eof } rg hfit.1
    simp only [] at h1
    obtain ⟨ih1, ih2, ih3⟩ := readReadGroups_full data rest (pos + readGroupBytes data pos)
      false hfit.2
    simp only [readReadGroups, h1]
    refine ⟨ih1, ih2, ?_⟩
    intro i hi
    cases i with
    | zero => rfl
    | succ i =>
      simp only [List.get?_cons_succ, readGroupsEnd]
      exact ih3 i (Nat.lt_of_succ_lt_succ hi)

/-- C10. `Open` on a closed reader and a file whose preamble is complete and
whose declared read groups lie inside the file: read group `i` is decoded from
the record at the end `pos` of the records before it, laid out as the
single-byte lengths of center name, library name, platform unit, read group ID
and sample name, a 2-byte description length, a 2-byte sequencing technology,
a 4-byte median fragment length and 8 skipped bytes, then the strings center
name, description, library name, platform unit, read group ID, sample name,
each of its declared length; the record takes 21 bytes plus the six string
lengths, and `mReadsOffset` is the position after the last record. -/
theorem C10_Open_read_groups (env : Env) (r : CAlignmentReader) (filename : String)
    (data : List Byte) (hclosed : r.mIsOpen = false) (hlen : 72 ≤ data.length)
    (hfit : readGroupsFit data 73 (leNat (slice data 21 4)) = true) :
    ∃ r' : CAlignmentReader,
      Open env r filename (some data) = .ok r' ∧
      r'.mReadGroups.length = leNat (slice data 21 4) ∧
      r'.mReadsOffset = readGroupsEnd data 73 (leNat (slice data 21 4)) ∧
      ∀ i, i < leNat (slice data 21 4) →
        ∃ (rg : ReadGroup) (pos cn ln pu id sn dl : Nat),
          r'.mReadGroups.get? i = some rg ∧
          pos = readGroupsEnd data 73 i ∧
          cn = leNat (slice data pos 1) ∧
          ln = leNat (slice data (pos + 1) 1) ∧
          pu = leNat (slice data (pos + 2) 1) ∧
          id = leNat (slice data (pos + 3) 1) ∧
          sn = leNat (slice data (pos + 4) 1) ∧
          dl = leNat (slice data (pos + 5) 2) ∧
          rg.SequencingTechnology = leNat (slice data (pos + 7) 2) ∧
          rg.MedianFragmentLength = leNat (slice data (pos + 9) 4) ∧
          rg.CenterName = slice data (pos + 21) cn ∧
          rg.Description = slice data (pos + 21 + cn) dl ∧
          rg.LibraryName = slice data (pos + 21 + cn + dl) ln ∧
          rg.PlatformUnit = slice data (pos + 21 + cn + dl + ln) pu ∧
          rg.ReadGroupID = slice data (pos + 21 + cn + dl + ln + pu) id ∧
          rg.SampleName = slice data (pos + 21 + cn + dl + ln + pu + id) sn ∧
          rg.CenterName.length = cn ∧ rg.Description.length = dl ∧
          rg.LibraryName.length = ln ∧ rg.PlatformUnit.length = pu ∧
          rg.ReadGroupID.length = id ∧ rg.SampleName.length = sn ∧
          readGroupsEnd data 73 (i + 1) = pos + (21 + cn + dl + ln + pu + id + sn) := by
  have hl := length_resizeVec r.mReadGroups (leNat (slice data 21 4)) ReadGroup.ctor
  obtain ⟨h1, -, h3⟩ := readReadGroups_full data
    (resizeVec r.mReadGroups (leNat (slice data 21 4)) ReadGroup.ctor) 73 false
    (by rw [hl]; exact hfit)
  rw [hl] at h1
  refine ⟨openedReader r filename data, Open_eq env r filename data hclosed hlen, ?_, h1, ?_⟩
  · simp only [openedReader, headerReadGroups, length_readReadGroups, hl]
  · intro i hi
    have hin := readGroupsFit_at data _ 73 i hfit hi
    have hsucc := readGroupsEnd_succ data i 73
    simp only [readGroupBytes] at hin hsucc
    refine ⟨_, _, _, _, _, _, _, _, h3 i (by rw [hl]; exact hi), rfl, rfl, rfl, rfl, rfl, rfl,
      rfl, rfl, rfl, rfl, rfl, rfl, rfl, rfl, rfl, ?_, ?_, ?_, ?_, ?_, ?_, ?_⟩
    · exact length_slice _ _ _ (by omega)
    · exact length_slice _ _ _ (by omega)
    · exact length_slice _ _ _ (by omega)
    · exact length_slice _ _ _ (by omega)
    · exact length_slice _ _ _ (by omega)
    · exact length_slice _ _ _ (by omega)
    · rw [hsucc]

/-- C10 at the sample header with one read group: the group is decoded with
center "c", description "de", library "lb", median fragment length 300, and
`mReadsOffset` is 102 = 73 + 21 + 8. -/
theorem C10_Open_read_groups_witness :
    (freshReader.mIsOpen = false ∧ 72 ≤ sampleHeaderWithGroup.length ∧
      readGroupsFit sampleHeaderWithGroup 73 (leNat (slice sampleHeaderWithGroup 21 4))
        = true) ∧
    ∃ (r' : CAlignmentReader) (rg : ReadGroup),
      Open sampleEnv freshReader "sample.aa" (some sampleHeaderWithGroup) = .ok r' ∧
      r'.mReadsOffset = 102 ∧ r'.mReadGroups.get? 0 = some rg ∧
      rg.CenterName = [99] ∧ rg.Description = [100, 101] ∧ rg.LibraryName = [108, 98] ∧
      rg.PlatformUnit = [] ∧ rg.ReadGroupID = [105, 100] ∧ rg.SampleName = [115] ∧
      rg.MedianFragmentLength = 300 ∧ rg.SequencingTechnology = 4 := by
  refine ⟨⟨by decide, by decide, by decide⟩, ?_⟩
  obtain ⟨r', hopen, -, hoff, hgroups⟩ :=
    C10_Open_read_groups sampleEnv freshReader "sample.aa" sampleHeaderWithGroup
      (by decide) (by decide) (by decide)
  have hn : leNat (slice sampleHeaderWithGroup 21 4) = 1 := by decide
  obtain ⟨rg, pos, cn, ln, pu, id, sn, dl, hget, hpos, hcn, hln, hpu, hid, hsn, hdl, htech, hmfl,
    h1, h2, h3, h4, h5, h6, -⟩ := hgroups 0 (by rw [hn]; decide)
  have hpos' : pos = 73 := hpos
  subst hpos'
  have hcn' : cn = 1 := by rw [hcn]; decide
  have hln' : ln = 2 := by rw [hln]; decide
  have hpu' : pu = 0 := by rw [hpu]; decide
  have hid' : id = 2 := by rw [hid]; decide
  have hsn' : sn = 1 := by rw [hsn]; decide
  have hdl' : dl = 2 := by rw [hdl]; decide
  subst hcn' hln' hpu' hid' hsn' hdl'
  refine ⟨r', rg, hopen, ?_, hget, ?_, ?_, ?_, ?_, ?_, ?_, ?_, ?_⟩
  · rw [hoff, hn]; decide
  · rw [h1]; decide
  · rw [h2]; decide
  · rw [h3]; decide
  · rw [h4]; decide
  · rw [h5]; decide
  · rw [h6]; decide
  · rw [hmfl]; decide
  · rw [htech]; decide

/-! ## Decoding depends only on the bytes of the record -/

theorem slice_append_head (out tail : List Byte) (off n : Nat) (h : off + n ≤ out.length) :
    slice (out ++ tail) off n = slice out off n := by
  simp only [slice]
  rw [List.drop_append_of_le_length (by omega),
    List.take_append_of_le_length (by rw [List.length_drop]; omega)]

theorem alignment_append_tail (out tail : List Byte) (ptr : Nat) (isLongRead hasMateInfo : Bool)
    (h : ptr + alignmentBytes out ptr isLongRead hasMateInfo ≤ out.length) :
    alignmentBytes (out ++ tail) ptr isLongRead hasMateInfo
        = alignmentBytes out ptr isLongRead hasMateInfo ∧
    slice (out ++ tail) (ptr + 8) 4 = slice out (ptr + 8) 4 ∧
    ∀ (al : Alignment) (name : List Byte),
      decodedAlignment (out ++ tail) ptr al name isLongRead hasMateInfo
        = decodedAlignment out ptr al name isLongRead hasMateInfo := by
  cases isLongRead <;> cases hasMateInfo <;>
  · simp only [alignmentBytes, mateBytes, queryWidth, bqLengthAt, encQueryEnd, encQueryBegin,
      encPairwiseLength, Bool.false_eq_true, if_false, if_true, Nat.add_zero, Nat.add_assoc,
      Nat.reduceAdd] at h
    refine ⟨?_, ?_, ?_⟩
    · simp only [alignmentBytes, mateBytes, queryWidth, bqLengthAt, encQueryEnd, encQueryBegin,
        encPairwiseLength, Bool.false_eq_true, if_false, if_true, Nat.add_zero, Nat.add_assoc,
        Nat.reduceAdd]
      simp (disch := omega) only [slice_append_head]
    · exact slice_append_head out tail _ _ (by omega)
    · intro al name
      simp only [decodedAlignment, pairwiseOffset, mateBytes, queryWidth, bqLengthAt,
        encQueryEnd, encQueryBegin, encPairwiseLength, Bool.false_eq_true, if_false, if_true,
        Nat.add_zero, Nat.add_assoc, Nat.reduceAdd]
      simp (disch := omega) only [slice_append_head]

theorem peek_append_head (out tail : List Byte) (ptr n : Nat) (h : ptr + n ≤ out.length) :
    peek (out ++ tail) ptr n = peek out ptr n := by
  rw [peek_ok out ptr n h, peek_ok (out ++ tail) ptr n (by rw [List.length_append]; omega),
    slice_append_head out tail ptr n h]

theorem ReadAlignments_append_tail (out tail : List Byte) (lut : List (List Byte))
    (isLongRead hasMateInfo : Bool) (hlut : lut.length < 65536) :
    ∀ (alignments : List Alignment) (ptr : Nat),
      alignmentsFit out lut.length isLongRead hasMateInfo ptr alignments.length = true →
      ReadAlignments (out ++ tail) lut ptr alignments isLongRead hasMateInfo
        = ReadAlignments out lut ptr alignments isLongRead hasMateInfo
  | [], _, _ => rfl
  | al :: rest, ptr, hfit => by
    simp only [List.length_cons, alignmentsFit, Bool.and_eq_true, decide_eq_true_eq] at hfit
    obtain ⟨⟨hidx, hin⟩, hrest⟩ := hfit
    obtain ⟨hb, hs, hd⟩ := alignment_append_tail out tail ptr isLongRead hasMateInfo hin
    obtain ⟨name, hname⟩ : ∃ name, lut.get? (leNat (slice out (ptr + 8) 4) % 65536) = some name := by
      rw [Nat.mod_eq_of_lt (by omega), List.get?_eq_get hidx]; exact ⟨_, rfl⟩
    have h1 := ReadAlignment_eq out lut ptr al isLongRead hasMateInfo name hname hin
    have h2 := ReadAlignment_eq (out ++ tail) lut ptr al isLongRead hasMateInfo name
      (by rw [hs]; exact hname) (by rw [hb, List.length_append]; omega)
    rw [hb, hd] at h2
    simp only [ReadAlignments, h1, h2,
      ReadAlignments_append_tail out tail lut isLongRead hasMateInfo hlut rest _ hrest]

theorem decodeRead_append_tail (env : Env) (out tail : List Byte) (lut : List (List Byte))
    (ptr : Nat) (ar : AlignedRead) (hlut : lut.length < 65536)
    (hfit : readFits out lut.length ptr = true) :
    decodeRead env (out ++ tail) lut ptr ar = decodeRead env out lut ptr ar := by
  obtain ⟨m1, m2, hm1, hm2, hlen1, hlen2, hdec⟩ := decodeRead_ok env out lut ptr ar hlut hfit
  rw [hdec]
  simp only [readFits, Bool.and_eq_true, decide_eq_true_eq] at hfit
  obtain ⟨⟨hhead, hfit1⟩, hfit2⟩ := hfit
  have hl1 := length_resizeVec ar.Mate1Alignments (encMate1Count out ptr) (Alignment.ctor env.indet)
  have hl2 := length_resizeVec ar.Mate2Alignments (encMate2Count out ptr) (Alignment.ctor env.indet)
  have hp1 := ReadAlignments_append_tail out tail lut ((encStatus out ptr).testBit 0)
    ((encStatus out ptr).testBit 2) hlut
    (resizeVec ar.Mate1Alignments (encMate1Count out ptr) (Alignment.ctor env.indet))
    (alignmentsOffset out ptr) (by rw [hl1]; exact hfit1)
  have hp2 := ReadAlignments_append_tail out tail lut ((encStatus out ptr).testBit 0)
    ((encStatus out ptr).testBit 2) hlut
    (resizeVec ar.Mate2Alignments (encMate2Count out ptr) (Alignment.ctor env.indet))
    (alignmentsEnd out ((encStatus out ptr).testBit 0) ((encStatus out ptr).testBit 2)
      (alignmentsOffset out ptr) (encMate1Count out ptr)) (by rw [hl2]; exact hfit2)
  rw [hm1] at hp1
  rw [hm2] at hp2
  have hoff : ptr + 1 + encNameLen out ptr + 4 + 1 + 4 ≤ out.length := by
    simp only [alignmentsOffset] at hhead; omega
  simp only [decodeRead, SIZEOF_INT, bind, Except.bind, pure, Except.pure]
  rw [peek_append_head out tail ptr 1 (by omega), peek_ok out ptr 1 (by omega)]
  simp only []
  rw [peek_append_head out tail (ptr + 1) _ (by simp only [encNameLen] at hoff; omega),
    peek_ok out (ptr + 1) _ (by simp only [encNameLen] at hoff; omega)]
  simp only []
  rw [peek_append_head out tail _ 4 (by simp only [encNameLen] at hoff; omega),
    peek_ok out _ 4 (by simp only [encNameLen] at hoff; omega)]
  simp only []
  rw [peek_append_head out tail _ 1 (by simp only [encNameLen] at hoff; omega),
    peek_ok out _ 1 (by simp only [encNameLen] at hoff; omega)]
  simp only []
  rw [peek_append_head out tail _ 4 (by simp only [encNameLen] at hoff; omega),
    peek_ok out _ 4 (by simp only [encNameLen] at hoff; omega)]
  simp only [flag_eq_testBit _ 0 1 rfl, flag_eq_testBit _ 1 2 rfl, flag_eq_testBit _ 2 4 rfl]
  by_cases hp : (encStatus out ptr).testBit 1 = true
  · have hp' := hp
    simp only [encStatus, encNameLen] at hp'
    simp only [alignmentsOffset, encMate1Count, encMate2Count, readEnd, encStatus, encNameLen,
      hp', if_true] at hp1 hp2 hhead ⊢
    rw [peek_append_head out tail _ 4 (by omega), peek_ok out _ 4 (by omega)]
    simp only [hp1, hp2]
  · have hp' := hp
    simp only [encStatus, encNameLen] at hp'
    simp only [alignmentsOffset, encMate1Count, encMate2Count, readEnd, encStatus, encNameLen,
      hp', if_false, Nat.add_zero, Bool.false_eq_true] at hp1 hp2 hhead ⊢
    simp only [hp1, hp2]

theorem LoadNextRead_within (env : Env) (out tail : List Byte) (r : CAlignmentReader)
    (ar : AlignedRead) (hopen : r.mIsOpen = true) (hbuf : r.mBuffer = out ++ tail)
    (hlut : r.mRefSeqLUT.length < 65536)
    (hmem : r.mPartitionMembers < r.mPartitionSize) (hsize : r.mPartitionSize < 65536)
    (hcur : r.mCurrentRead < r.mNumReads) (hnum : r.mNumReads < 2 ^ 64)
    (hfit : readFits out r.mRefSeqLUT.length r.mBufferPtr = true) :
    ∃ ar' : AlignedRead,
      decodeRead env out r.mRefSeqLUT r.mBufferPtr ar = .ok (ar', readEnd out r.mBufferPtr) ∧
      LoadNextRead env r ar
        = .ok (true, { r with mBufferPtr := readEnd out r.mBufferPtr
                              mCurrentRead := r.mCurrentRead + 1
                              mPartitionMembers := r.mPartitionMembers + 1 }, ar') := by
  obtain ⟨m1, m2, -, -, -, -, hdec⟩ :=
    decodeRead_ok env out r.mRefSeqLUT r.mBufferPtr ar hlut hfit
  refine ⟨_, hdec, ?_⟩
  have hpump : pump env r = .ok (true, r) := by
    simp only [pump, Nat.ne_of_lt hmem, if_false]
  have hc : (r.mCurrentRead + 1) % 2 ^ 64 = r.mCurrentRead + 1 := Nat.mod_eq_of_lt (by omega)
  have hm : (r.mPartitionMembers + 1) % 65536 = r.mPartitionMembers + 1 :=
    Nat.mod_eq_of_lt (by omega)
  simp only [LoadNextRead, hopen, Bool.not_true, Bool.false_eq_true, if_false, ge_iff_le,
    Nat.not_le.mpr hcur, hpump, hbuf, decodeRead_append_tail env out tail r.mRefSeqLUT r.mBufferPtr
      ar hlut hfit, hdec, hc, hm]

theorem loadReads_within (env : Env) (out : List Byte) :
    ∀ (ars : List AlignedRead) (r : CAlignmentReader) (tail : List Byte),
      r.mIsOpen = true → r.mBuffer = out ++ tail → r.mRefSeqLUT.length < 65536 →
      r.mPartitionMembers + ars.length ≤ r.mPartitionSize → r.mPartitionSize < 65536 →
      r.mCurrentRead + ars.length ≤ r.mNumReads → r.mNumReads < 2 ^ 64 →
      recordsFit out r.mRefSeqLUT.length r.mBufferPtr ars.length = true →
      loadReads env r ars
        = .ok (partitionReads env out r.mRefSeqLUT r.mBufferPtr ars,
               { r with mBufferPtr := recordsEnd out r.mBufferPtr ars.length
                        mCurrentRead := r.mCurrentRead + ars.length
                        mPartitionMembers := r.mPartitionMembers + ars.length })
  | [], r, _, _, _, _, _, _, _, _, _ => rfl
  | ar :: rest, r, tail, hopen, hbuf, hlut, hmem, hsize, hcur, hnum, hfit => by
    simp only [List.length_cons] at hmem hcur hfit
    simp only [recordsFit, Bool.and_eq_true] at hfit
    obtain ⟨ar', hdec, hstep⟩ := LoadNextRead_within env out tail r ar hopen hbuf hlut
      (by omega) hsize (by omega) hnum hfit.1
    have ih := loadReads_within env out rest
      { r with mBufferPtr := readEnd out r.mBufferPtr
               mCurrentRead := r.mCurrentRead + 1
               mPartitionMembers := r.mPartitionMembers + 1 } tail hopen hbuf hlut
      (by simp only []; omega) hsize (by simp only []; omega) hnum hfit.2
    simp only [loadReads, hstep, ih, partitionReads, hdec, List.length_cons, recordsEnd,
      Nat.add_assoc, Nat.add_comm 1 rest.length]

theorem CheckBufferSize_spec (env : Env) (buf : List Byte) (len req : Nat)
    (hinv : buf.length = len) (hreq : req + 10 < 2 ^ 32) :
    (CheckBufferSize env buf len req).1.length = (CheckBufferSize env buf len req).2 ∧
    req ≤ (CheckBufferSize env buf len req).2 := by
  simp only [CheckBufferSize]
  split
  · simp only [length_alloc, true_and]
    omega
  · simp only [hinv, true_and]
    omega

theorem readPartition_ok (env : Env) (hstable : CapacityStable env) (r : CAlignmentReader)
    (data : List Byte) (pos : Nat)
    (hs : r.mInStream = .live { data := data, pos := pos, eof := false })
    (hinv : BuffersOk r)
    (hend : partEnd data pos ≤ data.length)
    (hc : partCompressedSize data pos < 2 ^ 31)
    (hu : partUncompressedSize data pos + 10 < 2 ^ 32)
    (hout : (partContent env data pos).length ≠ 0) :
    ∃ cbuf tail : List Byte,
      readPartition env r
        = .ok (true,
            { r with mInStream := .live { data := data, pos := partEnd data pos, eof := false }
                     mPartitionMembers := 0
                     mPartitionSize := partMembers data pos
                     mCompressionBuffer := cbuf
                     mCompressionBufferLen := cbuf.length
                     mBuffer := partContent env data pos ++ tail
                     mBufferLen := (partContent env data pos ++ tail).length
                     mBufferPtr := 0 }) := by
  simp only [partEnd] at hend
  obtain ⟨hb1, hb2⟩ := hinv
  obtain ⟨hcl, hcr⟩ := CheckBufferSize_spec env r.mCompressionBuffer r.mCompressionBufferLen
    (partCompressedSize data pos) hb2 (by omega)
  obtain ⟨hul, hur⟩ := CheckBufferSize_spec env r.mBuffer r.mBufferLen
    (partUncompressedSize data pos) hb1 hu
  rcases hcb : CheckBufferSize env r.mCompressionBuffer r.mCompressionBufferLen
    (partCompressedSize data pos) with ⟨cb, cbl⟩
  rcases hub : CheckBufferSize env r.mBuffer r.mBufferLen
    (partUncompressedSize data pos) with ⟨ub, ubl⟩
  rw [hcb] at hcl hcr
  rw [hub] at hul hur
  simp only [] at hcl hcr hul hur
  have hpayload : (slice data (pos + 10) (partCompressedSize data pos)).length
      = partCompressedSize data pos := length_slice _ _ _ (by omega)
  have hdec : env.fastlz_decompress (slice data (pos + 10) (partCompressedSize data pos)) ubl
      = partContent env data pos := hstable _ _ _ hur hout
  have hbound : (partContent env data pos).length ≤ ub.length := by
    rw [← hdec, hul]
    exact env.fastlz_bound _ _
  refine ⟨store cb (slice data (pos + 10) (partCompressedSize data pos)),
    ub.drop (partContent env data pos).length, ?_⟩
  have hlen1 : (store cb (slice data (pos + 10) (partCompressedSize data pos))).length = cbl := by
    simp only [store, List.length_append, List.length_drop, hpayload]
    omega
  have hlen2 : (partContent env data pos ++ ub.drop (partContent env data pos).length).length
      = ubl := by
    simp only [List.length_append, List.length_drop]
    omega
  rw [hlen1, hlen2]
  simp only [readPartition, CAlignmentReader.stream, hs, bind, Except.bind, pure, Except.pure,
    SIZEOF_INT, SIZEOF_SHORT]
  simp (disch := first | omega | (simp only []; omega)) only [freadInt_full]
  simp only [Bool.false_eq_true, if_false]
  simp (disch := first | omega | (simp only []; omega)) only [freadInt_full, Nat.add_assoc,
    Nat.reduceAdd]
  have hc' : leNat (slice data (pos + 4) 4) < 2 ^ 31 := hc
  have hcb' : CheckBufferSize env r.mCompressionBuffer r.mCompressionBufferLen
      (leNat (slice data (pos + 4) 4)) = (cb, cbl) := hcb
  have hub' : CheckBufferSize env r.mBuffer r.mBufferLen (leNat (slice data pos 4))
      = (ub, ubl) := hub
  have hpayload' : (slice data (pos + 10) (leNat (slice data (pos + 4) 4))).length
      = leNat (slice data (pos + 4) 4) := hpayload
  have hdec' : env.fastlz_decompress (slice data (pos + 10) (leNat (slice data (pos + 4) 4))) ubl
      = partContent env data pos := hdec
  have hmod : leNat (slice data (pos + 4) 4) % 4294967296 = leNat (slice data (pos + 4) 4) :=
    Nat.mod_eq_of_lt (by omega)
  have hcr' : leNat (slice data (pos + 4) 4) ≤ cbl := hcr
  have hend' : pos + 10 + leNat (slice data (pos + 4) 4) ≤ data.length := hend
  rw [if_pos hc', fread_full _ _ (by simp only []; exact hend'), hcb', hub']
  simp only [hpayload', hdec', hmod, hcl, gt_iff_lt, Nat.not_lt.mpr hcr', Nat.not_lt.mpr hbound,
    if_false, ne_eq, not_true_eq_false, hout, store, partMembers, partEnd, partCompressedSize]

theorem leNat_lt (bs : List Byte) : leNat bs < 256 ^ bs.length := by
  induction bs with
  | nil => simp [leNat]
  | cons b bs ih =>
    have hb := b.isLt
    simp only [leNat, List.length_cons, pow_succ]
    omega

theorem leNat_slice_two_lt (data : List Byte) (off : Nat) : leNat (slice data off 2) < 65536 := by
  have h := leNat_lt (slice data off 2)
  have hl : (slice data off 2).length ≤ 2 := by
    simp only [slice, List.length_take]; omega
  have hp : 256 ^ (slice data off 2).length ≤ 256 ^ 2 := Nat.pow_le_pow_right (by decide) hl
  omega

theorem loadReads_append (env : Env) :
    ∀ (xs ys : List AlignedRead) (r : CAlignmentReader),
      loadReads env r (xs ++ ys) =
        match loadReads env r xs with
        | .error e => .error e
        | .ok (o1, r1) =>
          match loadReads env r1 ys with
          | .error e => .error e
          | .ok (o2, r2) => .ok (o1 ++ o2, r2)
  | [], ys, r => by
    simp only [List.nil_append, loadReads]
    cases loadReads env r ys with
    | error e => rfl
    | ok p => rfl
  | x :: xs, ys, r => by
    simp only [List.cons_append, loadReads]
    cases LoadNextRead env r x with
    | error e => rfl
    | ok p =>
      obtain ⟨b, r', ar'⟩ := p
      simp only [List.append_eq]
      rw [loadReads_append env xs ys r']
      cases loadReads env r' xs with
      | error e => rfl
      | ok q =>
        obtain ⟨o1, r1⟩ := q
        simp only []
        cases loadReads env r1 ys with
        | error e => rfl
        | ok q2 => rfl

theorem LoadNextRead_after_pump (env : Env) (r r1 : CAlignmentReader) (ar : AlignedRead)
    (hpump : pump env r = .ok (true, r1))
    (hne : r1.mPartitionMembers ≠ r1.mPartitionSize)
    (hopen : r1.mIsOpen = r.mIsOpen) (hcur : r1.mCurrentRead = r.mCurrentRead)
    (hnum : r1.mNumReads = r.mNumReads) (hlt : r.mCurrentRead < r.mNumReads) :
    LoadNextRead env r ar = LoadNextRead env r1 ar := by
  have hpump1 : pump env r1 = .ok (true, r1) := by
    simp only [pump, hne, if_false]
  simp only [LoadNextRead, hpump, hpump1, hopen, hcur, hnum, ge_iff_le, Nat.not_le.mpr hlt,
    if_false]

theorem archiveReads_nil (env : Env) (lut : List (List Byte)) (data : List Byte)
    (fuel pos : Nat) : archiveReads env lut data fuel pos [] = [] := by
  cases fuel <;> rfl

theorem loadReads_archive (env : Env) (hstable : CapacityStable env) :
    ∀ (fuel : Nat) (ars : List AlignedRead) (r : CAlignmentReader) (data : List Byte)
      (pos : Nat),
      r.mIsOpen = true →
      r.mInStream = .live { data := data, pos := pos, eof := false } →
      BuffersOk r →
      r.mPartitionMembers = r.mPartitionSize →
      r.mRefSeqLUT.length < 65536 →
      r.mCurrentRead + ars.length ≤ r.mNumReads → r.mNumReads < 2 ^ 64 →
      archiveOk env r.mRefSeqLUT.length data fuel pos ars.length = true →
      ∃ r' : CAlignmentReader,
        loadReads env r ars = .ok (archiveReads env r.mRefSeqLUT data fuel pos ars, r') ∧
        r'.mIsOpen = true ∧ r'.mNumReads = r.mNumReads ∧
        r'.mCurrentRead = r.mCurrentRead + ars.length
  | fuel, [], r, data, pos, hopen, _, _, _, _, _, _, _ =>
    ⟨r, by rw [archiveReads_nil]; rfl, hopen, rfl, rfl⟩
  | 0, _ :: _, _, _, _, _, _, _, _, _, _, _, hok => by
    simp [archiveOk] at hok
  | fuel + 1, ar :: rest, r, data, pos, hopen, hs, hinv, hbound, hlut, hcur, hnum, hok => by
    simp only [List.length_cons, archiveOk, Bool.and_eq_true, decide_eq_true_eq] at hok hcur
    obtain ⟨⟨⟨⟨⟨⟨hend, hc⟩, hu⟩, hP⟩, hout⟩, hfit⟩, hrest⟩ := hok
    obtain ⟨cbuf, tail, hload⟩ := readPartition_ok env hstable r data pos hs hinv hend hc hu hout
    have hpump : pump env r = .ok (true,
        { r with mInStream := .live { data := data, pos := partEnd data pos, eof := false }
                 mPartitionMembers := 0
                 mPartitionSize := partMembers data pos
                 mCompressionBuffer := cbuf
                 mCompressionBufferLen := cbuf.length
                 mBuffer := partContent env data pos ++ tail
                 mBufferLen := (partContent env data pos ++ tail).length
                 mBufferPtr := 0 }) := by
      simp only [pump, hbound, if_true, hload]
    have hPlt : partMembers data pos < 65536 := leNat_slice_two_lt data (pos + 8)
    have hfirst := LoadNextRead_after_pump env r _ ar hpump
      (by simp only []; omega) rfl rfl rfl (by omega)
    have happ := loadReads_append env
      ((ar :: rest).take (min (partMembers data pos) (rest.length + 1)))
      ((ar :: rest).drop (min (partMembers data pos) (rest.length + 1)))
      { r with mInStream := .live { data := data, pos := partEnd data pos, eof := false }
               mPartitionMembers := 0
               mPartitionSize := partMembers data pos
               mCompressionBuffer := cbuf
               mCompressionBufferLen := cbuf.length
               mBuffer := partContent env data pos ++ tail
               mBufferLen := (partContent env data pos ++ tail).length
               mBufferPtr := 0 }
    rw [List.take_append_drop] at happ
    have hlen1 : ((ar :: rest).take (min (partMembers data pos) (rest.length + 1))).length
        = min (partMembers data pos) (rest.length + 1) := by
      rw [List.length_take, List.length_cons]; omega
    have hlen2 : ((ar :: rest).drop (min (partMembers data pos) (rest.length + 1))).length
        = rest.length + 1 - min (partMembers data pos) (rest.length + 1) := by
      rw [List.length_drop, List.length_cons]
    have hwithin := loadReads_within env (partContent env data pos)
      ((ar :: rest).take (min (partMembers data pos) (rest.length + 1)))
      { r with mInStream := .live { data := data, pos := partEnd data pos, eof := false }
               mPartitionMembers := 0
               mPartitionSize := partMembers data pos
               mCompressionBuffer := cbuf
               mCompressionBufferLen := cbuf.length
               mBuffer := partContent env data pos ++ tail
               mBufferLen := (partContent env data pos ++ tail).length
               mBufferPtr := 0 } tail hopen rfl hlut
      (by simp only [hlen1]; omega) hPlt (by simp only [hlen1]; omega) hnum
      (by simp only [hlen1]; exact hfit)
    simp only [hlen1, Nat.zero_add] at hwithin
    have hrun : loadReads env r (ar :: rest)
        = loadReads env
            { r with mInStream := .live { data := data, pos := partEnd data pos, eof := false }
                     mPartitionMembers := 0
                     mPartitionSize := partMembers data pos
                     mCompressionBuffer := cbuf
                     mCompressionBufferLen := cbuf.length
                     mBuffer := partContent env data pos ++ tail
                     mBufferLen := (partContent env data pos ++ tail).length
                     mBufferPtr := 0 } (ar :: rest) := by
      simp only [loadReads, hfirst]
    by_cases hmore : partMembers data pos ≤ rest.length
    · have hk : min (partMembers data pos) (rest.length + 1) = partMembers data pos := by omega
      obtain ⟨r', hr', ho', hn', hc'⟩ := loadReads_archive env hstable fuel
        ((ar :: rest).drop (min (partMembers data pos) (rest.length + 1)))
        { r with mInStream := .live { data := data, pos := partEnd data pos, eof := false }
                 mPartitionMembers := min (partMembers data pos) (rest.length + 1)
                 mPartitionSize := partMembers data pos
                 mCompressionBuffer := cbuf
                 mCompressionBufferLen := cbuf.length
                 mBuffer := partContent env data pos ++ tail
                 mBufferLen := (partContent env data pos ++ tail).length
                 mBufferPtr := recordsEnd (partContent env data pos) 0
                   (min (partMembers data pos) (rest.length + 1))
                 mCurrentRead := r.mCurrentRead + min (partMembers data pos) (rest.length + 1) }
        data (partEnd data pos) hopen rfl ⟨rfl, rfl⟩ hk hlut
        (by simp only [hlen2]; omega) hnum (by simp only [hlen2]; exact hrest)
      refine ⟨r', ?_, ho', hn', ?_⟩
      · rw [hrun, happ, hwithin]
        simp only [hr', archiveReads]
      · rw [hc']
        simp only [hlen2, List.length_cons]
        omega
    · have hk : min (partMembers data pos) (rest.length + 1) = rest.length + 1 := by omega
      have hdrop : (ar :: rest).drop (min (partMembers data pos) (rest.length + 1)) = [] := by
        rw [hk]; exact List.drop_length (ar :: rest)
      refine ⟨{ r with
          mInStream := .live { data := data, pos := partEnd data pos, eof := false }
          mPartitionMembers := min (partMembers data pos) (rest.length + 1)
          mPartitionSize := partMembers data pos
          mCompressionBuffer := cbuf
          mCompressionBufferLen := cbuf.length
          mBuffer := partContent env data pos ++ tail
          mBufferLen := (partContent env data pos ++ tail).length
          mBufferPtr := recordsEnd (partContent env data pos) 0
            (min (partMembers data pos) (rest.length + 1))
          mCurrentRead := r.mCurrentRead + min (partMembers data pos) (rest.length + 1) },
        ?_, hopen, rfl, ?_⟩
      · rw [hrun, happ, hwithin]
        simp only [hdrop, loadReads, List.append_nil, archiveReads, archiveReads_nil]
      · simp only [hk, List.length_cons]

theorem length_store (buf bytes : List Byte) (h : bytes.length ≤ buf.length) :
    (store buf bytes).length = buf.length := by
  simp only [store, List.length_append, List.length_drop]
  omega

theorem CheckBufferSize_length (env : Env) (buf : List Byte) (len req : Nat)
    (hinv : buf.length = len) :
    (CheckBufferSize env buf len req).1.length = (CheckBufferSize env buf len req).2 := by
  simp only [CheckBufferSize]
  split
  · simp only [length_alloc]
  · exact hinv

theorem fread_data (f : FILE) (n : Nat) : (fread f n).2.data = f.data := rfl

theorem freadInt_data (old w : Nat) (f : FILE) : (freadInt old w f).2.data = f.data := rfl

theorem readPartition_frame (env : Env) (r r1 : CAlignmentReader) (b : Bool) (data : List Byte)
    (hs : ∃ f : FILE, r.mInStream = .live f ∧ f.data = data) (hinv : BuffersOk r)
    (h : readPartition env r = .ok (b, r1)) :
    r1.mIsOpen = r.mIsOpen ∧ r1.mNumReads = r.mNumReads ∧ r1.mReadsOffset = r.mReadsOffset ∧
    r1.mRefSeqLUT = r.mRefSeqLUT ∧ r1.mCurrentRead = r.mCurrentRead ∧
    (∃ f : FILE, r1.mInStream = .live f ∧ f.data = data) ∧ BuffersOk r1 ∧
    (b = false → r1.mPartitionMembers = r.mPartitionMembers ∧
      r1.mPartitionSize = r.mPartitionSize) ∧
    (b = true → r1.mPartitionMembers = 0) := by
  obtain ⟨f, hf, hd⟩ := hs
  obtain ⟨hb1, hb2⟩ := hinv
  simp only [readPartition, CAlignmentReader.stream, hf, bind, Except.bind, pure,
    Except.pure] at h
  split_ifs at h
  all_goals first
    | (cases h; done)
    | (cases h
       exact ⟨rfl, rfl, rfl, rfl, rfl, ⟨_, rfl, by rw [freadInt_data]; exact hd⟩, ⟨hb1, hb2⟩,
         fun _ => ⟨rfl, rfl⟩, (fun hc => by cases hc)⟩)
    | (cases h
       refine ⟨rfl, rfl, rfl, rfl, rfl, ⟨_, rfl, ?_⟩, ⟨?_, ?_⟩, (fun hc => by cases hc),
         fun _ => rfl⟩
       · simp only [fread_data, freadInt_data]; exact hd
       · simp only []
         rw [length_store _ _ (by omega)]
         exact CheckBufferSize_length env _ _ _ hb1
       · simp only []
         rw [length_store _ _ (by omega)]
         exact CheckBufferSize_length env _ _ _ hb2)

theorem pump_frame (env : Env) (r r1 : CAlignmentReader) (b : Bool) (data : List Byte)
    (hs : ∃ f : FILE, r.mInStream = .live f ∧ f.data = data) (hinv : BuffersOk r)
    (h : pump env r = .ok (b, r1)) :
    r1.mIsOpen = r.mIsOpen ∧ r1.mNumReads = r.mNumReads ∧ r1.mReadsOffset = r.mReadsOffset ∧
    r1.mRefSeqLUT = r.mRefSeqLUT ∧ r1.mCurrentRead = r.mCurrentRead ∧
    (∃ f : FILE, r1.mInStream = .live f ∧ f.data = data) ∧ BuffersOk r1 := by
  simp only [pump] at h
  split at h
  · obtain ⟨h1, h2, h3, h4, h5, h6, h7, -, -⟩ := readPartition_frame env r r1 b data hs hinv h
    exact ⟨h1, h2, h3, h4, h5, h6, h7⟩
  · cases h
    exact ⟨rfl, rfl, rfl, rfl, rfl, hs, hinv⟩

theorem LoadNextRead_frame (env : Env) (r0 r r' : CAlignmentReader) (ar ar' : AlignedRead)
    (b : Bool) (data : List Byte) (hsame : SameArchive r0 r data)
    (h : LoadNextRead env r ar = .ok (b, r', ar')) :
    SameArchive r0 r' data ∧
    (b = true → r.mCurrentRead < r.mNumReads ∧
      r'.mCurrentRead = (r.mCurrentRead + 1) % 2 ^ 64) ∧
    (b = false → r'.mCurrentRead = r.mCurrentRead) := by
  obtain ⟨ho, hn, hro, hl, hs, hinv⟩ := hsame
  simp only [LoadNextRead] at h
  split at h
  · cases h
  · split at h
    · cases h
      exact ⟨⟨ho, hn, hro, hl, hs, hinv⟩, (fun hc => by cases hc), fun _ => rfl⟩
    · rename_i hlt
      split at h
      · cases h
      · rename_i r1 hp
        cases h
        obtain ⟨h1, h2, h3, h4, h5, h6, h7⟩ := pump_frame env r r' false data hs hinv hp
        exact ⟨⟨h1.trans ho, h2.trans hn, h3.trans hro, h4.trans hl, h6, h7⟩,
          (fun hc => by cases hc), fun _ => h5⟩
      · rename_i r1 hp
        obtain ⟨h1, h2, h3, h4, h5, h6, h7⟩ := pump_frame env r r1 true data hs hinv hp
        split at h
        · cases h
        · cases h
          refine ⟨⟨h1.trans ho, h2.trans hn, h3.trans hro, h4.trans hl, h6, h7⟩,
            fun _ => ⟨by omega, ?_⟩, (fun hc => by cases hc)⟩
          simp only [h5]

theorem Rewind_frame (r0 r r' : CAlignmentReader) (data : List Byte)
    (hsame : SameArchive r0 r data) (h : Rewind r = .ok r') : SameArchive r0 r' data := by
  obtain ⟨ho, hn, hro, hl, ⟨f, hf, hd⟩, hinv⟩ := hsame
  simp only [Rewind, CAlignmentReader.stream, hf, bind, Except.bind, pure, Except.pure,
    Except.ok.injEq] at h
  subst h
  refine ⟨ho, hn, hro, hl, ⟨_, rfl, ?_⟩, hinv⟩
  simp only [fseek64_SET]
  split <;> exact hd

theorem Jump_frame (env : Env) (r0 r r' : CAlignmentReader) (data : List Byte)
    (referenceIndex referencePosition : Nat)
    (hsame : SameArchive r0 r data)
    (h : Jump env r referenceIndex referencePosition = .ok r') : SameArchive r0 r' data := by
  obtain ⟨ho, hn, hro, hl, ⟨f, hf, hd⟩, hb1, hb2⟩ := hsame
  simp only [Jump, CAlignmentReader.stream, hf] at h
  split_ifs at h
  split at h
  · cases h
  · cases h
  · cases h
    refine ⟨ho, hn, hro, hl, ⟨_, rfl, ?_⟩, ⟨?_, hb2⟩⟩
    · simp only [fseek64_SET]
      split_ifs <;> exact hd
    · simp only []
      rw [length_store _ _ (by omega)]
      exact CheckBufferSize_length env _ _ _ hb1

theorem Reachable_same (env : Env) (r0 r : CAlignmentReader) (data : List Byte)
    (h0 : SameArchive r0 r0 data) (h : Reachable env r0 r) : SameArchive r0 r data := by
  induction h with
  | start => exact h0
  | load _ hstep ih => exact (LoadNextRead_frame env r0 _ _ _ _ _ data ih hstep).1
  | jump _ hstep ih => exact Jump_frame env r0 _ _ data _ _ ih hstep
  | rewind _ hstep ih => exact Rewind_frame r0 _ _ data ih hstep

theorem readPartition_counters (env : Env) (r r1 : CAlignmentReader) (b : Bool)
    (h : readPartition env r = .ok (b, r1)) :
    r1.mIsOpen = r.mIsOpen ∧ r1.mNumReads = r.mNumReads ∧ r1.mCurrentRead = r.mCurrentRead := by
  simp only [readPartition, CAlignmentReader.stream, bind, Except.bind, pure, Except.pure] at h
  split at h
  · cases h
  · split_ifs at h
    all_goals first
      | (cases h; done)
      | (cases h; exact ⟨rfl, rfl, rfl⟩)

theorem LoadNextRead_counters (env : Env) (r r' : CAlignmentReader) (ar ar' : AlignedRead)
    (b : Bool) (h : LoadNextRead env r ar = .ok (b, r', ar')) :
    r'.mIsOpen = r.mIsOpen ∧ r'.mNumReads = r.mNumReads ∧
    (b = true → r.mCurrentRead < r.mNumReads ∧
      r'.mCurrentRead = (r.mCurrentRead + 1) % 2 ^ 64) ∧
    (b = false → r'.mCurrentRead = r.mCurrentRead) := by
  have hpump : ∀ (b1 : Bool) (r1 : CAlignmentReader), pump env r = .ok (b1, r1) →
      r1.mIsOpen = r.mIsOpen ∧ r1.mNumReads = r.mNumReads ∧
      r1.mCurrentRead = r.mCurrentRead := by
    intro b1 r1 hp
    simp only [pump] at hp
    split at hp
    · exact readPartition_counters env r r1 b1 hp
    · cases hp
      exact ⟨rfl, rfl, rfl⟩
  simp only [LoadNextRead] at h
  split at h
  · cases h
  · split at h
    · cases h
      exact ⟨rfl, rfl, (fun hc => by cases hc), fun _ => rfl⟩
    · split at h
      · cases h
      · rename_i r1 hp
        cases h
        obtain ⟨h1, h2, h3⟩ := hpump false r' hp
        exact ⟨h1, h2, (fun hc => by cases hc), fun _ => h3⟩
      · rename_i r1 hp
        obtain ⟨h1, h2, h3⟩ := hpump true r1 hp
        split at h
        · cases h
        · cases h
          refine ⟨h1, h2, fun _ => ⟨by omega, ?_⟩, (fun hc => by cases hc)⟩
          simp only [h3]

theorem loadReads_count (env : Env) :
    ∀ (ars : List AlignedRead) (r r' : CAlignmentReader) (outs : List (Bool × AlignedRead)),
      r.mNumReads < 2 ^ 64 → r.mCurrentRead ≤ r.mNumReads →
      loadReads env r ars = .ok (outs, r') →
      (outs.filter (·.1)).length + r.mCurrentRead = r'.mCurrentRead ∧
      r'.mCurrentRead ≤ r.mNumReads
  | [], r, r', outs, _, hle, h => by
    simp only [loadReads, Except.ok.injEq, Prod.mk.injEq] at h
    obtain ⟨h1, h2⟩ := h
    subst h1 h2
    exact ⟨by simp, hle⟩
  | ar :: rest, r, r', outs, hnum, hle, h => by
    simp only [loadReads] at h
    split at h
    · cases h
    · rename_i b r1 ar1 hstep
      split at h
      · cases h
      · rename_i outs1 r2 hrest
        cases h
        obtain ⟨-, hn, ht, hf⟩ := LoadNextRead_counters env r r1 ar ar1 b hstep
        cases b with
        | false =>
          have hc := hf rfl
          obtain ⟨ih1, ih2⟩ := loadReads_count env rest r1 r' outs1 (by rw [hn]; exact hnum)
            (by rw [hn, hc]; exact hle) hrest
          rw [hn] at ih2
          rw [hc] at ih1
          exact ⟨by simpa using ih1, ih2⟩
        | true =>
          obtain ⟨hlt, hc⟩ := ht rfl
          rw [Nat.mod_eq_of_lt (by omega)] at hc
          obtain ⟨ih1, ih2⟩ := loadReads_count env rest r1 r' outs1 (by rw [hn]; exact hnum)
            (by rw [hn, hc]; omega) hrest
          rw [hn] at ih2
          rw [hc] at ih1
          refine ⟨?_, ih2⟩
          simp only [List.filter_cons_of_pos, List.length_cons]
          omega

theorem LoadNextRead_done (env : Env) (r : CAlignmentReader) (ar : AlignedRead)
    (hopen : r.mIsOpen = true) (hdone : r.mCurrentRead ≥ r.mNumReads) :
    LoadNextRead env r ar = .ok (false, r, ar) := by
  simp only [LoadNextRead, hopen, Bool.not_true, Bool.false_eq_true, if_false, hdone, if_true]

theorem loadReads_done (env : Env) (r : CAlignmentReader)
    (hopen : r.mIsOpen = true) (hdone : r.mCurrentRead ≥ r.mNumReads) :
    ∀ ars : List AlignedRead,
      loadReads env r ars = .ok (ars.map (fun ar => (false, ar)), r)
  | [] => rfl
  | ar :: rest => by
    simp only [loadReads, LoadNextRead_done env r ar hopen hdone,
      loadReads_done env r hopen hdone rest, List.map_cons]

theorem partitionReads_true (env : Env) (buf : List Byte) (lut : List (List Byte)) :
    ∀ (ars : List AlignedRead) (ptr : Nat),
      (partitionReads env buf lut ptr ars).map (·.1)
        = List.replicate (partitionReads env buf lut ptr ars).length true
  | [], _ => rfl
  | ar :: rest, ptr => by
    simp only [partitionReads]
    split
    · simp only [List.map_cons, List.length_cons, List.replicate_succ,
        partitionReads_true env buf lut rest]
    · rfl

theorem archiveReads_true (env : Env) (lut : List (List Byte)) (data : List Byte) :
    ∀ (fuel pos : Nat) (ars : List AlignedRead),
      (archiveReads env lut data fuel pos ars).map (·.1)
        = List.replicate (archiveReads env lut data fuel pos ars).length true
  | fuel, pos, [] => by rw [archiveReads_nil]; rfl
  | 0, _, _ :: _ => rfl
  | fuel + 1, pos, ar :: rest => by
    simp only [archiveReads, List.map_append, List.length_append, List.replicate_add]
    rw [partitionReads_true, archiveReads_true env lut data fuel]

theorem sampleEnv_stable : CapacityStable sampleEnv := by
  intro input m m' hle hne
  simp only [sampleEnv] at hne ⊢
  by_cases h : input.length ≤ m
  · have h' : input.length ≤ m' := Nat.le_trans h hle
    simp only [h, h', if_true]
  · simp only [h, if_false, List.length_nil, ne_eq, not_true_eq_false] at hne

theorem filter_length_of_all_true {α : Type} :
    ∀ l : List (Bool × α), l.map (·.1) = List.replicate l.length true →
      (l.filter (·.1)).length = l.length
  | [], _ => rfl
  | (b, a) :: rest, h => by
    simp only [List.map_cons, List.length_cons, List.replicate_succ, List.cons.injEq] at h
    obtain ⟨hb, hrest⟩ := h
    subst hb
    simp only [List.filter_cons_of_pos, List.length_cons,
      filter_length_of_all_true rest hrest]

/-- On a reader at a partition boundary whose file holds, from the stream
position on, partitions with enough well-formed reads, `ars.length` successive
calls all return true. -/
theorem loadReads_all_true (env : Env) (hstable : CapacityStable env) (r : CAlignmentReader)
    (data : List Byte) (pos fuel : Nat) (ars : List AlignedRead)
    (hopen : r.mIsOpen = true)
    (hs : r.mInStream = .live { data := data, pos := pos, eof := false })
    (hinv : BuffersOk r) (hbound : r.mPartitionMembers = r.mPartitionSize)
    (hlut : r.mRefSeqLUT.length < 65536)
    (hcur : r.mCurrentRead + ars.length ≤ r.mNumReads) (hnum : r.mNumReads < 2 ^ 64)
    (hok : archiveOk env r.mRefSeqLUT.length data fuel pos ars.length = true) :
    ∃ r' : CAlignmentReader,
      loadReads env r ars = .ok (archiveReads env r.mRefSeqLUT data fuel pos ars, r') ∧
      (archiveReads env r.mRefSeqLUT data fuel pos ars).map (·.1)
        = List.replicate ars.length true ∧
      r'.mIsOpen = true ∧ r'.mNumReads = r.mNumReads ∧
      r'.mCurrentRead = r.mCurrentRead + ars.length := by
  obtain ⟨r', hrun, ho, hn, hc⟩ := loadReads_archive env hstable fuel ars r data pos hopen hs
    hinv hbound hlut hcur hnum hok
  obtain ⟨hcount, -⟩ := loadReads_count env ars r r' _ hnum (by omega) hrun
  have htrue := archiveReads_true env r.mRefSeqLUT data fuel pos ars
  have hfilter := filter_length_of_all_true _ htrue
  refine ⟨r', hrun, ?_, ho, hn, hc⟩
  rw [htrue]
  congr 1
  omega

/-- C7. (1) On an open reader whose current-read counter has reached
`mNumReads`, `LoadNextRead` returns false and leaves the reader (stream and
counters) and the caller's record as they were. (2) With `mNumReads = 0` every
call on an open reader does so, the first one included. (3) In any run of
successive calls that starts with the counter at 0, as `Open`, `Rewind` and
`Jump` leave it, at most `mNumReads` calls return true. (4) When the file
holds, from the stream position on, partitions with `mNumReads` well-formed
records and the decompressor is deterministic in its capacity, the first
`mNumReads` calls return true and every later call returns false. -/
theorem C7_LoadNextRead_end_of_archive (env : Env) :
    (∀ (r : CAlignmentReader) (ar : AlignedRead),
      r.mIsOpen = true → r.mCurrentRead ≥ r.mNumReads →
      LoadNextRead env r ar = .ok (false, r, ar)) ∧
    (∀ (r : CAlignmentReader) (ar : AlignedRead),
      r.mIsOpen = true → r.mNumReads = 0 → LoadNextRead env r ar = .ok (false, r, ar)) ∧
    (∀ (r r' : CAlignmentReader) (ars : List AlignedRead) (outs : List (Bool × AlignedRead)),
      r.mNumReads < 2 ^ 64 → r.mCurrentRead = 0 → loadReads env r ars = .ok (outs, r') →
      (outs.filter (·.1)).length ≤ r.mNumReads) ∧
    (∀ (r : CAlignmentReader) (data : List Byte) (pos fuel : Nat)
        (ars extra : List AlignedRead),
      CapacityStable env → r.mIsOpen = true →
      r.mInStream = .live { data := data, pos := pos, eof := false } →
      BuffersOk r → r.mPartitionMembers = r.mPartitionSize →
      r.mRefSeqLUT.length < 65536 → r.mNumReads < 2 ^ 64 → r.mCurrentRead = 0 →
      ars.length = r.mNumReads →
      archiveOk env r.mRefSeqLUT.length data fuel pos r.mNumReads = true →
      ∃ (outs : List (Bool × AlignedRead)) (r' : CAlignmentReader),
        loadReads env r (ars ++ extra) = .ok (outs, r') ∧
        outs.map (·.1)
          = List.replicate r.mNumReads true ++ List.replicate extra.length false) := by
  refine ⟨fun r ar ho hd => LoadNextRead_done env r ar ho hd,
    fun r ar ho hz => LoadNextRead_done env r ar ho (by rw [hz]; exact Nat.zero_le _), ?_, ?_⟩
  · intro r r' ars outs hnum hcur hrun
    obtain ⟨h1, h2⟩ := loadReads_count env ars r r' outs hnum (by omega) hrun
    omega
  · intro r data pos fuel ars extra hstable hopen hs hinv hbound hlut hnum hcur hlen hok
    obtain ⟨r1, hrun, htrue, ho1, hn1, hc1⟩ := loadReads_all_true env hstable r data pos fuel
      ars hopen hs hinv hbound hlut (by omega) hnum (by rw [hlen]; exact hok)
    have hdone := loadReads_done env r1 ho1 (by omega) extra
    refine ⟨archiveReads env r.mRefSeqLUT data fuel pos ars
      ++ extra.map (fun ar => (false, ar)), r1, ?_, ?_⟩
    · rw [loadReads_append, hrun]
      simp only [hdone]
    · rw [List.map_append, htrue, hlen, List.map_map]
      congr 1
      exact List.map_const' _ _

set_option maxRecDepth 100000 in
theorem sampleArchive_ok :
    archiveOk sampleEnv sampleArchiveReader.mRefSeqLUT.length sampleArchive 2 0
      sampleArchiveReader.mNumReads = true := by
  decide

/-- C7 at the sample archive of two partitions with 3 and 2 reads: six
successive calls return true five times and then false. -/
theorem C7_LoadNextRead_end_of_archive_witness :
    (CapacityStable sampleEnv ∧ sampleArchiveReader.mIsOpen = true ∧
      sampleArchiveReader.mInStream = .live { data := sampleArchive, pos := 0, eof := false } ∧
      BuffersOk sampleArchiveReader ∧
      sampleArchiveReader.mPartitionMembers = sampleArchiveReader.mPartitionSize ∧
      archiveOk sampleEnv sampleArchiveReader.mRefSeqLUT.length sampleArchive 2 0
        sampleArchiveReader.mNumReads = true) ∧
    ∃ (outs : List (Bool × AlignedRead)) (r' : CAlignmentReader),
      loadReads sampleEnv sampleArchiveReader (List.replicate 5 AlignedRead.ctor ++ [AlignedRead.ctor])
        = .ok (outs, r') ∧
      outs.map (·.1) = [true, true, true, true, true, false] := by
  have hok := sampleArchive_ok
  refine ⟨⟨sampleEnv_stable, rfl, rfl, ⟨rfl, rfl⟩, rfl, hok⟩, ?_⟩
  exact (C7_LoadNextRead_end_of_archive sampleEnv).2.2.2 sampleArchiveReader sampleArchive 0 2
    (List.replicate 5 AlignedRead.ctor) [AlignedRead.ctor] sampleEnv_stable rfl rfl ⟨rfl, rfl⟩
    rfl (by decide) (by decide) rfl rfl hok

theorem recordsFit_mono (buf : List Byte) (numRefSeqs : Nat) :
    ∀ (k m ptr : Nat), m ≤ k → recordsFit buf numRefSeqs ptr k = true →
      recordsFit buf numRefSeqs ptr m = true
  | _, 0, _, _, _ => rfl
  | 0, m + 1, _, hle, _ => absurd hle (Nat.not_succ_le_zero m)
  | k + 1, m + 1, ptr, hle, h => by
    simp only [recordsFit, Bool.and_eq_true] at h ⊢
    exact ⟨h.1, recordsFit_mono buf numRefSeqs k m _ (Nat.le_of_succ_le_succ hle) h.2⟩

theorem archiveOk_mono (env : Env) (numRefSeqs : Nat) (data : List Byte) :
    ∀ (fuel pos n m : Nat), m ≤ n → archiveOk env numRefSeqs data fuel pos n = true →
      archiveOk env numRefSeqs data fuel pos m = true
  | fuel, pos, n, 0, _, _ => by cases fuel <;> rfl
  | fuel, pos, 0, m + 1, hle, _ => absurd hle (Nat.not_succ_le_zero m)
  | 0, pos, n + 1, m + 1, _, h => by simp [archiveOk] at h
  | fuel + 1, pos, n + 1, m + 1, hle, h => by
    simp only [archiveOk, Bool.and_eq_true, decide_eq_true_eq] at h ⊢
    obtain ⟨⟨⟨⟨⟨⟨hend, hc⟩, hu⟩, hP⟩, hout⟩, hfit⟩, hrest⟩ := h
    refine ⟨⟨⟨⟨⟨⟨hend, hc⟩, hu⟩, hP⟩, hout⟩, ?_⟩, ?_⟩
    · exact recordsFit_mono _ _ _ _ _ (by omega) hfit
    · exact archiveOk_mono env numRefSeqs data fuel _ _ _ (by omega) hrest

/-- The results of `ars.length` successive calls on a reader in the state that
`Open` and `Rewind` leave, over a file that holds `n` well-formed reads from
`pos` on: they are determined by the file, the reference name table and the
caller records. -/
theorem loadReads_from_reset (env : Env) (hstable : CapacityStable env)
    (r : CAlignmentReader) (data : List Byte) (pos fuel : Nat)
    (hopen : r.mIsOpen = true)
    (hs : r.mInStream = .live { data := data, pos := pos, eof := false })
    (hinv : BuffersOk r) (hbound : r.mPartitionMembers = r.mPartitionSize)
    (hlut : r.mRefSeqLUT.length < 65536)
    (hnum : r.mNumReads < 2 ^ 64) (hcur : r.mCurrentRead = 0)
    (hok : archiveOk env r.mRefSeqLUT.length data fuel pos r.mNumReads = true)
    (ars : List AlignedRead) :
    ∃ r' : CAlignmentReader,
      loadReads env r ars
        = .ok (archiveReads env r.mRefSeqLUT data fuel pos (ars.take r.mNumReads)
                ++ (ars.drop r.mNumReads).map (fun ar => (false, ar)), r') := by
  have hlen : (ars.take r.mNumReads).length ≤ r.mNumReads := by
    rw [List.length_take]; omega
  obtain ⟨r1, hrun, -, ho1, hn1, hc1⟩ := loadReads_all_true env hstable r data pos fuel
    (ars.take r.mNumReads) hopen hs hinv hbound hlut (by omega) hnum
    (archiveOk_mono env _ data fuel pos _ _ hlen hok)
  have happ := loadReads_append env (ars.take r.mNumReads) (ars.drop r.mNumReads) r
  rw [List.take_append_drop, hrun] at happ
  simp only [] at happ
  by_cases hlong : r.mNumReads ≤ ars.length
  · have hdone := loadReads_done env r1 ho1
      (by rw [hc1, hn1, hcur, List.length_take]; omega) (ars.drop r.mNumReads)
    rw [hdone] at happ
    exact ⟨r1, happ⟩
  · have hdrop : ars.drop r.mNumReads = [] := List.drop_eq_nil_of_le (by omega)
    rw [hdrop] at happ ⊢
    exact ⟨r1, happ⟩

theorem fgetc_bound (f : FILE) :
    (fgetc f).2.data = f.data ∧ (fgetc f).2.pos ≤ f.pos + 1 ∧ (fgetc f).1 ≤ 255 := by
  simp only [fgetc]
  split
  · rename_i b _
    have := b.isLt
    exact ⟨rfl, Nat.le_refl _, by simp only []; omega⟩
  · exact ⟨rfl, by simp only []; omega, Nat.le_refl _⟩

theorem fread_bound (f : FILE) (n : Nat) :
    (fread f n).2.data = f.data ∧ (fread f n).2.pos ≤ f.pos + n := by
  refine ⟨rfl, ?_⟩
  simp only [fread, slice, List.length_take]
  omega

theorem freadInt_bound (old w : Nat) (f : FILE) :
    (freadInt old w f).2.data = f.data ∧ (freadInt old w f).2.pos ≤ f.pos + w ∧
    (freadInt old w f).1 < 256 ^ w := by
  refine ⟨rfl, (fread_bound f w).2, ?_⟩
  simp only [freadInt]
  have hlen : (fread f w).1.length ≤ w := by
    simp only [fread, slice, List.length_take]; omega
  have h := leNat_lt ((fread f w).1 ++ List.drop (fread f w).1.length (leBytes w old))
  have hl : ((fread f w).1 ++ List.drop (fread f w).1.length (leBytes w old)).length = w := by
    rw [List.length_append, List.length_drop, length_leBytes]; omega
  rw [hl] at h
  exact h

theorem freadStr_bound (s : List Byte) (len : Nat) (f : FILE) :
    (freadStr s len f).2.data = f.data ∧ (freadStr s len f).2.pos ≤ f.pos + len :=
  fread_bound f len

theorem readReadGroup_bound (f : FILE) (rg : ReadGroup) :
    (readReadGroup f rg).2.data = f.data ∧ (readReadGroup f rg).2.pos ≤ f.pos + 66831 := by
  have a1 := fgetc_bound f
  rcases h1 : fgetc f with ⟨cn, f1⟩
  rw [h1] at a1
  have a2 := fgetc_bound f1
  rcases h2 : fgetc f1 with ⟨ln, f2⟩
  rw [h2] at a2
  have a3 := fgetc_bound f2
  rcases h3 : fgetc f2 with ⟨pu, f3⟩
  rw [h3] at a3
  have a4 := fgetc_bound f3
  rcases h4 : fgetc f3 with ⟨id, f4⟩
  rw [h4] at a4
  have a5 := fgetc_bound f4
  rcases h5 : fgetc f4 with ⟨sn, f5⟩
  rw [h5] at a5
  have a6 := freadInt_bound 0 2 f5
  rcases h6 : freadInt 0 2 f5 with ⟨dl, f6⟩
  rw [h6] at a6
  have a7 := freadInt_bound rg.SequencingTechnology 2 f6
  rcases h7 : freadInt rg.SequencingTechnology 2 f6 with ⟨st, f7⟩
  rw [h7] at a7
  have a8 := freadInt_bound rg.MedianFragmentLength 4 f7
  rcases h8 : freadInt rg.MedianFragmentLength 4 f7 with ⟨mfl, f8⟩
  rw [h8] at a8
  have b1 := freadStr_bound rg.CenterName cn (fseek64_CUR f8 8)
  rcases g1 : freadStr rg.CenterName cn (fseek64_CUR f8 8) with ⟨s1, e1⟩
  rw [g1] at b1
  have b2 := freadStr_bound rg.Description dl e1
  rcases g2 : freadStr rg.Description dl e1 with ⟨s2, e2⟩
  rw [g2] at b2
  have b3 := freadStr_bound rg.LibraryName ln e2
  rcases g3 : freadStr rg.LibraryName ln e2 with ⟨s3, e3⟩
  rw [g3] at b3
  have b4 := freadStr_bound rg.PlatformUnit pu e3
  rcases g4 : freadStr rg.PlatformUnit pu e3 with ⟨s4, e4⟩
  rw [g4] at b4
  have b5 := freadStr_bound rg.ReadGroupID id e4
  rcases g5 : freadStr rg.ReadGroupID id e4 with ⟨s5, e5⟩
  rw [g5] at b5
  have b6 := freadStr_bound rg.SampleName sn e5
  rcases g6 : freadStr rg.SampleName sn e5 with ⟨s6, e6⟩
  rw [g6] at b6
  simp only [readReadGroup, SIZEOF_SHORT, SIZEOF_INT, SIZEOF_UINT64, h1, h2, h3, h4, h5, h6, h7,
    h8, g1, g2, g3, g4, g5, g6]
  simp only [fseek64_CUR] at b1
  simp only [] at a1 a2 a3 a4 a5 a6 a7 a8 b1 b2 b3 b4 b5 b6
  refine ⟨?_, ?_⟩
  · rw [b6.1, b5.1, b4.1, b3.1, b2.1, b1.1, a8.1, a7.1, a6.1, a5.1, a4.1, a3.1, a2.1, a1.1]
  · have hd : dl < 65536 := a6.2.2
    omega

theorem readReadGroups_bound :
    ∀ (rgs : List ReadGroup) (f : FILE),
      (readReadGroups f rgs).2.data = f.data ∧
      (readReadGroups f rgs).2.pos ≤ f.pos + 66831 * rgs.length
  | [], f => ⟨rfl, Nat.le_refl _⟩
  | rg :: rest, f => by
    obtain ⟨h1, h2⟩ := readReadGroup_bound f rg
    obtain ⟨h3, h4⟩ := readReadGroups_bound rest (readReadGroup f rg).2
    simp only [readReadGroups, List.length_cons]
    exact ⟨h3.trans h1, by omega⟩

theorem fseek64_SET_data (f : FILE) (off : Nat) : (fseek64_SET f off).data = f.data := by
  simp only [fseek64_SET]
  split <;> rfl

theorem readReferenceSequence_data (f : FILE) (rs : ReferenceSequence) :
    (readReferenceSequence f rs).2.data = f.data := by
  have a1 := (fgetc_bound f).1
  rcases h1 : fgetc f with ⟨nl, f1⟩
  rw [h1] at a1
  have a2 := (fgetc_bound f1).1
  rcases h2 : fgetc f1 with ⟨sl, f2⟩
  rw [h2] at a2
  have a3 := (fgetc_bound f2).1
  rcases h3 : fgetc f2 with ⟨gl, f3⟩
  rw [h3] at a3
  have a4 := (fgetc_bound f3).1
  rcases h4 : fgetc f3 with ⟨ul, f4⟩
  rw [h4] at a4
  simp only [] at a1 a2 a3 a4
  simp only [readReferenceSequence, h1, h2, h3, h4]
  split_ifs <;>
    simp only [(freadStr_bound _ _ _).1, (freadInt_bound _ _ _).1, a4, a3, a2, a1]

theorem readReferenceSequences_data :
    ∀ (rss : List ReferenceSequence) (f : FILE), (readReferenceSequences f rss).2.data = f.data
  | [], _ => rfl
  | rs :: rest, f => by
    simp only [readReferenceSequences]
    rw [readReferenceSequences_data rest, readReferenceSequence_data]

theorem leNat_slice_lt (data : List Byte) (off w : Nat) : leNat (slice data off w) < 256 ^ w := by
  have h := leNat_lt (slice data off w)
  have hl : (slice data off w).length ≤ w := by
    simp only [slice, List.length_take]; omega
  exact Nat.lt_of_lt_of_le h (Nat.pow_le_pow_right (by decide) hl)

/-- The state in which `Open` leaves the reader: open, the stream at
`mReadsOffset` with the end-of-file indicator clear, the three counters 0. -/
theorem openedReader_fresh (rc : CAlignmentReader) (filename : String) (data : List Byte)
    (hinv : BuffersOk rc) :
    (openedReader rc filename data).mInStream
        = .live { data := data, pos := (openedReader rc filename data).mReadsOffset,
                  eof := false } ∧
    (openedReader rc filename data).mReadsOffset < 2 ^ 63 ∧
    (openedReader rc filename data).mIsOpen = true ∧
    (openedReader rc filename data).mCurrentRead = 0 ∧
    (openedReader rc filename data).mPartitionMembers = 0 ∧
    (openedReader rc filename data).mPartitionSize = 0 ∧
    BuffersOk (openedReader rc filename data) ∧
    (openedReader rc filename data).mRefSeqLUT.length < 65536 ∧
    (openedReader rc filename data).mNumReads < 2 ^ 64 := by
  have hn : leNat (slice data 21 4) < 256 ^ 4 := leNat_slice_lt data 21 4
  have hpos : (headerReadGroups rc data).2.pos < 2 ^ 63 := by
    have h := (readReadGroups_bound
      (resizeVec rc.mReadGroups (leNat (slice data 21 4)) ReadGroup.ctor)
      { data := data, pos := 73, eof := false }).2
    rw [length_resizeVec] at h
    simp only [] at h
    simp only [headerReadGroups]
    norm_num at hn ⊢
    omega
  have hdata : (headerReferences rc data).2.data = data := by
    simp only [headerReferences, readReferenceSequences_data, fseek64_SET_data, headerReadGroups,
      (readReadGroups_bound _ _).1]
  refine ⟨?_, hpos, rfl, rfl, rfl, rfl, hinv, ?_, ?_⟩
  · simp only [openedReader, fseek64_SET, hpos, if_true, hdata]
  · simp only [openedReader, headerReferences, List.length_map, length_readReferenceSequences,
      length_resizeVec]
    exact Nat.mod_lt _ (by decide)
  · have h := leNat_slice_lt data 25 8
    norm_num at h ⊢
    exact h

/-- C6 (amended). Let `r0` be the reader that `Open` returns and `r` any reader state
that follows it through successful `LoadNextRead`, `Jump` and `Rewind` calls.
Then `Rewind` on `r` returns, and the reader it leaves is in the iteration
state of `r0`: the stream at `mReadsOffset` of the same file with the
end-of-file indicator clear, current-read counter 0, partition members
consumed 0, partition size 0. Consequently, when the file holds `mNumReads`
well-formed reads from `mReadsOffset` on and the decompressor is deterministic
in its capacity, any number of successive `LoadNextRead` calls yields after
the `Rewind` the same results (values returned and reads decoded) as on
`r0`. -/
theorem C6_Rewind_restores_open_state (env : Env) (rc r0 r : CAlignmentReader)
    (filename : String) (data : List Byte)
    (hclosed : rc.mIsOpen = false) (hinv : BuffersOk rc) (hlen : 72 ≤ data.length)
    (hopen : Open env rc filename (some data) = .ok r0)
    (hreach : Reachable env r0 r) :
    ∃ r' : CAlignmentReader,
      Rewind r = .ok r' ∧
      r'.mInStream = .live { data := data, pos := r0.mReadsOffset, eof := false } ∧
      r0.mInStream = .live { data := data, pos := r0.mReadsOffset, eof := false } ∧
      r'.mCurrentRead = 0 ∧ r0.mCurrentRead = 0 ∧
      r'.mPartitionMembers = 0 ∧ r0.mPartitionMembers = 0 ∧
      r'.mPartitionSize = 0 ∧ r0.mPartitionSize = 0 ∧
      ∀ fuel : Nat, CapacityStable env →
        archiveOk env r0.mRefSeqLUT.length data fuel r0.mReadsOffset r0.mNumReads = true →
        ∀ ars : List AlignedRead,
          (loadReads env r' ars).map (·.1) = (loadReads env r0 ars).map (·.1) := by
  have heq : r0 = openedReader rc filename data := by
    rw [Open_eq env rc filename data hclosed hlen] at hopen
    exact (Except.ok.inj hopen).symm
  obtain ⟨hs0, hro, ho0, hc0, hm0, hp0, hb0, hl0, hn0⟩ := openedReader_fresh rc filename data hinv
  rw [← heq] at hs0 hro ho0 hc0 hm0 hp0 hb0 hl0 hn0
  have hsame0 : SameArchive r0 r0 data := ⟨rfl, rfl, rfl, rfl, ⟨_, hs0, rfl⟩, hb0⟩
  obtain ⟨ho, hn, hoff, hl, ⟨f, hf, hd⟩, hb⟩ := Reachable_same env r0 r data hsame0 hreach
  have hseek : fseek64_SET f r.mReadsOffset
      = { data := data, pos := r0.mReadsOffset, eof := false } := by
    simp only [fseek64_SET, hoff, hro, if_true, hd]
  have hrew : Rewind r = .ok { r with
      mInStream := .live { data := data, pos := r0.mReadsOffset, eof := false }
      mCurrentRead := 0, mPartitionMembers := 0, mPartitionSize := 0 } := by
    simp only [Rewind, CAlignmentReader.stream, hf, bind, Except.bind, pure, Except.pure, hseek]
  refine ⟨_, hrew, rfl, hs0, rfl, hc0, rfl, hm0, rfl, hp0, ?_⟩
  intro fuel hstable hok ars
  obtain ⟨ra, ha⟩ := loadReads_from_reset env hstable r0 data r0.mReadsOffset fuel ho0 hs0 hb0
    (by rw [hm0, hp0]) hl0 hn0 hc0 hok ars
  obtain ⟨rb, hb'⟩ := loadReads_from_reset env hstable
    { r with mInStream := .live { data := data, pos := r0.mReadsOffset, eof := false }
             mCurrentRead := 0, mPartitionMembers := 0, mPartitionSize := 0 }
    data r0.mReadsOffset fuel (ho.trans ho0) rfl hb rfl (by simp only [hl]; exact hl0)
    (by simp only [hn]; exact hn0) rfl (by simp only [hl, hn]; exact hok) ars
  rw [ha, hb']
  simp only [hl, hn, Except.map]

set_option maxRecDepth 100000 in
theorem sampleFile_ok :
    archiveOk sampleEnv sampleOpened.mRefSeqLUT.length sampleFile 2 sampleOpened.mReadsOffset
      sampleOpened.mNumReads = true := by
  decide

theorem sampleOpened_first_read :
    ∃ (r1 : CAlignmentReader) (ar1 : AlignedRead),
      LoadNextRead sampleEnv sampleOpened AlignedRead.ctor = .ok (true, r1, ar1) := by
  obtain ⟨hs0, -, ho0, hc0, hm0, hp0, hb0, hl0, hn0⟩ :=
    openedReader_fresh freshReader "sample.aa" sampleFile ⟨rfl, rfl⟩
  obtain ⟨r1, hrun, htrue, -⟩ := loadReads_all_true sampleEnv sampleEnv_stable sampleOpened
    sampleFile sampleOpened.mReadsOffset 2 [AlignedRead.ctor] ho0 hs0 hb0
    (hm0.trans hp0.symm) hl0 (by decide) hn0
    (archiveOk_mono sampleEnv _ sampleFile 2 _ _ _ (by decide) sampleFile_ok)
  simp only [loadReads] at hrun
  split at hrun
  · cases hrun
  · rename_i b r' ar' hstep
    simp only [Except.ok.injEq, Prod.mk.injEq] at hrun
    rw [← hrun.1] at htrue
    simp only [List.map_cons, List.map_nil, List.length_cons, List.length_nil,
      List.replicate_succ, List.replicate_zero, List.cons.injEq, and_true] at htrue
    rw [htrue] at hstep
    exact ⟨r', ar', hstep⟩

set_option maxRecDepth 100000 in
theorem sampleFile_length : 72 ≤ sampleFile.length := by
  decide

/-- C6 (amended) at the sample file: after `Open` and one successful `LoadNextRead`,
`Rewind` zeroes the counters and six further calls give the results they give
on the freshly opened reader. -/
theorem C6_Rewind_restores_open_state_witness :
    (freshReader.mIsOpen = false ∧ BuffersOk freshReader ∧ 72 ≤ sampleFile.length ∧
      Open sampleEnv freshReader "sample.aa" (some sampleFile) = .ok sampleOpened) ∧
    ∃ r : CAlignmentReader, Reachable sampleEnv sampleOpened r ∧
      ∃ r' : CAlignmentReader, Rewind r = .ok r' ∧
        r'.mInStream = sampleOpened.mInStream ∧ r'.mCurrentRead = 0 ∧
        r'.mPartitionMembers = 0 ∧ r'.mPartitionSize = 0 ∧
        (loadReads sampleEnv r' (List.replicate 6 AlignedRead.ctor)).map (·.1)
          = (loadReads sampleEnv sampleOpened (List.replicate 6 AlignedRead.ctor)).map (·.1) := by
  have hopen : Open sampleEnv freshReader "sample.aa" (some sampleFile) = .ok sampleOpened :=
    Open_eq sampleEnv freshReader "sample.aa" sampleFile rfl sampleFile_length
  refine ⟨⟨rfl, ⟨rfl, rfl⟩, sampleFile_length, hopen⟩, ?_⟩
  obtain ⟨r1, ar1, hstep⟩ := sampleOpened_first_read
  have hreach : Reachable sampleEnv sampleOpened r1 := Reachable.load Reachable.start hstep
  obtain ⟨r', hrew, hs, hs0, hc, -, hm, -, hp, -, hrun⟩ :=
    C6_Rewind_restores_open_state sampleEnv freshReader sampleOpened r1 "sample.aa" sampleFile
      rfl ⟨rfl, rfl⟩ sampleFile_length hopen hreach
  exact ⟨r1, hreach, r', hrew, hs.trans hs0.symm, hc, hm, hp,
    hrun 2 sampleEnv_stable sampleFile_ok _⟩

set_option maxRecDepth 100000 in
theorem sampleCutPartition_run :
    72 ≤ sampleFileCutPartition.length ∧
    (LoadNextRead sampleEnv (openedReader freshReader "cut.aa" sampleFileCutPartition)
        AlignedRead.ctor).map readStrings
      = .ok (true, [114, 49], [[0, 0, 0, 0, 0, 0]]) ∧
    ((LoadNextRead sampleEnv (openedReader freshReader "cut.aa" sampleFileCutPartition)
        AlignedRead.ctor).bind
      (fun x => LoadNextRead sampleEnv x.2.1 AlignedRead.ctor)).map readStrings
      = .ok (true, [114, 49], [[65, 67, 65, 71, 30, 31]]) ∧
    ((LoadNextRead sampleEnv (openedReader freshReader "cut.aa" sampleFileCutPartition)
        AlignedRead.ctor).bind
      (fun x => (LoadNextRead sampleEnv x.2.1 AlignedRead.ctor).bind
        (fun y => (Rewind y.2.1).bind
          (fun r' => LoadNextRead sampleEnv r' AlignedRead.ctor)))).map readStrings
      = .ok (true, [114, 49], [[65, 67, 65, 71, 30, 31]]) := by
  refine ⟨?_, ?_, ?_, ?_⟩ <;> decide

/-- C6 (counterexample). In the archive `sampleFileCutPartition` the record of
the first partition runs 6 bytes past the 30 bytes the partition declares.
With the deterministic decompressor of `sampleEnv`, the first `LoadNextRead`
on the freshly opened reader returns the read "r1" whose alignment has the
pairwise reference, pairwise query and base qualities `0, 0`; after a second
`LoadNextRead` and a `Rewind`, the first `LoadNextRead` returns the read "r1"
whose alignment has the reference `65, 67`, the query `65, 71` and the base
qualities `30, 31`, which the second partition left in the buffer. -/
theorem C6_Rewind_changes_first_read :
    CapacityStable sampleEnv ∧
    ((Open sampleEnv freshReader "cut.aa" (some sampleFileCutPartition)).bind
      (fun r0 => LoadNextRead sampleEnv r0 AlignedRead.ctor)).map readStrings
      = .ok (true, [114, 49], [[0, 0, 0, 0, 0, 0]]) ∧
    ((Open sampleEnv freshReader "cut.aa" (some sampleFileCutPartition)).bind
      (fun r0 => (LoadNextRead sampleEnv r0 AlignedRead.ctor).bind
        (fun x => (LoadNextRead sampleEnv x.2.1 AlignedRead.ctor).bind
          (fun y => (Rewind y.2.1).bind
            (fun r' => LoadNextRead sampleEnv r' AlignedRead.ctor))))).map readStrings
      = .ok (true, [114, 49], [[65, 67, 65, 71, 30, 31]]) := by
  obtain ⟨hlen, h1, -, h3⟩ := sampleCutPartition_run
  have hopen := Open_eq sampleEnv freshReader "cut.aa" sampleFileCutPartition rfl hlen
  rw [hopen]
  exact ⟨sampleEnv_stable, h1, h3⟩

/-! ## CheckFile -/

theorem alloc_six (env : Env) : ∃ a b c d e g : Byte, env.alloc 6 = [a, b, c, d, e, g] := by
  refine ⟨env.junk 0, env.junk 1, env.junk 2, env.junk 3, env.junk 4, env.junk 5, ?_⟩
  rfl

theorem byte_diff_ne_zero (a b : Byte) (h : a ≠ b) : ((a.val : Int) - (b.val : Int)) ≠ 0 := by
  intro h0
  apply h
  apply Fin.ext
  omega

theorem CheckFile_six (env : Env) (a b c d e v : Byte) (rest : List Byte) :
    CheckFile env (some (a :: b :: c :: d :: e :: v :: rest)) false
      = .ok (decide (a = 77 ∧ b = 83 ∧ c = 75 ∧ d = 65 ∧ e = 65 ∧ v = 2)) := by
  obtain ⟨j0, j1, j2, j3, j4, j5, hj⟩ := alloc_six env
  simp only [CheckFile, fread, slice, store, hj, MOSAIK_SIGNATURE, List.drop_zero,
    List.take_succ_cons, List.take_zero, List.length_cons, List.length_nil]
  simp only [Nat.reduceAdd, lt_irrefl, if_false, List.cons_append, List.nil_append,
    List.drop_succ_cons, List.drop_zero, strncmp]
  by_cases ha : a = 77
  · by_cases hb : b = 83
    · by_cases hc : c = 75
      · by_cases hd : d = 65
        · by_cases he : e = 65
          · by_cases hv : v = 2
            · subst ha hb hc hd he hv
              simp
            · subst ha hb hc hd he
              have : (2 : Byte) ≠ v := fun h => hv h.symm
              simp [hv, this]
          · subst ha hb hc hd
            simp [he, byte_diff_ne_zero _ _ he]
        · subst ha hb hc
          simp [hd, byte_diff_ne_zero _ _ hd]
      · subst ha hb
        simp [hc, byte_diff_ne_zero _ _ hc]
    · subst ha
      simp [hb, byte_diff_ne_zero _ _ hb]
  · simp [ha, byte_diff_ne_zero _ _ ha]

theorem CheckFile_short (env : Env) (data : List Byte) (h : data.length < 6) :
    CheckFile env (some data) false = .ok false := by
  have hl : (slice data 0 6).length < 6 := by
    simp only [slice, List.drop_zero, List.length_take]
    omega
  simp only [CheckFile, fread, hl, if_true, Bool.false_eq_true, if_false]

/-- C13. Without `showError`, `CheckFile` always returns, and it returns `true`
exactly when the file can be opened, holds at least six bytes, starts with
`MSKAA` and has the version byte 2 at offset 5; the same magic with any other
version byte gives `false`. -/
theorem C13_CheckFile_accepts_iff (env : Env) (file : Option (List Byte)) :
    (∃ b, CheckFile env file false = .ok b) ∧
    (CheckFile env file false = .ok true ↔
      ∃ data, file = some data ∧ 6 ≤ data.length ∧
        data.take 5 = [77, 83, 75, 65, 65] ∧ data.get? 5 = some 2) ∧
    (∀ (v : Byte) (rest : List Byte), v ≠ 2 →
      CheckFile env (some ([77, 83, 75, 65, 65, v] ++ rest)) false = .ok false) := by
  refine ⟨?_, ?_, ?_⟩
  · cases file with
    | none => exact ⟨false, rfl⟩
    | some data =>
      by_cases h : data.length < 6
      · exact ⟨false, CheckFile_short env data h⟩
      · obtain ⟨a, b, c, d, e, v, rest, rfl⟩ :
            ∃ a b c d e v rest, data = a :: b :: c :: d :: e :: v :: rest := by
          match data, h with
          | a :: b :: c :: d :: e :: v :: rest, _ => exact ⟨a, b, c, d, e, v, rest, rfl⟩
          | [], h | [_], h | [_, _], h | [_, _, _], h | [_, _, _, _], h
          | [_, _, _, _, _], h => exact absurd (by simp) h
        exact ⟨_, CheckFile_six env a b c d e v rest⟩
  · cases file with
    | none =>
      constructor
      · intro h
        simp [CheckFile] at h
      · rintro ⟨data, h, _⟩
        cases h
    | some data =>
      by_cases h : data.length < 6
      · rw [CheckFile_short env data h]
        constructor
        · intro h2
          cases h2
        · rintro ⟨d2, h2, h3, _⟩
          cases h2
          omega
      · obtain ⟨a, b, c, d, e, v, rest, rfl⟩ :
            ∃ a b c d e v rest, data = a :: b :: c :: d :: e :: v :: rest := by
          match data, h with
          | a :: b :: c :: d :: e :: v :: rest, _ => exact ⟨a, b, c, d, e, v, rest, rfl⟩
          | [], h | [_], h | [_, _], h | [_, _, _], h | [_, _, _, _], h
          | [_, _, _, _, _], h => exact absurd (by simp) h
        rw [CheckFile_six]
        constructor
        · intro h2
          have h3 := of_decide_eq_true (Except.ok.inj h2)
          obtain ⟨rfl, rfl, rfl, rfl, rfl, rfl⟩ := h3
          exact ⟨_, rfl, by simp, rfl, rfl⟩
        · rintro ⟨d2, h2, _, h4, h5⟩
          cases h2
          simp only [List.take_succ_cons, List.take_zero, List.cons.injEq, and_true] at h4
          simp only [List.get?_cons_succ, List.get?_cons_zero, Option.some.injEq] at h5
          obtain ⟨rfl, rfl, rfl, rfl, rfl⟩ := h4
          subst h5
          simp
  · intro v rest hv
    simp only [List.cons_append, List.nil_append]
    rw [CheckFile_six]
    simp [hv]

/-- C13 (instance). A file with the version 2 signature is accepted and the
same magic with version byte 3 is rejected. -/
theorem C13_CheckFile_accepts_iff_witness :
    CheckFile sampleEnv (some sampleSignatureFile) false = .ok true ∧
    CheckFile sampleEnv (some sampleOtherVersionFile) false = .ok false :=
  ⟨(C13_CheckFile_accepts_iff sampleEnv (some sampleSignatureFile)).2.1.mpr
      ⟨sampleSignatureFile, rfl, by decide, rfl, rfl⟩,
   (C13_CheckFile_accepts_iff sampleEnv none).2.2 3 [9, 4, 0] (by decide)⟩

/-! ## GetReadGroups -/

theorem foldl_set_zero {α : Type} :
    ∀ (l : List α) (out : List α),
      l.foldl (fun o x => o.set 0 x) out
        = match l.getLast? with
          | none => out
          | some last => out.set 0 last
  | [], out => rfl
  | [a], out => rfl
  | a :: b :: l, out => by
    have ih := foldl_set_zero (b :: l) (out.set 0 a)
    simp only [List.foldl_cons] at ih ⊢
    rw [ih, List.getLast?_cons_cons]
    cases h : (b :: l).getLast? with
    | none => simp at h
    | some last =>
      cases out with
      | nil => rfl
      | cons o os => rfl

/-- What `GetReadGroups` leaves in the caller's vector: the resized vector
with its first element replaced by the last read group. -/
theorem GetReadGroups_eq (r : CAlignmentReader) (readGroups : List ReadGroup) :
    GetReadGroups r readGroups
      = match r.mReadGroups.getLast? with
        | none => resizeVec readGroups r.mReadGroups.length ReadGroup.ctor
        | some last => (resizeVec readGroups r.mReadGroups.length ReadGroup.ctor).set 0 last := by
  rw [GetReadGroups, foldl_set_zero]
  cases r.mReadGroups.getLast? <;> rfl

theorem length_GetReadGroups (r : CAlignmentReader) (readGroups : List ReadGroup) :
    (GetReadGroups r readGroups).length = r.mReadGroups.length := by
  rw [GetReadGroups_eq]
  cases r.mReadGroups.getLast? with
  | none => exact length_resizeVec _ _ _
  | some last => rw [List.length_set]; exact length_resizeVec _ _ _

set_option maxRecDepth 100000 in
theorem sampleTwoGroups_parsed :
    (openedReader freshReader "sample.aa" sampleHeaderTwoGroups).mReadGroups
      = [sampleGroup1, sampleGroup2] := by
  decide

set_option maxRecDepth 100000 in
theorem sampleTwoGroups_length : 72 ≤ sampleHeaderTwoGroups.length := by
  decide

/-- C11 (failing input). `Open` on the archive `sampleHeaderTwoGroups` parses
the two read groups `sampleGroup1` and `sampleGroup2`; `GetReadGroups` into an
empty vector then yields two elements, of which the first is the second
parsed read group and the second is a default-constructed `ReadGroup`. -/
theorem C11_GetReadGroups_two_groups :
    ∃ r : CAlignmentReader,
      Open sampleEnv freshReader "sample.aa" (some sampleHeaderTwoGroups) = .ok r ∧
      r.mReadGroups = [sampleGroup1, sampleGroup2] ∧
      GetReadGroups r [] = [sampleGroup2, ReadGroup.ctor] ∧
      GetReadGroups r [] ≠ r.mReadGroups := by
  refine ⟨openedReader freshReader "sample.aa" sampleHeaderTwoGroups,
    Open_eq sampleEnv freshReader "sample.aa" sampleHeaderTwoGroups (by decide)
      sampleTwoGroups_length,
    sampleTwoGroups_parsed, ?_, ?_⟩
  · simp only [GetReadGroups, sampleTwoGroups_parsed]
    decide
  · simp only [GetReadGroups, sampleTwoGroups_parsed]
    decide

/-! ## Close and the internal state checks -/

/-- C17 (failing input). On every reader with an open stream the first
`Close` returns with `mIsOpen` cleared and the stream closed, and the second
`Close` calls `fclose` on that closed stream again: it has no guard on
`mIsOpen`, and closing a closed stream is undefined. -/
theorem C17_second_Close_closes_again (r : CAlignmentReader) (f : FILE) :
    ∃ r1 : CAlignmentReader,
      Close { r with mInStream := .live f } = .ok r1 ∧
      r1.mIsOpen = false ∧ r1.mInStream = .dangling ∧
      Close r1 = .error .undefined :=
  ⟨_, rfl, rfl, rfl, rfl⟩

/-- C18. `LoadNextRead` on a reader that is not open — in particular a
newly constructed one, or one that `Close` has returned — ends in `exit(1)`
and returns nothing; `Open` on a reader that is open ends in `exit(1)` at its
first statement, before any member is assigned. -/
theorem C18_internal_state_errors (env : Env) (r : CAlignmentReader) (ar : AlignedRead)
    (filename : String) (file : Option (List Byte)) :
    (r.mIsOpen = false → LoadNextRead env r ar = .error .exit1) ∧
    (∀ a b c d e : Nat, LoadNextRead env (CAlignmentReader.ctor a b c d e) ar = .error .exit1) ∧
    (∀ r1 : CAlignmentReader, Close r = .ok r1 → LoadNextRead env r1 ar = .error .exit1) ∧
    (r.mIsOpen = true → Open env r filename file = .error .exit1) := by
  have hload : ∀ r0 : CAlignmentReader, r0.mIsOpen = false →
      LoadNextRead env r0 ar = .error .exit1 := by
    intro r0 h
    simp only [LoadNextRead, h, Bool.not_false, if_true]
  refine ⟨hload r, fun a b c d e => hload _ rfl, ?_, ?_⟩
  · intro r1 h
    apply hload
    unfold Close at h
    split at h
    · cases h
      rfl
    · cases h
  · intro h
    unfold Open
    rw [if_pos h]

/-- C18 at the sample readers: reading from the closed `freshReader` and
opening the open `sampleReader` both end in `exit(1)`. -/
theorem C18_internal_state_errors_witness :
    (freshReader.mIsOpen = false ∧ sampleReader.mIsOpen = true) ∧
    LoadNextRead sampleEnv freshReader AlignedRead.ctor = .error .exit1 ∧
    Open sampleEnv sampleReader "sample.aa" (some sampleHeader) = .error .exit1 :=
  ⟨⟨rfl, rfl⟩,
   (C18_internal_state_errors sampleEnv freshReader AlignedRead.ctor "" none).1 rfl,
   (C18_internal_state_errors sampleEnv sampleReader AlignedRead.ctor "sample.aa"
      (some sampleHeader)).2.2.2 rfl⟩

/-! ## Decompression failure -/

theorem readPartition_decompress_zero (env : Env) (r : CAlignmentReader)
    (data : List Byte) (pos : Nat)
    (hs : r.mInStream = .live { data := data, pos := pos, eof := false })
    (hinv : BuffersOk r)
    (hend : partEnd data pos ≤ data.length)
    (hc : partCompressedSize data pos < 2 ^ 31)
    (hzero : (env.fastlz_decompress (slice data (pos + 10) (partCompressedSize data pos))
      (CheckBufferSize env r.mBuffer r.mBufferLen (partUncompressedSize data pos)).2).length
        = 0) :
    readPartition env r = .error .exit1 := by
  simp only [partEnd] at hend
  obtain ⟨hb1, hb2⟩ := hinv
  obtain ⟨hcl, hcr⟩ := CheckBufferSize_spec env r.mCompressionBuffer r.mCompressionBufferLen
    (partCompressedSize data pos) hb2 (by omega)
  rcases hcb : CheckBufferSize env r.mCompressionBuffer r.mCompressionBufferLen
    (partCompressedSize data pos) with ⟨cb, cbl⟩
  rcases hub : CheckBufferSize env r.mBuffer r.mBufferLen
    (partUncompressedSize data pos) with ⟨ub, ubl⟩
  rw [hcb] at hcl hcr
  rw [hub] at hzero
  simp only [] at hcl hcr hzero
  have hpayload : (slice data (pos + 10) (partCompressedSize data pos)).length
      = partCompressedSize data pos := length_slice _ _ _ (by omega)
  simp only [readPartition, CAlignmentReader.stream, hs, bind, Except.bind, pure, Except.pure,
    SIZEOF_INT, SIZEOF_SHORT]
  simp (disch := first | omega | (simp only []; omega)) only [freadInt_full]
  simp only [Bool.false_eq_true, if_false]
  simp (disch := first | omega | (simp only []; omega)) only [freadInt_full, Nat.add_assoc,
    Nat.reduceAdd]
  have hc' : leNat (slice data (pos + 4) 4) < 2 ^ 31 := hc
  have hcb' : CheckBufferSize env r.mCompressionBuffer r.mCompressionBufferLen
      (leNat (slice data (pos + 4) 4)) = (cb, cbl) := hcb
  have hub' : CheckBufferSize env r.mBuffer r.mBufferLen (leNat (slice data pos 4))
      = (ub, ubl) := hub
  have hpayload' : (slice data (pos + 10) (leNat (slice data (pos + 4) 4))).length
      = leNat (slice data (pos + 4) 4) := hpayload
  have hzero' : (env.fastlz_decompress
      (slice data (pos + 10) (leNat (slice data (pos + 4) 4))) ubl).length = 0 := hzero
  have hmod : leNat (slice data (pos + 4) 4) % 4294967296 = leNat (slice data (pos + 4) 4) :=
    Nat.mod_eq_of_lt (by omega)
  have hcr' : leNat (slice data (pos + 4) 4) ≤ cbl := hcr
  have hend' : pos + 10 + leNat (slice data (pos + 4) 4) ≤ data.length := hend
  rw [if_pos hc', fread_full _ _ (by simp only []; exact hend'), hcb', hub']
  simp only [hpayload', hzero', hmod, hcl, gt_iff_lt, Nat.not_lt.mpr hcr', if_false, ne_eq,
    not_true_eq_false, Nat.not_lt_zero, if_true]

/-- C16. An open reader with reads left, at a partition boundary, whose stream
holds a complete partition (10-byte head and payload) at its position: when
the decompressor writes nothing for the payload, that is returns 0,
`LoadNextRead` ends in `exit(1)`; it returns neither `true` nor `false` and
hands back no read and no advanced counter. -/
theorem C16_LoadNextRead_decompress_zero (env : Env) (r : CAlignmentReader) (ar : AlignedRead)
    (data : List Byte) (pos : Nat)
    (hopen : r.mIsOpen = true) (hcur : r.mCurrentRead < r.mNumReads)
    (hmem : r.mPartitionMembers = r.mPartitionSize)
    (hs : r.mInStream = .live { data := data, pos := pos, eof := false })
    (hinv : BuffersOk r)
    (hend : partEnd data pos ≤ data.length)
    (hc : partCompressedSize data pos < 2 ^ 31)
    (hzero : (env.fastlz_decompress (slice data (pos + 10) (partCompressedSize data pos))
      (CheckBufferSize env r.mBuffer r.mBufferLen (partUncompressedSize data pos)).2).length
        = 0) :
    LoadNextRead env r ar = .error .exit1 ∧
    (∀ (b : Bool) (r' : CAlignmentReader) (ar' : AlignedRead),
      LoadNextRead env r ar ≠ .ok (b, r', ar')) := by
  have h : LoadNextRead env r ar = .error .exit1 := by
    have hp := readPartition_decompress_zero env r data pos hs hinv hend hc hzero
    simp only [LoadNextRead, hopen, Bool.not_true, Bool.false_eq_true, if_false, ge_iff_le,
      Nat.not_le.mpr hcur, pump, hmem, if_true, hp]
  refine ⟨h, ?_⟩
  intro b r' ar' h2
  rw [h] at h2
  cases h2

/-- C16 at `sampleBadReader`: the payload of 20 bytes does not decompress into
the capacity of 11 bytes, and `LoadNextRead` ends in `exit(1)`. -/
theorem C16_LoadNextRead_decompress_zero_witness :
    LoadNextRead sampleEnv sampleBadReader AlignedRead.ctor = .error .exit1 :=
  (C16_LoadNextRead_decompress_zero sampleEnv sampleBadReader AlignedRead.ctor
    sampleBadPartition 0 rfl (by decide) rfl rfl ⟨rfl, rfl⟩ (by decide) (by decide)
    (by decide)).1

/-! ## The decoder makes no check of its own -/

/-- `x` does not end in `exit(1)`. -/
theorem noExit_bind {α β : Type} (x : Res α) (f : α → Res β)
    (hx : x ≠ .error .exit1) (hf : ∀ a, f a ≠ .error .exit1) :
    (x >>= f) ≠ .error .exit1 := by
  cases x with
  | error e =>
    intro h
    have he : e = Fault.exit1 := by
      simp only [bind, Except.bind] at h
      exact Except.error.inj h
    exact hx (by rw [he])
  | ok a => exact hf a

theorem noExit_peek (buf : List Byte) (ptr n : Nat) : peek buf ptr n ≠ .error .exit1 := by
  unfold peek
  split
  · intro h; cases h
  · intro h; cases h

theorem noExit_pure {α : Type} (a : α) : (pure a : Res α) ≠ .error .exit1 := by
  intro h; cases h

theorem ReadAlignment_noExit (buf : List Byte) (lut : List (List Byte)) (ptr : Nat)
    (al : Alignment) (isLongRead hasMateInfo : Bool) :
    ReadAlignment buf lut ptr al isLongRead hasMateInfo ≠ .error .exit1 := by
  unfold ReadAlignment
  repeat' first
    | exact noExit_pure _
    | exact noExit_peek _ _ _
    | refine noExit_bind _ _ ?_ (fun _ => ?_)
    | (intro h; cases h)
    | dsimp only []
    | split

theorem ReadAlignments_noExit (buf : List Byte) (lut : List (List Byte))
    (isLongRead hasMateInfo : Bool) :
    ∀ (alignments : List Alignment) (ptr : Nat),
      ReadAlignments buf lut ptr alignments isLongRead hasMateInfo ≠ .error .exit1
  | [], _ => by intro h; cases h
  | al :: rest, ptr => by
    have h1 := ReadAlignment_noExit buf lut ptr al isLongRead hasMateInfo
    unfold ReadAlignments
    split
    · rename_i e he
      intro h
      cases h
      exact h1 he
    · rename_i al1 ptr1 he
      have h2 := ReadAlignments_noExit buf lut isLongRead hasMateInfo rest ptr1
      split
      · rename_i e2 he2
        intro h
        cases h
        exact h2 he2
      · intro h; cases h

theorem decodeRead_noExit (env : Env) (buf : List Byte) (lut : List (List Byte)) (ptr : Nat)
    (ar : AlignedRead) : decodeRead env buf lut ptr ar ≠ .error .exit1 := by
  unfold decodeRead
  repeat' first
    | exact noExit_pure _
    | exact noExit_peek _ _ _
    | exact ReadAlignments_noExit _ _ _ _ _ _
    | refine noExit_bind _ _ ?_ (fun _ => ?_)
    | (intro h; cases h)
    | dsimp only []
    | split

theorem ReadAlignment_index (buf : List Byte) (lut : List (List Byte)) (ptr : Nat)
    (al : Alignment) (isLongRead hasMateInfo : Bool) (al' : Alignment) (ptr' : Nat)
    (h : ReadAlignment buf lut ptr al isLongRead hasMateInfo = .ok (al', ptr')) :
    lut.get? al'.ReferenceIndex = al'.ReferenceName ∧ al'.ReferenceName ≠ none := by
  unfold ReadAlignment at h
  simp only [bind, Except.bind, pure, Except.pure] at h
  repeat' first
    | (cases h; done)
    | split at h
  all_goals
    cases h
    refine ⟨?_, ?_⟩
    · simp only []
      assumption
    · simp only [ne_eq, reduceCtorEq, not_false_eq_true]

set_option maxRecDepth 100000 in
theorem wideIndex_run :
    (LoadNextRead sampleEnv wideIndexReader AlignedRead.ctor).map
        (fun x => (x.1, referenceIndexes x.2.2)) = .ok (true, [0]) := by
  decide

set_option maxRecDepth 100000 in
theorem outOfTable_run :
    LoadNextRead sampleEnv outOfTableReader AlignedRead.ctor = .error .undefined := by
  decide

set_option maxRecDepth 100000 in
theorem shortArchive_run :
    (loadReads sampleEnv sampleShortReader [AlignedRead.ctor, AlignedRead.ctor]).map
        (fun x => (x.1.map (fun y => (y.1, y.2.Name, y.2.Mate1Alignments.length)),
          x.2.mBufferPtr))
      = .ok ([(true, [114, 49], 1), (true, [114, 50], 1)], 36) := by
  decide

theorem ReadAlignments_index (buf : List Byte) (lut : List (List Byte))
    (isLongRead hasMateInfo : Bool) :
    ∀ (alignments : List Alignment) (ptr : Nat) (out : List Alignment) (ptr' : Nat),
      ReadAlignments buf lut ptr alignments isLongRead hasMateInfo = .ok (out, ptr') →
      ∀ a ∈ out, lut.get? a.ReferenceIndex = a.ReferenceName ∧ a.ReferenceName ≠ none
  | [], _, out, _, h => by
    cases h
    intro a ha
    cases ha
  | al :: rest, ptr, out, ptr', h => by
    unfold ReadAlignments at h
    split at h
    · cases h
    · rename_i al1 ptr1 he
      split at h
      · cases h
      · rename_i rest1 ptr2 he2
        cases h
        intro a ha
        rcases List.mem_cons.mp ha with rfl | hmem
        · exact ReadAlignment_index buf lut ptr al isLongRead hasMateInfo _ _ he
        · exact ReadAlignments_index buf lut isLongRead hasMateInfo rest ptr1 rest1 _ he2 a hmem

theorem decodeRead_index (env : Env) (buf : List Byte) (lut : List (List Byte)) (ptr : Nat)
    (ar ar' : AlignedRead) (ptr' : Nat)
    (h : decodeRead env buf lut ptr ar = .ok (ar', ptr')) :
    ∀ a ∈ ar'.Mate1Alignments ++ ar'.Mate2Alignments,
      lut.get? a.ReferenceIndex = a.ReferenceName ∧ a.ReferenceName ≠ none := by
  unfold decodeRead at h
  simp only [bind, Except.bind, pure, Except.pure] at h
  repeat' first
    | (cases h; done)
    | split at h
  all_goals
    cases h
    intro a ha
    rcases List.mem_append.mp ha with h1 | h2
    · exact ReadAlignments_index _ _ _ _ _ _ _ _ (by assumption) a h1
    · exact ReadAlignments_index _ _ _ _ _ _ _ _ (by assumption) a h2

theorem pump_table (env : Env) (r r1 : CAlignmentReader) (b : Bool)
    (h : pump env r = .ok (b, r1)) :
    r1.mRefSeqLUT = r.mRefSeqLUT ∧ r1.mNumRefSeqs = r.mNumRefSeqs := by
  simp only [pump] at h
  split at h
  · simp only [readPartition, CAlignmentReader.stream, bind, Except.bind, pure,
      Except.pure] at h
    split at h
    · cases h
    · split_ifs at h
      all_goals first
        | (cases h; done)
        | (cases h; exact ⟨rfl, rfl⟩)
  · cases h
    exact ⟨rfl, rfl⟩

theorem LoadNextRead_index (env : Env) (r r' : CAlignmentReader) (ar ar' : AlignedRead)
    (h : LoadNextRead env r ar = .ok (true, r', ar')) :
    ∀ a ∈ ar'.Mate1Alignments ++ ar'.Mate2Alignments,
      r.mRefSeqLUT.get? a.ReferenceIndex = a.ReferenceName ∧ a.ReferenceName ≠ none := by
  simp only [LoadNextRead] at h
  split at h
  · cases h
  · split at h
    · cases h
    · split at h
      · cases h
      · cases h
      · rename_i r1 hp
        split at h
        · cases h
        · rename_i ar1 ptr1 hd
          cases h
          rw [← (pump_table env r r1 true hp).1]
          exact decodeRead_index env _ _ _ ar _ _ hd

theorem openedReader_table_length (r : CAlignmentReader) (filename : String)
    (data : List Byte) :
    (openedReader r filename data).mRefSeqLUT.length
      = (openedReader r filename data).mNumRefSeqs := by
  simp only [openedReader, headerReferences, List.length_map, length_readReferenceSequences,
    length_resizeVec]

theorem ReadAlignment_outside_table (buf : List Byte) (lut : List (List Byte)) (ptr : Nat)
    (al : Alignment) (isLongRead hasMateInfo : Bool) (hhead : ptr + 12 ≤ buf.length)
    (hidx : lut.length ≤ leNat (slice buf (ptr + 8) 4) % 65536) :
    ReadAlignment buf lut ptr al isLongRead hasMateInfo = .error .undefined := by
  have hnone : lut.get? (leNat (slice buf (ptr + 8) 4) % 65536) = none :=
    List.get?_eq_none.mpr hidx
  simp only [ReadAlignment, SIZEOF_INT, bind, Except.bind, Nat.add_assoc, Nat.reduceAdd]
  rw [peek_ok buf _ _ (by omega)]
  simp only []
  rw [peek_ok buf _ _ (by omega)]
  simp only []
  rw [peek_ok buf _ _ (by omega)]
  simp only [hnone]

/-- C14 (counterexample). With one reference sequence in the table, a record
whose encoded reference index is 1 is looked up outside the table (the call
ends in undefined behaviour, not in `exit(1)`), and a record whose encoded
reference index is 65536 is returned by `LoadNextRead` with reference index
0. -/
theorem C14_index_outside_table_not_rejected :
    (outOfTableReader.mNumRefSeqs = 1 ∧ outOfTableReader.mRefSeqLUT.length = 1 ∧
      leNat (slice outOfTableReader.mBuffer 20 4) = 1 ∧
      LoadNextRead sampleEnv outOfTableReader AlignedRead.ctor = .error .undefined ∧
      LoadNextRead sampleEnv outOfTableReader AlignedRead.ctor ≠ .error .exit1) ∧
    (wideIndexReader.mNumRefSeqs = 1 ∧ wideIndexReader.mRefSeqLUT.length = 1 ∧
      leNat (slice wideIndexReader.mBuffer 20 4) = 65536 ∧
      (LoadNextRead sampleEnv wideIndexReader AlignedRead.ctor).map
        (fun x => (x.1, referenceIndexes x.2.2)) = .ok (true, [0])) := by
  refine ⟨⟨rfl, rfl, by decide, outOfTable_run, ?_⟩, rfl, rfl, by decide, wideIndex_run⟩
  rw [outOfTable_run]
  intro h
  cases h

/-- C14 (amended). The decoder does not compare the reference index with the
number of reference sequences. `ReadAlignment` never ends in `exit(1)`; the
index it stores is the low 16 bits of the 4-byte field of the record, and the
name lookup is made at that index: when the index lies inside the name table
the alignment gets that index and the name of that table entry, and when it
lies outside the lookup is made outside the table, which is undefined. So
for a well-formed record at the cursor (all indexes inside the table)
`LoadNextRead` returns true and every alignment it returns has a reference
index inside the table and carries the name of that entry. -/
theorem C14_index_lookup_unchecked (env : Env) (r r1 : CAlignmentReader) (ar : AlignedRead)
    (hopen : r.mIsOpen = true) (hcur : r.mCurrentRead < r.mNumReads)
    (hpump : pump env r = .ok (true, r1))
    (hlut : r1.mRefSeqLUT.length < 65536)
    (hfit : readFits r1.mBuffer r1.mRefSeqLUT.length r1.mBufferPtr = true) :
    (∃ (r2 : CAlignmentReader) (ar' : AlignedRead),
      LoadNextRead env r ar = .ok (true, r2, ar') ∧
      ∀ a ∈ ar'.Mate1Alignments ++ ar'.Mate2Alignments,
        a.ReferenceIndex < r1.mRefSeqLUT.length ∧
        r1.mRefSeqLUT.get? a.ReferenceIndex = a.ReferenceName ∧ a.ReferenceName ≠ none) ∧
    (∀ (buf : List Byte) (lut : List (List Byte)) (ptr : Nat) (al : Alignment)
      (isLongRead hasMateInfo : Bool) (name : List Byte),
      lut.get? (leNat (slice buf (ptr + 8) 4) % 65536) = some name →
      ptr + alignmentBytes buf ptr isLongRead hasMateInfo ≤ buf.length →
      ∃ (al' : Alignment) (ptr' : Nat),
        ReadAlignment buf lut ptr al isLongRead hasMateInfo = .ok (al', ptr') ∧
        al'.ReferenceIndex = leNat (slice buf (ptr + 8) 4) % 65536 ∧
        al'.ReferenceName = some name) ∧
    (∀ (buf : List Byte) (lut : List (List Byte)) (ptr : Nat) (al : Alignment)
      (isLongRead hasMateInfo : Bool),
      ReadAlignment buf lut ptr al isLongRead hasMateInfo ≠ .error .exit1) ∧
    (∀ (buf : List Byte) (lut : List (List Byte)) (ptr : Nat) (al : Alignment)
      (isLongRead hasMateInfo : Bool), ptr + 12 ≤ buf.length →
      lut.length ≤ leNat (slice buf (ptr + 8) 4) % 65536 →
      ReadAlignment buf lut ptr al isLongRead hasMateInfo = .error .undefined) := by
  refine ⟨?_, ?_, ReadAlignment_noExit, ReadAlignment_outside_table⟩
  · obtain ⟨m1, m2, -, -, -, -, hdec⟩ :=
      decodeRead_ok env r1.mBuffer r1.mRefSeqLUT r1.mBufferPtr ar hlut hfit
    have hrun : LoadNextRead env r ar = .ok (true,
        { r1 with mBufferPtr := readEnd r1.mBuffer r1.mBufferPtr
                  mCurrentRead := (r1.mCurrentRead + 1) % 2 ^ 64
                  mPartitionMembers := (r1.mPartitionMembers + 1) % 65536 },
        { ReadGroupCode := leNat (slice r1.mBuffer
            (r1.mBufferPtr + 1 + encNameLen r1.mBuffer r1.mBufferPtr) 4)
          Name := slice r1.mBuffer (r1.mBufferPtr + 1) (encNameLen r1.mBuffer r1.mBufferPtr)
          Mate1Alignments := m1
          Mate2Alignments := m2
          IsLongRead := (encStatus r1.mBuffer r1.mBufferPtr).testBit 0 }) := by
      simp only [LoadNextRead, hopen, Bool.not_true, Bool.false_eq_true, if_false, ge_iff_le,
        Nat.not_le.mpr hcur, hpump, hdec]
    refine ⟨_, _, hrun, fun a ha => ?_⟩
    obtain ⟨h1, h2⟩ := LoadNextRead_index env r _ ar _ hrun a ha
    rw [← (pump_table env r r1 true hpump).1] at h1
    refine ⟨?_, h1, h2⟩
    by_contra hge
    rw [List.get?_eq_none.mpr (Nat.le_of_not_lt hge)] at h1
    exact h2 h1.symm
  · intro buf lut ptr al isLongRead hasMateInfo name hname hin
    exact ⟨_, _, ReadAlignment_eq buf lut ptr al isLongRead hasMateInfo name hname hin, rfl, rfl⟩

/-- C14 (amended) at the sample reader: the record at the cursor is
well-formed, the call returns the sample read, and its one alignment has
reference index 0 and the name "chr1" of the one table entry. -/
theorem C14_index_lookup_unchecked_witness :
    (sampleReader.mIsOpen = true ∧ sampleReader.mCurrentRead < sampleReader.mNumReads ∧
      pump sampleEnv sampleReader = .ok (true, sampleReader) ∧
      sampleReader.mRefSeqLUT.length < 65536 ∧
      readFits sampleReader.mBuffer sampleReader.mRefSeqLUT.length sampleReader.mBufferPtr
        = true) ∧
    ∃ (r' : CAlignmentReader) (ar' : AlignedRead),
      LoadNextRead sampleEnv sampleReader AlignedRead.ctor = .ok (true, r', ar') ∧
      ∀ a ∈ ar'.Mate1Alignments ++ ar'.Mate2Alignments,
        a.ReferenceIndex = 0 ∧ a.ReferenceName = some [99, 104, 114, 49] := by
  refine ⟨⟨rfl, by decide, by decide, by decide, by decide⟩, ?_⟩
  obtain ⟨⟨r', ar', hrun, hall⟩, -⟩ :=
    C14_index_lookup_unchecked sampleEnv sampleReader sampleReader AlignedRead.ctor
      rfl (by decide) (by decide) (by decide) (by decide)
  refine ⟨r', ar', hrun, fun a ha => ?_⟩
  obtain ⟨h1, h2, -⟩ := hall a ha
  have h1' : a.ReferenceIndex < 1 := h1
  have h0 : a.ReferenceIndex = 0 := by omega
  rw [h0] at h2
  exact ⟨h0, h2.symm⟩

/-- C15 (counterexample). In `sampleShortArchive` the second partition
declares 12 uncompressed bytes and its record needs 36: the second
`LoadNextRead` returns `true` with the read "r2" and one alignment, decoded
from the bytes that the first partition left in the buffer, and the cursor
ends at 36. -/
theorem C15_record_past_partition_end_is_decoded :
    partUncompressedSize sampleShortArchive 46 = 12 ∧
    (loadReads sampleEnv sampleShortReader [AlignedRead.ctor, AlignedRead.ctor]).map
        (fun x => (x.1.map (fun y => (y.1, y.2.Name, y.2.Mate1Alignments.length)),
          x.2.mBufferPtr))
      = .ok ([(true, [114, 49], 1), (true, [114, 50], 1)], 36) :=
  ⟨by decide, shortArchive_run⟩

/-- C15 (amended). Once the partition step of `LoadNextRead` has succeeded,
leaving the reader `r1`, the call has no fatal exit left: the record is
decoded at the cursor of the buffer of `r1` as it stands, without a check
against the uncompressed size. When the bytes the decode reads lie inside
that buffer, with reference indexes inside the name table, the call returns
`true`, leaves the buffer as it is and the cursor at the end of the record,
and the read it returns is the one the bytes of the buffer encode: the name
after its 1-byte length, the 4-byte read group code, the long-read flag of
the status byte, and the two alignment lists of the encoded counts, decoded
by `ReadAlignments` from the buffer. -/
theorem C15_decode_has_no_bounds_check (env : Env) (r r1 : CAlignmentReader)
    (ar : AlignedRead) (hopen : r.mIsOpen = true) (hcur : r.mCurrentRead < r.mNumReads)
    (hpump : pump env r = .ok (true, r1)) :
    LoadNextRead env r ar ≠ .error .exit1 ∧
    (r1.mRefSeqLUT.length < 65536 →
      readFits r1.mBuffer r1.mRefSeqLUT.length r1.mBufferPtr = true →
      ∃ (r' : CAlignmentReader) (ar' : AlignedRead) (nameLen status : Nat),
        LoadNextRead env r ar = .ok (true, r', ar') ∧
        r'.mBuffer = r1.mBuffer ∧
        r'.mBufferPtr = readEnd r1.mBuffer r1.mBufferPtr ∧
        decodeRead env r1.mBuffer r1.mRefSeqLUT r1.mBufferPtr ar = .ok (ar', r'.mBufferPtr) ∧
        nameLen = leNat (slice r1.mBuffer r1.mBufferPtr 1) ∧
        ar'.Name = slice r1.mBuffer (r1.mBufferPtr + 1) nameLen ∧
        ar'.ReadGroupCode = leNat (slice r1.mBuffer (r1.mBufferPtr + 1 + nameLen) 4) ∧
        status = leNat (slice r1.mBuffer (r1.mBufferPtr + 1 + nameLen + 4) 1) ∧
        ar'.IsLongRead = status.testBit 0 ∧
        ar'.Mate1Alignments.length
          = leNat (slice r1.mBuffer (r1.mBufferPtr + 1 + nameLen + 4 + 1) 4) ∧
        ar'.Mate2Alignments.length = encMate2Count r1.mBuffer r1.mBufferPtr ∧
        ReadAlignments r1.mBuffer r1.mRefSeqLUT (alignmentsOffset r1.mBuffer r1.mBufferPtr)
            (resizeVec ar.Mate1Alignments ar'.Mate1Alignments.length (Alignment.ctor env.indet))
            (status.testBit 0) (status.testBit 2)
          = .ok (ar'.Mate1Alignments,
              alignmentsEnd r1.mBuffer (status.testBit 0) (status.testBit 2)
                (alignmentsOffset r1.mBuffer r1.mBufferPtr) ar'.Mate1Alignments.length) ∧
        ReadAlignments r1.mBuffer r1.mRefSeqLUT
            (alignmentsEnd r1.mBuffer (status.testBit 0) (status.testBit 2)
              (alignmentsOffset r1.mBuffer r1.mBufferPtr) ar'.Mate1Alignments.length)
            (resizeVec ar.Mate2Alignments ar'.Mate2Alignments.length (Alignment.ctor env.indet))
            (status.testBit 0) (status.testBit 2)
          = .ok (ar'.Mate2Alignments, r'.mBufferPtr)) := by
  constructor
  · intro h
    have hne := decodeRead_noExit env r1.mBuffer r1.mRefSeqLUT r1.mBufferPtr ar
    cases hd : decodeRead env r1.mBuffer r1.mRefSeqLUT r1.mBufferPtr ar with
    | error e =>
      simp only [LoadNextRead, hopen, Bool.not_true, Bool.false_eq_true, if_false, ge_iff_le,
        Nat.not_le.mpr hcur, hpump, hd] at h
      cases h
      exact hne hd
    | ok x =>
      simp only [LoadNextRead, hopen, Bool.not_true, Bool.false_eq_true, if_false, ge_iff_le,
        Nat.not_le.mpr hcur, hpump, hd] at h
      cases h
  · intro hlut hfit
    obtain ⟨m1, m2, hm1, hm2, hlen1, hlen2, hdec⟩ :=
      decodeRead_ok env r1.mBuffer r1.mRefSeqLUT r1.mBufferPtr ar hlut hfit
    have hrun : LoadNextRead env r ar = .ok (true,
        { r1 with mBufferPtr := readEnd r1.mBuffer r1.mBufferPtr
                  mCurrentRead := (r1.mCurrentRead + 1) % 2 ^ 64
                  mPartitionMembers := (r1.mPartitionMembers + 1) % 65536 },
        { ReadGroupCode := leNat (slice r1.mBuffer
            (r1.mBufferPtr + 1 + encNameLen r1.mBuffer r1.mBufferPtr) 4)
          Name := slice r1.mBuffer (r1.mBufferPtr + 1) (encNameLen r1.mBuffer r1.mBufferPtr)
          Mate1Alignments := m1
          Mate2Alignments := m2
          IsLongRead := (encStatus r1.mBuffer r1.mBufferPtr).testBit 0 }) := by
      simp only [LoadNextRead, hopen, Bool.not_true, Bool.false_eq_true, if_false, ge_iff_le,
        Nat.not_le.mpr hcur, hpump, hdec]
    refine ⟨_, _, encNameLen r1.mBuffer r1.mBufferPtr, encStatus r1.mBuffer r1.mBufferPtr,
      hrun, rfl, rfl, hdec, rfl, rfl, rfl, rfl, rfl, hlen1, hlen2, ?_, ?_⟩
    · simp only [hlen1]; exact hm1
    · simp only [hlen1, hlen2]; exact hm2

/-- C15 (amended) at the sample reader, which is in the middle of a
partition: the call returns `true` with the read "r1" of group 7 and one
mate-1 alignment, and the cursor ends at 36. -/
theorem C15_decode_has_no_bounds_check_witness :
    (sampleReader.mIsOpen = true ∧ sampleReader.mCurrentRead < sampleReader.mNumReads ∧
      pump sampleEnv sampleReader = .ok (true, sampleReader)) ∧
    LoadNextRead sampleEnv sampleReader AlignedRead.ctor ≠ .error .exit1 ∧
    ∃ (r' : CAlignmentReader) (ar' : AlignedRead),
      LoadNextRead sampleEnv sampleReader AlignedRead.ctor = .ok (true, r', ar') ∧
      r'.mBufferPtr = 36 ∧ ar'.Name = [114, 49] ∧ ar'.ReadGroupCode = 7 ∧
      ar'.Mate1Alignments.length = 1 := by
  have h := C15_decode_has_no_bounds_check sampleEnv sampleReader sampleReader AlignedRead.ctor
    rfl (by decide) (by decide)
  refine ⟨⟨rfl, by decide, by decide⟩, h.1, ?_⟩
  obtain ⟨r', ar', nameLen, status, hrun, -, hptr, -, hn, hname, hcode, -, -, hl1, -⟩ :=
    h.2 (by decide) (by decide)
  have hn' : nameLen = 2 := by rw [hn]; decide
  subst hn'
  refine ⟨r', ar', hrun, ?_, ?_, ?_, ?_⟩
  · rw [hptr]; decide
  · rw [hname]; decide
  · rw [hcode]; decide
  · rw [hl1]; decide

/-! ## The reference sequences of `Open` -/

/-- C12 (failing input). `Open` on a closed reader and a file with a complete
preamble keeps the low 16 bits of the 4-byte count at offset 17: the reference
list and the name table have that many elements. For every archive that
declares 65536 reference sequences `Open` reads no reference record, and
`GetReferenceSequences` has no element. -/
theorem C12_Open_reference_count_low_half (env : Env) (r : CAlignmentReader)
    (filename : String) (data : List Byte) (hclosed : r.mIsOpen = false)
    (hlen : 72 ≤ data.length) :
    ∃ r' : CAlignmentReader,
      Open env r filename (some data) = .ok r' ∧
      (GetReferenceSequences r').length = leNat (slice data 17 4) % 65536 ∧
      r'.mRefSeqLUT.length = leNat (slice data 17 4) % 65536 ∧
      (leNat (slice data 17 4) = 65536 →
        GetReferenceSequences r' = [] ∧ r'.mRefSeqLUT = []) := by
  refine ⟨openedReader r filename data, Open_eq env r filename data hclosed hlen, ?_, ?_, ?_⟩
  · simp only [GetReferenceSequences, openedReader, headerReferences,
      length_readReferenceSequences, length_resizeVec]
  · simp only [openedReader, headerReferences, List.length_map,
      length_readReferenceSequences, length_resizeVec]
  · intro h
    have h0 : leNat (slice data 17 4) % 65536 = 0 := by rw [h]
    constructor
    · apply List.eq_nil_of_length_eq_zero
      simp only [GetReferenceSequences, openedReader, headerReferences,
        length_readReferenceSequences, length_resizeVec, h0]
    · apply List.eq_nil_of_length_eq_zero
      simp only [openedReader, headerReferences, List.length_map,
        length_readReferenceSequences, length_resizeVec, h0]

set_option maxRecDepth 100000 in
theorem sampleManyReferences_facts :
    72 ≤ sampleHeaderManyReferences.length ∧
    leNat (slice sampleHeaderManyReferences 17 4) = 65536 := by
  decide

/-- C12 at `sampleHeaderManyReferences`, which declares 65536 reference
sequences: the opened reader has none. -/
theorem C12_Open_reference_count_low_half_witness :
    (freshReader.mIsOpen = false ∧ 72 ≤ sampleHeaderManyReferences.length ∧
      leNat (slice sampleHeaderManyReferences 17 4) = 65536) ∧
    ∃ r' : CAlignmentReader,
      Open sampleEnv freshReader "sample.aa" (some sampleHeaderManyReferences) = .ok r' ∧
      GetReferenceSequences r' = [] ∧ r'.mRefSeqLUT = [] := by
  refine ⟨⟨rfl, sampleManyReferences_facts.1, sampleManyReferences_facts.2⟩, ?_⟩
  obtain ⟨r', hopen, -, -, h⟩ :=
    C12_Open_reference_count_low_half sampleEnv freshReader "sample.aa"
      sampleHeaderManyReferences rfl sampleManyReferences_facts.1
  exact ⟨r', hopen, h sampleManyReferences_facts.2⟩

/-! ## The aligned positions reader -/

theorem slice_store (buf bytes : List Byte) (off n : Nat) (h : off + n ≤ bytes.length) :
    slice (store buf bytes) off n = slice bytes off n := by
  simp only [store]
  exact slice_append_head bytes _ off n h

theorem slice_slice (data : List Byte) (pos m off n : Nat) (h : off + n ≤ m) :
    slice (slice data pos m) off n = slice data (pos + off) n := by
  simp only [slice, List.drop_take, List.take_take, List.drop_drop]
  congr 1
  omega

theorem length_store_ge (buf bytes : List Byte) : bytes.length ≤ (store buf bytes).length := by
  simp only [store, List.length_append]
  omega

theorem freadBuffer_full (r : CAlignedPositionsReader) (f : FILE) (n : Nat)
    (hs : r.mInStream = .live f) (hfile : f.pos + n ≤ f.data.length)
    (hbuf : n ≤ r.mBuffer.length) :
    r.freadBuffer n
      = .ok (n, { r with mInStream := .live { f with pos := f.pos + n }
                         mBuffer := store r.mBuffer (slice f.data f.pos n) }) := by
  have hl := length_slice f.data f.pos n hfile
  simp only [CAlignedPositionsReader.freadBuffer, CAlignedPositionsReader.stream, hs, bind,
    Except.bind, fread_full f n hfile, hl, gt_iff_lt, Nat.not_lt.mpr hbuf, if_false, pure,
    Except.pure]

/-- C20. The constructor on a file of at least 34 bytes returns a reader whose
header statistics are the little-endian integers at the fixed offsets: anchors
offset 8 bytes at 6, number of anchors 4 bytes at 14, number of reads 8 bytes
at 18, timestamp 8 bytes at 26; `GetNumReads` returns that number of reads.
The stream is left after the 34 header bytes and no read has been counted. -/
theorem C20_AP_header_fields (env : Env) (currentReadNameOffset : Nat) (data : List Byte)
    (hlen : 34 ≤ data.length) :
    ∃ r : CAlignedPositionsReader,
      CAlignedPositionsReader.ctor env currentReadNameOffset (some data) = .ok r ∧
      r.mStatistics.AnchorsOffset = leNat (slice data 6 8) ∧
      r.mStatistics.NumAnchors = leNat (slice data 14 4) ∧
      r.mStatistics.NumReads = leNat (slice data 18 8) ∧
      r.mStatistics.Timestamp = leNat (slice data 26 8) ∧
      r.GetNumReads = leNat (slice data 18 8) ∧
      r.mInStream = .live { data := data, pos := 34, eof := false } ∧
      r.mIsStreamOpen = true ∧ r.mCurrentReadNum = 0 := by
  have hl : (slice data 0 34).length = 34 := length_slice data 0 34 (by omega)
  have hst : (store (env.alloc 256) (slice data 0 34)).length = 256 := by
    rw [length_store _ _ (by rw [hl, length_alloc]; omega), length_alloc]
  have hs : ∀ off n, off + n ≤ 34 →
      slice (store (env.alloc 256) (slice data 0 34)) off n = slice data off n := by
    intro off n h
    rw [slice_store _ _ _ _ (by omega), slice_slice _ _ _ _ _ h, Nat.zero_add]
  simp only [CAlignedPositionsReader.ctor, CAlignedPositionsReader.ParseHeader,
    ALIGNED_READ_ARCHIVE_HEADER_BYTES, SIZEOF_MOSAIK_64, SIZEOF_INT, u32, bind, Except.bind,
    pure, Except.pure]
  rw [freadBuffer_full _ { data := data, pos := 0, eof := false } 34 rfl
    (by simp only [Nat.zero_add]; exact hlen) (by simp only [length_alloc]; omega)]
  simp only [ne_eq, not_true_eq_false, if_false, Nat.reduceAdd, Nat.reduceMod, Nat.zero_add]
  rw [peek_ok _ 6 8 (by omega)]
  simp only []
  rw [peek_ok _ 14 4 (by omega)]
  simp only []
  rw [peek_ok _ 18 8 (by omega)]
  simp only []
  rw [peek_ok _ 26 8 (by omega)]
  simp only [hs 6 8 (by omega), hs 14 4 (by omega), hs 18 8 (by omega), hs 26 8 (by omega)]
  exact ⟨_, rfl, rfl, rfl, rfl, rfl, rfl, rfl, rfl, rfl⟩

set_option maxRecDepth 100000 in
theorem sampleAPFile_header :
    34 ≤ sampleAPFile.length ∧ leNat (slice sampleAPFile 6 8) = 74 ∧
    leNat (slice sampleAPFile 14 4) = 1 ∧ leNat (slice sampleAPFile 18 8) = 1 ∧
    leNat (slice sampleAPFile 26 8) = 12345 := by
  decide

/-- C20 at `sampleAPFile`: anchors offset 74, one anchor, one read, timestamp
12345. -/
theorem C20_AP_header_fields_witness :
    34 ≤ sampleAPFile.length ∧
    ∃ r : CAlignedPositionsReader,
      CAlignedPositionsReader.ctor sampleEnv 0 (some sampleAPFile) = .ok r ∧
      r.mStatistics.AnchorsOffset = 74 ∧ r.mStatistics.NumAnchors = 1 ∧
      r.mStatistics.NumReads = 1 ∧ r.mStatistics.Timestamp = 12345 ∧ r.GetNumReads = 1 := by
  obtain ⟨hlen, h1, h2, h3, h4⟩ := sampleAPFile_header
  refine ⟨hlen, ?_⟩
  obtain ⟨r, hr, ha, hn, hrd, ht, hg, -⟩ := C20_AP_header_fields sampleEnv 0 sampleAPFile hlen
  exact ⟨r, hr, by rw [ha, h1], by rw [hn, h2], by rw [hrd, h3], by rw [ht, h4],
    by rw [hg, h3]⟩

/-! ## The aligned positions reader: decoding a read record -/

theorem u32_of_lt (n : Nat) (h : n < 4294967296) : u32 n = n :=
  Nat.mod_eq_of_lt h

theorem untilZero_of_not_mem : ∀ (s : List Byte), (0 : Byte) ∉ s → untilZero s = s
  | [], _ => rfl
  | a :: s, h => by
    have ha : a ≠ 0 := fun h0 => h (by rw [h0]; exact List.mem_cons_self _ _)
    have hs : (0 : Byte) ∉ s := fun h0 => h (List.mem_cons_of_mem _ h0)
    have ih := untilZero_of_not_mem s hs
    simp only [untilZero] at ih
    simp only [untilZero, List.takeWhile_cons, ha, ne_eq, not_false_eq_true, decide_True,
      if_true, ih]

theorem length_untilZero_le (s : List Byte) : (untilZero s).length ≤ s.length := by
  induction s with
  | nil => exact Nat.le_refl _
  | cons a s ih =>
    simp only [untilZero, List.takeWhile_cons] at ih ⊢
    split
    · simp only [List.length_cons]
      omega
    · simp only [List.length_nil, List.length_cons]
      omega

theorem cstr_terminated (rest : List Byte) :
    ∀ (s : List Byte), cstr (s ++ 0 :: rest) = .ok (untilZero s)
  | [] => by
    simp [cstr, untilZero]
  | a :: s => by
    have ih := cstr_terminated rest s
    simp only [cstr, untilZero, List.mem_append, List.mem_cons, true_or, or_true, if_true,
      Except.ok.injEq] at ih
    by_cases ha : a = 0
    · subst ha
      simp [cstr, untilZero]
    · simp only [cstr, untilZero, List.cons_append, List.mem_cons, List.mem_append, true_or,
        or_true, if_true, List.takeWhile_cons, ha, ne_eq, not_false_eq_true, decide_True, ih]

theorem store_set_zero (rb s : List Byte) (h : s.length < rb.length) :
    (store rb s).set s.length 0 = s ++ 0 :: rb.drop (s.length + 1) := by
  have hd : rb.drop s.length = rb.get ⟨s.length, h⟩ :: rb.drop (s.length + 1) :=
    List.drop_eq_getElem_cons h
  simp only [store, hd]
  rw [List.set_append_right _ _ (Nat.le_refl _)]
  simp only [Nat.sub_self, List.set_cons_zero]

theorem extractString_ok (r : CAlignedPositionsReader) (block tail : List Byte) (off n : Nat)
    (hbuf : r.mBuffer = block ++ tail) (hfit : off + n ≤ block.length)
    (hlen : n < r.mReadBuffer.length) :
    ∃ rb : List Byte, rb.length = r.mReadBuffer.length ∧
      r.extractString off n
        = .ok ({ r with mReadBuffer := rb }, untilZero (slice block off n)) := by
  have hl : (slice block off n).length = n := length_slice block off n hfit
  have hpeek : peek r.mBuffer off n = .ok (slice block off n) := by
    rw [hbuf, peek_append_head block tail off n hfit, peek_ok block off n hfit]
  refine ⟨slice block off n ++ 0 :: r.mReadBuffer.drop (n + 1), ?_, ?_⟩
  · simp only [List.length_append, List.length_cons, List.length_drop, hl]
    omega
  · have hset := store_set_zero r.mReadBuffer (slice block off n) (by rw [hl]; exact hlen)
    rw [hl] at hset
    have hlen2 : n < (store r.mReadBuffer (slice block off n)).length := by
      rw [length_store _ _ (by rw [hl]; omega)]
      exact hlen
    simp only [CAlignedPositionsReader.extractString, hpeek, bind, Except.bind, memcpyTo, hl,
      Nat.le_of_lt hlen, if_true, setZero, hlen2, hset, cstr_terminated, pure, Except.pure]

theorem CheckReadBufferSize_eq (env : Env) (r : CAlignedPositionsReader) (n : Nat)
    (hrb : r.mReadBuffer.length = r.mReadBufferLen) (hn : n + 10 < 4294967296) :
    ∃ rb : List Byte, rb.length = readBufferLenAfter r.mReadBufferLen n ∧
      r.CheckReadBufferSize env n
        = { r with mReadBuffer := rb
                   mReadBufferLen := readBufferLenAfter r.mReadBufferLen n } := by
  by_cases h : n > r.mReadBufferLen
  · refine ⟨env.alloc (n + 10), ?_, ?_⟩
    · simp only [length_alloc, readBufferLenAfter, h, if_true]
    · simp only [CAlignedPositionsReader.CheckReadBufferSize, h, if_true, u32_of_lt _ hn,
        readBufferLenAfter]
  · refine ⟨r.mReadBuffer, ?_, ?_⟩
    · simp only [readBufferLenAfter, h, if_false, hrb]
    · simp only [CAlignedPositionsReader.CheckReadBufferSize, h, if_false, readBufferLenAfter]

theorem apPairwiseLength_lt (block : List Byte) (off : Nat) :
    apPairwiseLength block off < 65536 :=
  leNat_slice_two_lt block (off + 19)

theorem readPosition_ok (env : Env) (r : CAlignedPositionsReader) (block tail : List Byte)
    (off : Nat) (hbuf : r.mBuffer = block ++ tail) (hblock : block.length < 4294967296)
    (hrb : r.mReadBuffer.length = r.mReadBufferLen)
    (hfit : off + positionBytes block off ≤ block.length)
    (hne : apPairwiseLength block off ≠ r.mReadBufferLen) :
    ∃ rb : List Byte,
      rb.length = readBufferLenAfter r.mReadBufferLen (apPairwiseLength block off) ∧
      r.readPosition env off
        = .ok (decodedPosition block off,
            { r with mReadBuffer := rb
                     mReadBufferLen :=
                       readBufferLenAfter r.mReadBufferLen (apPairwiseLength block off) },
            off + positionBytes block off) := by
  have hpl := apPairwiseLength_lt block off
  simp only [positionBytes] at hfit
  have hp : ∀ o n, o + n ≤ block.length → peek r.mBuffer o n = .ok (slice block o n) := by
    intro o n h
    rw [hbuf, peek_append_head block tail o n h, peek_ok block o n h]
  obtain ⟨rb0, hrb0, hcheck⟩ := CheckReadBufferSize_eq env r (apPairwiseLength block off) hrb
    (by omega)
  have hlt : apPairwiseLength block off
      < readBufferLenAfter r.mReadBufferLen (apPairwiseLength block off) := by
    simp only [readBufferLenAfter]
    split <;> omega
  obtain ⟨rb1, hrb1, hex1⟩ := extractString_ok
    { r with mReadBuffer := rb0
             mReadBufferLen := readBufferLenAfter r.mReadBufferLen (apPairwiseLength block off) }
    block tail (off + 21) (apPairwiseLength block off) hbuf (by omega)
    (by simp only [hrb0]; exact hlt)
  obtain ⟨rb2, hrb2, hex2⟩ := extractString_ok
    { r with mReadBuffer := rb1
             mReadBufferLen := readBufferLenAfter r.mReadBufferLen (apPairwiseLength block off) }
    block tail (off + 21 + apPairwiseLength block off) (apPairwiseLength block off) hbuf
    (by omega) (by simp only [hrb1, hrb0]; exact hlt)
  refine ⟨rb2, by rw [hrb2]; simp only [hrb1, hrb0], ?_⟩
  simp only [CAlignedPositionsReader.readPosition, SIZEOF_INT, SIZEOF_SHORT, bind, Except.bind,
    pure, Except.pure]
  simp (disch := omega) only [u32_of_lt, Nat.add_assoc, Nat.reduceAdd]
  rw [hp off 4 (by omega)]
  simp only []
  rw [hp (off + 4) 4 (by omega)]
  simp only []
  rw [hp (off + 8) 2 (by omega)]
  simp only []
  rw [hp (off + 10) 2 (by omega)]
  simp only []
  rw [hp (off + 12) 1 (by omega)]
  simp only []
  rw [hp (off + 13) 2 (by omega)]
  simp only []
  rw [hp (off + 15) 2 (by omega)]
  simp only []
  rw [hp (off + 17) 2 (by omega)]
  simp only []
  rw [hp (off + 19) 2 (by omega)]
  simp only []
  have hdef : leNat (slice block (off + 19) 2) = apPairwiseLength block off := rfl
  simp only [hdef, hcheck, hex1]
  simp (disch := omega) only [u32_of_lt, ← Nat.add_assoc]
  simp only [Nat.add_assoc] at hex2
  simp only [hex2, decodedPosition, positionBytes, Nat.add_assoc]

theorem readPositions_ok (env : Env) (block tail : List Byte)
    (hblock : block.length < 4294967296) :
    ∀ (n : Nat) (r : CAlignedPositionsReader) (off : Nat) (positions : List AlignedPosition),
      r.mBuffer = block ++ tail → r.mReadBuffer.length = r.mReadBufferLen →
      positionsFit block off n r.mReadBufferLen = true →
      ∃ rb : List Byte, rb.length = readBufferLenEnd block off n r.mReadBufferLen ∧
        CAlignedPositionsReader.readPositions env n r off positions
          = .ok (positions ++ decodedPositions block off n,
              { r with mReadBuffer := rb
                       mReadBufferLen := readBufferLenEnd block off n r.mReadBufferLen },
              positionsEnd block off n)
  | 0, r, off, positions, _, hrb, _ =>
    ⟨r.mReadBuffer, hrb, by
      simp only [CAlignedPositionsReader.readPositions, decodedPositions, positionsEnd,
        readBufferLenEnd, List.append_nil]⟩
  | n + 1, r, off, positions, hbuf, hrb, hfit => by
    simp only [positionsFit, Bool.and_eq_true, decide_eq_true_eq] at hfit
    obtain ⟨⟨h1, h2⟩, h5⟩ := hfit
    obtain ⟨rb1, hrb1, hrun⟩ := readPosition_ok env r block tail off hbuf hblock hrb h1 h2
    obtain ⟨rb2, hrb2, hrest⟩ := readPositions_ok env block tail hblock n
      { r with mReadBuffer := rb1
               mReadBufferLen := readBufferLenAfter r.mReadBufferLen (apPairwiseLength block off) }
      (off + positionBytes block off) (positions ++ [decodedPosition block off]) hbuf hrb1 h5
    refine ⟨rb2, hrb2, ?_⟩
    simp only [CAlignedPositionsReader.readPositions, hrun, hrest, decodedPositions,
      positionsEnd, readBufferLenEnd, List.append_assoc, List.singleton_append]

theorem readBufferLenAfter_ge (len n : Nat) : len ≤ readBufferLenAfter len n := by
  simp only [readBufferLenAfter]
  split <;> omega

theorem readBufferLenEnd_ge (block : List Byte) :
    ∀ (n off len : Nat), len ≤ readBufferLenEnd block off n len
  | 0, _, _ => Nat.le_refl _
  | n + 1, _, len =>
    Nat.le_trans (readBufferLenAfter_ge len _) (readBufferLenEnd_ge block n _ _)

theorem AP_CheckBufferSize_eq (env : Env) (r : CAlignedPositionsReader) (n : Nat)
    (hbuf : r.mBuffer.length = r.mBufferLen) (hn : n + 10 < 4294967296) :
    ∃ buf : List Byte, n ≤ buf.length ∧ r.mBufferLen ≤ buf.length ∧
      r.CheckBufferSize env n = { r with mBuffer := buf, mBufferLen := buf.length } := by
  by_cases h : n > r.mBufferLen
  · refine ⟨env.alloc (n + 10), ?_, ?_, ?_⟩
    · simp only [length_alloc]
      omega
    · simp only [length_alloc]
      omega
    · simp only [CAlignedPositionsReader.CheckBufferSize, h, if_true, u32_of_lt _ hn,
        length_alloc]
  · refine ⟨r.mBuffer, by omega, by omega, ?_⟩
    simp only [CAlignedPositionsReader.CheckBufferSize, h, if_false, hbuf]

theorem length_decodedPositions (block : List Byte) :
    ∀ (n off : Nat), (decodedPositions block off n).length = n
  | 0, _ => rfl
  | n + 1, off => by
    simp only [decodedPositions, List.length_cons, length_decodedPositions block n]

theorem decodedPositions_get (block : List Byte) :
    ∀ (n off i : Nat), i < n →
      (decodedPositions block off n).get? i
        = some (decodedPosition block (positionsEnd block off i))
  | 0, _, _, hi => absurd hi (Nat.not_lt_zero _)
  | n + 1, off, 0, _ => rfl
  | n + 1, off, i + 1, hi => by
    simp only [decodedPositions, List.get?_cons_succ, positionsEnd]
    exact decodedPositions_get block n _ i (Nat.lt_of_succ_lt_succ hi)

theorem positionsEnd_succ (block : List Byte) :
    ∀ (n off : Nat), positionsEnd block off (n + 1)
      = positionsEnd block off n + positionBytes block (positionsEnd block off n)
  | 0, off => rfl
  | n + 1, off => by
    show positionsEnd block (off + positionBytes block off) (n + 1) = _
    rw [positionsEnd_succ block n (off + positionBytes block off)]
    rfl

theorem positionsFit_at (block : List Byte) :
    ∀ (n off len i : Nat), positionsFit block off n len = true → i < n →
      positionsEnd block off i + positionBytes block (positionsEnd block off i) ≤ block.length
  | 0, _, _, _, _, hi => absurd hi (Nat.not_lt_zero _)
  | n + 1, off, len, 0, hfit, _ => by
    simp only [positionsFit, Bool.and_eq_true, decide_eq_true_eq] at hfit
    exact hfit.1.1
  | n + 1, off, len, i + 1, hfit, hi => by
    simp only [positionsFit, Bool.and_eq_true, decide_eq_true_eq] at hfit
    exact positionsFit_at block n _ _ i hfit.2 (Nat.lt_of_succ_lt_succ hi)

theorem decodeEntry_ok (env : Env) (r : CAlignedPositionsReader) (block tail : List Byte)
    (n : Nat) (positions : List AlignedPosition)
    (hbuf : r.mBuffer = block ++ tail) (hblock : block.length < 4294967296)
    (hrb : r.mReadBuffer.length = r.mReadBufferLen) (hrb256 : 256 ≤ r.mReadBufferLen)
    (hfit : blockFits block n r.mReadBufferLen = true) :
    ∃ rb : List Byte,
      rb.length = readBufferLenEnd block (1 + apNameLen block) n r.mReadBufferLen ∧
      r.decodeEntry env n positions
        = .ok ({ r with mReadBuffer := rb
                        mReadBufferLen :=
                          readBufferLenEnd block (1 + apNameLen block) n r.mReadBufferLen },
            positions ++ decodedPositions block (1 + apNameLen block) n,
            untilZero (slice block 1 (apNameLen block))) := by
  simp only [blockFits, Bool.and_eq_true, decide_eq_true_eq] at hfit
  obtain ⟨hname, hpos⟩ := hfit
  have hnl : apNameLen block < 256 := leNat_slice_one_lt block 0
  have hp : ∀ o n, o + n ≤ block.length → peek r.mBuffer o n = .ok (slice block o n) := by
    intro o n h
    rw [hbuf, peek_append_head block tail o n h, peek_ok block o n h]
  have hlenname : readBufferLenAfter r.mReadBufferLen (apNameLen block) = r.mReadBufferLen := by
    simp only [readBufferLenAfter]
    rw [if_neg (by omega)]
  obtain ⟨rb0, hrb0, hcheck⟩ := CheckReadBufferSize_eq env r (apNameLen block) hrb (by omega)
  simp only [hlenname] at hrb0 hcheck
  obtain ⟨rb1, hrb1, hex⟩ := extractString_ok { r with mReadBuffer := rb0 }
    block tail 1 (apNameLen block) hbuf hname
    (by show apNameLen block < rb0.length; omega)
  have hrb1' : rb1.length = rb0.length := hrb1
  obtain ⟨rb, hlen, hrun⟩ := readPositions_ok env block tail hblock n
    { r with mReadBuffer := rb1 } (1 + apNameLen block) positions hbuf
    (by show rb1.length = r.mReadBufferLen; omega) hpos
  refine ⟨rb, hlen, ?_⟩
  have hdef : leNat (slice block 0 1) = apNameLen block := rfl
  have h1 : u32 (0 + 1) = 1 := rfl
  have h2 : u32 (1 + apNameLen block) = 1 + apNameLen block := u32_of_lt _ (by omega)
  simp only [CAlignedPositionsReader.decodeEntry, bind, Except.bind, pure, Except.pure]
  rw [hp 0 1 (by omega)]
  simp only [hdef, h1, h2, hcheck]
  have hcheck' : ({ r with mReadBuffer := rb0, mReadBufferLen := r.mReadBufferLen }
      : CAlignedPositionsReader) = { r with mReadBuffer := rb0 } := rfl
  rw [hcheck', hex]
  simp only []
  rw [hrun]

theorem readEntry_ok (env : Env) (r : CAlignedPositionsReader) (f : FILE)
    (hs : r.mInStream = .live f)
    (hbuf : r.mBuffer.length = r.mBufferLen) (hbuf10 : 10 ≤ r.mBufferLen)
    (hsize : 10 ≤ leNat (slice f.data f.pos 4))
    (hend : f.pos + leNat (slice f.data f.pos 4) ≤ f.data.length) :
    ∃ buf : List Byte, leNat (slice f.data f.pos 4) - 10 ≤ buf.length ∧
      r.mBufferLen ≤ buf.length ∧
      r.readEntry env
        = .ok ({ r with mInStream := .live { f with pos := f.pos + leNat (slice f.data f.pos 4) }
                        mBuffer := store buf
                          (slice f.data (f.pos + 10) (leNat (slice f.data f.pos 4) - 10))
                        mBufferLen := buf.length },
            leNat (slice f.data (f.pos + 4) 4), leNat (slice f.data (f.pos + 8) 2)) := by
  have hes : leNat (slice f.data f.pos 4) < 4294967296 := leNat_slice_lt f.data f.pos 4
  generalize hE : leNat (slice f.data f.pos 4) = entrySize at hsize hend hes ⊢
  have hl10 : (slice f.data f.pos 10).length = 10 := length_slice _ _ _ (by omega)
  have hpre : ∀ off n, off + n ≤ 10 →
      peek (store r.mBuffer (slice f.data f.pos 10)) off n = .ok (slice f.data (f.pos + off) n) := by
    intro off n h
    rw [peek_ok _ _ _ (by rw [length_store _ _ (by omega)]; omega),
      slice_store _ _ _ _ (by omega), slice_slice _ _ _ _ _ h]
  have hebl : u32sub entrySize 10 = entrySize - 10 := by
    simp only [u32sub, hsize, if_true]
  have hl1 : (store r.mBuffer (slice f.data f.pos 10)).length = r.mBufferLen := by
    rw [length_store _ _ (by omega)]; exact hbuf
  obtain ⟨buf2, hbuf2, hge, hcheck⟩ := AP_CheckBufferSize_eq env
    { r with mInStream := .live { f with pos := f.pos + 10 }
             mBuffer := store r.mBuffer (slice f.data f.pos 10) } (entrySize - 10)
    hl1 (by omega)
  have hge' : r.mBufferLen ≤ buf2.length := hge
  have hread2 := freadBuffer_full
    { r with mInStream := .live { f with pos := f.pos + 10 }
             mBuffer := buf2, mBufferLen := buf2.length }
    { f with pos := f.pos + 10 } (entrySize - 10) rfl
    (by show f.pos + 10 + (entrySize - 10) ≤ f.data.length; omega) hbuf2
  have hpos2 : f.pos + 10 + (entrySize - 10) = f.pos + entrySize := by omega
  simp only [hpos2] at hread2
  refine ⟨buf2, hbuf2, hge', ?_⟩
  simp only [CAlignedPositionsReader.readEntry, bind, Except.bind, pure, Except.pure,
    SIZEOF_INT, SIZEOF_SHORT]
  rw [freadBuffer_full r f 10 hs (by omega) (by omega)]
  simp only [ne_eq, not_true_eq_false, if_false]
  rw [hpre 0 4 (by omega)]
  simp only [Nat.add_zero, hE]
  have h8 : u32 (4 + 4) = 8 := rfl
  rw [hpre 4 4 (by omega)]
  simp only [h8]
  rw [hpre 8 2 (by omega)]
  simp only [hebl, hcheck, hread2, ne_eq, not_true_eq_false, if_false]

theorem AP_LoadNextRead_ok (env : Env) (r : CAlignedPositionsReader) (f : FILE)
    (positions : List AlignedPosition) (readLength : Nat) (readName : List Byte)
    (hready : APReady r f) (hcur : r.mCurrentReadNum < r.mStatistics.NumReads)
    (hfit : apRecordFits f.data f.pos r.mReadBufferLen = true) :
    ∃ buf rb : List Byte, r.mBufferLen ≤ buf.length ∧
      rb.length = apReadBufferLenNext f.data f.pos r.mReadBufferLen ∧
      r.LoadNextRead env positions readLength readName
        = .ok (true,
            { r with mInStream := .live { f with pos := f.pos + apEntrySize f.data f.pos }
                     mBuffer := buf, mBufferLen := buf.length
                     mReadBuffer := rb
                     mReadBufferLen := apReadBufferLenNext f.data f.pos r.mReadBufferLen
                     mCurrentReadNum := (r.mCurrentReadNum + 1) % 2 ^ 64 },
            decodedPositions (apBlock f.data f.pos) (1 + apNameLen (apBlock f.data f.pos))
              (apNumPositions f.data f.pos),
            apReadLength f.data f.pos,
            untilZero (slice (apBlock f.data f.pos) 1 (apNameLen (apBlock f.data f.pos)))) := by
  obtain ⟨hs, hbuf, hbuf10, hrb, hrb256⟩ := hready
  simp only [apRecordFits, Bool.and_eq_true, decide_eq_true_eq] at hfit
  obtain ⟨⟨hsize, hend⟩, hblockfit⟩ := hfit
  have hes : apEntrySize f.data f.pos < 4294967296 := leNat_slice_lt f.data f.pos 4
  obtain ⟨buf2, hbuf2, hge, hentry⟩ := readEntry_ok env r f hs hbuf hbuf10 hsize hend
  have hBl : (apBlock f.data f.pos).length = apEntrySize f.data f.pos - 10 :=
    length_slice _ _ _ (by omega)
  have hstore : store buf2 (apBlock f.data f.pos)
      = apBlock f.data f.pos ++ buf2.drop (apBlock f.data f.pos).length := rfl
  obtain ⟨rb, hrblen, hdec⟩ := decodeEntry_ok env
    { r with mInStream := .live { f with pos := f.pos + apEntrySize f.data f.pos }
             mBuffer := store buf2 (apBlock f.data f.pos)
             mBufferLen := buf2.length }
    (apBlock f.data f.pos) (buf2.drop (apBlock f.data f.pos).length)
    (apNumPositions f.data f.pos) [] hstore (by omega) hrb hrb256 hblockfit
  have hlstore : (store buf2 (apBlock f.data f.pos)).length = buf2.length :=
    length_store _ _ (by rw [hBl]; exact hbuf2)
  refine ⟨store buf2 (apBlock f.data f.pos), rb, by rw [hlstore]; exact hge, hrblen, ?_⟩
  have hentry' : r.readEntry env
      = .ok ({ r with mInStream := .live { f with pos := f.pos + apEntrySize f.data f.pos }
                      mBuffer := store buf2 (apBlock f.data f.pos)
                      mBufferLen := buf2.length },
          apNumPositions f.data f.pos, apReadLength f.data f.pos) := hentry
  simp only [CAlignedPositionsReader.LoadNextRead, ge_iff_le, Nat.not_le.mpr hcur, if_false,
    hentry', hdec, List.nil_append, hlstore, apReadBufferLenNext]

set_option maxRecDepth 100000 in
theorem sampleZeroName_run :
    ((CAlignedPositionsReader.ctor sampleEnv 0 (some sampleAPFileZeroName)).bind
      (fun r => r.LoadNextRead sampleEnv [] 0 [])).map (fun x => (x.1, x.2.2))
      = .ok (true, [sampleAPPosition], 50, [65]) := by
  decide

set_option maxRecDepth 100000 in
theorem sampleZeroName_fits :
    apRecordFits sampleAPFileZeroName 34 256 = true ∧
    slice (apBlock sampleAPFileZeroName 34) 1 (apNameLen (apBlock sampleAPFileZeroName 34))
      = [65, 0, 66] := by
  decide

/-- C19 (counterexample). The archive `sampleAPFileZeroName` holds one
well-formed record (entry size 41, contents filling the 31 bytes after the
prefix) whose 3-byte name field is `65, 0, 66`: `LoadNextRead` on the newly
constructed reader returns `true` with the read name `65` alone, the bytes
before the zero byte. -/
theorem C19_zero_byte_ends_read_name :
    (apRecordFits sampleAPFileZeroName 34 256 = true ∧
      slice (apBlock sampleAPFileZeroName 34) 1 (apNameLen (apBlock sampleAPFileZeroName 34))
        = [65, 0, 66]) ∧
    ((CAlignedPositionsReader.ctor sampleEnv 0 (some sampleAPFileZeroName)).bind
      (fun r => r.LoadNextRead sampleEnv [] 0 [])).map (fun x => (x.1, x.2.2))
      = .ok (true, [sampleAPPosition], 50, [65]) :=
  ⟨sampleZeroName_fits, sampleZeroName_run⟩

theorem ite_true_false_iff (c : Prop) [Decidable c] :
    (if c then true else false) = true ↔ c := by
  by_cases hc : c <;> simp [hc]

/-- C19 (amended). For a reader ready on its stream with reads left and a
well-formed record at the stream position (entry size at least 10, record
inside the file, contents fitting the `entry_size - 10` bytes, no pairwise
length equal to the current length of the string scratch buffer),
`LoadNextRead` returns `true`, consumes exactly `entry_size` bytes (the 10-byte
prefix of 4-byte entry size, 4-byte number of positions and 2-byte read
length, then the block), and outputs the read length, the read name (1-byte
length, then the name field) and exactly the declared number of positions in
file order, each with the little-endian fields laid out as anchor begin (4),
anchor end (4), query begin (2), query end (2), flag (1, true iff the byte is
1), substitutions (2), insertions (2), deletions (2), pairwise length (2),
anchor string, query string. Each string is its field up to the first zero
byte, which is the whole field when it holds no zero byte. -/
theorem C19_AP_LoadNextRead_decode (env : Env) (r : CAlignedPositionsReader) (f : FILE)
    (positions0 : List AlignedPosition) (readLength0 : Nat) (readName0 : List Byte)
    (hready : APReady r f) (hcur : r.mCurrentReadNum < r.mStatistics.NumReads)
    (hfit : apRecordFits f.data f.pos r.mReadBufferLen = true) :
    ∃ (r' : CAlignedPositionsReader) (positions : List AlignedPosition) (readName : List Byte)
      (entrySize nameLen : Nat) (block : List Byte),
      r.LoadNextRead env positions0 readLength0 readName0
        = .ok (true, r', positions, leNat (slice f.data (f.pos + 8) 2), readName) ∧
      entrySize = leNat (slice f.data f.pos 4) ∧
      block = slice f.data (f.pos + 10) (entrySize - 10) ∧
      r'.mInStream = .live { f with pos := f.pos + entrySize } ∧
      r'.mCurrentReadNum = (r.mCurrentReadNum + 1) % 2 ^ 64 ∧
      nameLen = leNat (slice block 0 1) ∧
      readName = untilZero (slice block 1 nameLen) ∧
      ((0 : Byte) ∉ slice block 1 nameLen → readName = slice block 1 nameLen) ∧
      positions.length = leNat (slice f.data (f.pos + 4) 4) ∧
      ∀ i, i < leNat (slice f.data (f.pos + 4) 4) →
        ∃ (p : AlignedPosition) (off pl : Nat),
          positions.get? i = some p ∧
          off = positionsEnd block (1 + nameLen) i ∧
          pl = leNat (slice block (off + 19) 2) ∧
          p.AnchorBegin = leNat (slice block off 4) ∧
          p.AnchorEnd = leNat (slice block (off + 4) 4) ∧
          p.QueryBegin = leNat (slice block (off + 8) 2) ∧
          p.QueryEnd = leNat (slice block (off + 10) 2) ∧
          (p.IsReverseComplement = true ↔ leNat (slice block (off + 12) 1) = 1) ∧
          p.NumSubstitutions = leNat (slice block (off + 13) 2) ∧
          p.NumInsertions = leNat (slice block (off + 15) 2) ∧
          p.NumDeletions = leNat (slice block (off + 17) 2) ∧
          p.Anchor = untilZero (slice block (off + 21) pl) ∧
          p.Query = untilZero (slice block (off + 21 + pl) pl) ∧
          ((0 : Byte) ∉ slice block (off + 21) pl → p.Anchor = slice block (off + 21) pl) ∧
          ((0 : Byte) ∉ slice block (off + 21 + pl) pl →
            p.Query = slice block (off + 21 + pl) pl) ∧
          positionsEnd block (1 + nameLen) (i + 1) = off + 21 + pl + pl ∧
          off + 21 + pl + pl ≤ block.length := by
  obtain ⟨buf, rb, -, -, hrun⟩ :=
    AP_LoadNextRead_ok env r f positions0 readLength0 readName0 hready hcur hfit
  simp only [apRecordFits, blockFits, Bool.and_eq_true, decide_eq_true_eq] at hfit
  obtain ⟨-, -, hposfit⟩ := hfit
  refine ⟨_, _, _, _, _, _, hrun, rfl, rfl, rfl, rfl, rfl, rfl, untilZero_of_not_mem _,
    length_decodedPositions _ _ _, ?_⟩
  intro i hi
  have hin := positionsFit_at _ _ _ _ i hposfit hi
  have hsucc := positionsEnd_succ (apBlock f.data f.pos) i (1 + apNameLen (apBlock f.data f.pos))
  simp only [positionBytes, apPairwiseLength, apBlock, apEntrySize, apNameLen] at hin hsucc
  refine ⟨_, _, _, decodedPositions_get _ _ _ i hi, rfl, rfl, rfl, rfl, rfl, rfl, ?_, rfl, rfl,
    rfl, rfl, rfl, untilZero_of_not_mem _, untilZero_of_not_mem _, ?_, ?_⟩
  · exact ite_true_false_iff _
  · show positionsEnd _ _ (i + 1) = _
    rw [hsucc]
    omega
  · show _ ≤ List.length _
    omega

set_option maxRecDepth 100000 in
theorem sampleAPFile_fits : apRecordFits sampleAPFile 34 256 = true := by
  decide

set_option maxRecDepth 100000 in
theorem sampleAPReader_ctor :
    CAlignedPositionsReader.ctor sampleEnv 0 (some sampleAPFile) = .ok sampleAPReader := by
  decide

set_option maxRecDepth 100000 in
theorem sampleAPReader_ready :
    APReady sampleAPReader { data := sampleAPFile, pos := 34, eof := false } :=
  ⟨rfl, by decide, by decide, by decide, by decide⟩

set_option maxRecDepth 100000 in
theorem sampleAPFile_record :
    leNat (slice sampleAPFile (34 + 8) 2) = 50 ∧
    untilZero (slice (slice sampleAPFile (34 + 10) (leNat (slice sampleAPFile 34 4) - 10)) 1
      (leNat (slice (slice sampleAPFile (34 + 10) (leNat (slice sampleAPFile 34 4) - 10)) 0 1)))
      = [114, 49] ∧
    leNat (slice sampleAPFile (34 + 4) 4) = 1 := by
  decide

/-- C19 (amended) at the reader that the constructor leaves on `sampleAPFile`:
the call returns the read "r1" of length 50 with one position. -/
theorem C19_AP_LoadNextRead_decode_witness :
    (APReady sampleAPReader { data := sampleAPFile, pos := 34, eof := false } ∧
      sampleAPReader.mCurrentReadNum < sampleAPReader.mStatistics.NumReads ∧
      apRecordFits sampleAPFile 34 256 = true) ∧
    ∃ (r' : CAlignedPositionsReader) (positions : List AlignedPosition),
      sampleAPReader.LoadNextRead sampleEnv [] 0 [] = .ok (true, r', positions, 50, [114, 49]) ∧
      positions.length = 1 := by
  refine ⟨⟨sampleAPReader_ready, by decide, sampleAPFile_fits⟩, ?_⟩
  obtain ⟨r', positions, readName, entrySize, nameLen, block, hrun, hE, hB, -, -, hN, hname, -,
      hlen, -⟩ :=
    C19_AP_LoadNextRead_decode sampleEnv sampleAPReader
      { data := sampleAPFile, pos := 34, eof := false } [] 0 [] sampleAPReader_ready
      (by decide) sampleAPFile_fits
  subst hE hB hN
  obtain ⟨h1, h2, h3⟩ := sampleAPFile_record
  refine ⟨r', positions, ?_, by rw [hlen]; exact h3⟩
  rw [hrun, hname]
  simp only [h1, h2]

set_option maxRecDepth 100000 in
theorem sampleZeroAnchor_run :
    ((CAlignedPositionsReader.ctor sampleEnv 0 (some sampleAPFileZeroAnchor)).bind
      (fun r => r.LoadNextRead sampleEnv [] 0 [])).map
        (fun x => (x.1, x.2.2.1.map (fun p => (p.Anchor, p.Query))))
      = .ok (true, [([65], [65, 45, 71])]) := by
  decide

set_option maxRecDepth 100000 in
theorem sampleZeroAnchor_fits :
    apRecordFits sampleAPFileZeroAnchor 34 256 = true ∧
    apPairwiseLength (apBlock sampleAPFileZeroAnchor 34) 3 = 3 := by
  decide

/-- C22 (counterexample). In the archive `sampleAPFileZeroAnchor` the one
position has the encoded pairwise length 3 and the anchor field `65, 0, 71`:
the position that `LoadNextRead` returns has an `Anchor` of length 1. -/
theorem C22_zero_byte_shortens_anchor :
    (apRecordFits sampleAPFileZeroAnchor 34 256 = true ∧
      apPairwiseLength (apBlock sampleAPFileZeroAnchor 34) 3 = 3) ∧
    ((CAlignedPositionsReader.ctor sampleEnv 0 (some sampleAPFileZeroAnchor)).bind
      (fun r => r.LoadNextRead sampleEnv [] 0 [])).map
        (fun x => (x.1, x.2.2.1.map (fun p => (p.Anchor, p.Query))))
      = .ok (true, [([65], [65, 45, 71])]) :=
  ⟨sampleZeroAnchor_fits, sampleZeroAnchor_run⟩

theorem length_untilZero_lt : ∀ (s : List Byte), (0 : Byte) ∈ s →
    (untilZero s).length < s.length
  | [], h => by simp at h
  | a :: s, h => by
    by_cases ha : a = 0
    · subst ha
      simp [untilZero]
    · have hs : (0 : Byte) ∈ s := by
        rcases List.mem_cons.mp h with h0 | h0
        · exact absurd h0.symm ha
        · exact h0
      have ih := length_untilZero_lt s hs
      have hcons : untilZero (a :: s) = a :: untilZero s := by
        simp only [untilZero, List.takeWhile_cons, ha, ne_eq, not_false_eq_true, decide_True,
          if_true]
      rw [hcons, List.length_cons, List.length_cons]
      omega

theorem length_untilZero_eq_iff (s : List Byte) :
    (untilZero s).length = s.length ↔ (0 : Byte) ∉ s := by
  constructor
  · intro h hmem
    have := length_untilZero_lt s hmem
    omega
  · intro h
    rw [untilZero_of_not_mem s h]

/-- C22 (amended). For a reader ready on its stream with reads left and a
well-formed record at the stream position (entry size at least 10, record
inside the file, contents fitting the `entry_size - 10` bytes, no pairwise
length equal to the current length of the string scratch buffer),
`LoadNextRead` returns `true`; the read name it returns is the name field up
to its first zero byte, and the `Anchor` and `Query` of every returned
position are their fields up to the first zero byte. So the read name is at
most as long as the encoded read name length and the two strings are at most
as long as the encoded pairwise length of their record, and each has the
encoded length exactly when its field holds no zero byte. -/
theorem C22_AP_string_lengths (env : Env) (r : CAlignedPositionsReader) (f : FILE)
    (positions0 : List AlignedPosition) (readLength0 : Nat) (readName0 : List Byte)
    (hready : APReady r f) (hcur : r.mCurrentReadNum < r.mStatistics.NumReads)
    (hfit : apRecordFits f.data f.pos r.mReadBufferLen = true) :
    ∃ (r' : CAlignedPositionsReader) (positions : List AlignedPosition) (readLength : Nat)
      (readName block : List Byte) (nameLen : Nat),
      r.LoadNextRead env positions0 readLength0 readName0
        = .ok (true, r', positions, readLength, readName) ∧
      block = slice f.data (f.pos + 10) (leNat (slice f.data f.pos 4) - 10) ∧
      nameLen = leNat (slice block 0 1) ∧
      readName = untilZero (slice block 1 nameLen) ∧
      readName.length ≤ nameLen ∧
      (readName.length = nameLen ↔ (0 : Byte) ∉ slice block 1 nameLen) ∧
      positions.length = leNat (slice f.data (f.pos + 4) 4) ∧
      ∀ i, i < leNat (slice f.data (f.pos + 4) 4) →
        ∃ (p : AlignedPosition) (off pl : Nat),
          positions.get? i = some p ∧
          off = positionsEnd block (1 + nameLen) i ∧
          pl = leNat (slice block (off + 19) 2) ∧
          p.Anchor = untilZero (slice block (off + 21) pl) ∧
          p.Query = untilZero (slice block (off + 21 + pl) pl) ∧
          p.Anchor.length ≤ pl ∧ p.Query.length ≤ pl ∧
          (p.Anchor.length = pl ↔ (0 : Byte) ∉ slice block (off + 21) pl) ∧
          (p.Query.length = pl ↔ (0 : Byte) ∉ slice block (off + 21 + pl) pl) := by
  obtain ⟨buf, rb, -, -, hrun⟩ :=
    AP_LoadNextRead_ok env r f positions0 readLength0 readName0 hready hcur hfit
  simp only [apRecordFits, blockFits, Bool.and_eq_true, decide_eq_true_eq] at hfit
  obtain ⟨-, hname, hposfit⟩ := hfit
  have hnl : (slice (apBlock f.data f.pos) 1 (apNameLen (apBlock f.data f.pos))).length
      = apNameLen (apBlock f.data f.pos) := length_slice _ _ _ hname
  refine ⟨_, _, _, _, apBlock f.data f.pos, apNameLen (apBlock f.data f.pos), hrun, rfl, rfl,
    rfl, ?_, ?_, length_decodedPositions _ _ _, ?_⟩
  · exact Nat.le_trans (length_untilZero_le _) (Nat.le_of_eq hnl)
  · have h := length_untilZero_eq_iff
      (slice (apBlock f.data f.pos) 1 (apNameLen (apBlock f.data f.pos)))
    rw [hnl] at h
    exact h
  · intro i hi
    have hin := positionsFit_at _ _ _ _ i hposfit hi
    simp only [positionBytes] at hin
    have hl1 := length_slice (apBlock f.data f.pos)
      (positionsEnd (apBlock f.data f.pos) (1 + apNameLen (apBlock f.data f.pos)) i + 21)
      (apPairwiseLength (apBlock f.data f.pos)
        (positionsEnd (apBlock f.data f.pos) (1 + apNameLen (apBlock f.data f.pos)) i))
      (by omega)
    have hl2 := length_slice (apBlock f.data f.pos)
      (positionsEnd (apBlock f.data f.pos) (1 + apNameLen (apBlock f.data f.pos)) i + 21
        + apPairwiseLength (apBlock f.data f.pos)
          (positionsEnd (apBlock f.data f.pos) (1 + apNameLen (apBlock f.data f.pos)) i))
      (apPairwiseLength (apBlock f.data f.pos)
        (positionsEnd (apBlock f.data f.pos) (1 + apNameLen (apBlock f.data f.pos)) i))
      (by omega)
    have ha := length_untilZero_eq_iff (slice (apBlock f.data f.pos)
      (positionsEnd (apBlock f.data f.pos) (1 + apNameLen (apBlock f.data f.pos)) i + 21)
      (apPairwiseLength (apBlock f.data f.pos)
        (positionsEnd (apBlock f.data f.pos) (1 + apNameLen (apBlock f.data f.pos)) i)))
    have hq := length_untilZero_eq_iff (slice (apBlock f.data f.pos)
      (positionsEnd (apBlock f.data f.pos) (1 + apNameLen (apBlock f.data f.pos)) i + 21
        + apPairwiseLength (apBlock f.data f.pos)
          (positionsEnd (apBlock f.data f.pos) (1 + apNameLen (apBlock f.data f.pos)) i))
      (apPairwiseLength (apBlock f.data f.pos)
        (positionsEnd (apBlock f.data f.pos) (1 + apNameLen (apBlock f.data f.pos)) i)))
    rw [hl1] at ha
    rw [hl2] at hq
    refine ⟨_, _, _, decodedPositions_get _ _ _ i hi, rfl, rfl, rfl, rfl, ?_, ?_, ha, hq⟩
    · exact Nat.le_trans (length_untilZero_le _) (Nat.le_of_eq hl1)
    · exact Nat.le_trans (length_untilZero_le _) (Nat.le_of_eq hl2)

/-- C22 (amended) at `sampleAPReader`: the name "r1" has its encoded length 2
and the strings "ACG" and "A-G" of the position their encoded length 3. -/
theorem C22_AP_string_lengths_witness :
    (APReady sampleAPReader { data := sampleAPFile, pos := 34, eof := false } ∧
      sampleAPReader.mCurrentReadNum < sampleAPReader.mStatistics.NumReads ∧
      apRecordFits sampleAPFile 34 256 = true) ∧
    ∃ (r' : CAlignedPositionsReader) (positions : List AlignedPosition) (readLength : Nat)
      (readName : List Byte),
      sampleAPReader.LoadNextRead sampleEnv [] 0 []
        = .ok (true, r', positions, readLength, readName) ∧
      readName = [114, 49] ∧
      ∃ p : AlignedPosition, positions.get? 0 = some p ∧ p.Anchor = [65, 67, 71] ∧
        p.Query = [65, 45, 71] := by
  refine ⟨⟨sampleAPReader_ready, by decide, sampleAPFile_fits⟩, ?_⟩
  obtain ⟨r', positions, readLength, readName, block, nameLen, hrun, hblock, hnl, hname, -, -,
      -, hpos⟩ :=
    C22_AP_string_lengths sampleEnv sampleAPReader
      { data := sampleAPFile, pos := 34, eof := false } [] 0 [] sampleAPReader_ready
      (by decide) sampleAPFile_fits
  have hblock' : block = slice sampleAPFile (34 + 10) (leNat (slice sampleAPFile 34 4) - 10) :=
    hblock
  subst hblock'
  have hnl' : nameLen = 2 := by rw [hnl]; decide
  subst hnl'
  obtain ⟨p, off, pl, hget, hoff, hpl, ha, hq, -⟩ := hpos 0 (by decide)
  have hoff' : off = 3 := by rw [hoff]; decide
  subst hoff'
  have hpl' : pl = 3 := by rw [hpl]; decide
  subst hpl'
  refine ⟨r', positions, readLength, readName, hrun, ?_, p, hget, ?_, ?_⟩
  · rw [hname]; decide
  · rw [ha]; decide
  · rw [hq]; decide

/-! ## Ordering of aligned positions -/

/-- What `operator<` computes: the order by anchor begin, then by query begin,
and among positions that agree on both, `a < b` exactly when `a` is on the
reverse strand. -/
theorem AlignedPosition_lt_iff (a b : AlignedPosition) :
    a.lt b = true ↔
      a.AnchorBegin < b.AnchorBegin ∨
      (a.AnchorBegin = b.AnchorBegin ∧ a.QueryBegin < b.QueryBegin) ∨
      (a.AnchorBegin = b.AnchorBegin ∧ a.QueryBegin = b.QueryBegin ∧
        a.IsReverseComplement = true) := by
  unfold AlignedPosition.lt
  by_cases h1 : a.AnchorBegin = b.AnchorBegin
  · by_cases h2 : a.QueryBegin = b.QueryBegin
    · simp [h1, h2]
    · simp [h1, h2]
  · simp only [ne_eq, h1, not_false_eq_true, if_true, decide_eq_true_eq, false_and, or_false]

/-- C25 (failing input). The forward position `sampleAPPosition` and its copy
on the reverse strand agree on anchor begin and query begin: `operator<` puts
the reverse one before the forward one, and not the forward one before the
reverse one. -/
theorem C25_reverse_sorts_before_forward :
    sampleAPPosition.AnchorBegin = sampleAPPositionReverse.AnchorBegin ∧
    sampleAPPosition.QueryBegin = sampleAPPositionReverse.QueryBegin ∧
    sampleAPPosition.IsReverseComplement = false ∧
    sampleAPPositionReverse.IsReverseComplement = true ∧
    sampleAPPosition.lt sampleAPPositionReverse = false ∧
    sampleAPPositionReverse.lt sampleAPPosition = true := by
  decide

/-- C30 (failing input). For the reverse strand position
`sampleAPPositionReverse`, `a < a` is true: `operator<` is not irreflexive,
and so not asymmetric. -/
theorem C30_lt_not_irreflexive :
    sampleAPPositionReverse.lt sampleAPPositionReverse = true ∧
    ¬ (∀ a b : AlignedPosition, a.lt b = true → b.lt a = false) := by
  refine ⟨by decide, ?_⟩
  intro h
  have h1 := h sampleAPPositionReverse sampleAPPositionReverse (by decide)
  revert h1
  decide

/-! ## The signature check of the aligned positions reader -/

theorem CheckAR_six (env : Env) (a b c d e v : Byte) (rest : List Byte) :
    CheckMosaikAlignedReadArchive env (some (a :: b :: c :: d :: e :: v :: rest)) false
      = .ok (decide (a = 77 ∧ b = 83 ∧ c = 75 ∧ d = 65 ∧ e = 82 ∧ v = 0)) := by
  obtain ⟨j0, j1, j2, j3, j4, j5, hj⟩ := alloc_six env
  simp only [CheckMosaikAlignedReadArchive, fread, slice, store, hj, MOSAIK_SIGNATURE_AR,
    List.drop_zero, List.take_succ_cons, List.take_zero, List.length_cons, List.length_nil]
  simp only [Nat.reduceAdd, List.cons_append, List.nil_append, List.drop_succ_cons,
    List.drop_zero, strncmp]
  by_cases ha : a = 77
  · by_cases hb : b = 83
    · by_cases hc : c = 75
      · by_cases hd : d = 65
        · by_cases he : e = 82
          · by_cases hv : v = 0
            · subst ha hb hc hd he hv
              simp
            · subst ha hb hc hd he
              have hv' : (v : Nat) ≠ 0 := fun h => hv (Fin.ext h)
              simp [hv, hv']
          · subst ha hb hc hd
            simp [he, byte_diff_ne_zero _ _ he]
        · subst ha hb hc
          simp [hd, byte_diff_ne_zero _ _ hd]
      · subst ha hb
        simp [hc, byte_diff_ne_zero _ _ hc]
    · subst ha
      simp [hb, byte_diff_ne_zero _ _ hb]
  · simp [ha, byte_diff_ne_zero _ _ ha]

/-- C26 (counterexample). A file that starts with `MSKAP\0` is rejected. -/
theorem C26_MSKAP_is_rejected :
    sampleSignatureAP.take 6 = [77, 83, 75, 65, 80, 0] ∧
    CheckMosaikAlignedReadArchive sampleEnv (some sampleSignatureAP) false = .ok false := by
  decide

/-- C26 (amended). Without `exitOnError`, `CheckMosaikAlignedReadArchive`
returns `false` when the file cannot be opened, and for a file of at least six
bytes it returns `true` exactly when the first six bytes are `MSKAR\0`; a file
that starts with `MSKAP\0` gives `false`. -/
theorem C26_CheckAR_accepts_iff (env : Env) :
    CheckMosaikAlignedReadArchive env none false = .ok false ∧
    (∀ data : List Byte, 6 ≤ data.length →
      (∃ b, CheckMosaikAlignedReadArchive env (some data) false = .ok b) ∧
      (CheckMosaikAlignedReadArchive env (some data) false = .ok true ↔
        data.take 6 = [77, 83, 75, 65, 82, 0])) ∧
    (∀ rest : List Byte,
      CheckMosaikAlignedReadArchive env (some ([77, 83, 75, 65, 80, 0] ++ rest)) false
        = .ok false) := by
  refine ⟨rfl, ?_, ?_⟩
  · intro data h
    obtain ⟨a, b, c, d, e, v, rest, rfl⟩ :
        ∃ a b c d e v rest, data = a :: b :: c :: d :: e :: v :: rest := by
      match data, h with
      | a :: b :: c :: d :: e :: v :: rest, _ => exact ⟨a, b, c, d, e, v, rest, rfl⟩
      | [], h | [_], h | [_, _], h | [_, _, _], h | [_, _, _, _], h
      | [_, _, _, _, _], h => exact absurd h (by simp)
    rw [CheckAR_six]
    refine ⟨⟨_, rfl⟩, ?_⟩
    constructor
    · intro h2
      have h3 := of_decide_eq_true (Except.ok.inj h2)
      obtain ⟨rfl, rfl, rfl, rfl, rfl, rfl⟩ := h3
      rfl
    · intro h4
      simp only [List.take_succ_cons, List.take_zero, List.cons.injEq, and_true] at h4
      obtain ⟨rfl, rfl, rfl, rfl, rfl, rfl⟩ := h4
      simp
  · intro rest
    simp only [List.cons_append, List.nil_append]
    rw [CheckAR_six]
    simp

/-- C26 (amended) at two sample files: the first six bytes of `sampleAPFile`
are `MSKAR\0` and it is accepted; `sampleSignatureAP` is rejected. -/
theorem C26_CheckAR_accepts_iff_witness :
    6 ≤ sampleAPFile.length ∧
    CheckMosaikAlignedReadArchive sampleEnv (some sampleAPFile) false = .ok true ∧
    CheckMosaikAlignedReadArchive sampleEnv (some sampleSignatureAP) false = .ok false := by
  have hlen : 6 ≤ sampleAPFile.length := Nat.le_trans (by decide) sampleAPFile_header.1
  exact ⟨hlen,
    ((C26_CheckAR_accepts_iff sampleEnv).2.1 sampleAPFile hlen).2.mpr (by decide),
    (C26_CheckAR_accepts_iff sampleEnv).2.2 [9, 4, 0]⟩

/-! ## Capacity of the scratch buffers -/

/-- Below the wrap of `requestedBytes + 10`, `CheckBufferSize` keeps or raises
the capacity and the new capacity covers the request. -/
theorem CheckBufferSize_capacity (env : Env) (buf : List Byte) (c n : Nat)
    (h : n + 10 < 4294967296) :
    c ≤ (CheckBufferSize env buf c n).2 ∧ n ≤ (CheckBufferSize env buf c n).2 := by
  simp only [CheckBufferSize]
  split
  · simp only [Nat.mod_eq_of_lt h]
    omega
  · simp only []
    omega

theorem AP_CheckBufferSize_capacity (env : Env) (r : CAlignedPositionsReader) (n : Nat)
    (h : n + 10 < 4294967296) :
    r.mBufferLen ≤ (r.CheckBufferSize env n).mBufferLen ∧
    n ≤ (r.CheckBufferSize env n).mBufferLen ∧
    r.mReadBufferLen ≤ (r.CheckReadBufferSize env n).mReadBufferLen ∧
    n ≤ (r.CheckReadBufferSize env n).mReadBufferLen := by
  simp only [CAlignedPositionsReader.CheckBufferSize,
    CAlignedPositionsReader.CheckReadBufferSize, u32]
  refine ⟨?_, ?_, ?_, ?_⟩ <;>
  · split
    · simp only [Nat.mod_eq_of_lt h]
      omega
    · omega

/-- C29 (failing input). With capacity 256 and the request 4294967286, which
is `entry_size - 10` in `unsigned int` arithmetic for an aligned positions
record prefix with entry size 0, `requestedBytes + 10` wraps to 0: the static
`CheckBufferSize` of the alignment reader and `CheckBufferSize` and
`CheckReadBufferSize` of the aligned positions reader all leave the capacity
0, below the old capacity and below the request. -/
theorem C29_capacity_wraps_to_zero :
    u32sub 0 10 = 4294967286 ∧
    (CheckBufferSize sampleEnv (sampleEnv.alloc 256) 256 4294967286).2 = 0 ∧
    sampleAPReader.mBufferLen = 256 ∧
    (sampleAPReader.CheckBufferSize sampleEnv (u32sub 0 10)).mBufferLen = 0 ∧
    (sampleAPReader.CheckBufferSize sampleEnv (u32sub 0 10)).mBuffer = [] ∧
    sampleAPReader.mReadBufferLen = 256 ∧
    (sampleAPReader.CheckReadBufferSize sampleEnv 4294967286).mReadBufferLen = 0 := by
  decide

theorem set_zero_split (l : List Byte) (n : Nat) (h : n < l.length) :
    l.set n 0 = l.take n ++ 0 :: l.drop (n + 1) := by
  induction l generalizing n with
  | nil => simp at h
  | cons a l ih =>
    cases n with
    | zero => simp
    | succ n =>
      have h' : n < l.length := by simpa using h
      simp [ih n h']

theorem readAnchor_ok (r : CAlignedPositionsReader) (f : FILE)
    (hs : r.mInStream = .live f)
    (hfile : f.pos + anchorBytes f.data f.pos ≤ f.data.length)
    (hbuf : 12 + anchorNameLen f.data f.pos ≤ r.mBuffer.length) :
    ∃ buf : List Byte, buf.length = r.mBuffer.length ∧
      r.readAnchor
        = .ok (decodedAnchor f.data f.pos,
               { r with mInStream := .live { f with pos := f.pos + anchorBytes f.data f.pos }
                        mBuffer := buf }) := by
  have hn : anchorNameLen f.data f.pos < 256 := leNat_slice_one_lt _ _
  simp only [anchorBytes] at hfile
  generalize hN : anchorNameLen f.data f.pos = N at hn hfile hbuf
  have hint := freadInt_full 0 1 f (by omega)
  have hN' : leNat (slice f.data f.pos 1) = N := hN
  rw [hN'] at hint
  have hfb := freadBuffer_full
    { r with mInStream := .live { f with pos := f.pos + 1 } } { f with pos := f.pos + 1 }
    (12 + N) rfl (by show f.pos + 1 + (12 + N) ≤ f.data.length; omega)
    (by show 12 + N ≤ r.mBuffer.length; omega)
  have hbl : (slice f.data (f.pos + 1) (12 + N)).length = 12 + N :=
    length_slice _ _ _ (by omega)
  have hst : (store r.mBuffer (slice f.data (f.pos + 1) (12 + N))).length = r.mBuffer.length :=
    length_store _ _ (by rw [hbl]; exact hbuf)
  have hp1 : peek (store r.mBuffer (slice f.data (f.pos + 1) (12 + N))) N 4
      = .ok (slice f.data (f.pos + 1 + N) 4) := by
    rw [peek_ok _ _ _ (by rw [hst]; omega), slice_store _ _ _ _ (by rw [hbl]; omega),
      slice_slice _ _ _ _ _ (by omega)]
  have hp2 : peek (store r.mBuffer (slice f.data (f.pos + 1) (12 + N))) (N + 4) 4
      = .ok (slice f.data (f.pos + 1 + N + 4) 4) := by
    rw [peek_ok _ _ _ (by rw [hst]; omega), slice_store _ _ _ _ (by rw [hbl]; omega),
      slice_slice _ _ _ _ _ (by omega)]
    rfl
  have hp3 : peek (store r.mBuffer (slice f.data (f.pos + 1) (12 + N))) (N + 4 + 4) 4
      = .ok (slice f.data (f.pos + 1 + N + 8) 4) := by
    rw [peek_ok _ _ _ (by rw [hst]; omega), slice_store _ _ _ _ (by rw [hbl]; omega),
      slice_slice _ _ _ _ _ (by omega)]
    rfl
  have hsz : setZero (store r.mBuffer (slice f.data (f.pos + 1) (12 + N))) N
      = .ok ((store r.mBuffer (slice f.data (f.pos + 1) (12 + N))).set N 0) := by
    simp only [setZero, hst, show N < r.mBuffer.length from by omega, if_true]
  have htake : ((store r.mBuffer (slice f.data (f.pos + 1) (12 + N))).set N 0)
      = slice f.data (f.pos + 1) N
          ++ 0 :: (store r.mBuffer (slice f.data (f.pos + 1) (12 + N))).drop (N + 1) := by
    rw [set_zero_split _ _ (by rw [hst]; omega)]
    congr 1
    have h := slice_store r.mBuffer (slice f.data (f.pos + 1) (12 + N)) 0 N
      (by rw [hbl]; omega)
    rw [slice_slice _ _ _ _ _ (by omega)] at h
    simpa [slice] using h
  have hcs := cstr_terminated
    ((store r.mBuffer (slice f.data (f.pos + 1) (12 + N))).drop (N + 1))
    (slice f.data (f.pos + 1) N)
  rw [← htake] at hcs
  refine ⟨(store r.mBuffer (slice f.data (f.pos + 1) (12 + N))).set N 0, ?_, ?_⟩
  · rw [List.length_set, hst]
  · simp only [CAlignedPositionsReader.readAnchor, CAlignedPositionsReader.stream, hs, bind,
      Except.bind, hint, ALIGNED_READ_ARCHIVE_ANCHOR_BYTES, Nat.add_one_sub_one, SIZEOF_INT]
    simp (disch := omega) only [u32_of_lt]
    rw [hfb]
    simp only [ne_eq, not_true_eq_false, if_false]
    rw [hp1]; simp only []
    rw [hp2]; simp only []
    rw [hp3]; simp only []
    rw [hsz]; simp only []
    rw [hcs]
    simp only [pure, Except.pure, decodedAnchor, anchorBytes, hN, Except.ok.injEq, Prod.mk.injEq,
      true_and]
    congr 3
    omega

theorem readAnchors_ok : ∀ (n : Nat) (r : CAlignedPositionsReader) (f : FILE)
    (anchors : List Anchor), r.mInStream = .live f →
    anchorsFit f.data r.mBuffer.length f.pos n = true →
    ∃ buf : List Byte, buf.length = r.mBuffer.length ∧
      CAlignedPositionsReader.readAnchors n r anchors
        = .ok (anchors ++ decodedAnchors f.data f.pos n,
               { r with mInStream := .live { f with pos := anchorsEnd f.data f.pos n }
                        mBuffer := buf })
  | 0, r, f, anchors, hs, _ => by
    refine ⟨r.mBuffer, rfl, ?_⟩
    simp only [CAlignedPositionsReader.readAnchors, decodedAnchors, anchorsEnd,
      List.append_nil, ← hs]
  | n + 1, r, f, anchors, hs, hfit => by
    simp only [anchorsFit, Bool.and_eq_true, decide_eq_true_eq] at hfit
    obtain ⟨buf, hlen, hrun⟩ := readAnchor_ok r f hs hfit.1.1 hfit.1.2
    obtain ⟨buf2, hlen2, hrun2⟩ := readAnchors_ok n
      { r with mInStream := .live { f with pos := f.pos + anchorBytes f.data f.pos }
               mBuffer := buf }
      { f with pos := f.pos + anchorBytes f.data f.pos } (anchors ++ [decodedAnchor f.data f.pos])
      rfl (by show anchorsFit f.data buf.length _ n = true; rw [hlen]; exact hfit.2)
    refine ⟨buf2, by rw [hlen2]; exact hlen, ?_⟩
    simp only [CAlignedPositionsReader.readAnchors, hrun]
    rw [hrun2]
    simp only [decodedAnchors, anchorsEnd, List.append_assoc, List.singleton_append]

theorem LoadAnchors_ok (r : CAlignedPositionsReader) (f : FILE) (anchors : List Anchor)
    (hs : r.mInStream = .live f) (hpos : f.pos < 2 ^ 63)
    (hoff : r.mStatistics.AnchorsOffset < 2 ^ 63)
    (hfit : anchorsFit f.data r.mBuffer.length r.mStatistics.AnchorsOffset
      r.mStatistics.NumAnchors = true) :
    ∃ buf : List Byte, buf.length = r.mBuffer.length ∧
      r.LoadAnchors anchors
        = .ok ({ r with mInStream := .live { f with eof := false }, mBuffer := buf },
               decodedAnchors f.data r.mStatistics.AnchorsOffset r.mStatistics.NumAnchors) := by
  obtain ⟨buf, hlen, hrun⟩ := readAnchors_ok r.mStatistics.NumAnchors
    { r with mInStream := .live { f with pos := r.mStatistics.AnchorsOffset, eof := false } }
    { f with pos := r.mStatistics.AnchorsOffset, eof := false } [] rfl hfit
  refine ⟨buf, hlen, ?_⟩
  simp only [CAlignedPositionsReader.LoadAnchors, CAlignedPositionsReader.stream, hs, bind,
    Except.bind, fseek64_SET, hoff, if_true, clear, ftell64]
  rw [hrun]
  simp only [hpos, if_true, pure, Except.pure, List.nil_append]

theorem length_decodedAnchors (data : List Byte) :
    ∀ (n pos : Nat), (decodedAnchors data pos n).length = n
  | 0, _ => rfl
  | n + 1, pos => by
    simp only [decodedAnchors, List.length_cons, length_decodedAnchors data n]

theorem decodedAnchors_get (data : List Byte) :
    ∀ (n pos i : Nat), i < n →
      (decodedAnchors data pos n).get? i = some (decodedAnchor data (anchorsEnd data pos i))
  | 0, _, _, h => absurd h (Nat.not_lt_zero _)
  | n + 1, pos, 0, _ => rfl
  | n + 1, pos, i + 1, h => by
    simp only [decodedAnchors, List.get?_cons_succ, anchorsEnd]
    exact decodedAnchors_get data n _ i (Nat.lt_of_succ_lt_succ h)

set_option maxRecDepth 100000 in
theorem sampleZeroAnchorName_run :
    anchorsFit sampleAPFileZeroAnchorName 256 74 1 = true ∧
    slice sampleAPFileZeroAnchorName 75 (anchorNameLen sampleAPFileZeroAnchorName 74)
      = [99, 0, 114, 49] ∧
    ((CAlignedPositionsReader.ctor sampleEnv 0 (some sampleAPFileZeroAnchorName)).bind
      (fun r => r.LoadAnchors [])).map (fun x => x.2)
      = .ok [{ Name := [99], Length := 1000, Begin := 0, End := 999 }] := by
  decide

/-- C24 (counterexample). In the archive `sampleAPFileZeroAnchorName` the one
anchor record lies inside the file and has the 4-byte name field
`99, 0, 114, 49`: the anchor that `LoadAnchors` yields has the 1-byte name
`99`. -/
theorem C24_zero_byte_shortens_anchor_name :
    anchorsFit sampleAPFileZeroAnchorName 256 74 1 = true ∧
    slice sampleAPFileZeroAnchorName 75 (anchorNameLen sampleAPFileZeroAnchorName 74)
      = [99, 0, 114, 49] ∧
    ((CAlignedPositionsReader.ctor sampleEnv 0 (some sampleAPFileZeroAnchorName)).bind
      (fun r => r.LoadAnchors [])).map (fun x => x.2)
      = .ok [{ Name := [99], Length := 1000, Begin := 0, End := 999 }] :=
  sampleZeroAnchorName_run

/-- C24 (amended). On a reader with an open stream whose anchors offset is
below 2^63 and whose `NumAnchors` anchor records from that offset lie inside
the file and fit the scratch buffer (12 + name length at most its length),
`LoadAnchors` completes, discards what the output held and yields exactly
`NumAnchors` anchors in file order. The anchor number `i` is decoded from the
record that follows the first `i` records: a 1-byte name length, the name
field of that many bytes, then the 4-byte little-endian length, begin and end.
Its name is the name field up to its first zero byte, the whole field when it
holds none. -/
theorem C24_LoadAnchors_decode (r : CAlignedPositionsReader) (f : FILE) (anchors : List Anchor)
    (hs : r.mInStream = .live f) (hpos : f.pos < 2 ^ 63)
    (hoff : r.mStatistics.AnchorsOffset < 2 ^ 63)
    (hfit : anchorsFit f.data r.mBuffer.length r.mStatistics.AnchorsOffset
      r.mStatistics.NumAnchors = true) :
    ∃ (r' : CAlignedPositionsReader) (out : List Anchor),
      r.LoadAnchors anchors = .ok (r', out) ∧
      out.length = r.mStatistics.NumAnchors ∧
      ∀ i, i < r.mStatistics.NumAnchors →
        ∃ (a : Anchor) (pos nameLength : Nat),
          out.get? i = some a ∧
          pos = anchorsEnd f.data r.mStatistics.AnchorsOffset i ∧
          nameLength = leNat (slice f.data pos 1) ∧
          anchorsEnd f.data r.mStatistics.AnchorsOffset (i + 1) = pos + 1 + (12 + nameLength) ∧
          a.Name = untilZero (slice f.data (pos + 1) nameLength) ∧
          ((0 : Byte) ∉ slice f.data (pos + 1) nameLength →
            a.Name = slice f.data (pos + 1) nameLength) ∧
          a.Length = leNat (slice f.data (pos + 1 + nameLength) 4) ∧
          a.Begin = leNat (slice f.data (pos + 1 + nameLength + 4) 4) ∧
          a.End = leNat (slice f.data (pos + 1 + nameLength + 8) 4) := by
  obtain ⟨buf, -, hrun⟩ := LoadAnchors_ok r f anchors hs hpos hoff hfit
  refine ⟨_, _, hrun, length_decodedAnchors _ _ _, fun i hi => ?_⟩
  refine ⟨_, _, _, decodedAnchors_get _ _ _ i hi, rfl, rfl, ?_, rfl,
    fun h => untilZero_of_not_mem _ h, rfl, rfl, rfl⟩
  have hend : ∀ (i pos : Nat),
      anchorsEnd f.data pos (i + 1)
        = anchorsEnd f.data pos i + anchorBytes f.data (anchorsEnd f.data pos i) := by
    intro i
    induction i with
    | zero => intro pos; rfl
    | succ i ih =>
      intro pos
      show anchorsEnd f.data (pos + anchorBytes f.data pos) (i + 1) = _
      rw [ih]
      rfl
  rw [hend]
  simp only [anchorBytes, anchorNameLen]
  omega

set_option maxRecDepth 100000 in
theorem sampleAPFile_anchor :
    anchorsFit sampleAPFile 256 74 1 = true ∧
    decodedAnchors sampleAPFile 74 1
      = [{ Name := [99, 104, 114, 49], Length := 1000, Begin := 0, End := 999 }] ∧
    leNat (slice sampleAPFile 74 1) = 4 ∧
    untilZero (slice sampleAPFile (74 + 1) 4) = [99, 104, 114, 49] ∧
    leNat (slice sampleAPFile (74 + 1 + 4) 4) = 1000 ∧
    leNat (slice sampleAPFile (74 + 1 + 4 + 4) 4) = 0 ∧
    leNat (slice sampleAPFile (74 + 1 + 4 + 8) 4) = 999 := by
  decide

/-- C24 (amended) at the reader that the constructor leaves on `sampleAPFile`:
`LoadAnchors` yields the one anchor "chr1" with length 1000, begin 0 and end
999. -/
theorem C24_LoadAnchors_decode_witness :
    (sampleAPReader.mInStream = .live { data := sampleAPFile, pos := 34, eof := false } ∧
      (34 : Nat) < 2 ^ 63 ∧ sampleAPReader.mStatistics.AnchorsOffset < 2 ^ 63 ∧
      anchorsFit sampleAPFile sampleAPReader.mBuffer.length
        sampleAPReader.mStatistics.AnchorsOffset sampleAPReader.mStatistics.NumAnchors = true) ∧
    ∃ (r' : CAlignedPositionsReader) (a : Anchor),
      sampleAPReader.LoadAnchors [] = .ok (r', [a]) ∧
      a.Name = [99, 104, 114, 49] ∧ a.Length = 1000 ∧ a.Begin = 0 ∧ a.End = 999 := by
  have hlen : sampleAPReader.mBuffer.length = 256 := sampleAPReader_ready.2.1
  have hfit : anchorsFit sampleAPFile sampleAPReader.mBuffer.length 74 1 = true := by
    rw [hlen]; exact sampleAPFile_anchor.1
  refine ⟨⟨rfl, by decide, by decide, hfit⟩, ?_⟩
  obtain ⟨r', out, hrun, hlen', hget⟩ :=
    C24_LoadAnchors_decode sampleAPReader { data := sampleAPFile, pos := 34, eof := false } []
      rfl (by decide) (by decide) hfit
  obtain ⟨a, pos, nameLength, ha, hp, hn, -, hname, -, hl, hb, he⟩ := hget 0 (by decide)
  have hp' : pos = 74 := hp
  subst hp'
  obtain ⟨-, -, h1, h2, h3, h4, h5⟩ := sampleAPFile_anchor
  have hn' : nameLength = 4 := hn.trans h1
  subst hn'
  have hout : out = [a] := by
    have hl1 : out.length = 1 := hlen'
    match out, hl1, ha with
    | [b], _, ha => simpa using ha
  refine ⟨r', a, by rw [hrun, hout], hname.trans h2, hl.trans h3, hb.trans h4, he.trans h5⟩

theorem freadBuffer_frame (r r1 : CAlignedPositionsReader) (f : FILE) (n k : Nat)
    (hs : r.mInStream = .live f) (h : r.freadBuffer n = .ok (k, r1)) :
    ∃ (f1 : FILE) (buf : List Byte),
      r1 = { r with mInStream := .live f1, mBuffer := buf } ∧ f1.data = f.data ∧
      buf.length = r.mBuffer.length := by
  simp only [CAlignedPositionsReader.freadBuffer, CAlignedPositionsReader.stream, hs, bind,
    Except.bind, pure, Except.pure] at h
  split at h
  · cases h
  · rename_i hle
    simp only [Except.ok.injEq, Prod.mk.injEq] at h
    refine ⟨_, _, h.2.symm, rfl, length_store _ _ (Nat.le_of_not_lt hle)⟩

theorem readAnchor_frame (r r1 : CAlignedPositionsReader) (f : FILE) (a : Anchor)
    (hs : r.mInStream = .live f) (h : r.readAnchor = .ok (a, r1)) :
    ∃ (f1 : FILE) (buf : List Byte),
      r1 = { r with mInStream := .live f1, mBuffer := buf } ∧ f1.data = f.data ∧
      buf.length = r.mBuffer.length := by
  unfold CAlignedPositionsReader.readAnchor at h
  simp only [CAlignedPositionsReader.stream, hs, bind, Except.bind, pure, Except.pure] at h
  split at h
  · cases h
  · rename_i x hfb
    obtain ⟨k, r2⟩ := x
    obtain ⟨f1, buf, hr2, hdata, hlen⟩ := freadBuffer_frame _ r2
      (freadInt 0 1 f).2 _ k rfl hfb
    have hd1 : (freadInt 0 1 f).2.data = f.data := rfl
    simp only [] at h
    repeat' first
      | (cases h; done)
      | split at h
    rename_i buffer hsz _ _ _
    simp only [Except.ok.injEq, Prod.mk.injEq] at h
    have hbl : buffer.length = r2.mBuffer.length := by
      simp only [setZero] at hsz
      split at hsz
      · cases hsz
        exact List.length_set _ _ _
      · cases hsz
    refine ⟨f1, buffer, ?_, hdata.trans hd1, ?_⟩
    · rw [← h.2, hr2]
    · rw [hbl, hr2]
      exact hlen

theorem readAnchors_frame : ∀ (n : Nat) (r r1 : CAlignedPositionsReader) (f : FILE)
    (anchors out : List Anchor), r.mInStream = .live f →
    CAlignedPositionsReader.readAnchors n r anchors = .ok (out, r1) →
    ∃ (f1 : FILE) (buf : List Byte),
      r1 = { r with mInStream := .live f1, mBuffer := buf } ∧ f1.data = f.data ∧
      buf.length = r.mBuffer.length
  | 0, r, r1, f, anchors, out, hs, h => by
    simp only [CAlignedPositionsReader.readAnchors, Except.ok.injEq, Prod.mk.injEq] at h
    refine ⟨f, r.mBuffer, ?_, rfl, rfl⟩
    rw [← h.2, ← hs]
  | n + 1, r, r1, f, anchors, out, hs, h => by
    simp only [CAlignedPositionsReader.readAnchors] at h
    split at h
    · cases h
    · rename_i a r2 hra
      obtain ⟨f2, buf2, hr2, hd2, hl2⟩ := readAnchor_frame r r2 f a hs hra
      obtain ⟨f1, buf, hr1, hd1, hl1⟩ := readAnchors_frame n r2 r1 f2 _ out
        (by rw [hr2]) h
      refine ⟨f1, buf, ?_, hd1.trans hd2, ?_⟩
      · rw [hr1, hr2]
      · rw [hl1, hr2]
        exact hl2

theorem LoadAnchors_frame (r r' : CAlignedPositionsReader) (f : FILE) (anchors out : List Anchor)
    (hs : r.mInStream = .live f) (hpos : f.pos < 2 ^ 63)
    (h : r.LoadAnchors anchors = .ok (r', out)) :
    ∃ buf : List Byte,
      r' = { r with mInStream := .live { f with eof := false }, mBuffer := buf } ∧
      buf.length = r.mBuffer.length := by
  unfold CAlignedPositionsReader.LoadAnchors at h
  simp only [CAlignedPositionsReader.stream, hs, bind, Except.bind, pure, Except.pure, ftell64]
    at h
  split at h
  · cases h
  · rename_i x hra
    obtain ⟨out1, r1⟩ := x
    obtain ⟨f1, buf, hr1, hd1, hl1⟩ := readAnchors_frame _ _ r1
      (fseek64_SET f r.mStatistics.AnchorsOffset) _ out1 rfl hra
    have hd : (fseek64_SET f r.mStatistics.AnchorsOffset).data = f.data := by
      simp only [fseek64_SET]
      split <;> rfl
    subst hr1
    simp only [fseek64_SET, hpos, if_true, Except.ok.injEq, Prod.mk.injEq] at h
    refine ⟨buf, ?_, hl1⟩
    rw [← h.1, hd1.trans hd]

set_option maxRecDepth 100000 in
theorem sampleShortRecord_run :
    ((CAlignedPositionsReader.ctor sampleEnv 0 (some sampleAPFileShortRecord)).bind
      (fun r => r.LoadAnchors [])).map
        (fun x => (x.2, x.1.mInStream, x.1.mCurrentReadNum))
      = .ok ([{ Name := [99, 104, 114, 49], Length := 1000, Begin := 16843009, End := 999 }],
             .live { data := sampleAPFileShortRecord, pos := 34, eof := false }, 0) ∧
    ((CAlignedPositionsReader.ctor sampleEnv 0 (some sampleAPFileShortRecord)).bind
      (fun r => r.LoadNextRead sampleEnv [] 0 [])).map apOutputs
      = .ok (true,
             [{ AnchorBegin := 16777216, AnchorEnd := 83886080, QueryBegin := 0, QueryEnd := 0,
                NumSubstitutions := 1, NumDeletions := 1, NumInsertions := 0,
                IsReverseComplement := false, AnchorName := [], Anchor := [], Query := [] }],
             5, []) ∧
    ((CAlignedPositionsReader.ctor sampleEnv 0 (some sampleAPFileShortRecord)).bind
      (fun r => (r.LoadAnchors []).bind
        (fun y => y.1.LoadNextRead sampleEnv [] 0 []))).map apOutputs
      = .ok (true,
             [{ AnchorBegin := 16777216, AnchorEnd := 83886080, QueryBegin := 256,
                QueryEnd := 59137, NumSubstitutions := 0, NumDeletions := 1, NumInsertions := 0,
                IsReverseComplement := false, AnchorName := [], Anchor := [], Query := [] }],
             5, []) := by
  decide

/-- C23 (counterexample). On the archive `sampleAPFileShortRecord`, whose read
record declares one aligned position but holds none, `LoadAnchors` on the
fresh reader completes and leaves the stream at position 34 and the counter at
0; `LoadNextRead` on the fresh reader returns a position with query begin 0,
query end 0 and 1 substitution, and `LoadNextRead` after `LoadAnchors` returns
a position with query begin 256, query end 59137 and no substitution. -/
theorem C23_LoadAnchors_changes_next_read :
    ((CAlignedPositionsReader.ctor sampleEnv 0 (some sampleAPFileShortRecord)).bind
      (fun r => r.LoadAnchors [])).map
        (fun x => (x.2, x.1.mInStream, x.1.mCurrentReadNum))
      = .ok ([{ Name := [99, 104, 114, 49], Length := 1000, Begin := 16843009, End := 999 }],
             .live { data := sampleAPFileShortRecord, pos := 34, eof := false }, 0) ∧
    ((CAlignedPositionsReader.ctor sampleEnv 0 (some sampleAPFileShortRecord)).bind
      (fun r => r.LoadNextRead sampleEnv [] 0 [])).map apOutputs
      = .ok (true,
             [{ AnchorBegin := 16777216, AnchorEnd := 83886080, QueryBegin := 0, QueryEnd := 0,
                NumSubstitutions := 1, NumDeletions := 1, NumInsertions := 0,
                IsReverseComplement := false, AnchorName := [], Anchor := [], Query := [] }],
             5, []) ∧
    ((CAlignedPositionsReader.ctor sampleEnv 0 (some sampleAPFileShortRecord)).bind
      (fun r => (r.LoadAnchors []).bind
        (fun y => y.1.LoadNextRead sampleEnv [] 0 []))).map apOutputs
      = .ok (true,
             [{ AnchorBegin := 16777216, AnchorEnd := 83886080, QueryBegin := 256,
                QueryEnd := 59137, NumSubstitutions := 0, NumDeletions := 1, NumInsertions := 0,
                IsReverseComplement := false, AnchorName := [], Anchor := [], Query := [] }],
             5, []) :=
  sampleShortRecord_run

theorem AP_LoadNextRead_done (env : Env) (r : CAlignedPositionsReader)
    (positions : List AlignedPosition) (readLength : Nat) (readName : List Byte)
    (h : r.mStatistics.NumReads ≤ r.mCurrentReadNum) :
    r.LoadNextRead env positions readLength readName
      = .ok (false, r, positions, readLength, readName) := by
  simp only [CAlignedPositionsReader.LoadNextRead, ge_iff_le, h, if_true, pure, Except.pure]

/-- C23 (amended). When `LoadAnchors` completes on a reader whose stream is at
a position below 2^63, the stream afterwards holds the same file at the same
position, and the current-read counter and the header statistics are
unchanged. When moreover the reader has no read left, or its buffers are as
long as recorded and the next read record is well-formed (entry size at least
10, record inside the file, contents fitting the `entry_size - 10` bytes, no
pairwise length equal to the current length of the string scratch buffer), a
following `LoadNextRead` completes with the same return value, positions, read
length and read name as the `LoadNextRead` without the `LoadAnchors` before
it. -/
theorem C23_LoadAnchors_frame (env : Env) (r r' : CAlignedPositionsReader) (f : FILE)
    (anchors out : List Anchor)
    (hs : r.mInStream = .live f) (hpos : f.pos < 2 ^ 63)
    (h : r.LoadAnchors anchors = .ok (r', out)) :
    (∃ f' : FILE, r'.mInStream = .live f' ∧ f'.data = f.data ∧ f'.pos = f.pos) ∧
    r'.mCurrentReadNum = r.mCurrentReadNum ∧
    r'.mStatistics = r.mStatistics ∧
    ∀ (positions : List AlignedPosition) (readLength : Nat) (readName : List Byte),
      (r.mStatistics.NumReads ≤ r.mCurrentReadNum ∨
        (APReady r f ∧ apRecordFits f.data f.pos r.mReadBufferLen = true)) →
      ∃ result : Bool × List AlignedPosition × Nat × List Byte,
        (r.LoadNextRead env positions readLength readName).map apOutputs = .ok result ∧
        (r'.LoadNextRead env positions readLength readName).map apOutputs = .ok result := by
  obtain ⟨buf, hr', hlen⟩ := LoadAnchors_frame r r' f anchors out hs hpos h
  subst hr'
  refine ⟨⟨_, rfl, rfl, rfl⟩, rfl, rfl, fun positions readLength readName hcase => ?_⟩
  by_cases hdone : r.mStatistics.NumReads ≤ r.mCurrentReadNum
  · refine ⟨(false, positions, readLength, readName), ?_, ?_⟩
    · rw [AP_LoadNextRead_done env r _ _ _ hdone]
      rfl
    · rw [AP_LoadNextRead_done env _ _ _ _ (by exact hdone)]
      rfl
  · have hcur : r.mCurrentReadNum < r.mStatistics.NumReads := Nat.lt_of_not_le hdone
    obtain ⟨hready, hfit⟩ := hcase.resolve_left hdone
    obtain ⟨b1, rb1, -, -, hrun1⟩ :=
      AP_LoadNextRead_ok env r f positions readLength readName hready hcur hfit
    obtain ⟨-, hb, hb10, hrb, hrb256⟩ := hready
    obtain ⟨b2, rb2, -, -, hrun2⟩ :=
      AP_LoadNextRead_ok env
        { r with mInStream := .live { f with eof := false }, mBuffer := buf }
        { f with eof := false } positions readLength readName
        ⟨rfl, hlen.trans hb, hb10, hrb, hrb256⟩ hcur hfit
    refine ⟨(true,
      decodedPositions (apBlock f.data f.pos) (1 + apNameLen (apBlock f.data f.pos))
        (apNumPositions f.data f.pos),
      apReadLength f.data f.pos,
      untilZero (slice (apBlock f.data f.pos) 1 (apNameLen (apBlock f.data f.pos)))), ?_, ?_⟩
    · rw [hrun1]
      rfl
    · rw [hrun2]
      rfl

set_option maxRecDepth 100000 in
theorem sampleAPReader_LoadAnchors :
    sampleAPReader.LoadAnchors []
      = .ok ({ sampleAPReader with
                mBuffer := (store sampleAPReader.mBuffer (slice sampleAPFile 75 16)).set 4 0 },
             [{ Name := [99, 104, 114, 49], Length := 1000, Begin := 0, End := 999 }]) := by
  decide

/-- C23 (amended) at the reader that the constructor leaves on `sampleAPFile`:
`LoadAnchors` completes there, and the `LoadNextRead` after it returns the
read "r1" of length 50 as the `LoadNextRead` without it does. -/
theorem C23_LoadAnchors_frame_witness :
    ∃ (r' : CAlignedPositionsReader) (out : List Anchor)
      (result : Bool × List AlignedPosition × Nat × List Byte),
      sampleAPReader.mInStream = .live { data := sampleAPFile, pos := 34, eof := false } ∧
      (34 : Nat) < 2 ^ 63 ∧
      sampleAPReader.LoadAnchors [] = .ok (r', out) ∧
      (∃ f' : FILE, r'.mInStream = .live f' ∧ f'.data = sampleAPFile ∧ f'.pos = 34) ∧
      r'.mCurrentReadNum = 0 ∧
      (sampleAPReader.LoadNextRead sampleEnv [] 0 []).map apOutputs = .ok result ∧
      (r'.LoadNextRead sampleEnv [] 0 []).map apOutputs = .ok result ∧
      result.1 = true := by
  have h := C23_LoadAnchors_frame sampleEnv sampleAPReader _
    { data := sampleAPFile, pos := 34, eof := false } [] _ rfl (by decide)
    sampleAPReader_LoadAnchors
  obtain ⟨hstream, hcur, -, hnext⟩ := h
  obtain ⟨result, h1, h2⟩ := hnext [] 0 [] (Or.inr ⟨sampleAPReader_ready, sampleAPFile_fits⟩)
  refine ⟨_, _, result, rfl, by decide, sampleAPReader_LoadAnchors, hstream, hcur, h1, h2, ?_⟩
  obtain ⟨b1, rb1, -, -, hrun1⟩ :=
    AP_LoadNextRead_ok sampleEnv sampleAPReader { data := sampleAPFile, pos := 34, eof := false }
      [] 0 [] sampleAPReader_ready (by decide) sampleAPFile_fits
  rw [hrun1] at h1
  simp only [Except.map, apOutputs, Except.ok.injEq] at h1
  rw [← h1]

theorem freadBuffer_core (r r1 : CAlignedPositionsReader) (n k : Nat)
    (h : r.freadBuffer n = .ok (k, r1)) :
    r1.mStatistics = r.mStatistics ∧ r1.mCurrentReadNum = r.mCurrentReadNum := by
  unfold CAlignedPositionsReader.freadBuffer at h
  simp only [bind, Except.bind, pure, Except.pure] at h
  repeat' first
    | (cases h; done)
    | split at h
  simp only [Except.ok.injEq, Prod.mk.injEq] at h
  rw [← h.2]
  exact ⟨rfl, rfl⟩

theorem AP_CheckBufferSize_core (env : Env) (r : CAlignedPositionsReader) (n : Nat) :
    (r.CheckBufferSize env n).mStatistics = r.mStatistics ∧
    (r.CheckBufferSize env n).mCurrentReadNum = r.mCurrentReadNum ∧
    (r.CheckBufferSize env n).mInStream = r.mInStream := by
  unfold CAlignedPositionsReader.CheckBufferSize
  split <;> exact ⟨rfl, rfl, rfl⟩

theorem CheckReadBufferSize_core (env : Env) (r : CAlignedPositionsReader) (n : Nat) :
    (r.CheckReadBufferSize env n).mStatistics = r.mStatistics ∧
    (r.CheckReadBufferSize env n).mCurrentReadNum = r.mCurrentReadNum := by
  unfold CAlignedPositionsReader.CheckReadBufferSize
  split <;> exact ⟨rfl, rfl⟩

theorem extractString_core (r r1 : CAlignedPositionsReader) (off n : Nat) (s : List Byte)
    (h : r.extractString off n = .ok (r1, s)) :
    r1.mStatistics = r.mStatistics ∧ r1.mCurrentReadNum = r.mCurrentReadNum := by
  unfold CAlignedPositionsReader.extractString at h
  simp only [bind, Except.bind, pure, Except.pure] at h
  repeat' first
    | (cases h; done)
    | split at h
  simp only [Except.ok.injEq, Prod.mk.injEq] at h
  rw [← h.1]
  exact ⟨rfl, rfl⟩

theorem readPosition_core (env : Env) (r r1 : CAlignedPositionsReader) (off off1 : Nat)
    (p : AlignedPosition) (h : r.readPosition env off = .ok (p, r1, off1)) :
    r1.mStatistics = r.mStatistics ∧ r1.mCurrentReadNum = r.mCurrentReadNum := by
  unfold CAlignedPositionsReader.readPosition at h
  simp only [bind, Except.bind, pure, Except.pure] at h
  repeat' first
    | (cases h; done)
    | split at h
  all_goals
    rename_i x1 hx1 _ x2 hx2 _
    obtain ⟨ra, sa⟩ := x1
    obtain ⟨rb, sb⟩ := x2
    simp only [Except.ok.injEq, Prod.mk.injEq] at h
    have h1 := extractString_core _ _ _ _ _ hx1
    have h2 := extractString_core _ _ _ _ _ hx2
    have h0 := CheckReadBufferSize_core env r
    rw [← h.2.1]
    simp only [h2.1, h1.1, h2.2, h1.2, (h0 _).1, (h0 _).2, and_self]

theorem readPositions_core (env : Env) : ∀ (n : Nat) (r r1 : CAlignedPositionsReader)
    (off off1 : Nat) (ps ps1 : List AlignedPosition),
    CAlignedPositionsReader.readPositions env n r off ps = .ok (ps1, r1, off1) →
    r1.mStatistics = r.mStatistics ∧ r1.mCurrentReadNum = r.mCurrentReadNum
  | 0, r, r1, off, off1, ps, ps1, h => by
    simp only [CAlignedPositionsReader.readPositions, Except.ok.injEq, Prod.mk.injEq] at h
    rw [← h.2.1]
    exact ⟨rfl, rfl⟩
  | n + 1, r, r1, off, off1, ps, ps1, h => by
    simp only [CAlignedPositionsReader.readPositions] at h
    split at h
    · cases h
    · rename_i p r2 off2 hp
      have h1 := readPosition_core env r r2 off off2 p hp
      have h2 := readPositions_core env n r2 r1 off2 off1 _ ps1 h
      exact ⟨h2.1.trans h1.1, h2.2.trans h1.2⟩

theorem decodeEntry_core (env : Env) (r r1 : CAlignedPositionsReader) (n : Nat)
    (ps ps1 : List AlignedPosition) (name : List Byte)
    (h : r.decodeEntry env n ps = .ok (r1, ps1, name)) :
    r1.mStatistics = r.mStatistics ∧ r1.mCurrentReadNum = r.mCurrentReadNum := by
  unfold CAlignedPositionsReader.decodeEntry at h
  simp only [bind, Except.bind, pure, Except.pure] at h
  repeat' first
    | (cases h; done)
    | split at h
  rename_i x1 hx1 _ x2 hx2
  obtain ⟨ra, sa⟩ := x1
  obtain ⟨psb, rb, offb⟩ := x2
  simp only [Except.ok.injEq, Prod.mk.injEq] at h
  have h1 := extractString_core _ _ _ _ _ hx1
  have h2 := readPositions_core env _ _ _ _ _ _ _ hx2
  have h0 := CheckReadBufferSize_core env r
  rw [← h.1]
  simp only [h2.1, h1.1, h2.2, h1.2, (h0 _).1, (h0 _).2, and_self]

theorem length_slice_eq (buf : List Byte) (off n : Nat) :
    (slice buf off n).length = min n (buf.length - off) := by
  simp only [slice, List.length_take, List.length_drop]

theorem freadBuffer_inv (r r1 : CAlignedPositionsReader) (f : FILE) (n k : Nat)
    (hs : r.mInStream = .live f) (h : r.freadBuffer n = .ok (k, r1)) :
    k = min n (f.data.length - f.pos) ∧
    r1 = { r with mInStream := .live (fread f n).2
                  mBuffer := store r.mBuffer (slice f.data f.pos n) } := by
  simp only [CAlignedPositionsReader.freadBuffer, CAlignedPositionsReader.stream, hs, bind,
    Except.bind, pure, Except.pure] at h
  split at h
  · cases h
  · simp only [Except.ok.injEq, Prod.mk.injEq] at h
    refine ⟨?_, h.2.symm⟩
    rw [← h.1]
    exact length_slice_eq _ _ _

theorem readEntry_inv (env : Env) (r r1 : CAlignedPositionsReader) (f : FILE) (n rl : Nat)
    (hs : r.mInStream = .live f) (h : r.readEntry env = .ok (r1, n, rl)) :
    f.pos + 10 ≤ f.data.length ∧
    f.pos + 10 + u32sub (leNat (slice f.data f.pos 4)) 10 ≤ f.data.length := by
  unfold CAlignedPositionsReader.readEntry at h
  simp only [bind, Except.bind, pure, Except.pure] at h
  split at h
  · cases h
  · rename_i x hfb
    obtain ⟨k, r2⟩ := x
    obtain ⟨hk, hr2⟩ := freadBuffer_inv r r2 f 10 k hs hfb
    simp only [] at h
    split at h
    · cases h
    · rename_i hk10
      have hk10' : k = 10 := Classical.not_not.mp hk10
      have hpre : f.pos + 10 ≤ f.data.length := by omega
      refine ⟨hpre, ?_⟩
      have hfr : (fread f 10).2 = { f with pos := f.pos + 10 } := by
        rw [fread_full f 10 hpre]
      have hl10 : (slice f.data f.pos 10).length = 10 := length_slice _ _ _ hpre
      have hpk : peek r2.mBuffer 0 SIZEOF_INT = .ok (slice f.data f.pos 4) := by
        rw [hr2]
        show peek (store r.mBuffer (slice f.data f.pos 10)) 0 4 = _
        rw [peek_ok _ _ _ (by
            have := length_store_ge r.mBuffer (slice f.data f.pos 10)
            omega),
          slice_store _ _ _ _ (by omega), slice_slice _ _ _ _ _ (by omega)]
        rfl
      rw [hpk] at h
      simp only [] at h
      repeat' first
        | (cases h; done)
        | split at h
      rename_i x2 hfb2 hk2
      obtain ⟨k2, r3⟩ := x2
      have hst : (r2.CheckBufferSize env (u32sub (leNat (slice f.data f.pos 4)) 10)).mInStream
          = .live { f with pos := f.pos + 10 } := by
        rw [(AP_CheckBufferSize_core env r2 _).2.2, hr2, hfr]
      obtain ⟨hk2', -⟩ := freadBuffer_inv _ r3 _ _ k2 hst hfb2
      have hk2'' : k2 = u32sub (leNat (slice f.data f.pos 4)) 10 := Classical.not_not.mp hk2
      rw [hk2''] at hk2'
      have hk3 : u32sub (leNat (slice f.data f.pos 4)) 10
          = min (u32sub (leNat (slice f.data f.pos 4)) 10) (f.data.length - (f.pos + 10)) :=
        hk2'
      omega

theorem readEntry_core (env : Env) (r r1 : CAlignedPositionsReader) (n rl : Nat)
    (h : r.readEntry env = .ok (r1, n, rl)) :
    r1.mStatistics = r.mStatistics ∧ r1.mCurrentReadNum = r.mCurrentReadNum := by
  unfold CAlignedPositionsReader.readEntry at h
  simp only [bind, Except.bind, pure, Except.pure] at h
  repeat' first
    | (cases h; done)
    | split at h
  rename_i x1 hx1 _ _ _ _ _ _ _ _ _ _ _ x2 hx2 _
  obtain ⟨k1, ra⟩ := x1
  obtain ⟨k2, rb⟩ := x2
  simp only [Except.ok.injEq, Prod.mk.injEq] at h
  have h1 := freadBuffer_core _ _ _ _ hx1
  have h2 := freadBuffer_core _ _ _ _ hx2
  have h0 := AP_CheckBufferSize_core env ra
  rw [← h.1]
  simp only [h2.1, h1.1, h2.2, h1.2, (h0 _).1, (h0 _).2.1, and_self]

theorem AP_LoadNextRead_inv (env : Env) (r r' : CAlignedPositionsReader)
    (positions positions' : List AlignedPosition) (readLength readLength' : Nat)
    (readName readName' : List Byte) (b : Bool)
    (h : r.LoadNextRead env positions readLength readName
      = .ok (b, r', positions', readLength', readName')) :
    (b = false ∧ r.mStatistics.NumReads ≤ r.mCurrentReadNum ∧ r' = r ∧
      positions' = positions ∧ readLength' = readLength ∧ readName' = readName) ∨
    (b = true ∧ r.mCurrentReadNum < r.mStatistics.NumReads ∧
      r'.mStatistics = r.mStatistics ∧
      r'.mCurrentReadNum = (r.mCurrentReadNum + 1) % 2 ^ 64 ∧
      ∀ f, r.mInStream = .live f →
        f.pos + 10 ≤ f.data.length ∧
        f.pos + 10 + u32sub (leNat (slice f.data f.pos 4)) 10 ≤ f.data.length) := by
  unfold CAlignedPositionsReader.LoadNextRead at h
  split at h
  · rename_i hdone
    simp only [Except.ok.injEq, Prod.mk.injEq] at h
    exact Or.inl ⟨h.1.symm, hdone, h.2.1.symm, h.2.2.1.symm, h.2.2.2.1.symm, h.2.2.2.2.symm⟩
  · rename_i hcur
    simp only [] at h
    split at h
    · cases h
    · rename_i r1 n rl hre
      split at h
      · cases h
      · rename_i r2 ps name hde
        simp only [Except.ok.injEq, Prod.mk.injEq] at h
        have h1 := readEntry_core env r r1 n rl hre
        have h2 := decodeEntry_core env r1 r2 n _ ps name hde
        refine Or.inr ⟨h.1.symm, Nat.lt_of_not_le hcur, ?_, ?_,
          fun f hs => readEntry_inv env r r1 f n rl hs hre⟩
        · rw [← h.2.1]
          exact h2.1.trans h1.1
        · rw [← h.2.1]
          show (r2.mCurrentReadNum + 1) % 2 ^ 64 = _
          rw [h2.2, h1.2]

theorem fread_short (f : FILE) (n : Nat) (hn : 0 < n) (h : f.data.length < f.pos + n) :
    (fread f n).1.length < n := by
  show (slice f.data f.pos n).length < n
  rw [length_slice_eq]
  omega

theorem freadBuffer_short (r : CAlignedPositionsReader) (f : FILE) (n : Nat)
    (hs : r.mInStream = .live f) (hbuf : n ≤ r.mBuffer.length) (hn : 0 < n)
    (hshort : f.data.length < f.pos + n) :
    ∃ (k : Nat) (r1 : CAlignedPositionsReader), k ≠ n ∧ r.freadBuffer n = .ok (k, r1) := by
  have hl := fread_short f n hn hshort
  refine ⟨(fread f n).1.length,
    { r with mInStream := .live (fread f n).2, mBuffer := store r.mBuffer (fread f n).1 },
    Nat.ne_of_lt hl, ?_⟩
  simp only [CAlignedPositionsReader.freadBuffer, CAlignedPositionsReader.stream, hs, bind,
    Except.bind, pure, Except.pure]
  rw [if_neg (by omega)]

theorem readEntry_short_prefix (env : Env) (r : CAlignedPositionsReader) (f : FILE)
    (hs : r.mInStream = .live f) (hbuf : 10 ≤ r.mBuffer.length)
    (hshort : f.data.length < f.pos + 10) :
    r.readEntry env = .error .exit1 := by
  obtain ⟨k, r1, hk, hrun⟩ := freadBuffer_short r f 10 hs hbuf (by decide) hshort
  simp only [CAlignedPositionsReader.readEntry, bind, Except.bind, hrun, ne_eq, hk,
    not_false_eq_true, if_true]

theorem readEntry_short_body (env : Env) (r : CAlignedPositionsReader) (f : FILE)
    (hs : r.mInStream = .live f)
    (hbuf : r.mBuffer.length = r.mBufferLen) (hbuf10 : 10 ≤ r.mBufferLen)
    (hpre : f.pos + 10 ≤ f.data.length)
    (hshort : f.data.length - (f.pos + 10) < leNat (slice f.data f.pos 4) - 10) :
    r.readEntry env = .error .exit1 := by
  have hes : leNat (slice f.data f.pos 4) < 4294967296 := leNat_slice_lt f.data f.pos 4
  generalize hE : leNat (slice f.data f.pos 4) = entrySize at hshort hes
  have hfb := freadBuffer_full r f 10 hs hpre (by omega)
  have hl10 : (slice f.data f.pos 10).length = 10 := length_slice _ _ _ hpre
  have hst : (store r.mBuffer (slice f.data f.pos 10)).length = r.mBuffer.length :=
    length_store _ _ (by omega)
  have hp1 : peek (store r.mBuffer (slice f.data f.pos 10)) 0 4 = .ok (slice f.data f.pos 4) := by
    rw [peek_ok _ _ _ (by omega), slice_store _ _ _ _ (by omega),
      slice_slice _ _ _ _ _ (by omega)]
    rfl
  have hp2 : peek (store r.mBuffer (slice f.data f.pos 10)) 4 4
      = .ok (slice f.data (f.pos + 4) 4) := by
    rw [peek_ok _ _ _ (by omega), slice_store _ _ _ _ (by omega),
      slice_slice _ _ _ _ _ (by omega)]
  have hp3 : peek (store r.mBuffer (slice f.data f.pos 10)) 8 2
      = .ok (slice f.data (f.pos + 8) 2) := by
    rw [peek_ok _ _ _ (by omega), slice_store _ _ _ _ (by omega),
      slice_slice _ _ _ _ _ (by omega)]
  have hebl : u32sub entrySize 10 = entrySize - 10 := by
    simp only [u32sub, show 10 ≤ entrySize from by omega, if_true]
  obtain ⟨buf, hbl, -, hcheck⟩ := AP_CheckBufferSize_eq env
    { r with mInStream := .live { f with pos := f.pos + 10 }
             mBuffer := store r.mBuffer (slice f.data f.pos 10) }
    (entrySize - 10) (by show (store _ _).length = r.mBufferLen; omega) (by omega)
  obtain ⟨k, r1, hk, hrun⟩ := freadBuffer_short
    { r with mInStream := .live { f with pos := f.pos + 10 }
             mBuffer := buf, mBufferLen := buf.length }
    { f with pos := f.pos + 10 } (entrySize - 10) rfl hbl (by omega)
    (by show f.data.length < f.pos + 10 + (entrySize - 10); omega)
  simp only [CAlignedPositionsReader.readEntry, bind, Except.bind, hfb, ne_eq,
    not_true_eq_false, if_false, SIZEOF_INT, SIZEOF_SHORT]
  rw [hp1]; simp only []
  simp (disch := omega) only [u32_of_lt]
  rw [hp2]; simp only []
  rw [hp3]; simp only []
  rw [hE, hebl, hcheck, hrun]
  simp only [hk, not_false_eq_true, if_true]

theorem AP_ctor_short (env : Env) (currentReadNameOffset : Nat) (file : List Byte)
    (h : file.length < 34) :
    CAlignedPositionsReader.ctor env currentReadNameOffset (some file) = .error .exit1 := by
  obtain ⟨k, r1, hk, hrun⟩ := freadBuffer_short
    { mStatistics := HeaderStatistics.ctor currentReadNameOffset
      mIsStreamOpen := true
      mInStream := .live { data := file, pos := 0, eof := false }
      mBuffer := env.alloc 256, mBufferLen := 256
      mReadBuffer := env.alloc 256, mReadBufferLen := 256
      mCurrentReadNum := 0 }
    { data := file, pos := 0, eof := false } 34 rfl
    (by show 34 ≤ (env.alloc 256).length; rw [length_alloc]; decide) (by decide)
    (by show file.length < 0 + 34; omega)
  simp only [CAlignedPositionsReader.ctor, CAlignedPositionsReader.ParseHeader,
    ALIGNED_READ_ARCHIVE_HEADER_BYTES, bind, Except.bind, hrun, ne_eq, hk, not_false_eq_true,
    if_true]

theorem AP_ctor_inv (env : Env) (currentReadNameOffset : Nat) (file : List Byte)
    (r : CAlignedPositionsReader)
    (h : CAlignedPositionsReader.ctor env currentReadNameOffset (some file) = .ok r) :
    34 ≤ file.length ∧ r.mCurrentReadNum = 0 := by
  refine ⟨?_, ?_⟩
  · by_contra hlt
    rw [AP_ctor_short env currentReadNameOffset file (by omega)] at h
    cases h
  · simp only [CAlignedPositionsReader.ctor] at h
    unfold CAlignedPositionsReader.ParseHeader at h
    simp only [bind, Except.bind, pure, Except.pure] at h
    split at h
    · cases h
    · rename_i x hfb
      obtain ⟨k, r1⟩ := x
      have hc := (freadBuffer_core _ _ _ _ hfb).2
      simp only [] at h
      repeat' first
        | (cases h; done)
        | split at h
      simp only [Except.ok.injEq] at h
      rw [← h]
      exact hc

/-- C27. A `LoadNextRead` call on a reader that has reads left and whose
buffers are as long as recorded exits when the stream holds fewer than 10
bytes for the record prefix, and when it holds the prefix but fewer than
`entry_size - 10` bytes after it; the constructor exits on a file of fewer
than 34 bytes. Whenever `LoadNextRead` returns true, the stream held the 10
prefix bytes and the whole body that the prefix declares, and whenever the
constructor returns a reader the file held 34 bytes. -/
theorem C27_AP_truncation_exits (env : Env) :
    (∀ (r : CAlignedPositionsReader) (f : FILE) (positions : List AlignedPosition)
        (readLength : Nat) (readName : List Byte),
      APReady r f → r.mCurrentReadNum < r.mStatistics.NumReads →
      f.data.length < f.pos + 10 →
      r.LoadNextRead env positions readLength readName = .error .exit1) ∧
    (∀ (r : CAlignedPositionsReader) (f : FILE) (positions : List AlignedPosition)
        (readLength : Nat) (readName : List Byte),
      APReady r f → r.mCurrentReadNum < r.mStatistics.NumReads →
      f.pos + 10 ≤ f.data.length →
      f.data.length - (f.pos + 10) < apEntrySize f.data f.pos - 10 →
      r.LoadNextRead env positions readLength readName = .error .exit1) ∧
    (∀ (currentReadNameOffset : Nat) (file : List Byte), file.length < 34 →
      CAlignedPositionsReader.ctor env currentReadNameOffset (some file) = .error .exit1) ∧
    (∀ (r r' : CAlignedPositionsReader) (f : FILE) (positions positions' : List AlignedPosition)
        (readLength readLength' : Nat) (readName readName' : List Byte),
      r.mInStream = .live f →
      r.LoadNextRead env positions readLength readName
        = .ok (true, r', positions', readLength', readName') →
      f.pos + 10 ≤ f.data.length ∧
      f.pos + 10 + u32sub (apEntrySize f.data f.pos) 10 ≤ f.data.length) ∧
    (∀ (currentReadNameOffset : Nat) (file : List Byte) (r : CAlignedPositionsReader),
      CAlignedPositionsReader.ctor env currentReadNameOffset (some file) = .ok r →
      34 ≤ file.length) := by
  refine ⟨?_, ?_, ?_, ?_, ?_⟩
  · intro r f positions readLength readName hready hcur hshort
    obtain ⟨hs, hb, hb10, -, -⟩ := hready
    simp only [CAlignedPositionsReader.LoadNextRead, ge_iff_le, Nat.not_le.mpr hcur, if_false,
      readEntry_short_prefix env r f hs (by omega) hshort]
  · intro r f positions readLength readName hready hcur hpre hshort
    obtain ⟨hs, hb, hb10, -, -⟩ := hready
    simp only [CAlignedPositionsReader.LoadNextRead, ge_iff_le, Nat.not_le.mpr hcur, if_false,
      readEntry_short_body env r f hs hb hb10 hpre hshort]
  · intro off file h
    exact AP_ctor_short env off file h
  · intro r r' f positions positions' readLength readLength' readName readName' hs h
    rcases AP_LoadNextRead_inv env r r' _ _ _ _ _ _ _ h with hf | ht
    · exact absurd hf.1 (by decide)
    · exact ht.2.2.2.2 f hs
  · intro off file r h
    exact (AP_ctor_inv env off file r h).1

set_option maxRecDepth 100000 in
theorem sampleCut_facts :
    CAlignedPositionsReader.ctor sampleEnv 0 (some sampleAPFileCutPrefix)
      = .ok { sampleAPReader with
              mInStream := .live { data := sampleAPFileCutPrefix, pos := 34, eof := false } } ∧
    CAlignedPositionsReader.ctor sampleEnv 0 (some sampleAPFileCutBody)
      = .ok { sampleAPReader with
              mInStream := .live { data := sampleAPFileCutBody, pos := 34, eof := false } } ∧
    sampleAPFileCutPrefix.length = 39 ∧ sampleAPFileCutBody.length = 54 ∧
    apEntrySize sampleAPFileCutBody 34 = 40 ∧
    (sampleAPFile.take 20).length = 20 := by
  decide

/-- C27 at the archive `sampleAPFile` cut inside the record prefix, cut inside
the record body, and cut inside the header: `LoadNextRead` on the reader that
the constructor leaves exits in the first two, and the constructor exits in
the third. -/
theorem C27_AP_truncation_exits_witness :
    ({ sampleAPReader with
        mInStream := .live { data := sampleAPFileCutPrefix, pos := 34, eof := false }
      } : CAlignedPositionsReader).LoadNextRead sampleEnv [] 0 [] = .error .exit1 ∧
    ({ sampleAPReader with
        mInStream := .live { data := sampleAPFileCutBody, pos := 34, eof := false }
      } : CAlignedPositionsReader).LoadNextRead sampleEnv [] 0 [] = .error .exit1 ∧
    CAlignedPositionsReader.ctor sampleEnv 0 (some (sampleAPFile.take 20)) = .error .exit1 := by
  obtain ⟨-, -, hl1, hl2, hE, hl3⟩ := sampleCut_facts
  obtain ⟨-, hb, hb10, hrb, hrb256⟩ := sampleAPReader_ready
  obtain ⟨h1, h2, h3, -, -⟩ := C27_AP_truncation_exits sampleEnv
  refine ⟨?_, ?_, ?_⟩
  · exact h1 _ { data := sampleAPFileCutPrefix, pos := 34, eof := false } [] 0 []
      ⟨rfl, hb, hb10, hrb, hrb256⟩ (by decide)
      (by show sampleAPFileCutPrefix.length < 34 + 10; rw [hl1]; decide)
  · exact h2 _ { data := sampleAPFileCutBody, pos := 34, eof := false } [] 0 []
      ⟨rfl, hb, hb10, hrb, hrb256⟩ (by decide)
      (by show 34 + 10 ≤ sampleAPFileCutBody.length; rw [hl2]; decide)
      (by show sampleAPFileCutBody.length - (34 + 10) < apEntrySize sampleAPFileCutBody 34 - 10
          rw [hl2, hE]; decide)
  · exact h3 0 _ (by rw [hl3]; decide)

theorem AP_loadReads_count (env : Env) : ∀ (k : Nat) (r r' : CAlignedPositionsReader)
    (bs : List Bool), r.mStatistics.NumReads < 2 ^ 64 →
    CAlignedPositionsReader.loadReads env k r = .ok (bs, r') →
    r'.mStatistics = r.mStatistics ∧
    r'.mCurrentReadNum = r.mCurrentReadNum + bs.count true
  | 0, r, r', bs, _, h => by
    simp only [CAlignedPositionsReader.loadReads, Except.ok.injEq, Prod.mk.injEq] at h
    rw [← h.1, ← h.2]
    exact ⟨rfl, rfl⟩
  | k + 1, r, r', bs, hN, h => by
    simp only [CAlignedPositionsReader.loadReads] at h
    split at h
    · cases h
    · rename_i b r1 out hrun
      obtain ⟨ps, rl, rn⟩ := out
      split at h
      · cases h
      · rename_i bs1 r2 hrest
        simp only [Except.ok.injEq, Prod.mk.injEq] at h
        rw [← h.1, ← h.2]
        rcases AP_LoadNextRead_inv env r r1 _ _ _ _ _ _ _ hrun with hf | ht
        · obtain ⟨hb, -, hr1, -⟩ := hf
          subst hb hr1
          have ih := AP_loadReads_count env k r1 r2 bs1 hN hrest
          refine ⟨ih.1, ?_⟩
          rw [ih.2]
          simp
        · obtain ⟨hb, hcur, hst, hc, -⟩ := ht
          subst hb
          have ih := AP_loadReads_count env k r1 r2 bs1 (by rw [hst]; exact hN) hrest
          refine ⟨ih.1.trans hst, ?_⟩
          rw [ih.2, hc, Nat.mod_eq_of_lt (by omega)]
          simp
          omega

theorem AP_loadReads_done (env : Env) : ∀ (k : Nat) (r : CAlignedPositionsReader),
    r.mStatistics.NumReads ≤ r.mCurrentReadNum →
    CAlignedPositionsReader.loadReads env k r = .ok (List.replicate k false, r)
  | 0, _, _ => rfl
  | k + 1, r, h => by
    simp only [CAlignedPositionsReader.loadReads, AP_LoadNextRead_done env r [] 0 [] h,
      AP_loadReads_done env k r h, List.replicate_succ]

theorem AP_loadReads_ok (env : Env) : ∀ (n k : Nat) (r : CAlignedPositionsReader) (f : FILE),
    APReady r f → r.mStatistics.NumReads < 2 ^ 64 →
    r.mCurrentReadNum + n = r.mStatistics.NumReads →
    apArchiveFits f.data f.pos n r.mReadBufferLen = true →
    ∃ r' : CAlignedPositionsReader,
      CAlignedPositionsReader.loadReads env (n + k) r
        = .ok (List.replicate n true ++ List.replicate k false, r')
  | 0, k, r, f, _, _, hcur, _ => by
    refine ⟨r, ?_⟩
    rw [Nat.zero_add, AP_loadReads_done env k r (by omega)]
    rfl
  | n + 1, k, r, f, hready, hN, hcur, hfit => by
    simp only [apArchiveFits, Bool.and_eq_true] at hfit
    obtain ⟨buf, rb, hbuf, hrb, hrun⟩ :=
      AP_LoadNextRead_ok env r f [] 0 [] hready (by omega) hfit.1
    obtain ⟨hs, hb, hb10, hrbl, hrb256⟩ := hready
    have hge := readBufferLenEnd_ge (apBlock f.data f.pos) (apNumPositions f.data f.pos)
      (1 + apNameLen (apBlock f.data f.pos)) r.mReadBufferLen
    obtain ⟨r', hrest⟩ := AP_loadReads_ok env n k
      { r with mInStream := .live { f with pos := f.pos + apEntrySize f.data f.pos }
               mBuffer := buf, mBufferLen := buf.length, mReadBuffer := rb
               mReadBufferLen := apReadBufferLenNext f.data f.pos r.mReadBufferLen
               mCurrentReadNum := (r.mCurrentReadNum + 1) % 2 ^ 64 }
      { f with pos := f.pos + apEntrySize f.data f.pos }
      ⟨rfl, rfl, by show 10 ≤ buf.length; omega, hrb,
        by show 256 ≤ apReadBufferLenNext f.data f.pos r.mReadBufferLen
           exact Nat.le_trans hrb256 hge⟩
      hN
      (by show (r.mCurrentReadNum + 1) % 2 ^ 64 + n = r.mStatistics.NumReads
          rw [Nat.mod_eq_of_lt (by omega)]; omega)
      hfit.2
    refine ⟨r', ?_⟩
    rw [show n + 1 + k = (n + k) + 1 from by omega]
    simp only [CAlignedPositionsReader.loadReads, hrun, hrest, List.replicate_succ,
      List.cons_append]

/-- The count of reads. `LoadNextRead` on a reader whose counter has reached
`NumReads` returns false and leaves the reader, hence the stream, and the
three output arguments as they were. On a reader that starts with counter 0, once the
calls made so far returned true `NumReads` times the next call returns false
in that way. On the reader that the constructor returns for a header with
`NumReads` 0 the first call returns false. On a reader at the first of
`NumReads` well-formed records none of which has a pairwise length equal to
the length of the string scratch buffer when it is reached, `NumReads + k`
successive calls return true `NumReads` times and then false `k` times. -/
theorem AP_LoadNextRead_count (env : Env) :
    (∀ (r : CAlignedPositionsReader) (positions : List AlignedPosition) (readLength : Nat)
        (readName : List Byte),
      r.mStatistics.NumReads ≤ r.mCurrentReadNum →
      r.LoadNextRead env positions readLength readName
        = .ok (false, r, positions, readLength, readName)) ∧
    (∀ (r r' : CAlignedPositionsReader) (k : Nat) (bs : List Bool)
        (positions : List AlignedPosition) (readLength : Nat) (readName : List Byte),
      r.mCurrentReadNum = 0 → r.mStatistics.NumReads < 2 ^ 64 →
      CAlignedPositionsReader.loadReads env k r = .ok (bs, r') →
      bs.count true = r.mStatistics.NumReads →
      r'.LoadNextRead env positions readLength readName
        = .ok (false, r', positions, readLength, readName)) ∧
    (∀ (currentReadNameOffset : Nat) (file : List Byte) (r : CAlignedPositionsReader)
        (positions : List AlignedPosition) (readLength : Nat) (readName : List Byte),
      CAlignedPositionsReader.ctor env currentReadNameOffset (some file) = .ok r →
      r.mStatistics.NumReads = 0 →
      r.LoadNextRead env positions readLength readName
        = .ok (false, r, positions, readLength, readName)) ∧
    (∀ (r : CAlignedPositionsReader) (f : FILE) (k : Nat),
      APReady r f → r.mCurrentReadNum = 0 → r.mStatistics.NumReads < 2 ^ 64 →
      apArchiveFits f.data f.pos r.mStatistics.NumReads r.mReadBufferLen = true →
      ∃ r' : CAlignedPositionsReader,
        CAlignedPositionsReader.loadReads env (r.mStatistics.NumReads + k) r
          = .ok (List.replicate r.mStatistics.NumReads true ++ List.replicate k false, r')) := by
  refine ⟨?_, ?_, ?_, ?_⟩
  · intro r positions readLength readName h
    exact AP_LoadNextRead_done env r positions readLength readName h
  · intro r r' k bs positions readLength readName hcur hN hrun hcount
    obtain ⟨hst, hc⟩ := AP_loadReads_count env k r r' bs hN hrun
    exact AP_LoadNextRead_done env r' positions readLength readName
      (by rw [hst, hc, hcur, hcount]; omega)
  · intro off file r positions readLength readName hctor hzero
    exact AP_LoadNextRead_done env r positions readLength readName
      (by rw [hzero]; exact Nat.zero_le _)
  · intro r f k hready hcur hN hfit
    exact AP_loadReads_ok env r.mStatistics.NumReads k r f hready hN (by omega) hfit

set_option maxRecDepth 100000 in
theorem sampleAPFile_archive : apArchiveFits sampleAPFile 34 1 256 = true := by
  decide

/-- At the reader that the constructor leaves on `sampleAPFile`, whose header
declares one read, two successive calls return true and then false. -/
theorem AP_LoadNextRead_count_sample :
    (APReady sampleAPReader { data := sampleAPFile, pos := 34, eof := false } ∧
      sampleAPReader.mCurrentReadNum = 0 ∧ sampleAPReader.mStatistics.NumReads < 2 ^ 64 ∧
      apArchiveFits sampleAPFile 34 sampleAPReader.mStatistics.NumReads
        sampleAPReader.mReadBufferLen = true) ∧
    ∃ r' : CAlignedPositionsReader,
      CAlignedPositionsReader.loadReads sampleEnv 2 sampleAPReader = .ok ([true, false], r') :=
  ⟨⟨sampleAPReader_ready, rfl, by decide, sampleAPFile_archive⟩,
    (AP_LoadNextRead_count sampleEnv).2.2.2 sampleAPReader
      { data := sampleAPFile, pos := 34, eof := false } 1 sampleAPReader_ready rfl (by decide)
      sampleAPFile_archive⟩

theorem extractString_overflow (r : CAlignedPositionsReader) (off : Nat)
    (hfit : off + r.mReadBuffer.length ≤ r.mBuffer.length) :
    r.extractString off r.mReadBuffer.length = .error .undefined := by
  have hl := length_slice r.mBuffer off r.mReadBuffer.length hfit
  have hst : (store r.mReadBuffer (slice r.mBuffer off r.mReadBuffer.length)).length
      = r.mReadBuffer.length := length_store _ _ (Nat.le_of_eq hl)
  simp only [CAlignedPositionsReader.extractString, peek_ok _ _ _ hfit, bind, Except.bind,
    memcpyTo, hl, Nat.le_refl, if_true, setZero, hst, Nat.lt_irrefl, if_false]

theorem freadInt_short_eof (old w : Nat) (f : FILE) (hw : 0 < w)
    (h : f.data.length < f.pos + w) : (freadInt old w f).2.eof = true := by
  have hl := fread_short f w hw h
  show (f.eof || decide ((slice f.data f.pos w).length < w)) = true
  have hl' : (slice f.data f.pos w).length < w := hl
  simp only [hl', decide_True, Bool.or_true]

theorem LoadNextRead_at_eof (env : Env) (r : CAlignmentReader) (ar : AlignedRead) (f : FILE)
    (hopen : r.mIsOpen = true) (hcur : r.mCurrentRead < r.mNumReads)
    (hmem : r.mPartitionMembers = r.mPartitionSize)
    (hs : r.mInStream = .live f) (heof : (freadInt 0 SIZEOF_INT f).2.eof = true) :
    LoadNextRead env r ar
      = .ok (false, { r with mInStream := .live (freadInt 0 SIZEOF_INT f).2 }, ar) := by
  have hpump : pump env r
      = .ok (false, { r with mInStream := .live (freadInt 0 SIZEOF_INT f).2 }) := by
    simp only [pump, hmem, if_true, readPartition, CAlignmentReader.stream, hs, bind,
      Except.bind, heof, pure, Except.pure]
  simp only [LoadNextRead, hopen, Bool.not_true, Bool.false_eq_true, if_false, ge_iff_le,
    Nat.not_le.mpr hcur, hpump]

theorem LoadNextRead_in_partition (env : Env) (r r' : CAlignmentReader) (ar ar' : AlignedRead)
    (b : Bool) (hmem : r.mPartitionMembers ≠ r.mPartitionSize)
    (h : LoadNextRead env r ar = .ok (b, r', ar')) :
    (b = false ∧ r' = r ∧ ar' = ar ∧ r.mNumReads ≤ r.mCurrentRead) ∨
    (b = true ∧ r.mCurrentRead < r.mNumReads ∧
      decodeRead env r.mBuffer r.mRefSeqLUT r.mBufferPtr ar = .ok (ar', r'.mBufferPtr) ∧
      r' = { r with mBufferPtr := r'.mBufferPtr
                    mCurrentRead := (r.mCurrentRead + 1) % 2 ^ 64
                    mPartitionMembers := (r.mPartitionMembers + 1) % 65536 }) := by
  have hpump : pump env r = .ok (true, r) := by
    simp only [pump, hmem, if_false]
  unfold LoadNextRead at h
  split at h
  · cases h
  · split at h
    · rename_i hdone
      simp only [Except.ok.injEq, Prod.mk.injEq] at h
      exact Or.inl ⟨h.1.symm, h.2.1.symm, h.2.2.symm, hdone⟩
    · rename_i hcur
      rw [hpump] at h
      simp only [] at h
      split at h
      · cases h
      · rename_i ar1 ptr hdec
        simp only [Except.ok.injEq, Prod.mk.injEq] at h
        obtain ⟨hb, hr, ha⟩ := h
        subst hb hr ha
        exact Or.inr ⟨rfl, Nat.lt_of_not_le hcur, hdec, rfl⟩

/-- C28. For an open reader with reads remaining (and a decompressor that is
deterministic in its capacity):

* when `mPartitionMembers ≠ mPartitionSize` at entry, a `LoadNextRead` that
  returns has returned true, left the stream and the buffer as they were and
  decoded the read at the cursor of the buffer; the read counter grew by one
  and the members counter by one in `unsigned short` arithmetic, which is by
  one when it was below 65535; and it does return when the record at the
  cursor is well-formed;
* when `mPartitionMembers = mPartitionSize` at entry and the stream holds
  fewer than 4 bytes, it returns false, moves nothing but the stream, and
  leaves the read counter and the caller's record as they were;
* when `mPartitionMembers = mPartitionSize` at entry and the stream holds a
  complete partition (4-byte uncompressed size, 4-byte compressed size, 2-byte
  member count, payload of the compressed size) whose content decompresses
  and starts with a well-formed record, it returns true with the read decoded
  at offset 0 of the decompressed content, `mPartitionMembers` 1,
  `mPartitionSize` the member count read, the stream after the payload and
  the read counter grown by one. -/
theorem C28_partition_pump_step (env : Env) (hstable : CapacityStable env) :
    (∀ (r : CAlignmentReader) (ar : AlignedRead),
      r.mIsOpen = true → r.mCurrentRead < r.mNumReads → r.mNumReads < 2 ^ 64 →
      r.mPartitionMembers ≠ r.mPartitionSize →
      (∀ (b : Bool) (r' : CAlignmentReader) (ar' : AlignedRead),
        LoadNextRead env r ar = .ok (b, r', ar') →
        b = true ∧ r'.mInStream = r.mInStream ∧ r'.mBuffer = r.mBuffer ∧
        decodeRead env r.mBuffer r.mRefSeqLUT r.mBufferPtr ar = .ok (ar', r'.mBufferPtr) ∧
        r'.mCurrentRead = r.mCurrentRead + 1 ∧
        r'.mPartitionMembers = (r.mPartitionMembers + 1) % 65536 ∧
        (r.mPartitionMembers < 65535 → r'.mPartitionMembers = r.mPartitionMembers + 1)) ∧
      (r.mRefSeqLUT.length < 65536 →
        readFits r.mBuffer r.mRefSeqLUT.length r.mBufferPtr = true →
        ∃ (r' : CAlignmentReader) (ar' : AlignedRead),
          LoadNextRead env r ar = .ok (true, r', ar'))) ∧
    (∀ (r : CAlignmentReader) (ar : AlignedRead) (f : FILE),
      r.mIsOpen = true → r.mCurrentRead < r.mNumReads →
      r.mPartitionMembers = r.mPartitionSize →
      r.mInStream = .live f → f.data.length < f.pos + 4 →
      ∃ f' : FILE, f'.data = f.data ∧ f'.eof = true ∧
        LoadNextRead env r ar = .ok (false, { r with mInStream := .live f' }, ar)) ∧
    (∀ (r : CAlignmentReader) (ar : AlignedRead) (data : List Byte) (pos : Nat),
      r.mIsOpen = true → r.mCurrentRead < r.mNumReads → r.mNumReads < 2 ^ 64 →
      r.mPartitionMembers = r.mPartitionSize →
      r.mInStream = .live { data := data, pos := pos, eof := false } →
      BuffersOk r →
      pos + 10 + leNat (slice data (pos + 4) 4) ≤ data.length →
      leNat (slice data (pos + 4) 4) < 2 ^ 31 →
      leNat (slice data pos 4) + 10 < 2 ^ 32 →
      (partContent env data pos).length ≠ 0 →
      r.mRefSeqLUT.length < 65536 →
      readFits (partContent env data pos) r.mRefSeqLUT.length 0 = true →
      ∃ (r' : CAlignmentReader) (ar' : AlignedRead),
        LoadNextRead env r ar = .ok (true, r', ar') ∧
        partContent env data pos
          = env.fastlz_decompress (slice data (pos + 10) (leNat (slice data (pos + 4) 4)))
              (leNat (slice data pos 4)) ∧
        decodeRead env (partContent env data pos) r.mRefSeqLUT 0 ar = .ok (ar', r'.mBufferPtr) ∧
        r'.mPartitionMembers = 1 ∧
        r'.mPartitionSize = leNat (slice data (pos + 8) 2) ∧
        r'.mInStream
          = .live { data := data, pos := pos + 10 + leNat (slice data (pos + 4) 4),
                    eof := false } ∧
        r'.mCurrentRead = r.mCurrentRead + 1) := by
  refine ⟨?_, ?_, ?_⟩
  · intro r ar hopen hcur hnum hmem
    refine ⟨?_, ?_⟩
    · intro b r' ar' h
      rcases LoadNextRead_in_partition env r r' ar ar' b hmem h with hf | ht
      · exact absurd hf.2.2.2 (Nat.not_le.mpr hcur)
      · obtain ⟨hb, -, hdec, hr'⟩ := ht
        have hc : r'.mCurrentRead = (r.mCurrentRead + 1) % 2 ^ 64 := by rw [hr']
        have hm : r'.mPartitionMembers = (r.mPartitionMembers + 1) % 65536 := by rw [hr']
        refine ⟨hb, by rw [hr'], by rw [hr'], hdec, ?_, hm, fun hlt => ?_⟩
        · rw [hc, Nat.mod_eq_of_lt (by omega)]
        · rw [hm, Nat.mod_eq_of_lt (by omega)]
    · intro hlut hfit
      obtain ⟨m1, m2, -, -, -, -, hdec⟩ :=
        decodeRead_ok env r.mBuffer r.mRefSeqLUT r.mBufferPtr ar hlut hfit
      have hpump : pump env r = .ok (true, r) := by
        simp only [pump, hmem, if_false]
      simp only [LoadNextRead, hopen, Bool.not_true, Bool.false_eq_true, if_false, ge_iff_le,
        Nat.not_le.mpr hcur, hpump, hdec]
      exact ⟨_, _, rfl⟩
  · intro r ar f hopen hcur hmem hs hshort
    have heof := freadInt_short_eof 0 SIZEOF_INT f (by decide) hshort
    exact ⟨(freadInt 0 SIZEOF_INT f).2, rfl, heof,
      LoadNextRead_at_eof env r ar f hopen hcur hmem hs heof⟩
  · intro r ar data pos hopen hcur hnum hmem hs hinv hend hc hu hout hlut hfit
    obtain ⟨cbuf, tail, hrp⟩ := readPartition_ok env hstable r data pos hs hinv hend hc hu hout
    have hpump : pump env r = readPartition env r := by
      simp only [pump, hmem, if_true]
    rw [hrp] at hpump
    obtain ⟨m1, m2, -, -, -, -, hdec⟩ :=
      decodeRead_ok env (partContent env data pos) r.mRefSeqLUT 0 ar hlut hfit
    have htail := decodeRead_append_tail env (partContent env data pos) tail r.mRefSeqLUT 0 ar
      hlut hfit
    rw [hdec] at htail
    have hrun : LoadNextRead env r ar
        = .ok (true,
            { r with mInStream := .live { data := data, pos := partEnd data pos, eof := false }
                     mPartitionMembers := (0 + 1) % 65536
                     mPartitionSize := partMembers data pos
                     mCompressionBuffer := cbuf
                     mCompressionBufferLen := cbuf.length
                     mBuffer := partContent env data pos ++ tail
                     mBufferLen := (partContent env data pos ++ tail).length
                     mBufferPtr := readEnd (partContent env data pos) 0
                     mCurrentRead := (r.mCurrentRead + 1) % 2 ^ 64 },
            { ReadGroupCode := leNat (slice (partContent env data pos)
                (0 + 1 + encNameLen (partContent env data pos) 0) 4)
              Name := slice (partContent env data pos) (0 + 1)
                (encNameLen (partContent env data pos) 0)
              Mate1Alignments := m1
              Mate2Alignments := m2
              IsLongRead := (encStatus (partContent env data pos) 0).testBit 0 }) := by
      simp only [LoadNextRead, hopen, Bool.not_true, Bool.false_eq_true, if_false, ge_iff_le,
        Nat.not_le.mpr hcur, hpump, htail]
    refine ⟨_, _, hrun, rfl, hdec, rfl, rfl, rfl, ?_⟩
    show (r.mCurrentRead + 1) % 2 ^ 64 = r.mCurrentRead + 1
    exact Nat.mod_eq_of_lt (by omega)

set_option maxRecDepth 100000 in
theorem sampleArchive_first :
    0 + 10 + leNat (slice sampleArchive (0 + 4) 4) ≤ sampleArchive.length ∧
    leNat (slice sampleArchive (0 + 4) 4) < 2 ^ 31 ∧
    leNat (slice sampleArchive 0 4) + 10 < 2 ^ 32 ∧
    (partContent sampleEnv sampleArchive 0).length ≠ 0 ∧
    readFits (partContent sampleEnv sampleArchive 0) sampleArchiveReader.mRefSeqLUT.length 0
      = true ∧
    leNat (slice sampleArchive (0 + 8) 2) = 3 ∧
    0 + 10 + leNat (slice sampleArchive (0 + 4) 4) = 118 ∧
    sampleArchive.length < 218 + 4 := by
  decide

/-- C28 at the sample readers: `sampleReader`, in the middle of a partition,
returns true without touching its stream and has consumed 1 member;
`sampleArchiveReader` with its stream at the end of the file returns false;
`sampleArchiveReader` at the first partition of `sampleArchive` returns true
with 1 of 3 members consumed and the stream at position 118. -/
theorem C28_partition_pump_step_witness :
    CapacityStable sampleEnv ∧
    (∃ (r' : CAlignmentReader) (ar' : AlignedRead),
      LoadNextRead sampleEnv sampleReader AlignedRead.ctor = .ok (true, r', ar') ∧
      r'.mInStream = sampleReader.mInStream ∧ r'.mPartitionMembers = 1 ∧
      r'.mCurrentRead = 1) ∧
    (∃ f' : FILE,
      LoadNextRead sampleEnv
        { sampleArchiveReader with
          mInStream := .live { data := sampleArchive, pos := 218, eof := false } }
        AlignedRead.ctor
      = .ok (false,
          { sampleArchiveReader with mInStream := .live f' }, AlignedRead.ctor)) ∧
    (∃ (r' : CAlignmentReader) (ar' : AlignedRead),
      LoadNextRead sampleEnv sampleArchiveReader AlignedRead.ctor = .ok (true, r', ar') ∧
      r'.mPartitionMembers = 1 ∧ r'.mPartitionSize = 3 ∧
      r'.mInStream = .live { data := sampleArchive, pos := 118, eof := false } ∧
      r'.mCurrentRead = 1) := by
  obtain ⟨hA, hB, hC⟩ := C28_partition_pump_step sampleEnv sampleEnv_stable
  obtain ⟨h1, h2, h3, h4, h5, h6, h7, h8⟩ := sampleArchive_first
  refine ⟨sampleEnv_stable, ?_, ?_, ?_⟩
  · obtain ⟨hinv, htot⟩ := hA sampleReader AlignedRead.ctor rfl (by decide) (by decide)
      (by decide)
    obtain ⟨r', ar', hrun⟩ := htot (by decide) (by decide)
    obtain ⟨-, hs, -, -, hc, -, hm⟩ := hinv true r' ar' hrun
    exact ⟨r', ar', hrun, hs, hm (by decide), hc⟩
  · obtain ⟨f', -, -, hrun⟩ := hB
      { sampleArchiveReader with
        mInStream := .live { data := sampleArchive, pos := 218, eof := false } }
      AlignedRead.ctor { data := sampleArchive, pos := 218, eof := false } rfl (by decide) rfl
      rfl h8
    exact ⟨f', hrun⟩
  · obtain ⟨r', ar', hrun, -, -, hm, hsz, hs, hc⟩ :=
      hC sampleArchiveReader AlignedRead.ctor sampleArchive 0 rfl (by decide) (by decide) rfl
        rfl ⟨rfl, rfl⟩ h1 h2 h3 h4 (by decide) h5
    refine ⟨r', ar', hrun, hm, ?_, ?_, hc⟩
    · rw [hsz, h6]
    · rw [hs, h7]

set_option maxRecDepth 1000000 in
/-- On the archive `sampleAPFileLongAnchorName` the anchor table lies inside
the file, and `LoadAnchors` on the fresh reader transfers 257 bytes into the
256-byte scratch buffer. -/
theorem LoadAnchors_long_name_overflows :
    34 + anchorBytes sampleAPFileLongAnchorName 34 ≤ sampleAPFileLongAnchorName.length ∧
    (CAlignedPositionsReader.ctor sampleEnv 0 (some sampleAPFileLongAnchorName)).bind
      (fun r => r.LoadAnchors []) = .error .undefined := by
  decide

set_option maxRecDepth 100000 in
theorem sampleLongAnchorReader_ctor :
    CAlignedPositionsReader.ctor sampleEnv 0 (some sampleAPFileLongAnchorName)
      = .ok sampleLongAnchorReader := by
  decide

set_option maxRecDepth 100000 in
theorem sampleLongAnchor_facts :
    34 + anchorBytes sampleAPFileLongAnchorName 34 ≤ sampleAPFileLongAnchorName.length ∧
    anchorNameLen sampleAPFileLongAnchorName 34 = 245 ∧
    sampleLongAnchorReader.mBuffer.length = 256 := by
  decide

theorem readAnchor_overflow (r : CAlignedPositionsReader) (f : FILE)
    (hs : r.mInStream = .live f)
    (hfile : f.pos + anchorBytes f.data f.pos ≤ f.data.length)
    (hbuf : r.mBuffer.length < 12 + anchorNameLen f.data f.pos) :
    r.readAnchor = .error .undefined := by
  have hn : anchorNameLen f.data f.pos < 256 := leNat_slice_one_lt _ _
  simp only [anchorBytes] at hfile
  generalize hN : anchorNameLen f.data f.pos = N at hn hfile hbuf
  have hint := freadInt_full 0 1 f (by omega)
  have hN' : leNat (slice f.data f.pos 1) = N := hN
  rw [hN'] at hint
  have hfr := fread_full { f with pos := f.pos + 1 } (12 + N)
    (by show f.pos + 1 + (12 + N) ≤ f.data.length; omega)
  have hbl : (slice f.data (f.pos + 1) (12 + N)).length = 12 + N :=
    length_slice _ _ _ (by omega)
  simp only [CAlignedPositionsReader.readAnchor, CAlignedPositionsReader.stream, hs, bind,
    Except.bind, hint, ALIGNED_READ_ARCHIVE_ANCHOR_BYTES,
    Nat.add_one_sub_one]
  simp (disch := omega) only [u32_of_lt]
  simp only [CAlignedPositionsReader.freadBuffer, CAlignedPositionsReader.stream, bind,
    Except.bind, hfr, hbl, gt_iff_lt, hbuf, if_true]

/-- C31. For an anchor record that lies inside the file, `LoadAnchors`'s read
of the record runs past the scratch buffer exactly when the buffer is shorter
than 12 + name length: one iteration of its loop is undefined in that case
and in no other. With the 256 bytes of a fresh reader this is the case for
every name length from 245 to 255. -/
theorem C31_readAnchor_overflows_iff (r : CAlignedPositionsReader) (f : FILE)
    (hs : r.mInStream = .live f)
    (hfile : f.pos + anchorBytes f.data f.pos ≤ f.data.length) :
    (r.readAnchor = .error .undefined ↔ r.mBuffer.length < 12 + anchorNameLen f.data f.pos) ∧
    (r.mBuffer.length = 256 →
      (r.readAnchor = .error .undefined ↔ 245 ≤ anchorNameLen f.data f.pos)) := by
  have hiff : r.readAnchor = .error .undefined
      ↔ r.mBuffer.length < 12 + anchorNameLen f.data f.pos := by
    constructor
    · intro h
      by_contra hge
      obtain ⟨buf, -, hrun⟩ := readAnchor_ok r f hs hfile (by omega)
      rw [hrun] at h
      cases h
    · exact readAnchor_overflow r f hs hfile
  refine ⟨hiff, fun h256 => ?_⟩
  rw [hiff, h256]
  omega

/-- C31 at the reader that the constructor leaves on
`sampleAPFileLongAnchorName`, whose one anchor has a name of 245 bytes: the
buffer has 256 bytes, the record lies inside the file, and both the loop
iteration and `LoadAnchors` are undefined. -/
theorem C31_readAnchor_overflows_iff_witness :
    CAlignedPositionsReader.ctor sampleEnv 0 (some sampleAPFileLongAnchorName)
      = .ok sampleLongAnchorReader ∧
    sampleLongAnchorReader.mInStream
      = .live { data := sampleAPFileLongAnchorName, pos := 34, eof := false } ∧
    34 + anchorBytes sampleAPFileLongAnchorName 34 ≤ sampleAPFileLongAnchorName.length ∧
    sampleLongAnchorReader.mBuffer.length = 256 ∧
    anchorNameLen sampleAPFileLongAnchorName 34 = 245 ∧
    sampleLongAnchorReader.readAnchor = .error .undefined ∧
    sampleLongAnchorReader.LoadAnchors [] = .error .undefined := by
  obtain ⟨hfile, hname, hlen⟩ := sampleLongAnchor_facts
  have h := (C31_readAnchor_overflows_iff sampleLongAnchorReader
    { data := sampleAPFileLongAnchorName, pos := 34, eof := false } rfl hfile).2 hlen
  have hover := LoadAnchors_long_name_overflows.2
  rw [sampleLongAnchorReader_ctor] at hover
  simp only [Except.bind] at hover
  exact ⟨sampleLongAnchorReader_ctor, rfl, hfile, hlen, hname,
    h.mpr (Nat.le_of_eq hname.symm), hover⟩

theorem readPartition_members (env : Env) (r r1 : CAlignmentReader) (b : Bool)
    (h : readPartition env r = .ok (b, r1)) :
    (b = false → r1.mPartitionMembers = r.mPartitionMembers ∧
      r1.mPartitionSize = r.mPartitionSize) ∧
    (b = true → r1.mPartitionMembers = 0 ∧ r1.mPartitionSize < 65536) := by
  have hbound : ∀ (old : Nat) (f : FILE), (freadInt old SIZEOF_SHORT f).1 < 65536 := by
    intro old f
    exact (freadInt_bound old SIZEOF_SHORT f).2.2
  simp only [readPartition, CAlignmentReader.stream, bind, Except.bind, pure, Except.pure] at h
  split at h
  · cases h
  · split_ifs at h
    all_goals first
      | (cases h; done)
      | (cases h; exact ⟨fun _ => ⟨rfl, rfl⟩, fun hc => by cases hc⟩)
      | (cases h; exact ⟨(fun hc => by cases hc), fun _ => ⟨rfl, hbound _ _⟩⟩)

theorem LoadNextRead_members (env : Env) (r r' : CAlignmentReader) (ar ar' : AlignedRead)
    (b : Bool) (h : LoadNextRead env r ar = .ok (b, r', ar'))
    (hsize : r.mPartitionSize < 65536)
    (hinv : r.mPartitionSize ≠ 0 → r.mPartitionMembers ≤ r.mPartitionSize) :
    r'.mPartitionSize < 65536 ∧
    (r'.mPartitionSize ≠ 0 → r'.mPartitionMembers ≤ r'.mPartitionSize) := by
  have hpump : ∀ (b1 : Bool) (r1 : CAlignmentReader), pump env r = .ok (b1, r1) →
      (b1 = false → r1.mPartitionMembers = r.mPartitionMembers ∧
        r1.mPartitionSize = r.mPartitionSize) ∧
      (b1 = true → r1.mPartitionSize < 65536 ∧
        (r1.mPartitionSize ≠ 0 → r1.mPartitionMembers < r1.mPartitionSize)) := by
    intro b1 r1 hp
    simp only [pump] at hp
    split at hp
    · obtain ⟨hf, ht⟩ := readPartition_members env r r1 b1 hp
      refine ⟨hf, fun hb => ⟨(ht hb).2, fun hne => ?_⟩⟩
      rw [(ht hb).1]
      omega
    · rename_i hne
      cases hp
      exact ⟨(fun hc => by cases hc), fun _ => ⟨hsize, fun h0 => by have := hinv h0; omega⟩⟩
  simp only [LoadNextRead] at h
  split at h
  · cases h
  · split at h
    · cases h
      exact ⟨hsize, hinv⟩
    · split at h
      · cases h
      · rename_i r1 hp
        cases h
        obtain ⟨h1, h2⟩ := (hpump false r' hp).1 rfl
        rw [h1, h2]
        exact ⟨hsize, hinv⟩
      · rename_i r1 hp
        obtain ⟨h1, h2⟩ := (hpump true r1 hp).2 rfl
        split at h
        · cases h
        · cases h
          refine ⟨h1, fun hne => ?_⟩
          show (r1.mPartitionMembers + 1) % 65536 ≤ r1.mPartitionSize
          have := h2 hne
          have := Nat.mod_le (r1.mPartitionMembers + 1) 65536
          omega

theorem Jump_members (env : Env) (r r' : CAlignmentReader)
    (referenceIndex referencePosition : Nat)
    (h : Jump env r referenceIndex referencePosition = .ok r') :
    r'.mPartitionMembers = 0 ∧ r'.mPartitionSize = 0 := by
  simp only [Jump] at h
  repeat' first
    | (cases h; done)
    | split at h
  cases h
  exact ⟨rfl, rfl⟩

theorem Rewind_members (r r' : CAlignmentReader) (h : Rewind r = .ok r') :
    r'.mPartitionMembers = 0 ∧ r'.mPartitionSize = 0 := by
  simp only [Rewind, bind, Except.bind, pure, Except.pure] at h
  split at h
  · cases h
  · cases h
    exact ⟨rfl, rfl⟩

theorem Open_members (env : Env) (rc r0 : CAlignmentReader) (filename : String)
    (file : Option (List Byte)) (h : Open env rc filename file = .ok r0) :
    r0.mPartitionMembers = 0 ∧ r0.mPartitionSize = 0 := by
  unfold Open at h
  split at h
  · cases h
  · split at h
    · cases h
    · exact Rewind_members _ _ h

theorem Reachable_members (env : Env) (r0 r : CAlignmentReader)
    (hp : r0.mPartitionSize = 0)
    (hreach : Reachable env r0 r) :
    r.mPartitionSize < 65536 ∧
    (r.mPartitionSize ≠ 0 → r.mPartitionMembers ≤ r.mPartitionSize) := by
  induction hreach with
  | start => exact ⟨by omega, fun h => absurd hp h⟩
  | load _ hstep ih => exact LoadNextRead_members env _ _ _ _ _ hstep ih.1 ih.2
  | jump _ hstep _ =>
    obtain ⟨h1, h2⟩ := Jump_members env _ _ _ _ hstep
    exact ⟨by omega, fun h => absurd h2 h⟩
  | rewind _ hstep _ =>
    obtain ⟨h1, h2⟩ := Rewind_members _ _ hstep
    exact ⟨by omega, fun h => absurd h2 h⟩

set_option maxRecDepth 100000 in
theorem sampleEmptyPartition_run :
    72 ≤ sampleFileEmptyPartition.length ∧
    (LoadNextRead sampleEnv (openedReader freshReader "empty.aa" sampleFileEmptyPartition)
        AlignedRead.ctor).map
        (fun x => (x.1, x.2.1.mPartitionMembers, x.2.1.mPartitionSize, x.2.2.Name))
      = .ok (true, 1, 0, [114, 49]) := by
  decide

/-- C32 (counterexample). The archive `sampleFileEmptyPartition` holds one
partition that declares 0 members and carries one read record. `Open` on the
fresh reader succeeds, the first `LoadNextRead` returns true with the read
"r1", and the state it leaves has 1 member consumed of a partition size
0. -/
theorem C32_empty_partition_breaks_invariant :
    ∃ r0 r1 : CAlignmentReader,
      Open sampleEnv freshReader "empty.aa" (some sampleFileEmptyPartition) = .ok r0 ∧
      Reachable sampleEnv r0 r1 ∧
      r1.mPartitionMembers = 1 ∧ r1.mPartitionSize = 0 ∧
      ¬ r1.mPartitionMembers ≤ r1.mPartitionSize := by
  obtain ⟨hlen, hrun⟩ := sampleEmptyPartition_run
  have hopen := Open_eq sampleEnv freshReader "empty.aa" sampleFileEmptyPartition rfl hlen
  cases hstep : LoadNextRead sampleEnv
      (openedReader freshReader "empty.aa" sampleFileEmptyPartition) AlignedRead.ctor with
  | error e =>
    rw [hstep] at hrun
    cases hrun
  | ok x =>
    obtain ⟨b, r1, ar1⟩ := x
    rw [hstep] at hrun
    simp only [Except.map, Except.ok.injEq, Prod.mk.injEq] at hrun
    obtain ⟨-, hm, hp, -⟩ := hrun
    refine ⟨_, r1, hopen, Reachable.load Reachable.start hstep, hm, hp, ?_⟩
    rw [hm, hp]
    decide

/-- C32 (amended). In every reader state that follows a successful `Open`
through successful `LoadNextRead`, `Jump` and `Rewind` calls, on any archive,
the partition size is below 65536 and, unless it is 0, the members consumed
are at most the partition size. -/
theorem C32_pump_invariant (env : Env) (rc r0 r : CAlignmentReader) (filename : String)
    (file : Option (List Byte))
    (hopen : Open env rc filename file = .ok r0)
    (hreach : Reachable env r0 r) :
    r.mPartitionSize < 65536 ∧
    (r.mPartitionSize ≠ 0 → r.mPartitionMembers ≤ r.mPartitionSize) := by
  exact Reachable_members env r0 r (Open_members env rc r0 filename file hopen).2 hreach

/-- C32 (amended) at `sampleFile`: the state after the first `LoadNextRead`
on the opened reader has a non-zero partition size and at most that many
members consumed. -/
theorem C32_pump_invariant_witness :
    Open sampleEnv freshReader "sample.aa" (some sampleFile) = .ok sampleOpened ∧
    ∃ r : CAlignmentReader, Reachable sampleEnv sampleOpened r ∧
      r.mPartitionSize < 65536 ∧
      (r.mPartitionSize ≠ 0 → r.mPartitionMembers ≤ r.mPartitionSize) := by
  have hopen : Open sampleEnv freshReader "sample.aa" (some sampleFile) = .ok sampleOpened :=
    Open_eq sampleEnv freshReader "sample.aa" sampleFile rfl sampleFile_length
  obtain ⟨r1, ar1, hstep⟩ := sampleOpened_first_read
  have hreach : Reachable sampleEnv sampleOpened r1 := Reachable.load Reachable.start hstep
  exact ⟨hopen, r1, hreach,
    C32_pump_invariant sampleEnv freshReader sampleOpened r1 "sample.aa" (some sampleFile)
      hopen hreach⟩

theorem ReadAlignment_keeps_mate (buf : List Byte) (lut : List (List Byte)) (ptr : Nat)
    (al : Alignment) (isLongRead : Bool) (al' : Alignment) (ptr' : Nat)
    (h : ReadAlignment buf lut ptr al isLongRead false = .ok (al', ptr')) :
    al'.MateReferenceBegin = al.MateReferenceBegin ∧
    al'.MateReferenceEnd = al.MateReferenceEnd ∧
    al'.MateReferenceIndex = al.MateReferenceIndex := by
  unfold ReadAlignment at h
  simp only [bind, Except.bind, pure, Except.pure, Bool.false_eq_true, if_false] at h
  repeat' first
    | (cases h; done)
    | split at h
  all_goals
    cases h
    exact ⟨rfl, rfl, rfl⟩

set_option maxRecDepth 100000 in
/-- C33. The read at the cursor of `sampleReader` carries no mate information
and has one mate-1 alignment. `LoadNextRead` into a fresh record returns it
with the mate reference index 4294967295 of the `Alignment` constructor (and
the indeterminate begin and end of that constructor, 0 in `sampleEnv`);
`LoadNextRead` into `sampleStaleRead`, which still holds an alignment with
mate reference 100..200 on reference 3, returns it with those three values.
The two calls leave the same cursor and read counter and agree on the name,
the read group code and the long-read flag. -/
theorem C33_stale_mate_fields_survive :
    (encStatus sampleReader.mBuffer sampleReader.mBufferPtr).testBit 2 = false ∧
    (LoadNextRead sampleEnv sampleReader AlignedRead.ctor).map
        (fun x => (x.1, x.2.2.Name, mateFields x.2.2))
      = .ok (true, [114, 49], [(0, 0, 4294967295)]) ∧
    (LoadNextRead sampleEnv sampleReader sampleStaleRead).map
        (fun x => (x.1, x.2.2.Name, mateFields x.2.2))
      = .ok (true, [114, 49], [(100, 200, 3)]) ∧
    (LoadNextRead sampleEnv sampleReader AlignedRead.ctor).map
        (fun x => (x.2.1.mBufferPtr, x.2.1.mCurrentRead, x.2.2.ReadGroupCode, x.2.2.IsLongRead))
      = .ok (36, 1, 7, false) ∧
    (LoadNextRead sampleEnv sampleReader sampleStaleRead).map
        (fun x => (x.2.1.mBufferPtr, x.2.1.mCurrentRead, x.2.2.ReadGroupCode, x.2.2.IsLongRead))
      = .ok (36, 1, 7, false) := by
  refine ⟨?_, ?_, ?_, ?_, ?_⟩ <;> decide

end Mosaik
